import Mathlib

/-!
# SDL2-Tetris: board and piece logic

A shallow embedding of the piece-and-board logic of `Game.cpp` and
`Tetromino.cpp`, followed by theorems about it.

Conventions of the embedding.

* `std::vector<Cell>` is a `List Cell`; `board_[k]` is `cellAt board k` and a
  field store into `board_[k]` is `List.modify`.
* A `Cell*` is the integer offset of the pointee from the first cell of the
  vector it points into (`&board_[0]` for the falling piece).  Reading
  `p->occupied_` is `occupiedAt`: inside the vector it reads the board,
  outside it reads memory the program does not own, whose content is an
  arbitrary function `outside`.
* `int` values are integers (`cells_width_` and `cells_height_`, which are
  quotients of positive screen constants, are naturals); `std::size_t`
  conversions of signed values are taken modulo `2 ^ 64` (`toSizeT`).
* Arithmetic on `int` counters (`score_`, `lines_`) is exact: signed overflow
  is undefined in C++ and lies outside the embedding.
* `Constants.hpp` is not among the sources, so the board dimensions are not
  fixed numbers: they are the fields `cells_width_` and `cells_height_`.
* A loop whose number of passes is not fixed by its header takes a bound on
  the passes and returns `none` when the bound is used up; a failed `assert`
  also gives `none`.
* `std::shuffle` draws from a random device; its outcomes are an argument.
* Rendering, fonts, textures and event polling are not part of the embedding;
  `Cell::rect_` is rendering geometry and is omitted.
* A null pointer is `none`; dereferencing it, like reading the front of an
  empty queue or dividing by zero, gives `none`.
* `Game::Tick` is also given with the list of the calls it made to the falling
  piece (`tickWithCalls`); the list is an observation, not program state.
-/

namespace Tetris

/-! ## Data model -/

/-- The four channels of an `SDL_Color`. -/
structure SDL_Color where
  r : Nat
  g : Nat
  b : Nat
  a : Nat
  deriving DecidableEq, Repr

/-- The colour `{ 0x00, 0x00, 0x00, 0xff }` written by every clearing store. -/
def black : SDL_Color := { r := 0, g := 0, b := 0, a := 255 }

/-- The class `Cell` of `Cell.hpp`, without its rendering rectangle. -/
structure Cell where
  occupied_ : Bool
  color_ : SDL_Color
  deriving DecidableEq, Repr

/-- The constructor `Cell::Cell`: unoccupied and black. -/
instance : Inhabited Cell := ⟨{ occupied_ := false, color_ := black }⟩

/-- The enumeration `TetrominoType` of `Tetromino.hpp`. -/
inductive TetrominoType where
  | I_BLOCK
  | J_BLOCK
  | L_BLOCK
  | O_BLOCK
  | S_BLOCK
  | T_BLOCK
  | Z_BLOCK
  deriving DecidableEq, Repr

/-- The data members of the class `Tetromino`: `blocks_` and `bounding_box_`
hold `Cell*` values as offsets into the cell vector the piece was initialized
against: `board_` for the falling piece, `stash_board_` for the stashed piece
and `queue_board_` for the preview pieces. -/
structure Tetromino where
  type_ : TetrominoType
  rotation_degrees_ : Int
  rotation_indices_ : List Nat
  blocks_ : List Int
  bounding_box_ : List Int
  render_color_ : SDL_Color
  deriving DecidableEq, Repr

/-- The data members of the class `Game` that the piece and board logic uses. -/
structure Game where
  ticks_ : Int
  moving_ticks_ : Int
  score_ : Int
  lines_ : Int
  descend_speed_ : Int
  game_over_ : Bool
  moving_left_ : Bool
  moving_right_ : Bool
  moving_down_ : Bool
  unstash_possible_ : Bool
  stashed_tetromino_ : Option Tetromino
  falling_tetromino_ : Tetromino
  queued_tetrominoes_ : List Tetromino
  tetromino_queue_ : List TetrominoType
  stash_board_ : List Cell
  queue_board_ : List Cell
  cells_width_ : Nat
  cells_height_ : Nat
  board_ : List Cell
  deriving DecidableEq, Repr

/-- The element `board[k]` of a cell vector. -/
def cellAt (board : List Cell) (k : Nat) : Cell :=
  board.getD k default

/-- The conversion of a signed value to `std::size_t`. -/
def toSizeT (x : Int) : Int :=
  x % 2 ^ 64

/-- The value of `p->occupied_` for the `Cell*` at offset `p` from
`&board_[0]`. -/
def occupiedAt (board : List Cell) (outside : Int → Bool) (p : Int) : Bool :=
  if 0 ≤ p ∧ p < board.length then (cellAt board p.toNat).occupied_ else outside p

/-- A store through the `Cell*` at offset `p`: `f` is applied to the pointee.
A store outside the vector leaves the vector as it is. -/
def storeAt (board : List Cell) (p : Int) (f : Cell → Cell) : List Cell :=
  if 0 ≤ p then board.modify f p.toNat else board

/-! ## `Game::ClearFilledLines` -/

/-- The first inner loop of `ClearFilledLines`: `filled_line` for row `i`. -/
def lineFilled (w : Nat) (board : List Cell) (i : Nat) : Bool :=
  (List.range w).all fun j => (cellAt board (i * w + j)).occupied_

/-- The second inner loop of `ClearFilledLines`: every cell of row `i` gets
the colour black and `occupied_ = false`. -/
def clearLine (w : Nat) (board : List Cell) (i : Nat) : List Cell :=
  (List.range w).foldl
    (fun b j => b.modify (fun c => { c with color_ := black, occupied_ := false }) (i * w + j))
    board

/-- The body of the outer loop of `ClearFilledLines` for row `i`. -/
def clearStep (g : Game) (i : Nat) : Game :=
  if lineFilled g.cells_width_ g.board_ i then
    let g1 : Game :=
      { g with
        board_ := clearLine g.cells_width_ g.board_ i
        score_ := g.score_ + 100
        lines_ := g.lines_ + 1 }
    if g1.lines_.tmod 10 = 0 ∧ g1.descend_speed_ > 10 then
      { g1 with descend_speed_ := g1.descend_speed_ - 10 }
    else g1
  else g

/-- The function `Game::ClearFilledLines`. -/
def ClearFilledLines (g : Game) : Game :=
  (List.range g.cells_height_).foldl clearStep g

/-! ## `Game::DescendUnfilledLines` -/

/-- The first inner loop of `DescendUnfilledLines`: `descend_line` for row `i`. -/
def lineHasBlock (w : Nat) (board : List Cell) (i : Nat) : Bool :=
  (List.range w).any fun j => (cellAt board (i * w + j)).occupied_

/-- One pass of the `k` loop of `DescendUnfilledLines` on the pair
`(fall_height, row_below_free)`. -/
def fallStep (w : Nat) (board : List Cell) (i : Nat) (s : Nat × Bool) : Nat × Bool :=
  let row_below_free : Bool :=
    if lineHasBlock w board (i + (s.1 + 1)) then false else s.2
  if row_below_free then (s.1 + 1, row_below_free) else (s.1, row_below_free)

/-- The `k` loop of `DescendUnfilledLines`: the final `fall_height` of row `i`. -/
def fallHeight (w h : Nat) (board : List Cell) (i : Nat) : Nat :=
  ((List.range (h - 1 - i)).foldl (fun s _ => fallStep w board i s) (0, true)).1

/-- The last loop of `DescendUnfilledLines`: row `i` is copied `fall_height`
rows down, colour and occupancy, and cleared. -/
def moveLine (w : Nat) (board : List Cell) (i fall_height : Nat) : List Cell :=
  (List.range w).foldl
    (fun b j =>
      let b1 := b.modify
        (fun c => { c with color_ := (cellAt b (i * w + j)).color_ })
        ((i + fall_height) * w + j)
      let b2 := b1.modify
        (fun c => { c with occupied_ := (cellAt b1 (i * w + j)).occupied_ })
        ((i + fall_height) * w + j)
      b2.modify (fun c => { c with color_ := black, occupied_ := false }) (i * w + j))
    board

/-- The body of the outer loop of `DescendUnfilledLines` for row `i`. -/
def descendStep (w h : Nat) (board : List Cell) (i : Nat) : List Cell :=
  if lineHasBlock w board i then
    let fall_height := fallHeight w h board i
    if fall_height = 0 then board else moveLine w board i fall_height
  else board

/-- The function `Game::DescendUnfilledLines`: rows `cells_height_ - 2` down
to `0`. -/
def DescendUnfilledLines (g : Game) : Game :=
  { g with
    board_ := (List.range (g.cells_height_ - 1)).reverse.foldl
      (descendStep g.cells_width_ g.cells_height_) g.board_ }

/-! ## `Tetromino`: shape and rotation table -/

/-- The function `Tetromino::GetBBoxDimension`, as a function of the kind. -/
def GetBBoxDimension (type : TetrominoType) : Nat :=
  if type = TetrominoType.I_BLOCK ∨ type = TetrominoType.O_BLOCK then 4 else 3

/-- The call `std::swap(matrix[a], matrix[b])`. -/
def swapAt (matrix : List Nat) (a b : Nat) : List Nat :=
  (matrix.set a (matrix.getD b 0)).set b (matrix.getD a 0)

/-- The body of the `j` loop of `RotateMatrix`: the three swaps that cycle the
four images of the entry in row `j`, column `i`. -/
def rotateCell (matrix_dimension : Nat) (matrix : List Nat) (i j : Nat) : List Nat :=
  let matrix_dimension_index := matrix_dimension - 1
  let source_index := j * matrix_dimension + i
  let m1 := swapAt matrix source_index (i * matrix_dimension + (matrix_dimension_index - j))
  let m2 := swapAt m1 source_index
    ((matrix_dimension_index - j) * matrix_dimension + matrix_dimension_index - i)
  swapAt m2 source_index ((matrix_dimension_index - i) * matrix_dimension + j)

/-- The `i` loop of `RotateMatrix` with its two counters `i` and `low`; the
first argument bounds the number of passes, and a pass that is still due when
the bound is used up gives `none`. -/
def rotateLayers (matrix_dimension : Nat) : Nat → Nat → Nat → List Nat → Option (List Nat)
  | 0, i, low, matrix => if i < matrix_dimension - 1 - low then none else some matrix
  | fuel + 1, i, low, matrix =>
    if i < matrix_dimension - 1 - low then
      rotateLayers matrix_dimension fuel (i + 1) (low + 1)
        ((List.range' low (matrix_dimension - 1 - low - low)).foldl
          (fun m j => rotateCell matrix_dimension m i j) matrix)
    else some matrix

/-- The function `Tetromino::RotateMatrix` (for `matrix_dimension ≥ 1`). -/
def RotateMatrix (matrix : List Nat) (matrix_dimension : Nat) : Option (List Nat) :=
  rotateLayers matrix_dimension matrix_dimension 0 0 matrix

/-- The function `Tetromino::GetRotatedIndices`; a failed assertion gives
`none`. -/
def GetRotatedIndices (indices : List Nat) (degrees : Int) (matrix_dimension : Nat) :
    Option (List Nat) :=
  if degrees.tmod 90 ≠ 0 then none
  else
    let matrix := indices.foldl (fun m index => m.set index 1)
      (List.replicate (matrix_dimension * matrix_dimension) 0)
    match (List.range (degrees.tdiv 90).toNat).foldlM
        (fun m _ => RotateMatrix m matrix_dimension) matrix with
    | none => none
    | some rotated =>
      some ((List.range rotated.length).filter fun i => rotated.getD i 0 == 1)

/-- The four indices assigned to `rotation_indices_` at the start of
`Initialize`. -/
def spawnIndices : TetrominoType → List Nat
  | TetrominoType.I_BLOCK => [4, 5, 6, 7]
  | TetrominoType.J_BLOCK => [0, 3, 4, 5]
  | TetrominoType.L_BLOCK => [2, 3, 4, 5]
  | TetrominoType.O_BLOCK => [1, 2, 5, 6]
  | TetrominoType.S_BLOCK => [1, 2, 3, 4]
  | TetrominoType.T_BLOCK => [1, 3, 4, 5]
  | TetrominoType.Z_BLOCK => [0, 1, 4, 5]

/-- The colour assigned to `render_color_` in `Initialize`. -/
def spawnColor : TetrominoType → SDL_Color
  | TetrominoType.I_BLOCK => { r := 0x00, g := 0xff, b := 0xff, a := 0xff }
  | TetrominoType.J_BLOCK => { r := 0x00, g := 0x00, b := 0xff, a := 0xff }
  | TetrominoType.L_BLOCK => { r := 0xff, g := 0xaa, b := 0x00, a := 0xff }
  | TetrominoType.O_BLOCK => { r := 0xff, g := 0xff, b := 0x00, a := 0xff }
  | TetrominoType.S_BLOCK => { r := 0x00, g := 0xff, b := 0x00, a := 0xff }
  | TetrominoType.T_BLOCK => { r := 0x99, g := 0x00, b := 0xff, a := 0xff }
  | TetrominoType.Z_BLOCK => { r := 0xff, g := 0x00, b := 0x00, a := 0xff }

/-- The box size required by the assertion of `Initialize` for each kind. -/
def assertedBoxSize (type : TetrominoType) : Nat :=
  if type = TetrominoType.I_BLOCK ∨ type = TetrominoType.O_BLOCK then 16 else 9

/-- The value `static_cast<std::size_t>(std::sqrt(n))`: the largest `k` with
`k * k ≤ n` (the square root is exact on the box sizes 9 and 16). -/
def sqrtFloor (n : Nat) : Nat :=
  (List.range (n + 1)).foldl (fun r k => if k * k ≤ n then k else r) 0

/-- The function `Tetromino::Initialize`.  `cells` is the vector the box
points into and `board_cells` the box, as offsets into `cells`; the result is
the vector after the colour stores and the piece.  A failed assertion gives
`none`. -/
def Initialize (cells : List Cell) (board_cells : List Int) (type : TetrominoType) :
    Option (List Cell × Tetromino) :=
  if board_cells.length ≠ assertedBoxSize type then none
  else
    let rotation_indices_ := spawnIndices type
    let render_color_ := spawnColor type
    let matrix_dimension := sqrtFloor board_cells.length
    let blocks_ : List Int := (List.range 4).map fun i =>
      if type = TetrominoType.I_BLOCK then
        board_cells.getD ((rotation_indices_.getD i 0 + 2 ^ 64 - matrix_dimension) % 2 ^ 64) 0
      else
        board_cells.getD (rotation_indices_.getD i 0) 0
    let cells1 := blocks_.foldl
      (fun b p => storeAt b p fun c => { c with color_ := render_color_ }) cells
    match GetRotatedIndices rotation_indices_ 90 matrix_dimension,
        GetRotatedIndices rotation_indices_ 180 matrix_dimension,
        GetRotatedIndices rotation_indices_ 270 matrix_dimension with
    | some r1, some r2, some r3 =>
      some (cells1,
        { type_ := type
          rotation_degrees_ := 0
          rotation_indices_ := rotation_indices_ ++ r1 ++ r2 ++ r3
          blocks_ := blocks_
          bounding_box_ := board_cells
          render_color_ := render_color_ })
    | _, _, _ => none

/-! ## `Tetromino`: movement -/

/-- The function `Tetromino::BlocksAtSettlePosition`. -/
def BlocksAtSettlePosition (g : Game) (outside : Int → Bool) (blocks : List Int) : Bool :=
  blocks.any fun p =>
    let block_board_index := toSizeT p
    decide (block_board_index ≥
        toSizeT ((g.cells_width_ : Int) * g.cells_height_ - g.cells_width_)) ||
      occupiedAt g.board_ outside (p + g.cells_width_)

/-- The `while` loop of `Tetromino::SettleTetromino` on the blocks and the
score accumulator; the first argument bounds the number of passes, and a pass
that is still due when the bound is used up gives `none`. -/
def dropLoop (g : Game) (outside : Int → Bool) :
    Nat → List Int → Option Int → Option (List Int × Option Int)
  | 0, blocks, score_ =>
    if BlocksAtSettlePosition g outside blocks then some (blocks, score_) else none
  | fuel + 1, blocks, score_ =>
    if BlocksAtSettlePosition g outside blocks then some (blocks, score_)
    else dropLoop g outside fuel (blocks.map fun (p : Int) => p + g.cells_width_)
      (score_.map fun s => s + 1)

/-- The function `Tetromino::SettleTetromino`; `score_` is `none` for a null
pointer.  The result is the session, the piece and the accumulator after the
call. -/
def Tetromino.SettleTetromino (g : Game) (outside : Int → Bool) (fuel : Nat) (t : Tetromino)
    (score_ : Option Int) : Option (Game × Tetromino × Option Int) :=
  match dropLoop g outside fuel t.blocks_ score_ with
  | none => none
  | some (blocks, score1) =>
    some ({ g with
            board_ := blocks.foldl
              (fun b p => storeAt b p fun c =>
                { c with occupied_ := true, color_ := t.render_color_ })
              g.board_ },
          { t with blocks_ := blocks },
          score1)

/-- The function `Tetromino::DescendTetromino`; the result is the returned
flag and the session, the piece and the accumulator after the call. -/
def DescendTetromino (g : Game) (outside : Int → Bool) (fuel : Nat) (t : Tetromino)
    (score_ : Option Int) : Option (Bool × Game × Tetromino × Option Int) :=
  if BlocksAtSettlePosition g outside t.blocks_ then
    match Tetromino.SettleTetromino g outside fuel t none with
    | none => none
    | some (g1, t1, _) => some (false, g1, t1, score_)
  else
    let score1 := score_.map fun s => s + 1
    let blocks := t.blocks_.map fun (p : Int) => p + g.cells_width_
    if t.bounding_box_.getLastD 0 ≥
        (g.cells_width_ : Int) * g.cells_height_ - g.cells_width_ then
      some (true, g, { t with blocks_ := blocks }, score1)
    else
      some (true, g,
        { t with
          blocks_ := blocks
          bounding_box_ := t.bounding_box_.map fun (p : Int) => p + g.cells_width_ },
        score1)

/-- The test of the first loop of `MoveTetromino` for one block. -/
def moveRejects (g : Game) (outside : Int → Bool) (right : Bool) (p : Int) : Bool :=
  let block_board_index := toSizeT p
  if right then
    occupiedAt g.board_ outside (p + 1) ||
      decide (toSizeT (block_board_index + 1) % toSizeT g.cells_width_ = 0)
  else
    occupiedAt g.board_ outside (p - 1) ||
      decide (block_board_index % toSizeT g.cells_width_ = 0)

/-- The function `Tetromino::MoveTetromino`; the result is the session and the
piece after the call. -/
def MoveTetromino (g : Game) (outside : Int → Bool) (t : Tetromino) (right : Bool) :
    Game × Tetromino :=
  if t.blocks_.any (moveRejects g outside right) then (g, t)
  else
    let board1 := t.blocks_.foldl
      (fun b p => storeAt b p fun c => { c with color_ := black }) g.board_
    let blocks := t.blocks_.map fun p => if right then p + 1 else p - 1
    let board2 := blocks.foldl
      (fun b p => storeAt b p fun c => { c with color_ := t.render_color_ }) board1
    let g2 : Game := { g with board_ := board2 }
    if right ∧ (t.bounding_box_.getLastD 0 + 1).tmod g.cells_width_ = 0 then
      (g2, { t with blocks_ := blocks })
    else if ¬ right ∧ (t.bounding_box_.getD 0 0).tmod g.cells_width_ = 0 then
      (g2, { t with blocks_ := blocks })
    else
      (g2,
        { t with
          blocks_ := blocks
          bounding_box_ := t.bounding_box_.map fun p => if right then p + 1 else p - 1 })

/-! ## `Tetromino`: rotation -/

/-- The inner `for` loop of the search of `RotateTetromino`: four table
entries are tested from `start_index`; the result is `found_space` and the
advanced `start_index`. -/
def scanSlot (g : Game) (outside : Int → Bool) (t : Tetromino) (start_index : Nat) :
    Bool × Nat :=
  (List.range 4).foldl
    (fun s _ =>
      let found_space :=
        if occupiedAt g.board_ outside
            (t.bounding_box_.getD (t.rotation_indices_.getD s.2 0) 0) then false else s.1
      (found_space, (s.2 + 1) % 16))
    (true, start_index)

/-- The `do ... while` loop of `RotateTetromino` on `start_index` and
`rotation_attempts`; the first argument bounds the number of passes, and a
pass that is still due when the bound is used up gives `none`. -/
def searchLoop (g : Game) (outside : Int → Bool) (t : Tetromino) :
    Nat → Nat → Int → Option (Bool × Nat)
  | 0, _, _ => none
  | fuel + 1, start_index, rotation_attempts =>
    let rotation_attempts := rotation_attempts + 1
    let s := scanSlot g outside t start_index
    if ¬ s.1 ∧ rotation_attempts = 4 then some s
    else if ¬ s.1 then searchLoop g outside t fuel s.2 rotation_attempts
    else some s

/-- The function `Tetromino::RotateTetromino`; the result is the session and
the piece after the call.  Its search loop makes at most four passes. -/
def RotateTetromino (g : Game) (outside : Int → Bool) (t : Tetromino) (degrees : Int) :
    Option (Game × Tetromino) :=
  if t.type_ = TetrominoType.O_BLOCK then some (g, t)
  else
    let start_index :=
      (toSizeT (((t.rotation_degrees_.tdiv 90) * 4 + (degrees.tdiv 90) * 4).tmod 16)).toNat
    let t1 := { t with rotation_degrees_ := (t.rotation_degrees_ + degrees).tmod 360 }
    match searchLoop g outside t1 4 start_index 0 with
    | none => none
    | some (found_space, start_index) =>
      if ¬ found_space then some (g, t1)
      else
        let start_index := (start_index + 12) % 16
        some (g,
          { t1 with
            blocks_ := (List.range 4).foldl
              (fun b i =>
                b.set i (t1.bounding_box_.getD (t1.rotation_indices_.getD (start_index + i) 0) 0))
              t1.blocks_ })

/-! ## `Game`: queue and spawn -/

/-- The cast `static_cast<TetrominoType>(index)`. -/
def typeOfIndex : Nat → TetrominoType
  | 0 => TetrominoType.I_BLOCK
  | 1 => TetrominoType.J_BLOCK
  | 2 => TetrominoType.L_BLOCK
  | 3 => TetrominoType.O_BLOCK
  | 4 => TetrominoType.S_BLOCK
  | 5 => TetrominoType.T_BLOCK
  | _ => TetrominoType.Z_BLOCK

/-- The function `Game::GenerateTetrominoes` on the queue.  `shuffled i` is
the content of `types_indices` after the `i`-th call of `std::shuffle`. -/
def GenerateTetrominoes (shuffled : Nat → List Nat) (queue : List TetrominoType) :
    List TetrominoType :=
  (List.range 100).foldl (fun q i => q ++ (shuffled i).map typeOfIndex) queue

/-- The loop of `SpawnTetromino` that collects the box: the offsets of
`&board_[cell_index]`, with `cell_index` a `std::size_t`. -/
def spawnBox (cells_width_ : Nat) (bbox_side_size : Nat) : List Int :=
  ((List.range (bbox_side_size * bbox_side_size)).foldl
    (fun (s : List Int × Nat) i =>
      (s.1 ++ [(s.2 : Int)],
        if (i + 1) % bbox_side_size = 0 then
          (s.2 + (cells_width_ + 2 ^ 64 - (bbox_side_size - 1))) % 2 ^ 64
        else (s.2 + 1) % 2 ^ 64))
    ([], (cells_width_ / 2 + 2 * 2 ^ 64 - bbox_side_size / 2 - 1) % 2 ^ 64)).1

/-- The function `Game::SpawnTetromino`.  `falling_tetromino_` is never null,
and `pop_front` is `List.tail`. -/
def SpawnTetromino (outside : Int → Bool) (shuffled : Nat → List Nat) (g : Game)
    (type : TetrominoType) (unstashing : Bool) : Option Game :=
  let bbox_side_size :=
    if type = TetrominoType.I_BLOCK ∨ type = TetrominoType.O_BLOCK then 4 else 3
  let bbox := spawnBox g.cells_width_ bbox_side_size
  match Initialize g.board_ bbox type with
  | none => none
  | some (board1, piece) =>
    let queue1 :=
      if ¬ unstashing then
        let q := g.tetromino_queue_.tail
        if q.length < 10 then GenerateTetrominoes shuffled q else q
      else g.tetromino_queue_
    let game_over1 := (List.range bbox_side_size).foldl
      (fun over i => if occupiedAt board1 outside (bbox.getD i 0) then true else over)
      g.game_over_
    some { g with
      board_ := board1
      falling_tetromino_ := piece
      tetromino_queue_ := queue1
      game_over_ := game_over1 }

/-! ## `Game`: preview, hold, settle-sequence, reset and tick -/

/-- A piece object as the constructor `Tetromino::Tetromino` leaves it. -/
def noPiece : Tetromino :=
  { type_ := TetrominoType.I_BLOCK
    rotation_degrees_ := 0
    rotation_indices_ := []
    blocks_ := []
    bounding_box_ := []
    render_color_ := black }

/-- The function `Game::InitBoard` on the cells: the vector is cleared and
resized to `size` freshly constructed cells (the rectangles it then lays out
are rendering geometry). -/
def InitBoard (size : Nat) : List Cell :=
  List.replicate size default

/-- The function `Game::InitQueue`. -/
def InitQueue (g : Game) : Game :=
  { g with
    queue_board_ := InitBoard 48
    queued_tetrominoes_ := [noPiece, noPiece, noPiece] }

/-- The inner loop of `Game::UpdateQueue` for preview slot `ti`: the offsets
of `&queue_board_[index]` collected for a box of the given dimension. -/
def previewBox (ti dimension : Nat) : List Int :=
  ((List.range (dimension * dimension)).foldl
    (fun (s : List Int × Nat) _ =>
      let index := s.2 + 1
      (s.1 ++ [(s.2 : Int)],
        if dimension = 3 ∧
            (index - ti * 16 = 3 ∨ index - ti * 16 = 7 ∨ index - ti * 16 = 11) then
          index + 1
        else index))
    ([], ti * 16)).1

/-- The body of the outer loop of `Game::UpdateQueue` for preview slot `ti`;
an element of the queue or of `queued_tetrominoes_` that does not exist gives
`none`. -/
def updateQueueStep (g : Game) (ti : Nat) : Option Game :=
  match g.tetromino_queue_[ti]?, g.queued_tetrominoes_[ti]? with
  | some type, some _ =>
    let dimension :=
      if type = TetrominoType.I_BLOCK ∨ type = TetrominoType.O_BLOCK then 4 else 3
    match Initialize g.queue_board_ (previewBox ti dimension) type with
    | none => none
    | some (cells, piece) =>
      some { g with
        queue_board_ := cells
        queued_tetrominoes_ := g.queued_tetrominoes_.set ti piece }
  | _, _ => none

/-- The function `Game::UpdateQueue`; the failed assertion on an empty queue
gives `none`. -/
def UpdateQueue (g : Game) : Option Game :=
  if g.tetromino_queue_ = [] then none
  else (List.range 3).foldlM updateQueueStep g

/-- The function `Game::TriggerStashTetromino`; reading the kind of an absent
stashed piece or the front of an empty queue gives `none`. -/
def TriggerStashTetromino (outside : Int → Bool) (shuffled : Nat → List Nat) (g : Game) :
    Option Game :=
  if g.stashed_tetromino_ = none ∨ g.unstash_possible_ = true then
    let g1 : Game :=
      { g with stash_board_ := InitBoard g.falling_tetromino_.bounding_box_.length }
    let bbox : List Int := (List.range g1.stash_board_.length).map fun (i : Nat) => (i : Int)
    let afterUnstash : Option Game :=
      if g1.unstash_possible_ = true then
        match g1.stashed_tetromino_ with
        | none => none
        | some stashed =>
          let stashed_type := stashed.type_
          match Initialize g1.stash_board_ bbox g1.falling_tetromino_.type_ with
          | none => none
          | some (cells, piece) =>
            SpawnTetromino outside shuffled
              { g1 with
                stash_board_ := cells
                stashed_tetromino_ := some piece
                unstash_possible_ := false }
              stashed_type true
      else some g1
    match afterUnstash with
    | none => none
    | some g2 =>
      if g2.stashed_tetromino_ = none then
        match Initialize g2.stash_board_ bbox g2.falling_tetromino_.type_ with
        | none => none
        | some (cells, piece) =>
          let g3 : Game :=
            { g2 with
              stash_board_ := cells
              stashed_tetromino_ := some piece
              unstash_possible_ := false }
          match g3.tetromino_queue_.head? with
          | none => none
          | some front =>
            match SpawnTetromino outside shuffled g3 front false with
            | none => none
            | some g4 => UpdateQueue g4
      else some g2
  else some g

/-- The function `Game::SettleTetromino`, the settle-sequence.  `with_score`
tells whether the argument is `&score_` or a null pointer, the only two
arguments it is called with; reading the front of an empty queue gives
`none`. -/
def Game.SettleTetromino (outside : Int → Bool) (shuffled : Nat → List Nat) (fuel : Nat)
    (g : Game) (with_score : Bool) : Option Game :=
  match Tetromino.SettleTetromino g outside fuel g.falling_tetromino_
      (if with_score then some g.score_ else none) with
  | none => none
  | some (g1, t1, score1) =>
    let g2 : Game := { g1 with falling_tetromino_ := t1, score_ := score1.getD g1.score_ }
    let g3 := DescendUnfilledLines (ClearFilledLines g2)
    match g3.tetromino_queue_.head? with
    | none => none
    | some front =>
      match SpawnTetromino outside shuffled g3 front false with
      | none => none
      | some g4 =>
        UpdateQueue { g4 with unstash_possible_ := g4.stashed_tetromino_.isSome }

/-- The function `Game::Reset`. -/
def Reset (shuffled : Nat → List Nat) (g : Game) : Option Game :=
  let g1 : Game :=
    { g with
      stash_board_ := []
      stashed_tetromino_ := none
      board_ := g.board_.map fun c => { c with color_ := black, occupied_ := false }
      queue_board_ := g.queue_board_.map fun c => { c with color_ := black, occupied_ := false }
      tetromino_queue_ := GenerateTetrominoes shuffled [] }
  match UpdateQueue g1 with
  | none => none
  | some g2 =>
    some { g2 with
      score_ := 0
      lines_ := 0
      descend_speed_ := 60
      moving_left_ := false
      moving_right_ := false
      moving_down_ := false
      game_over_ := false }

/-- What a tick asks of the falling piece: a call of `DescendTetromino` from
the gravity branch or from the soft-drop branch, each with the flag the call
returned, or a call of the settle-sequence. -/
inductive TickCall where
  | gravityDescend (moved : Bool)
  | softDropDescend (moved : Bool)
  | settleSequence
  deriving DecidableEq, Repr

/-- The gravity branch of `Game::Tick`, entered when `ticks_ % descend_speed_`
is zero: the session after it and the calls it made. -/
def tickGravity (outside : Int → Bool) (shuffled : Nat → List Nat) (fuel : Nat) (g : Game) :
    Option (Game × List TickCall) :=
  if g.moving_down_ = true then some (g, [])
  else
    match DescendTetromino g outside fuel g.falling_tetromino_ none with
    | none => none
    | some (moved, g1, t1, _) =>
      let g2 : Game := { g1 with falling_tetromino_ := t1 }
      if moved = true then some (g2, [TickCall.gravityDescend true])
      else
        match Game.SettleTetromino outside shuffled fuel g2 false with
        | none => none
        | some g3 => some (g3, [TickCall.gravityDescend false, TickCall.settleSequence])

/-- The movement branch of `Game::Tick`, entered when `moving_ticks_ % 5` is
zero: the session after it and the calls it made. -/
def tickMovement (outside : Int → Bool) (shuffled : Nat → List Nat) (fuel : Nat) (g : Game) :
    Option (Game × List TickCall) :=
  let g1 : Game :=
    if g.moving_left_ = true then
      let r := MoveTetromino g outside g.falling_tetromino_ false
      { r.1 with falling_tetromino_ := r.2 }
    else if g.moving_right_ = true then
      let r := MoveTetromino g outside g.falling_tetromino_ true
      { r.1 with falling_tetromino_ := r.2 }
    else g
  if g1.moving_down_ = true then
    match DescendTetromino g1 outside fuel g1.falling_tetromino_ (some g1.score_) with
    | none => none
    | some (moved, g2, t2, score2) =>
      let g3 : Game := { g2 with falling_tetromino_ := t2, score_ := score2.getD g2.score_ }
      if moved = true then some (g3, [TickCall.softDropDescend true])
      else
        match Game.SettleTetromino outside shuffled fuel g3 false with
        | none => none
        | some g4 => some (g4, [TickCall.softDropDescend false, TickCall.settleSequence])
  else some (g1, [])

/-- The function `Game::Tick` together with the calls it made, in order; the
list of calls is not part of the session.  A zero `descend_speed_` (a division
by zero) gives `none`. -/
def tickWithCalls (outside : Int → Bool) (shuffled : Nat → List Nat) (fuel : Nat) (g : Game) :
    Option (Game × List TickCall) :=
  if g.game_over_ = true then some (g, [])
  else
    let g0 : Game := { g with ticks_ := g.ticks_ + 1 }
    if g0.descend_speed_ = 0 then none
    else
      let gravity : Option (Game × List TickCall) :=
        if g0.ticks_.tmod g0.descend_speed_ = 0 then tickGravity outside shuffled fuel g0
        else some (g0, [])
      match gravity with
      | none => none
      | some (g1, calls1) =>
        if g1.moving_left_ = true ∨ g1.moving_right_ = true ∨ g1.moving_down_ = true then
          let movement : Option (Game × List TickCall) :=
            if g1.moving_ticks_.tmod 5 = 0 then tickMovement outside shuffled fuel g1
            else some (g1, [])
          match movement with
          | none => none
          | some (g2, calls2) =>
            some ({ g2 with moving_ticks_ := g2.moving_ticks_ + 1 }, calls1 ++ calls2)
        else some (g1, calls1)

/-- The function `Game::Tick`. -/
def Tick (outside : Int → Bool) (shuffled : Nat → List Nat) (fuel : Nat) (g : Game) :
    Option Game :=
  (tickWithCalls outside shuffled fuel g).map fun r => r.1

/-! ## Specification vocabulary and sample inputs -/

/-- The cell left by a clearing store. -/
def clearCell (c : Cell) : Cell := { c with color_ := black, occupied_ := false }

/-- Every cell of row `i` is occupied. -/
def rowFull (w : Nat) (board : List Cell) (i : Nat) : Prop :=
  ∀ j, j < w → (cellAt board (i * w + j)).occupied_ = true

instance (w : Nat) (board : List Cell) (i : Nat) : Decidable (rowFull w board i) :=
  Nat.decidableBallLT _ _

/-- The rows of the board in which every cell is occupied. -/
def fullRows (w h : Nat) (board : List Cell) : List Nat :=
  (List.range h).filter fun i => decide (rowFull w board i)

/-- A session with the counters of the constructor `Game::Game` and the given
main board; the falling piece is the given one. -/
def fresh (w h : Nat) (board : List Cell) (piece : Tetromino) : Game :=
  { ticks_ := 0
    moving_ticks_ := 0
    score_ := 0
    lines_ := 0
    descend_speed_ := 60
    game_over_ := false
    moving_left_ := false
    moving_right_ := false
    moving_down_ := false
    unstash_possible_ := false
    stashed_tetromino_ := none
    falling_tetromino_ := piece
    queued_tetrominoes_ := []
    tetromino_queue_ := []
    stash_board_ := []
    queue_board_ := []
    cells_width_ := w
    cells_height_ := h
    board_ := board }

/-- An occupied red cell, for examples. -/
def redCell : Cell := { occupied_ := true, color_ := { r := 255, g := 0, b := 0, a := 255 } }

/-- A board of three columns and two rows whose lower row is full. -/
def boardLowerRowFull : Game :=
  fresh 3 2 [redCell, default, default, redCell, redCell, redCell] noPiece

/-- The cells of row `i`, left to right. -/
def rowAt (w : Nat) (board : List Cell) (i : Nat) : List Cell :=
  (List.range w).map fun j => cellAt board (i * w + j)

/-- The rows `s, s + 1, ..., s + n - 1` of the board, top to bottom. -/
def rowsFrom (w : Nat) (board : List Cell) (s n : Nat) : List (List Cell) :=
  (List.range' s n).map (rowAt w board)

/-- The main board read top to bottom as a list of rows. -/
def boardRows (g : Game) : List (List Cell) :=
  rowsFrom g.cells_width_ g.board_ 0 g.cells_height_

/-- Some cell of the row is occupied. -/
def hasBlock (row : List Cell) : Bool :=
  row.any fun c => c.occupied_

/-- Every cell of the row is occupied. -/
def allOccupied (row : List Cell) : Bool :=
  row.all fun c => c.occupied_

/-- A row that is neither fully occupied nor entirely unoccupied. -/
def survives (row : List Cell) : Bool :=
  !allOccupied row && hasBlock row

/-- The second half of C3 read on a board after the collapse: in every column,
no unoccupied cell lies below the lowest occupied cell. -/
def noGapBelowLowest (w h : Nat) (board : List Cell) : Prop :=
  ∀ j, j < w → ∀ i, i < h → (cellAt board (i * w + j)).occupied_ = true →
    (∀ i', i + 1 ≤ i' → i' < h → (cellAt board (i' * w + j)).occupied_ = false) →
    ∀ i', i + 1 ≤ i' → i' < h → (cellAt board (i' * w + j)).occupied_ = true

/-- A board of two columns and two rows with one block in each row, on the
diagonal: the block of column 0 has a free cell below it. -/
def boardDiagonal : Game :=
  fresh 2 2 [redCell, default, default, redCell] noPiece

/-- A board of two columns and five rows: rows 1 and 4 are full, row 2 holds
only an unoccupied coloured cell. -/
def boardFiveRows : Game :=
  fresh 2 5
    [redCell, default,
     redCell, redCell,
     default, { occupied_ := false, color_ := { r := 9, g := 9, b := 9, a := 255 } },
     default, redCell,
     redCell, redCell]
    noPiece

/-- The step of a lateral move: `+1` to the right, `-1` to the left. -/
def moveDelta (right : Bool) : Int :=
  if right then 1 else -1

/-- The cell at offset `p` is in the edge column of the move direction: the
last column for a move to the right, the first for a move to the left. -/
def atEdgeColumn (w : Nat) (right : Bool) (p : Int) : Prop :=
  if right then p % (w : Int) = (w : Int) - 1 else p % (w : Int) = 0

/-- Some block is in the edge column of the move direction, or the cell
horizontally adjacent to some block in that direction is occupied. -/
def moveBlocked (g : Game) (blocks : List Int) (right : Bool) : Prop :=
  ∃ p, p ∈ blocks ∧
    (atEdgeColumn g.cells_width_ right p ∨
      (¬ atEdgeColumn g.cells_width_ right p ∧
        (cellAt g.board_ (p + moveDelta right).toNat).occupied_ = true))

/-- A board of three columns and two rows with one occupied cell, at the right
end of the upper row. -/
def boardCorner : Game :=
  fresh 3 2 [default, default, redCell, default, default, default] noPiece

/-- A piece with a single pair of blocks, in the first two cells of the lower
row of `boardCorner`. -/
def pieceLowerLeft : Tetromino :=
  { noPiece with blocks_ := [3, 4], bounding_box_ := [3, 4], render_color_ := spawnColor TetrominoType.O_BLOCK }

/-- The settle position of the glossary: some block is in the bottom row, or
the cell directly below some block is occupied. -/
def atSettlePosition (g : Game) (blocks : List Int) : Prop :=
  ∃ p, p ∈ blocks ∧
    ((g.cells_width_ : Int) * g.cells_height_ - g.cells_width_ ≤ p ∨
      (p + g.cells_width_ < (g.cells_width_ : Int) * g.cells_height_ ∧
        (cellAt g.board_ (p + g.cells_width_).toNat).occupied_ = true))

/-- The blocks moved straight down by `k` rows. -/
def shiftDown (w : Nat) (blocks : List Int) (k : Nat) : List Int :=
  blocks.map fun p => p + (k : Int) * w

/-- The stores of `Tetromino::SettleTetromino` on one cell. -/
def settleCell (color : SDL_Color) (c : Cell) : Cell :=
  { c with occupied_ := true, color_ := color }

/-- A board of three columns and four rows with one occupied cell, in the
middle of the bottom row. -/
def boardWell : Game :=
  fresh 3 4
    [default, default, default,
     default, default, default,
     default, default, default,
     default, redCell, default]
    noPiece

/-- A piece with four blocks in the upper left of `boardWell`: three in the
top row and one below the middle of them. -/
def pieceTop : Tetromino :=
  { noPiece with
    type_ := TetrominoType.T_BLOCK
    blocks_ := [0, 1, 2, 4]
    bounding_box_ := [0, 1, 2, 3, 4, 5, 6, 7, 8]
    render_color_ := spawnColor TetrominoType.T_BLOCK }

/-- The piece `pieceTop` one row lower, where its lowest block rests on the
occupied cell of `boardWell`. -/
def pieceResting : Tetromino :=
  { pieceTop with blocks_ := [3, 4, 5, 7] }

/-- The four target cells of table orientation `s`: entries `4 s .. 4 s + 3`
of the rotation table, looked up in the bounding box. -/
def slotCells (t : Tetromino) (s : Nat) : List Int :=
  (List.range 4).map fun i =>
    t.bounding_box_.getD (t.rotation_indices_.getD (4 * s + i) 0) 0

/-- All four target cells of table orientation `s` are unoccupied. -/
def slotFree (g : Game) (outside : Int → Bool) (t : Tetromino) (s : Nat) : Bool :=
  (slotCells t s).all fun p => !occupiedAt g.board_ outside p

/-- The table that `Initialize` leaves in `rotation_indices_`: four groups of
four box indices, for 0, 90, 180 and 270 degrees. -/
def rotationTable : TetrominoType → List Nat
  | TetrominoType.I_BLOCK => [4, 5, 6, 7, 2, 6, 10, 14, 8, 9, 10, 11, 1, 5, 9, 13]
  | TetrominoType.J_BLOCK => [0, 3, 4, 5, 1, 2, 4, 7, 3, 4, 5, 8, 1, 4, 6, 7]
  | TetrominoType.L_BLOCK => [2, 3, 4, 5, 1, 4, 7, 8, 3, 4, 5, 6, 0, 1, 4, 7]
  | TetrominoType.O_BLOCK => [1, 2, 5, 6, 6, 7, 10, 11, 9, 10, 13, 14, 4, 5, 8, 9]
  | TetrominoType.S_BLOCK => [1, 2, 3, 4, 1, 4, 5, 8, 4, 5, 6, 7, 0, 3, 4, 7]
  | TetrominoType.T_BLOCK => [1, 3, 4, 5, 1, 4, 5, 7, 3, 4, 5, 7, 1, 3, 4, 7]
  | TetrominoType.Z_BLOCK => [0, 1, 4, 5, 2, 4, 5, 7, 3, 4, 7, 8, 1, 3, 4, 6]

/-- The box indices of the four blocks right after `Initialize`: the spawn
indices, moved up by one box row for the I piece. -/
def spawnBlockIndices (type : TetrominoType) : List Nat :=
  if type = TetrominoType.I_BLOCK then [0, 1, 2, 3] else spawnIndices type

/-- The shuffle outcome that leaves `types_indices` in its initial order. -/
def identityShuffle (_ : Nat) : List Nat :=
  [0, 1, 2, 3, 4, 5, 6]

/-- An empty board of ten columns and twenty rows, with the I piece at the
front of the queue. -/
def emptyTenWide : Game :=
  { fresh 10 20 (List.replicate 200 default) noPiece with
    tetromino_queue_ := GenerateTetrominoes identityShuffle [] }

/-- Four successive calls `RotateTetromino(90)` on the falling piece of a
session; the result is the piece after the fourth call. -/
def rotateFourTimes (g : Game) (outside : Int → Bool) (t : Tetromino) : Option Tetromino :=
  match RotateTetromino g outside t 90 with
  | none => none
  | some (g1, t1) =>
    match RotateTetromino g1 outside t1 90 with
    | none => none
    | some (g2, t2) =>
      match RotateTetromino g2 outside t2 90 with
      | none => none
      | some (g3, t3) =>
        match RotateTetromino g3 outside t3 90 with
        | none => none
        | some (_, t4) => some t4

/-- The I piece as `SpawnTetromino` leaves it on a board of ten columns: box
columns 2 to 5 of rows 0 to 3, blocks in the top row of the box. -/
def spawnedI : Tetromino :=
  { type_ := TetrominoType.I_BLOCK
    rotation_degrees_ := 0
    rotation_indices_ := rotationTable TetrominoType.I_BLOCK
    blocks_ := [2, 3, 4, 5]
    bounding_box_ := [2, 3, 4, 5, 12, 13, 14, 15, 22, 23, 24, 25, 32, 33, 34, 35]
    render_color_ := spawnColor TetrominoType.I_BLOCK }

/-- A board of ten columns and twenty rows on which columns 3 and 4 are
occupied from row 1 down to the floor; the top row is free. -/
def stackedTenWide : Game :=
  { fresh 10 20
      ((List.range 200).map fun k =>
        if 10 ≤ k ∧ (k % 10 = 3 ∨ k % 10 = 4) then redCell else default)
      noPiece with
    tetromino_queue_ := GenerateTetrominoes identityShuffle [] }

/-- A board of ten columns and twenty rows with a single occupied cell, in
row 3 and column 4. -/
def pillarTenWide : Game :=
  { fresh 10 20 ((List.replicate 200 default).set 34 redCell) noPiece with
    tetromino_queue_ := GenerateTetrominoes identityShuffle [] }

/-- A run of `ClearFilledLines` calls: `boards` lists the content of `board_`
at each call, which the play between two calls is free to change. -/
def clearCalls (g : Game) (boards : List (List Cell)) : Game :=
  boards.foldl (fun s b => ClearFilledLines { s with board_ := b }) g

/-- The gravity interval that the specification assigns to a line count. -/
def gravityInterval (lines : Int) : Int :=
  max 10 (60 - 10 * (lines / 10))

/-- A session in play: the board has `cells_width_ * cells_height_` cells, the
falling piece has blocks and they are cells of the board, the queue is not
empty and there are three preview pieces. -/
def inPlay (g : Game) : Prop :=
  g.board_.length = g.cells_width_ * g.cells_height_ ∧
  g.cells_width_ * g.cells_height_ < 2 ^ 64 ∧
  g.falling_tetromino_.blocks_ ≠ [] ∧
  (∀ p, p ∈ g.falling_tetromino_.blocks_ →
    0 ≤ p ∧ p < (g.cells_width_ : Int) * g.cells_height_) ∧
  g.tetromino_queue_ ≠ [] ∧
  3 ≤ g.queued_tetrominoes_.length

instance (g : Game) : Decidable (inPlay g) := by
  unfold inPlay
  infer_instance

/-- The T piece as `SpawnTetromino` leaves it on a board of six columns: box
columns 1 to 3 of rows 0 to 2. -/
def spawnedT : Tetromino :=
  { type_ := TetrominoType.T_BLOCK
    rotation_degrees_ := 0
    rotation_indices_ := rotationTable TetrominoType.T_BLOCK
    blocks_ := [2, 7, 8, 9]
    bounding_box_ := [1, 2, 3, 7, 8, 9, 13, 14, 15]
    render_color_ := spawnColor TetrominoType.T_BLOCK }

/-- A session in play on an empty board of six columns and five rows: the T
piece falling, nothing stashed, twelve kinds queued and three preview
pieces. -/
def sessionSix : Game :=
  { fresh 6 5 (List.replicate 30 default) spawnedT with
    tetromino_queue_ :=
      [TetrominoType.I_BLOCK, TetrominoType.J_BLOCK, TetrominoType.L_BLOCK,
        TetrominoType.O_BLOCK, TetrominoType.S_BLOCK, TetrominoType.T_BLOCK,
        TetrominoType.Z_BLOCK, TetrominoType.I_BLOCK, TetrominoType.J_BLOCK,
        TetrominoType.L_BLOCK, TetrominoType.O_BLOCK, TetrominoType.S_BLOCK]
    queue_board_ := InitBoard 48
    queued_tetrominoes_ := [noPiece, noPiece, noPiece] }

/-- The session `sessionSix` with the Z piece in the stash and the hold
allowed. -/
def sessionSixStashed : Game :=
  { sessionSix with
    stash_board_ := InitBoard 9
    stashed_tetromino_ := some
      { type_ := TetrominoType.Z_BLOCK
        rotation_degrees_ := 0
        rotation_indices_ := rotationTable TetrominoType.Z_BLOCK
        blocks_ := [0, 1, 4, 5]
        bounding_box_ := [0, 1, 2, 3, 4, 5, 6, 7, 8]
        render_color_ := spawnColor TetrominoType.Z_BLOCK }
    unstash_possible_ := true }

/-- The session `sessionSixStashed` after a game over, with the
movement-repeat counter at 3. -/
def sessionSixOver : Game :=
  { sessionSixStashed with game_over_ := true, moving_ticks_ := 3 }

/-- The position to which a quarter-turn clockwise of a `dim` by `dim`
row-major box takes position `p`: row `r`, column `c` goes to row `c`, column
`dim - 1 - r`. -/
def turn (dim p : Nat) : Nat :=
  (p % dim) * dim + (dim - 1 - p / dim)

/-- The ascending list of the positions of a `dim` by `dim` box to which `k`
quarter-turns clockwise take the positions `indices`. -/
def turnedIndices (dim : Nat) (indices : List Nat) (k : Nat) : List Nat :=
  (List.range (dim * dim)).filter fun x => decide (x ∈ indices.map (turn dim)^[k])

/-- The cells of the `side` by `side` block whose top-left cell is in row `R`
and column `C` of a board of `w` columns, row by row, as offsets. -/
def boxAt (w side R C : Nat) : List Int :=
  (List.range (side * side)).map fun k : Nat =>
    (((R + k / side) * w + C + k % side : Nat) : Int)

/-- The board vector has `cells_width_ * cells_height_` cells, and that
number fits a `std::size_t`. -/
def boardSized (g : Game) : Prop :=
  g.board_.length = g.cells_width_ * g.cells_height_ ∧
  g.cells_width_ * g.cells_height_ < 2 ^ 64

/-- The bounding box of the piece is a `side` by `side` block of cells lying
entirely inside the board, and the piece has four blocks, all of them cells of
the box. -/
def boxInBoard (g : Game) (t : Tetromino) : Prop :=
  ∃ side R C, 0 < side ∧ C + side ≤ g.cells_width_ ∧ R + side ≤ g.cells_height_ ∧
    t.bounding_box_ = boxAt g.cells_width_ side R C ∧
    t.blocks_.length = 4 ∧
    ∀ p, p ∈ t.blocks_ → p ∈ t.bounding_box_

/-- The rotation state of a piece since its spawn: a table of 16 box indices
and a rotation of 0, 90, 180 or 270 degrees. -/
def tableInRange (t : Tetromino) : Prop :=
  t.rotation_indices_.length = 16 ∧
  (∀ x, x ∈ t.rotation_indices_ → x < t.bounding_box_.length) ∧
  ∃ q : Nat, q < 4 ∧ t.rotation_degrees_ = 90 * (q : Int)

/-- The number of calls of `DescendTetromino` among the calls of a tick. -/
def descendCalls (calls : List TickCall) : Nat :=
  (calls.filter fun c => decide (c ≠ TickCall.settleSequence)).length

/-- The session `sessionSix` at tick 59 with the soft-drop key held: the next
tick is a gravity tick and a movement tick. -/
def sessionSixSoftDrop : Game :=
  { sessionSix with ticks_ := 59, moving_down_ := true }

/-- The cells that `RotateMatrix` has already cycled when it is about to run
the body of its inner loop for `i` and `j`, as a condition on the row `r` and
column `c` of a cell of the `n` by `n` matrix: the rings outside ring `i`, and
on ring `i` the four cells of every cycle started from a row before `j`. -/
def processedCell (n i j r c : Nat) : Prop :=
  r < i ∨ c < i ∨ n - 1 - r < i ∨ n - 1 - c < i ∨
  (c = i ∧ i ≤ r ∧ r < j) ∨
  (r = i ∧ i ≤ n - 1 - c ∧ n - 1 - c < j) ∨
  (c = n - 1 - i ∧ i ≤ n - 1 - r ∧ n - 1 - r < j) ∨
  (r = n - 1 - i ∧ i ≤ c ∧ c < j)

instance (n i j r c : Nat) : Decidable (processedCell n i j r c) := by
  unfold processedCell
  infer_instance

/-- The state of the matrix `m1` when `RotateMatrix`, started on `m`, is about
to run the body of its inner loop for `i` and `j`: the cells already cycled
hold the value of the cell a quarter-turn clockwise brings there, the others
hold their old value. -/
def rotatedSoFar (n : Nat) (m m1 : List Nat) (i j : Nat) : Prop :=
  m1.length = n * n ∧ m1.Perm m ∧
  ∀ r c, r < n → c < n →
    m1.getD (r * n + c) 0 =
      if processedCell n i j r c then m.getD ((n - 1 - c) * n + r) 0
      else m.getD (r * n + c) 0

/-- Four applications of `RotateMatrix`. -/
def rotateMatrixFourTimes (matrix : List Nat) (matrix_dimension : Nat) : Option (List Nat) :=
  (RotateMatrix matrix matrix_dimension).bind fun m1 =>
    (RotateMatrix m1 matrix_dimension).bind fun m2 =>
      (RotateMatrix m2 matrix_dimension).bind fun m3 =>
        RotateMatrix m3 matrix_dimension

/-! ## The session: construction, events and runs -/

/-- The body of the constructor `Game::Game` after the SDL set-up, for a
screen that gives `w` columns and `h` rows: the member initializers, then the
main board, the queue, the first spawn, the stash board and the previews. -/
def newGame (outside : Int → Bool) (shuffled : Nat → List Nat) (w h : Nat) : Option Game :=
  let g0 : Game := fresh w h (InitBoard (w * h)) noPiece
  let g1 : Game := { g0 with tetromino_queue_ := GenerateTetrominoes shuffled [] }
  match g1.tetromino_queue_.head? with
  | none => none
  | some front =>
    match SpawnTetromino outside shuffled g1 front false with
    | none => none
    | some g2 =>
      UpdateQueue (InitQueue
        { g2 with stash_board_ := InitBoard g2.falling_tetromino_.bounding_box_.length })

/-- The keys that `Game::HandleEvents` tells apart. -/
inductive Key where
  | up
  | left
  | right
  | down
  | space
  | c
  | r
  | other
  deriving DecidableEq, Repr

/-- The events that `Game::HandleEvents` acts on, apart from `SDL_QUIT`, which
ends the run. -/
inductive Event where
  | keyDown (key : Key)
  | keyUp (key : Key)
  | other
  deriving DecidableEq, Repr

/-- The `KEYDOWN` branch of `Game::HandleEvents`, entered when `game_over_`
is not set. -/
def handleKeyDown (outside : Int → Bool) (shuffled : Nat → List Nat) (fuel : Nat) (g : Game)
    (key : Key) : Option Game :=
  let rotated : Option Game :=
    if key = Key.up then
      (RotateTetromino g outside g.falling_tetromino_ 90).map fun r =>
        { r.1 with falling_tetromino_ := r.2 }
    else some g
  match rotated with
  | none => none
  | some g1 =>
    let g2 : Game :=
      if key = Key.left then { g1 with moving_left_ := true }
      else if key = Key.right then { g1 with moving_right_ := true }
      else g1
    let g3 : Game := if key = Key.down then { g2 with moving_down_ := true } else g2
    if key = Key.space then Game.SettleTetromino outside shuffled fuel g3 true
    else if key = Key.c then TriggerStashTetromino outside shuffled g3
    else some g3

/-- The `KEYUP` branch of `Game::HandleEvents`, entered when `game_over_` is
not set. -/
def handleKeyUp (g : Game) (key : Key) : Game :=
  let g1 : Game :=
    if key = Key.left then { g with moving_left_ := false, moving_ticks_ := 0 }
    else if key = Key.right then { g with moving_right_ := false, moving_ticks_ := 0 }
    else g
  if key = Key.down then { g1 with moving_down_ := false, moving_ticks_ := 0 } else g1

/-- The body of the event loop of `Game::HandleEvents` for one event. -/
def HandleEvent (outside : Int → Bool) (shuffled : Nat → List Nat) (fuel : Nat) (g : Game)
    (e : Event) : Option Game :=
  let afterReset : Option Game :=
    if g.game_over_ = true ∧ e = Event.keyDown Key.r then Reset shuffled g else some g
  match afterReset with
  | none => none
  | some g1 =>
    match e with
    | Event.keyDown key =>
      if g1.game_over_ = true then some g1
      else handleKeyDown outside shuffled fuel g1 key
    | Event.keyUp key =>
      if g1.game_over_ = true then some g1 else some (handleKeyUp g1 key)
    | Event.other => some g1

/-- What the main loop does to the session: it handles an event or it
ticks. -/
inductive Step where
  | event (e : Event)
  | tick
  deriving DecidableEq, Repr

/-- One step of the main loop. -/
def step (outside : Int → Bool) (shuffled : Nat → List Nat) (fuel : Nat) (g : Game) :
    Step → Option Game
  | Step.event e => HandleEvent outside shuffled fuel g e
  | Step.tick => Tick outside shuffled fuel g

/-- A run of the main loop from the session `g`. -/
def run (outside : Int → Bool) (shuffled : Nat → List Nat) (fuel : Nat) (steps : List Step)
    (g : Game) : Option Game :=
  steps.foldlM (step outside shuffled fuel) g

/-- A session that a run of the main loop reaches from a fresh session on a
board of `w` columns and `h` rows. -/
def Reachable (outside : Int → Bool) (shuffled : Nat → List Nat) (w h : Nat) (g : Game) :
    Prop :=
  ∃ (fuel : Nat) (steps : List Step) (g0 : Game),
    newGame outside shuffled w h = some g0 ∧ run outside shuffled fuel steps g0 = some g

/-- The cells whose `occupied_` the first loop of `MoveTetromino` reads, in
order: for each block the neighbour in the move direction, up to and including
the block at which the loop returns. -/
def moveReads (g : Game) (outside : Int → Bool) (right : Bool) : List Int → List Int
  | [] => []
  | p :: blocks =>
    (if right then p + 1 else p - 1) ::
      (if moveRejects g outside right p then [] else moveReads g outside right blocks)

/-- The cells whose `occupied_` one call of `BlocksAtSettlePosition` reads, in
order: for a block that is not in the bottom row the cell below it, up to and
including the block at which the call returns. -/
def settleReads (g : Game) (outside : Int → Bool) : List Int → List Int
  | [] => []
  | p :: blocks =>
    if toSizeT p ≥ toSizeT ((g.cells_width_ : Int) * g.cells_height_ - g.cells_width_) then []
    else
      (p + g.cells_width_) ::
        (if occupiedAt g.board_ outside (p + g.cells_width_) then []
          else settleReads g outside blocks)

/-- The cells whose `occupied_` the drop loop of `Tetromino::SettleTetromino`
reads through its calls of `BlocksAtSettlePosition`, for at most the given
number of passes. -/
def dropReads (g : Game) (outside : Int → Bool) : Nat → List Int → List Int
  | 0, blocks => settleReads g outside blocks
  | fuel + 1, blocks =>
    settleReads g outside blocks ++
      (if BlocksAtSettlePosition g outside blocks then []
        else dropReads g outside fuel (blocks.map fun (p : Int) => p + g.cells_width_))

/-- The number of board columns to the left of a box on a board of `w`
columns: the least column that holds a cell of the box. -/
def leftMargin (w : Nat) (box : List Int) : Int :=
  (box.map fun p => p % (w : Int)).foldl min (w : Int)

/-- The number of board columns to the right of a box on a board of `w`
columns: the columns after the greatest column that holds a cell of the
box. -/
def rightMargin (w : Nat) (box : List Int) : Int :=
  (w : Int) - 1 - (box.map fun p => p % (w : Int)).foldl max (-1)

/-- What every operation of the session other than `Reset` leaves as it is or
only moves forward, from `g` to `g1`: the queue is unchanged or has at least
`n` entries, there are as many preview pieces as before, and a set game-over
flag is still set. -/
def advances (n : Nat) (g g1 : Game) : Prop :=
  (g1.tetromino_queue_ = g.tetromino_queue_ ∨ n ≤ g1.tetromino_queue_.length) ∧
  g1.queued_tetrominoes_.length = g.queued_tetrominoes_.length ∧
  (g.game_over_ = true → g1.game_over_ = true)

/-- The queue has the entries that the next spawn and the previews read. -/
def queueReady (g : Game) : Prop :=
  10 ≤ g.tetromino_queue_.length ∧ 3 ≤ g.queued_tetrominoes_.length

/-- A set game-over flag in `g` is still set in `g1`. -/
def keepsGameOver (g g1 : Game) : Prop :=
  g.game_over_ = true → g1.game_over_ = true

set_option maxRecDepth 100000

/-! ## Cell access -/

theorem clearCell_eq (c : Cell) : clearCell c = { occupied_ := false, color_ := black } := rfl

theorem cellAt_eq_getElem? (b : List Cell) (m : Nat) : cellAt b m = b[m]?.getD default := by
  simp [cellAt, List.getD_eq_getElem?_getD]

theorem cellAt_of_le (b : List Cell) (m : Nat) (h : b.length ≤ m) : cellAt b m = default := by
  simp [cellAt_eq_getElem?, List.getElem?_eq_none h]

theorem cellAt_modify (f : Cell → Cell) (k : Nat) (b : List Cell) (m : Nat) :
    cellAt (List.modify f k b) m =
      if k = m ∧ m < b.length then f (cellAt b m) else cellAt b m := by
  simp only [cellAt_eq_getElem?, List.getElem?_modify]
  by_cases hm : m < b.length
  · simp only [List.getElem?_eq_getElem hm, Option.map_eq_map, Option.map_some', Option.getD_some, hm, and_true]
  · have : b[m]? = none := List.getElem?_eq_none (by omega)
    simp [this, hm]

theorem row_of_interval {w i i' j : Nat} (hj : j < w) (h1 : i * w ≤ i' * w + j)
    (h2 : i' * w + j < i * w + w) : i' = i := by
  have a : i < i' + 1 := by
    by_contra hc
    have : (i' + 1) * w ≤ i * w := Nat.mul_le_mul_right w (by omega)
    rw [Nat.add_mul, Nat.one_mul] at this
    omega
  have b : i' < i + 1 := by
    by_contra hc
    have : (i + 1) * w ≤ i' * w := Nat.mul_le_mul_right w (by omega)
    rw [Nat.add_mul, Nat.one_mul] at this
    omega
  omega

theorem clearLine_loop (w : Nat) (b : List Cell) (i n : Nat) :
    ((List.range n).foldl
        (fun b j => b.modify (fun c => { c with color_ := black, occupied_ := false }) (i * w + j))
        b).length = b.length ∧
    ∀ m, cellAt ((List.range n).foldl
        (fun b j => b.modify (fun c => { c with color_ := black, occupied_ := false }) (i * w + j))
        b) m =
      if i * w ≤ m ∧ m < i * w + n ∧ m < b.length then clearCell (cellAt b m) else cellAt b m := by
  induction n with
  | zero =>
    refine ⟨rfl, fun m => ?_⟩
    have e : ¬ (i * w ≤ m ∧ m < i * w + 0 ∧ m < b.length) := by omega
    simp only [List.range_zero, List.foldl_nil, e, if_false]
  | succ n ih =>
    obtain ⟨ihl, ihc⟩ := ih
    rw [List.range_succ, List.foldl_append]
    simp only [List.foldl_cons, List.foldl_nil, List.length_modify]
    refine ⟨ihl, fun m => ?_⟩
    rw [cellAt_modify, ihc m, ihl]
    by_cases h1 : i * w + n = m
    · subst h1
      by_cases h2 : i * w + n < b.length
      · have e1 : ¬ (i * w + n < i * w + n) := by omega
        simp [h2, clearCell]
      · simp [h2]
    · have e : (i * w ≤ m ∧ m < i * w + (n + 1) ∧ m < b.length) ↔
          (i * w ≤ m ∧ m < i * w + n ∧ m < b.length) := by omega
      simp only [h1, false_and, if_false, e]

theorem length_clearLine (w : Nat) (b : List Cell) (i : Nat) :
    (clearLine w b i).length = b.length :=
  (clearLine_loop w b i w).1

theorem cellAt_clearLine (w : Nat) (b : List Cell) (i m : Nat) :
    cellAt (clearLine w b i) m =
      if i * w ≤ m ∧ m < i * w + w ∧ m < b.length then clearCell (cellAt b m) else cellAt b m :=
  (clearLine_loop w b i w).2 m

theorem cellAt_clearLine_row (w : Nat) (b : List Cell) (i i' j : Nat) (hj : j < w) :
    cellAt (clearLine w b i) (i' * w + j) =
      if i' = i then clearCell (cellAt b (i' * w + j)) else cellAt b (i' * w + j) := by
  rw [cellAt_clearLine]
  by_cases h : i' = i
  · subst h
    by_cases hl : i' * w + j < b.length
    · have e : i' * w ≤ i' * w + j ∧ i' * w + j < i' * w + w ∧ i' * w + j < b.length := by omega
      simp only [e, and_self, if_true]
    · have e : ¬ (i' * w ≤ i' * w + j ∧ i' * w + j < i' * w + w ∧ i' * w + j < b.length) := by
        omega
      rw [if_neg e, if_pos rfl, cellAt_of_le b _ (by omega)]
      rfl
  · have e : ¬ (i * w ≤ i' * w + j ∧ i' * w + j < i * w + w ∧ i' * w + j < b.length) := by
      rintro ⟨h1, h2, -⟩
      exact h (row_of_interval hj h1 h2)
    rw [if_neg e, if_neg h]

theorem lineFilled_iff (w : Nat) (board : List Cell) (i : Nat) :
    lineFilled w board i = true ↔ rowFull w board i := by
  simp [lineFilled, rowFull, List.all_eq_true, List.mem_range]

theorem lineFilled_congr (w : Nat) (b b' : List Cell) (i : Nat)
    (h : ∀ j, j < w → cellAt b (i * w + j) = cellAt b' (i * w + j)) :
    lineFilled w b i = lineFilled w b' i := by
  rw [Bool.eq_iff_iff, lineFilled_iff, lineFilled_iff]
  constructor
  · intro hb j hj
    rw [← h j hj]; exact hb j hj
  · intro hb j hj
    rw [h j hj]; exact hb j hj

theorem clear_loop (g : Game) (n : Nat) :
    ((List.range n).foldl clearStep g).cells_width_ = g.cells_width_ ∧
    ((List.range n).foldl clearStep g).cells_height_ = g.cells_height_ ∧
    ((List.range n).foldl clearStep g).board_.length = g.board_.length ∧
    (∀ i j, j < g.cells_width_ →
      cellAt ((List.range n).foldl clearStep g).board_ (i * g.cells_width_ + j) =
        if i < n ∧ rowFull g.cells_width_ g.board_ i
        then clearCell (cellAt g.board_ (i * g.cells_width_ + j))
        else cellAt g.board_ (i * g.cells_width_ + j)) ∧
    ((List.range n).foldl clearStep g).lines_ =
      g.lines_ + (fullRows g.cells_width_ n g.board_).length ∧
    ((List.range n).foldl clearStep g).score_ =
      g.score_ + 100 * (fullRows g.cells_width_ n g.board_).length := by
  induction n with
  | zero => simp [fullRows]
  | succ n ih =>
    obtain ⟨hw, hh, hl, hc, hli, hs⟩ := ih
    rw [List.range_succ, List.foldl_append]
    simp only [List.foldl_cons, List.foldl_nil]
    generalize (List.range n).foldl clearStep g = gn at hw hh hl hc hli hs
    have hrow : lineFilled gn.cells_width_ gn.board_ n = lineFilled g.cells_width_ g.board_ n := by
      rw [hw]
      apply lineFilled_congr
      intro j hj
      rw [hc n j hj, if_neg (by omega)]
    have hfr : fullRows g.cells_width_ (n + 1) g.board_ =
        fullRows g.cells_width_ n g.board_ ++
          (if rowFull g.cells_width_ g.board_ n then [n] else []) := by
      simp only [fullRows, List.range_succ, List.filter_append, List.filter_cons, List.filter_nil,
        decide_eq_true_eq]
    by_cases hf : rowFull g.cells_width_ g.board_ n
    · have hf' : lineFilled gn.cells_width_ gn.board_ n = true := by
        rw [hrow]; exact (lineFilled_iff _ _ _).mpr hf
      have hb : (clearStep gn n).board_ = clearLine gn.cells_width_ gn.board_ n := by
        unfold clearStep; rw [if_pos hf']; dsimp only; split <;> rfl
      have h1 : (clearStep gn n).cells_width_ = gn.cells_width_ := by
        unfold clearStep; rw [if_pos hf']; dsimp only; split <;> rfl
      have h2 : (clearStep gn n).cells_height_ = gn.cells_height_ := by
        unfold clearStep; rw [if_pos hf']; dsimp only; split <;> rfl
      have h3 : (clearStep gn n).lines_ = gn.lines_ + 1 := by
        unfold clearStep; rw [if_pos hf']; dsimp only; split <;> rfl
      have h4 : (clearStep gn n).score_ = gn.score_ + 100 := by
        unfold clearStep; rw [if_pos hf']; dsimp only; split <;> rfl
      refine ⟨h1.trans hw, h2.trans hh, ?_, ?_, ?_, ?_⟩
      · rw [hb, length_clearLine, hl]
      · intro i j hj
        rw [hb, hw, cellAt_clearLine_row _ _ _ _ _ hj, hc i j hj]
        by_cases hi : i = n
        · subst hi
          rw [if_pos rfl, if_neg (by omega), if_pos ⟨by omega, hf⟩]
        · rw [if_neg hi]
          have e : (i < n + 1 ∧ rowFull g.cells_width_ g.board_ i) ↔
              (i < n ∧ rowFull g.cells_width_ g.board_ i) := by
            constructor
            · rintro ⟨a, b⟩; exact ⟨by omega, b⟩
            · rintro ⟨a, b⟩; exact ⟨by omega, b⟩
          simp only [e]
      · rw [h3, hli, hfr, if_pos hf, List.length_append]
        simp only [List.length_singleton, Nat.cast_add, Nat.cast_one]
        ring
      · rw [h4, hs, hfr, if_pos hf, List.length_append]
        simp only [List.length_singleton, Nat.cast_add, Nat.cast_one]
        ring
    · have hf' : ¬ lineFilled gn.cells_width_ gn.board_ n = true := by
        rw [hrow]; exact fun h => hf ((lineFilled_iff _ _ _).mp h)
      have hb : clearStep gn n = gn := by
        unfold clearStep; rw [if_neg hf']
      rw [hb, hfr, if_neg hf, List.append_nil]
      refine ⟨hw, hh, hl, ?_, hli, hs⟩
      intro i j hj
      rw [hc i j hj]
      have e : (i < n + 1 ∧ rowFull g.cells_width_ g.board_ i) ↔
          (i < n ∧ rowFull g.cells_width_ g.board_ i) := by
        constructor
        · rintro ⟨a, b⟩
          refine ⟨?_, b⟩
          rcases Nat.lt_succ_iff_lt_or_eq.mp a with h | h
          · exact h
          · subst h; exact absurd b hf
        · rintro ⟨a, b⟩; exact ⟨by omega, b⟩
      simp only [e]

/-- C1: on a board stored row-major in `board_`, `ClearFilledLines` turns
every cell of a row whose cells were all occupied into an unoccupied black
cell and leaves every cell of every other row as it was; `lines_` grows by the
number of such rows and `score_` by 100 times that number.  On a one-row board
a row with a free cell leaves the whole session unchanged, and a full row is
cleared with `score_ + 100` and `lines_ + 1`. -/
theorem ClearFilledLines_clears_exactly_full_rows (g : Game)
    (hlen : g.board_.length = g.cells_width_ * g.cells_height_) :
    (∀ i j, i < g.cells_height_ → j < g.cells_width_ →
      i * g.cells_width_ + j < g.board_.length ∧
      (rowFull g.cells_width_ g.board_ i →
        cellAt (ClearFilledLines g).board_ (i * g.cells_width_ + j) =
          { occupied_ := false, color_ := black }) ∧
      (¬ rowFull g.cells_width_ g.board_ i →
        cellAt (ClearFilledLines g).board_ (i * g.cells_width_ + j) =
          cellAt g.board_ (i * g.cells_width_ + j))) ∧
    (ClearFilledLines g).board_.length = g.board_.length ∧
    (ClearFilledLines g).lines_ =
      g.lines_ + (fullRows g.cells_width_ g.cells_height_ g.board_).length ∧
    (ClearFilledLines g).score_ =
      g.score_ + 100 * (fullRows g.cells_width_ g.cells_height_ g.board_).length ∧
    (g.cells_height_ = 1 → (∃ j, j < g.cells_width_ ∧ (cellAt g.board_ j).occupied_ = false) →
      ClearFilledLines g = g) ∧
    (g.cells_height_ = 1 → (∀ j, j < g.cells_width_ → (cellAt g.board_ j).occupied_ = true) →
      (∀ j, j < g.cells_width_ →
        cellAt (ClearFilledLines g).board_ j = { occupied_ := false, color_ := black }) ∧
      (ClearFilledLines g).score_ = g.score_ + 100 ∧
      (ClearFilledLines g).lines_ = g.lines_ + 1) := by
  obtain ⟨-, -, hl, hc, hli, hs⟩ := clear_loop g g.cells_height_
  have hcell : ∀ i j, i < g.cells_height_ → j < g.cells_width_ →
      i * g.cells_width_ + j < g.board_.length ∧
      (rowFull g.cells_width_ g.board_ i →
        cellAt (ClearFilledLines g).board_ (i * g.cells_width_ + j) =
          { occupied_ := false, color_ := black }) ∧
      (¬ rowFull g.cells_width_ g.board_ i →
        cellAt (ClearFilledLines g).board_ (i * g.cells_width_ + j) =
          cellAt g.board_ (i * g.cells_width_ + j)) := by
    intro i j hi hj
    refine ⟨?_, ?_, ?_⟩
    · rw [hlen]
      have : (i + 1) * g.cells_width_ ≤ g.cells_height_ * g.cells_width_ :=
        Nat.mul_le_mul_right _ (by omega)
      rw [Nat.add_mul, Nat.one_mul] at this
      rw [Nat.mul_comm g.cells_width_ g.cells_height_]
      omega
    · intro hf
      show cellAt ((List.range g.cells_height_).foldl clearStep g).board_ _ = _
      rw [hc i j hj, if_pos ⟨hi, hf⟩, clearCell_eq]
    · intro hf
      show cellAt ((List.range g.cells_height_).foldl clearStep g).board_ _ = _
      rw [hc i j hj, if_neg (fun h => hf h.2)]
  have hrow0 : rowFull g.cells_width_ g.board_ 0 ↔
      ∀ j, j < g.cells_width_ → (cellAt g.board_ j).occupied_ = true := by
    unfold rowFull
    simp only [Nat.zero_mul, Nat.zero_add]
  refine ⟨hcell, hl, hli, hs, ?_, ?_⟩
  · rintro h1 ⟨j, hj, hfree⟩
    have hnf : ¬ lineFilled g.cells_width_ g.board_ 0 = true := by
      rw [lineFilled_iff, hrow0]
      intro hall
      rw [hall j hj] at hfree
      exact Bool.noConfusion hfree
    unfold ClearFilledLines
    rw [h1]
    simp only [List.range_succ, List.range_zero, List.nil_append, List.foldl_cons, List.foldl_nil]
    unfold clearStep
    rw [if_neg hnf]
  · intro h1 hall
    have hf : rowFull g.cells_width_ g.board_ 0 := hrow0.mpr hall
    have hcount : fullRows g.cells_width_ g.cells_height_ g.board_ = [0] := by
      rw [h1]
      simp [fullRows, List.range_succ, hf]
    refine ⟨?_, ?_, ?_⟩
    · intro j hj
      have := (hcell 0 j (by omega) hj).2.1 hf
      simpa using this
    · show ((List.range g.cells_height_).foldl clearStep g).score_ = _
      rw [hs, hcount]; rfl
    · show ((List.range g.cells_height_).foldl clearStep g).lines_ = _
      rw [hli, hcount]; rfl

theorem ClearFilledLines_clears_exactly_full_rows_witness :
    boardLowerRowFull.board_.length =
      boardLowerRowFull.cells_width_ * boardLowerRowFull.cells_height_ ∧
    fullRows 3 2 boardLowerRowFull.board_ = [1] ∧
    (ClearFilledLines boardLowerRowFull).board_ =
      [redCell, default, default, default, default, default] ∧
    (ClearFilledLines boardLowerRowFull).lines_ =
      boardLowerRowFull.lines_ + (fullRows 3 2 boardLowerRowFull.board_).length ∧
    (ClearFilledLines boardLowerRowFull).score_ =
      boardLowerRowFull.score_ + 100 * (fullRows 3 2 boardLowerRowFull.board_).length :=
  ⟨by decide, by decide, by decide,
    (ClearFilledLines_clears_exactly_full_rows boardLowerRowFull (by decide)).2.2.1,
    (ClearFilledLines_clears_exactly_full_rows boardLowerRowFull (by decide)).2.2.2.1⟩

theorem move_step (bn : List Cell) (s t : Nat) (hst : t ≠ s) (hs : s < bn.length)
    (ht : t < bn.length) (m : Nat) :
    cellAt (List.modify (fun c => { c with color_ := black, occupied_ := false }) s
      (List.modify
        (fun c => { c with occupied_ := (cellAt (List.modify
          (fun c => { c with color_ := (cellAt bn s).color_ }) t bn) s).occupied_ }) t
        (List.modify (fun c => { c with color_ := (cellAt bn s).color_ }) t bn))) m =
      if s = m then clearCell (cellAt bn s)
      else if t = m then cellAt bn s
      else cellAt bn m := by
  simp only [cellAt_modify, List.length_modify]
  by_cases h1 : s = m
  · subst h1
    simp [hs, clearCell]
  · by_cases h2 : t = m
    · subst h2
      have : ¬ (t = s) := hst
      simp [h1, ht, this]
    · simp [h1, h2]

theorem moveLine_loop (w : Nat) (b : List Cell) (i f n : Nat) (hf : 0 < f) (hn : n ≤ w)
    (hlen : (i + f) * w + n ≤ b.length) :
    ((List.range n).foldl
        (fun b j =>
          let b1 := b.modify
            (fun c => { c with color_ := (cellAt b (i * w + j)).color_ })
            ((i + f) * w + j)
          let b2 := b1.modify
            (fun c => { c with occupied_ := (cellAt b1 (i * w + j)).occupied_ })
            ((i + f) * w + j)
          b2.modify (fun c => { c with color_ := black, occupied_ := false }) (i * w + j))
        b).length = b.length ∧
    ∀ m, cellAt ((List.range n).foldl
        (fun b j =>
          let b1 := b.modify
            (fun c => { c with color_ := (cellAt b (i * w + j)).color_ })
            ((i + f) * w + j)
          let b2 := b1.modify
            (fun c => { c with occupied_ := (cellAt b1 (i * w + j)).occupied_ })
            ((i + f) * w + j)
          b2.modify (fun c => { c with color_ := black, occupied_ := false }) (i * w + j))
        b) m =
      if i * w ≤ m ∧ m < i * w + n then clearCell (cellAt b m)
      else if (i + f) * w ≤ m ∧ m < (i + f) * w + n then cellAt b (m - f * w)
      else cellAt b m := by
  have hfw : w ≤ f * w := Nat.le_mul_of_pos_left w hf
  have hadd : (i + f) * w = i * w + f * w := Nat.add_mul i f w
  induction n with
  | zero =>
    refine ⟨rfl, fun m => ?_⟩
    have e1 : ¬ (i * w ≤ m ∧ m < i * w + 0) := by omega
    have e2 : ¬ ((i + f) * w ≤ m ∧ m < (i + f) * w + 0) := by omega
    simp only [List.range_zero, List.foldl_nil, e1, e2, if_false]
  | succ n ih =>
    obtain ⟨ihl, ihc⟩ := ih (by omega) (by omega)
    rw [List.range_succ, List.foldl_append]
    simp only [List.foldl_cons, List.foldl_nil, List.length_modify]
    refine ⟨ihl, fun m => ?_⟩
    generalize (List.range n).foldl _ b = bn at ihl ihc
    have hsrc : cellAt bn (i * w + n) = cellAt b (i * w + n) := by
      rw [ihc]
      have e1 : ¬ (i * w ≤ i * w + n ∧ i * w + n < i * w + n) := by omega
      have e2 : ¬ ((i + f) * w ≤ i * w + n ∧ i * w + n < (i + f) * w + n) := by omega
      rw [if_neg e1, if_neg e2]
    rw [move_step bn (i * w + n) ((i + f) * w + n) (by omega) (by omega) (by omega) m, hsrc]
    by_cases h1 : i * w + n = m
    · subst h1
      have e1 : i * w ≤ i * w + n ∧ i * w + n < i * w + (n + 1) := by omega
      rw [if_pos rfl, if_pos e1]
    · rw [if_neg h1]
      by_cases h2 : (i + f) * w + n = m
      · subst h2
        have e1 : ¬ (i * w ≤ (i + f) * w + n ∧ (i + f) * w + n < i * w + (n + 1)) := by omega
        have e2 : (i + f) * w ≤ (i + f) * w + n ∧ (i + f) * w + n < (i + f) * w + (n + 1) := by
          omega
        have e3 : (i + f) * w + n - f * w = i * w + n := by omega
        rw [if_pos rfl, if_neg e1, if_pos e2, e3]
      · rw [if_neg h2, ihc m]
        have e1 : (i * w ≤ m ∧ m < i * w + (n + 1)) ↔ (i * w ≤ m ∧ m < i * w + n) := by omega
        have e2 : ((i + f) * w ≤ m ∧ m < (i + f) * w + (n + 1)) ↔
            ((i + f) * w ≤ m ∧ m < (i + f) * w + n) := by omega
        simp only [e1, e2]

theorem length_moveLine (w : Nat) (b : List Cell) (i f : Nat) (hf : 0 < f)
    (hlen : (i + f) * w + w ≤ b.length) : (moveLine w b i f).length = b.length :=
  (moveLine_loop w b i f w hf (Nat.le_refl w) hlen).1

theorem cellAt_moveLine_row (w : Nat) (b : List Cell) (i f : Nat) (hf : 0 < f)
    (hlen : (i + f) * w + w ≤ b.length) (i' j : Nat) (hj : j < w) :
    cellAt (moveLine w b i f) (i' * w + j) =
      if i' = i then clearCell (cellAt b (i * w + j))
      else if i' = i + f then cellAt b (i * w + j)
      else cellAt b (i' * w + j) := by
  have h := (moveLine_loop w b i f w hf (Nat.le_refl w) hlen).2 (i' * w + j)
  unfold moveLine
  rw [h]
  have hadd : (i + f) * w = i * w + f * w := Nat.add_mul i f w
  by_cases h1 : i' = i
  · subst h1
    have e1 : i' * w ≤ i' * w + j ∧ i' * w + j < i' * w + w := by omega
    rw [if_pos e1, if_pos rfl]
  · have e1 : ¬ (i * w ≤ i' * w + j ∧ i' * w + j < i * w + w) :=
      fun h => h1 (row_of_interval hj h.1 h.2)
    rw [if_neg e1, if_neg h1]
    by_cases h2 : i' = i + f
    · subst h2
      have e2 : (i + f) * w ≤ (i + f) * w + j ∧ (i + f) * w + j < (i + f) * w + w := by omega
      have e3 : (i + f) * w + j - f * w = i * w + j := by omega
      rw [if_pos e2, if_pos rfl, e3]
    · have e2 : ¬ ((i + f) * w ≤ i' * w + j ∧ i' * w + j < (i + f) * w + w) :=
        fun h => h2 (row_of_interval hj h.1 h.2)
      rw [if_neg e2, if_neg h2]


theorem any_map_fun {α β : Type} (l : List α) (f : α → β) (p : β → Bool) :
    (l.map f).any p = l.any fun a => p (f a) := by
  induction l with
  | nil => rfl
  | cons a l ih => simp only [List.map_cons, List.any_cons, ih]

theorem all_map_fun {α β : Type} (l : List α) (f : α → β) (p : β → Bool) :
    (l.map f).all p = l.all fun a => p (f a) := by
  induction l with
  | nil => rfl
  | cons a l ih => simp only [List.map_cons, List.all_cons, ih]

theorem lineHasBlock_eq (w : Nat) (b : List Cell) (i : Nat) :
    lineHasBlock w b i = hasBlock (rowAt w b i) := by
  unfold lineHasBlock hasBlock rowAt
  rw [any_map_fun]

theorem lineFilled_eq (w : Nat) (b : List Cell) (i : Nat) :
    lineFilled w b i = allOccupied (rowAt w b i) := by
  unfold lineFilled allOccupied rowAt
  rw [all_map_fun]

theorem rowAt_congr (w : Nat) (b b' : List Cell) (i i' : Nat)
    (h : ∀ j, j < w → cellAt b (i * w + j) = cellAt b' (i' * w + j)) :
    rowAt w b i = rowAt w b' i' := by
  unfold rowAt
  apply List.map_congr_left
  intro j hj
  exact h j (List.mem_range.mp hj)

theorem rowsFrom_succ (w : Nat) (b : List Cell) (s n : Nat) :
    rowsFrom w b s (n + 1) = rowAt w b s :: rowsFrom w b (s + 1) n := by
  simp [rowsFrom, List.range'_succ]

theorem rowsFrom_zero (w : Nat) (b : List Cell) (s : Nat) : rowsFrom w b s 0 = [] := rfl

theorem rowsFrom_congr (w : Nat) (b b' : List Cell) (s n : Nat)
    (h : ∀ r, s ≤ r → r < s + n → rowAt w b r = rowAt w b' r) :
    rowsFrom w b s n = rowsFrom w b' s n := by
  unfold rowsFrom
  apply List.map_congr_left
  intro r hr
  rw [List.mem_range'_1] at hr
  exact h r hr.1 hr.2

theorem rowsFrom_append (w : Nat) (b : List Cell) (s m n : Nat) :
    rowsFrom w b s m ++ rowsFrom w b (s + m) n = rowsFrom w b s (m + n) := by
  unfold rowsFrom
  rw [← List.map_append]
  congr 1
  have := List.range'_append s m n 1
  simp only [Nat.one_mul] at this
  rw [this, Nat.add_comm]

theorem length_rowsFrom (w : Nat) (b : List Cell) (s n : Nat) : (rowsFrom w b s n).length = n := by
  simp [rowsFrom]

theorem fall_loop (w h : Nat) (b : List Cell) (i k : Nat) (hk : i + k ≤ h - 1)
    (hempty : ∀ r, i < r → r ≤ i + k → lineHasBlock w b r = false)
    (hstop : i + k = h - 1 ∨ lineHasBlock w b (i + k + 1) = true) (n : Nat)
    (hn : n ≤ h - 1 - i) :
    (List.range n).foldl (fun s _ => fallStep w b i s) (0, true) =
      if n ≤ k then (n, true) else (k, false) := by
  induction n with
  | zero => simp
  | succ n ih =>
    rw [List.range_succ, List.foldl_append, ih (by omega)]
    simp only [List.foldl_cons, List.foldl_nil]
    by_cases h1 : n + 1 ≤ k
    · rw [if_pos (by omega), if_pos h1]
      unfold fallStep
      simp only [hempty (i + (n + 1)) (by omega) (by omega), Bool.false_eq_true, if_false, if_true]
    · rw [if_neg h1]
      have hs : lineHasBlock w b (i + k + 1) = true := by
        rcases hstop with h2 | h2
        · omega
        · exact h2
      by_cases h3 : n ≤ k
      · have : n = k := by omega
        subst this
        rw [if_pos (Nat.le_refl n)]
        unfold fallStep
        have e : i + (n + 1) = i + n + 1 := by omega
        simp only [e, hs, if_true, Bool.false_eq_true, if_false]
      · rw [if_neg h3]
        unfold fallStep
        have e : i + (k + 1) = i + k + 1 := by omega
        simp only [e, hs, if_true, Bool.false_eq_true, if_false]

theorem fallHeight_eq (w h : Nat) (b : List Cell) (i k : Nat) (hk : i + k ≤ h - 1)
    (hempty : ∀ r, i < r → r ≤ i + k → lineHasBlock w b r = false)
    (hstop : i + k = h - 1 ∨ lineHasBlock w b (i + k + 1) = true) :
    fallHeight w h b i = k := by
  unfold fallHeight
  rw [fall_loop w h b i k hk hempty hstop (h - 1 - i) (Nat.le_refl _)]
  split
  · show h - 1 - i = k
    omega
  · rfl


theorem hasBlock_map_clearCell (row : List Cell) : hasBlock (row.map clearCell) = false := by
  unfold hasBlock
  rw [any_map_fun]
  induction row with
  | nil => rfl
  | cons a l ih => rw [List.any_cons, ih]; rfl

theorem rowAt_moveLine (w : Nat) (b : List Cell) (i f : Nat) (hf : 0 < f)
    (hlen : (i + f) * w + w ≤ b.length) (r : Nat) :
    rowAt w (moveLine w b i f) r =
      if r = i then (rowAt w b i).map clearCell
      else if r = i + f then rowAt w b i
      else rowAt w b r := by
  by_cases h1 : r = i
  · subst h1
    rw [if_pos rfl]
    unfold rowAt
    rw [List.map_map]
    apply List.map_congr_left
    intro j hj
    rw [cellAt_moveLine_row w b r f hf hlen r j (List.mem_range.mp hj), if_pos rfl]
    rfl
  · rw [if_neg h1]
    by_cases h2 : r = i + f
    · subst h2
      rw [if_pos rfl]
      apply rowAt_congr
      intro j hj
      rw [cellAt_moveLine_row w b i f hf hlen (i + f) j hj, if_neg h1, if_pos rfl]
    · rw [if_neg h2]
      apply rowAt_congr
      intro j hj
      rw [cellAt_moveLine_row w b i f hf hlen r j hj, if_neg h1, if_neg h2]

theorem descendStep_inv (w h : Nat) (b0 b : List Cell) (lo : Nat) (hlo : lo + 2 ≤ h)
    (hlenb : b.length = w * h)
    (hun : ∀ r, r < lo + 1 → rowAt w b r = rowAt w b0 r)
    (k : Nat) (hk : lo + 1 + k ≤ h)
    (hem : ∀ r, lo + 1 ≤ r → r < lo + 1 + k → hasBlock (rowAt w b r) = false)
    (hsuf : rowsFrom w b (lo + 1 + k) (h - (lo + 1 + k)) =
      (rowsFrom w b0 (lo + 1) (h - (lo + 1))).filter hasBlock) :
    (descendStep w h b lo).length = w * h ∧
    (∀ r, r < lo → rowAt w (descendStep w h b lo) r = rowAt w b0 r) ∧
    ∃ k', lo + k' ≤ h ∧
      (∀ r, lo ≤ r → r < lo + k' → hasBlock (rowAt w (descendStep w h b lo) r) = false) ∧
      rowsFrom w (descendStep w h b lo) (lo + k') (h - (lo + k')) =
        (rowsFrom w b0 lo (h - lo)).filter hasBlock := by
  have hsplit : rowsFrom w b0 lo (h - lo) =
      rowAt w b0 lo :: rowsFrom w b0 (lo + 1) (h - (lo + 1)) := by
    have e : h - lo = (h - (lo + 1)) + 1 := by omega
    rw [e, rowsFrom_succ]
  have hrow : rowAt w b lo = rowAt w b0 lo := hun lo (by omega)
  by_cases hb : hasBlock (rowAt w b0 lo) = true
  · -- the row has a block and falls by `k`
    have hline : lineHasBlock w b lo = true := by rw [lineHasBlock_eq, hrow]; exact hb
    have hstop : lo + k = h - 1 ∨ lineHasBlock w b (lo + k + 1) = true := by
      by_cases hend : lo + 1 + k = h
      · left; omega
      · right
        have e : h - (lo + 1 + k) = (h - (lo + 1 + k) - 1) + 1 := by omega
        rw [e, rowsFrom_succ] at hsuf
        have hmem : rowAt w b (lo + 1 + k) ∈
            (rowsFrom w b0 (lo + 1) (h - (lo + 1))).filter hasBlock := by
          rw [← hsuf]; exact List.mem_cons_self _ _
        have := (List.mem_filter.mp hmem).2
        rw [lineHasBlock_eq]
        have e2 : lo + k + 1 = lo + 1 + k := by omega
        rw [e2]; exact this
    have hfall : fallHeight w h b lo = k := by
      apply fallHeight_eq w h b lo k (by omega) _ hstop
      intro r hr1 hr2
      rw [lineHasBlock_eq]
      exact hem r (by omega) (by omega)
    have hfilter : (rowsFrom w b0 lo (h - lo)).filter hasBlock =
        rowAt w b0 lo :: (rowsFrom w b0 (lo + 1) (h - (lo + 1))).filter hasBlock := by
      rw [hsplit, List.filter_cons, if_pos hb]
    by_cases hk0 : k = 0
    · subst hk0
      have hstep : descendStep w h b lo = b := by
        unfold descendStep
        rw [if_pos hline]
        simp only [hfall, if_true]
      rw [hstep]
      refine ⟨hlenb, fun r hr => hun r (by omega), 0, by omega, fun r h1 h2 => by omega, ?_⟩
      have e : h - (lo + 0) = (h - (lo + 1 + 0)) + 1 := by omega
      rw [hfilter, e, rowsFrom_succ, ← hsuf]
      simp only [Nat.add_zero, hrow]
    · have hstep : descendStep w h b lo = moveLine w b lo k := by
        unfold descendStep
        rw [if_pos hline]
        simp only [hfall, hk0, if_false]
      have hin : (lo + k) * w + w ≤ b.length := by
        rw [hlenb]
        have : (lo + k + 1) * w ≤ h * w := Nat.mul_le_mul_right w (by omega)
        rw [Nat.add_mul, Nat.one_mul] at this
        rw [Nat.mul_comm w h]; exact this
      have hkpos : 0 < k := Nat.pos_of_ne_zero hk0
      rw [hstep]
      refine ⟨by rw [length_moveLine w b lo k hkpos hin, hlenb], ?_, k, by omega, ?_, ?_⟩
      · intro r hr
        rw [rowAt_moveLine w b lo k hkpos hin, if_neg (by omega), if_neg (by omega)]
        exact hun r (by omega)
      · intro r h1 h2
        rw [rowAt_moveLine w b lo k hkpos hin]
        by_cases hr : r = lo
        · rw [if_pos hr]; exact hasBlock_map_clearCell _
        · rw [if_neg hr, if_neg (by omega)]
          exact hem r (by omega) (by omega)
      · have e : h - (lo + k) = (h - (lo + 1 + k)) + 1 := by omega
        rw [hfilter, e, rowsFrom_succ, rowAt_moveLine w b lo k hkpos hin, if_neg (by omega),
          if_pos rfl, hrow, ← hsuf]
        congr 1
        have e2 : lo + k + 1 = lo + 1 + k := by omega
        rw [e2]
        apply rowsFrom_congr
        intro r hr1 hr2
        rw [rowAt_moveLine w b lo k hkpos hin, if_neg (by omega), if_neg (by omega)]
  · -- the row has no block and is skipped
    have hb' : hasBlock (rowAt w b0 lo) = false := by
      cases hx : hasBlock (rowAt w b0 lo)
      · rfl
      · exact absurd hx hb
    have hline : ¬ lineHasBlock w b lo = true := by
      rw [lineHasBlock_eq, hrow, hb']; exact Bool.false_ne_true
    have hstep : descendStep w h b lo = b := by
      unfold descendStep
      rw [if_neg hline]
    rw [hstep]
    refine ⟨hlenb, fun r hr => hun r (by omega), k + 1, by omega, ?_, ?_⟩
    · intro r h1 h2
      by_cases hr : r = lo
      · rw [hr, hrow]; exact hb'
      · exact hem r (by omega) (by omega)
    · have e : lo + (k + 1) = lo + 1 + k := by omega
      rw [e, hsuf, hsplit, List.filter_cons, if_neg hb]


theorem descend_loop (w h : Nat) (b0 : List Cell) (hlen : b0.length = w * h) (n : Nat) :
    ∀ lo, lo + n + 1 = h →
    ((List.range' lo n).reverse.foldl (descendStep w h) b0).length = w * h ∧
    (∀ r, r < lo →
      rowAt w ((List.range' lo n).reverse.foldl (descendStep w h) b0) r = rowAt w b0 r) ∧
    ∃ k, lo + k ≤ h ∧
      (∀ r, lo ≤ r → r < lo + k →
        hasBlock (rowAt w ((List.range' lo n).reverse.foldl (descendStep w h) b0) r) = false) ∧
      rowsFrom w ((List.range' lo n).reverse.foldl (descendStep w h) b0) (lo + k) (h - (lo + k)) =
        (rowsFrom w b0 lo (h - lo)).filter hasBlock := by
  induction n with
  | zero =>
    intro lo hlo
    simp only [List.range'_zero, List.reverse_nil, List.foldl_nil]
    refine ⟨hlen, fun r _ => trivial, ?_⟩
    have e : h - lo = 0 + 1 := by omega
    by_cases hb : hasBlock (rowAt w b0 lo) = true
    · refine ⟨0, by omega, fun r h1 h2 => by omega, ?_⟩
      simp only [Nat.add_zero]
      rw [e, rowsFrom_succ, rowsFrom_zero, List.filter_cons, if_pos hb, List.filter_nil]
    · refine ⟨1, by omega, ?_, ?_⟩
      · intro r h1 h2
        have : r = lo := by omega
        subst this
        cases hx : hasBlock (rowAt w b0 r)
        · rfl
        · exact absurd hx hb
      · have e2 : h - (lo + 1) = 0 := by omega
        rw [e2, e, rowsFrom_succ, rowsFrom_zero, List.filter_cons, if_neg hb, List.filter_nil]
  | succ n ih =>
    intro lo hlo
    obtain ⟨hl, hun, k, hk, hem, hsuf⟩ := ih (lo + 1) (by omega)
    rw [List.range'_succ, List.reverse_cons, List.foldl_append]
    simp only [List.foldl_cons, List.foldl_nil]
    exact descendStep_inv w h b0 _ lo (by omega) hl hun k hk hem hsuf

theorem filter_hasBlock_cleared (l : List (List Cell)) :
    (l.map fun row => if allOccupied row = true then row.map clearCell else row).filter hasBlock =
      l.filter survives := by
  induction l with
  | nil => rfl
  | cons row l ih =>
    rw [List.map_cons, List.filter_cons, List.filter_cons, ih]
    by_cases ha : allOccupied row = true
    · have h1 : hasBlock (if allOccupied row = true then row.map clearCell else row) = false := by
        rw [if_pos ha]; exact hasBlock_map_clearCell row
      have h2 : survives row = false := by
        unfold survives; rw [ha]; rfl
      rw [h1, h2]
      simp only [Bool.false_eq_true, if_false]
    · have ha' : allOccupied row = false := by
        cases hx : allOccupied row
        · rfl
        · exact absurd hx ha
      have h2 : survives row = hasBlock row := by
        unfold survives; rw [ha']; rfl
      rw [if_neg ha, h2]

theorem ClearFilledLines_width (g : Game) : (ClearFilledLines g).cells_width_ = g.cells_width_ :=
  (clear_loop g g.cells_height_).1

theorem ClearFilledLines_height (g : Game) :
    (ClearFilledLines g).cells_height_ = g.cells_height_ :=
  (clear_loop g g.cells_height_).2.1

theorem rowAt_ClearFilledLines (g : Game) (i : Nat) (hi : i < g.cells_height_) :
    rowAt g.cells_width_ (ClearFilledLines g).board_ i =
      if allOccupied (rowAt g.cells_width_ g.board_ i) = true
      then (rowAt g.cells_width_ g.board_ i).map clearCell
      else rowAt g.cells_width_ g.board_ i := by
  obtain ⟨-, -, -, hc, -, -⟩ := clear_loop g g.cells_height_
  have hfull : rowFull g.cells_width_ g.board_ i ↔
      allOccupied (rowAt g.cells_width_ g.board_ i) = true := by
    rw [← lineFilled_eq, lineFilled_iff]
  by_cases hf : allOccupied (rowAt g.cells_width_ g.board_ i) = true
  · rw [if_pos hf]
    unfold rowAt
    rw [List.map_map]
    apply List.map_congr_left
    intro j hj
    show cellAt ((List.range g.cells_height_).foldl clearStep g).board_ _ = _
    rw [hc i j (List.mem_range.mp hj), if_pos ⟨hi, hfull.mpr hf⟩]
    rfl
  · rw [if_neg hf]
    apply rowAt_congr
    intro j hj
    show cellAt ((List.range g.cells_height_).foldl clearStep g).board_ _ = _
    rw [hc i j hj, if_neg (fun h => hf (hfull.mp h.2))]

theorem clear_descend_rows (g : Game)
    (hlen : g.board_.length = g.cells_width_ * g.cells_height_) :
    (DescendUnfilledLines (ClearFilledLines g)).cells_width_ = g.cells_width_ ∧
    (DescendUnfilledLines (ClearFilledLines g)).cells_height_ = g.cells_height_ ∧
    (DescendUnfilledLines (ClearFilledLines g)).board_.length = g.board_.length ∧
    ∃ k, k ≤ g.cells_height_ ∧
      (∀ r, r < k → hasBlock (rowAt g.cells_width_
        (DescendUnfilledLines (ClearFilledLines g)).board_ r) = false) ∧
      rowsFrom g.cells_width_ (DescendUnfilledLines (ClearFilledLines g)).board_ k
        (g.cells_height_ - k) = (boardRows g).filter survives := by
  have hW := ClearFilledLines_width g
  have hH := ClearFilledLines_height g
  have hL : (ClearFilledLines g).board_.length = g.cells_width_ * g.cells_height_ := by
    rw [← hlen]; exact (clear_loop g g.cells_height_).2.2.1
  have hrows : rowsFrom g.cells_width_ (ClearFilledLines g).board_ 0 g.cells_height_ =
      (boardRows g).map fun row => if allOccupied row = true then row.map clearCell else row := by
    unfold boardRows rowsFrom
    rw [List.map_map]
    apply List.map_congr_left
    intro i hi
    rw [List.mem_range'_1] at hi
    exact rowAt_ClearFilledLines g i (by omega)
  have hboard : (DescendUnfilledLines (ClearFilledLines g)).board_ =
      (List.range' 0 (g.cells_height_ - 1)).reverse.foldl
        (descendStep g.cells_width_ g.cells_height_) (ClearFilledLines g).board_ := by
    unfold DescendUnfilledLines
    simp only [hW, hH, List.range_eq_range']
  refine ⟨hW, hH, ?_⟩
  by_cases hh : g.cells_height_ = 0
  · have hb : (DescendUnfilledLines (ClearFilledLines g)).board_ = (ClearFilledLines g).board_ := by
      rw [hboard, hh]; rfl
    rw [hb]
    refine ⟨by rw [hL, hlen], 0, by omega, fun r hr => by omega, ?_⟩
    unfold boardRows
    rw [hh]; rfl
  · obtain ⟨hl, -, k, hk, hem, hsuf⟩ :=
      descend_loop g.cells_width_ g.cells_height_ (ClearFilledLines g).board_ hL
        (g.cells_height_ - 1) 0 (by omega)
    rw [← hboard] at hl hem hsuf
    refine ⟨by rw [hl, hlen], k, by omega, fun r hr => hem r (by omega) (by omega), ?_⟩
    simp only [Nat.zero_add, Nat.sub_zero] at hsuf
    rw [hsuf, hrows, filter_hasBlock_cleared]


theorem filter_getElem?_countP {α : Type} (p : α → Bool) (l : List α) :
    ∀ r a, l[r]? = some a → p a = true →
      (l.filter p)[List.countP p (l.take r)]? = some a := by
  induction l with
  | nil => intro r a h; simp at h
  | cons x l ih =>
    intro r a h hp
    cases r with
    | zero =>
      simp only [List.getElem?_cons_zero, Option.some.injEq] at h
      subst h
      simp [List.filter_cons, hp]
    | succ r =>
      simp only [List.getElem?_cons_succ] at h
      have := ih r a h hp
      by_cases hx : p x = true
      · simp [List.take_succ_cons, List.countP_cons, List.filter_cons, hx, this]
      · simp [List.take_succ_cons, List.countP_cons, List.filter_cons, hx, this]

theorem countP_take_lt {α : Type} (p : α → Bool) (l : List α) (r r' : Nat) (a : α)
    (h : l[r]? = some a) (hp : p a = true) (hr : r < r') :
    List.countP p (l.take r) < List.countP p (l.take r') := by
  have h1 : List.countP p (l.take (r + 1)) = List.countP p (l.take r) + 1 := by
    rw [List.take_succ, List.countP_append, h]
    simp [List.countP_cons, hp]
  have h2 : List.countP p (l.take (r + 1)) ≤ List.countP p (l.take r') :=
    List.Sublist.countP_le p (List.take_sublist_take_left l (by omega))
  omega

theorem rowsFrom_getElem? (w : Nat) (b : List Cell) (s n m : Nat) (hm : m < n) :
    (rowsFrom w b s n)[m]? = some (rowAt w b (s + m)) := by
  unfold rowsFrom
  rw [List.getElem?_map, List.getElem?_range' s 1 hm]
  simp

theorem cellAt_of_rowAt_eq (w : Nat) (b b' : List Cell) (i i' : Nat)
    (h : rowAt w b i = rowAt w b' i') (j : Nat) (hj : j < w) :
    cellAt b (i * w + j) = cellAt b' (i' * w + j) :=
  List.map_inj_left.mp h j (List.mem_range.mpr hj)

theorem hasBlock_rowAt_iff (w : Nat) (b : List Cell) (i : Nat) :
    hasBlock (rowAt w b i) = true ↔ ∃ j, j < w ∧ (cellAt b (i * w + j)).occupied_ = true := by
  rw [← lineHasBlock_eq]
  unfold lineHasBlock
  rw [List.any_eq_true]
  constructor
  · rintro ⟨j, hj, h⟩; exact ⟨j, List.mem_range.mp hj, h⟩
  · rintro ⟨j, hj, h⟩; exact ⟨j, List.mem_range.mpr hj, h⟩

theorem allOccupied_rowAt_iff (w : Nat) (b : List Cell) (i : Nat) :
    allOccupied (rowAt w b i) = true ↔ rowFull w b i := by
  rw [← lineFilled_eq, lineFilled_iff]

theorem survives_of_cell (w : Nat) (b : List Cell) (i j : Nat) (hj : j < w)
    (hocc : (cellAt b (i * w + j)).occupied_ = true) (hnf : ¬ rowFull w b i) :
    survives (rowAt w b i) = true := by
  unfold survives
  have h1 : hasBlock (rowAt w b i) = true := (hasBlock_rowAt_iff w b i).mpr ⟨j, hj, hocc⟩
  have h2 : allOccupied (rowAt w b i) = false := by
    cases hx : allOccupied (rowAt w b i)
    · rfl
    · exact absurd ((allOccupied_rowAt_iff w b i).mp hx) hnf
  rw [h1, h2]; rfl

/-- C2: on a row-major board, after `ClearFilledLines` followed by
`DescendUnfilledLines` the board read top to bottom is a block of rows without
any occupied cell followed by exactly the original rows that were neither
fully occupied nor entirely unoccupied, in their original order and with every
cell (occupancy and colour) as it was. -/
theorem clear_then_descend_keeps_surviving_rows (g : Game)
    (hlen : g.board_.length = g.cells_width_ * g.cells_height_) :
    ∃ top : List (List Cell),
      (∀ row, row ∈ top → ∀ c, c ∈ row → c.occupied_ = false) ∧
      boardRows (DescendUnfilledLines (ClearFilledLines g)) =
        top ++ (boardRows g).filter survives := by
  obtain ⟨hW, hH, -, k, hk, hem, hsuf⟩ := clear_descend_rows g hlen
  refine ⟨rowsFrom g.cells_width_ (DescendUnfilledLines (ClearFilledLines g)).board_ 0 k, ?_, ?_⟩
  · intro row hrow c hc
    unfold rowsFrom at hrow
    rw [List.mem_map] at hrow
    obtain ⟨r, hr, rfl⟩ := hrow
    rw [List.mem_range'_1] at hr
    have h0 := hem r (by omega)
    unfold hasBlock at h0
    cases hx : c.occupied_
    · rfl
    · have : (rowAt g.cells_width_ (DescendUnfilledLines (ClearFilledLines g)).board_ r).any
          (fun c => c.occupied_) = true := List.any_eq_true.mpr ⟨c, hc, hx⟩
      rw [h0] at this
      exact Bool.noConfusion this
  · rw [← hsuf]
    unfold boardRows
    rw [hW, hH]
    have := rowsFrom_append g.cells_width_ (DescendUnfilledLines (ClearFilledLines g)).board_ 0 k
      (g.cells_height_ - k)
    rw [Nat.zero_add] at this
    rw [this]
    congr 1
    omega

theorem clear_then_descend_keeps_surviving_rows_witness :
    boardFiveRows.board_.length = boardFiveRows.cells_width_ * boardFiveRows.cells_height_ ∧
    (boardRows boardFiveRows).filter survives = [[redCell, default], [default, redCell]] ∧
    ∃ top : List (List Cell),
      (∀ row, row ∈ top → ∀ c, c ∈ row → c.occupied_ = false) ∧
      boardRows (DescendUnfilledLines (ClearFilledLines boardFiveRows)) =
        top ++ (boardRows boardFiveRows).filter survives :=
  ⟨by decide, by decide, clear_then_descend_keeps_surviving_rows boardFiveRows (by decide)⟩

/-- C3, refuted as stated: on the two-by-two board with blocks on the diagonal
no row is full, the two calls leave the board as it was, column 0 has its only
block in row 0 and the cell below that block is unoccupied. -/
theorem gap_below_lowest_block_remains :
    fullRows 2 2 boardDiagonal.board_ = [] ∧
    (DescendUnfilledLines (ClearFilledLines boardDiagonal)).board_ = boardDiagonal.board_ ∧
    (cellAt (DescendUnfilledLines (ClearFilledLines boardDiagonal)).board_ (0 * 2 + 0)).occupied_
      = true ∧
    (cellAt (DescendUnfilledLines (ClearFilledLines boardDiagonal)).board_ (1 * 2 + 0)).occupied_
      = false ∧
    ¬ noGapBelowLowest 2 2 (DescendUnfilledLines (ClearFilledLines boardDiagonal)).board_ := by
  refine ⟨by decide, by decide, by decide, by decide, ?_⟩
  intro h
  have h1 := h 0 (by decide) 0 (by decide) (by decide)
    (by
      intro i' h1 h2
      have : i' = 1 := by omega
      subst this
      decide)
    1 (by decide) (by decide)
  revert h1
  decide

/-- C3, amended: after `ClearFilledLines` followed by `DescendUnfilledLines`
every cell that was occupied and not in a cleared row is found, unchanged, in
its own column at row `pos r` of the board, where `pos` depends on the
original row `r` only and is strictly increasing on such rows (so the cells of
a column keep their top-to-bottom order), and every board row below `pos r`
holds at least one occupied cell (no entirely unoccupied row lies below a
shifted cell). -/
theorem clear_then_descend_keeps_column_order (g : Game)
    (hlen : g.board_.length = g.cells_width_ * g.cells_height_) :
    ∃ pos : Nat → Nat,
      (∀ r j, r < g.cells_height_ → j < g.cells_width_ →
        (cellAt g.board_ (r * g.cells_width_ + j)).occupied_ = true →
        ¬ rowFull g.cells_width_ g.board_ r →
        pos r < g.cells_height_ ∧
        cellAt (DescendUnfilledLines (ClearFilledLines g)).board_ (pos r * g.cells_width_ + j) =
          cellAt g.board_ (r * g.cells_width_ + j)) ∧
      (∀ r r' j, r < r' → r' < g.cells_height_ → j < g.cells_width_ →
        (cellAt g.board_ (r * g.cells_width_ + j)).occupied_ = true →
        ¬ rowFull g.cells_width_ g.board_ r →
        (cellAt g.board_ (r' * g.cells_width_ + j)).occupied_ = true →
        ¬ rowFull g.cells_width_ g.board_ r' →
        pos r < pos r') ∧
      (∀ r j, r < g.cells_height_ → j < g.cells_width_ →
        (cellAt g.board_ (r * g.cells_width_ + j)).occupied_ = true →
        ¬ rowFull g.cells_width_ g.board_ r →
        ∀ r'', pos r < r'' → r'' < g.cells_height_ →
          ∃ j', j' < g.cells_width_ ∧
            (cellAt (DescendUnfilledLines (ClearFilledLines g)).board_
              (r'' * g.cells_width_ + j')).occupied_ = true) := by
  obtain ⟨-, -, -, k, hk, -, hsuf⟩ := clear_descend_rows g hlen
  have hget : ∀ r, r < g.cells_height_ →
      (boardRows g)[r]? = some (rowAt g.cells_width_ g.board_ r) := by
    intro r hr
    unfold boardRows
    rw [rowsFrom_getElem? _ _ 0 _ r hr, Nat.zero_add]
  have hland : ∀ r, r < g.cells_height_ → survives (rowAt g.cells_width_ g.board_ r) = true →
      k + List.countP survives ((boardRows g).take r) < g.cells_height_ ∧
      rowAt g.cells_width_ (DescendUnfilledLines (ClearFilledLines g)).board_
        (k + List.countP survives ((boardRows g).take r)) = rowAt g.cells_width_ g.board_ r := by
    intro r hr hs
    have h1 := filter_getElem?_countP survives (boardRows g) r _ (hget r hr) hs
    rw [← hsuf] at h1
    have hlt : List.countP survives ((boardRows g).take r) < g.cells_height_ - k := by
      have := List.getElem?_eq_some.mp h1
      obtain ⟨hl, -⟩ := this
      rw [length_rowsFrom] at hl
      exact hl
    rw [rowsFrom_getElem? _ _ k _ _ hlt] at h1
    exact ⟨by omega, Option.some.inj h1⟩
  refine ⟨fun r => k + List.countP survives ((boardRows g).take r), ?_, ?_, ?_⟩
  · intro r j hr hj hocc hnf
    have hs := survives_of_cell _ _ r j hj hocc hnf
    obtain ⟨h1, h2⟩ := hland r hr hs
    exact ⟨h1, cellAt_of_rowAt_eq _ _ _ _ _ h2 j hj⟩
  · intro r r' j hrr hr' hj hocc hnf _ _
    have hs := survives_of_cell _ _ r j hj hocc hnf
    have := countP_take_lt survives (boardRows g) r r' _ (hget r (by omega)) hs hrr
    show k + _ < k + _
    omega
  · intro r j hr hj hocc hnf r'' h1 h2
    have hge : k ≤ r'' := by
      have : k ≤ k + List.countP survives ((boardRows g).take r) := Nat.le_add_right _ _
      exact Nat.le_of_lt (Nat.lt_of_le_of_lt this h1)
    have hrow := rowsFrom_getElem? g.cells_width_
      (DescendUnfilledLines (ClearFilledLines g)).board_ k (g.cells_height_ - k) (r'' - k)
      (by omega)
    rw [hsuf] at hrow
    have hmem : rowAt g.cells_width_ (DescendUnfilledLines (ClearFilledLines g)).board_
        (k + (r'' - k)) ∈ (boardRows g).filter survives :=
      List.mem_iff_getElem?.mpr ⟨_, hrow⟩
    have hsv := (List.mem_filter.mp hmem).2
    have e : k + (r'' - k) = r'' := by omega
    rw [e] at hsv
    unfold survives at hsv
    rw [Bool.and_eq_true] at hsv
    exact (hasBlock_rowAt_iff _ _ _).mp hsv.2

theorem clear_then_descend_keeps_column_order_witness :
    boardFiveRows.board_.length = boardFiveRows.cells_width_ * boardFiveRows.cells_height_ ∧
    ∃ pos : Nat → Nat,
      (∀ r j, r < boardFiveRows.cells_height_ → j < boardFiveRows.cells_width_ →
        (cellAt boardFiveRows.board_ (r * boardFiveRows.cells_width_ + j)).occupied_ = true →
        ¬ rowFull boardFiveRows.cells_width_ boardFiveRows.board_ r →
        pos r < boardFiveRows.cells_height_ ∧
        cellAt (DescendUnfilledLines (ClearFilledLines boardFiveRows)).board_
            (pos r * boardFiveRows.cells_width_ + j) =
          cellAt boardFiveRows.board_ (r * boardFiveRows.cells_width_ + j)) :=
  ⟨by decide,
    (clear_then_descend_keeps_column_order boardFiveRows (by decide)).imp fun _ h => h.1⟩

theorem occupiedAt_inside (board : List Cell) (outside : Int → Bool) (p : Int)
    (h0 : 0 ≤ p) (h1 : p < board.length) :
    occupiedAt board outside p = (cellAt board p.toNat).occupied_ := by
  unfold occupiedAt
  rw [if_pos ⟨h0, h1⟩]

theorem length_storeAt (board : List Cell) (p : Int) (f : Cell → Cell) :
    (storeAt board p f).length = board.length := by
  unfold storeAt
  split
  · exact List.length_modify _ _ _
  · rfl

theorem cellAt_storeAt (board : List Cell) (p : Int) (f : Cell → Cell) (m : Nat) :
    cellAt (storeAt board p f) m =
      if p = (m : Int) ∧ m < board.length then f (cellAt board m) else cellAt board m := by
  unfold storeAt
  by_cases h0 : 0 ≤ p
  · rw [if_pos h0, cellAt_modify]
    have e : (p.toNat = m ∧ m < board.length) ↔ (p = (m : Int) ∧ m < board.length) := by
      constructor
      · rintro ⟨a, b⟩; exact ⟨by omega, b⟩
      · rintro ⟨a, b⟩; exact ⟨by omega, b⟩
    simp only [e]
  · rw [if_neg h0]
    have e : ¬ (p = (m : Int) ∧ m < board.length) := by
      rintro ⟨a, -⟩; omega
    rw [if_neg e]

theorem paint_loop (f : Cell → Cell) (hf : ∀ c, f (f c) = f c) (ps : List Int) :
    ∀ board : List Cell,
      (ps.foldl (fun b p => storeAt b p f) board).length = board.length ∧
      ∀ m, cellAt (ps.foldl (fun b p => storeAt b p f) board) m =
        if (m : Int) ∈ ps ∧ m < board.length then f (cellAt board m) else cellAt board m := by
  induction ps with
  | nil =>
    intro board
    refine ⟨rfl, fun m => ?_⟩
    simp
  | cons p ps ih =>
    intro board
    obtain ⟨hl, hc⟩ := ih (storeAt board p f)
    simp only [List.foldl_cons]
    refine ⟨by rw [hl, length_storeAt], fun m => ?_⟩
    rw [hc m, length_storeAt, cellAt_storeAt]
    by_cases hm : m < board.length
    · by_cases hp : p = (m : Int)
      · subst hp
        simp [hm, hf]
      · have hp' : ¬ ((m : Int) = p) := fun h => hp h.symm
        simp [hm, hp, hp']
    · simp [hm]

theorem list_eq_of_cellAt (b b' : List Cell) (hl : b.length = b'.length)
    (hc : ∀ m, m < b.length → cellAt b m = cellAt b' m) : b = b' := by
  apply List.ext_getElem hl
  intro n h1 h2
  have := hc n h1
  simp only [cellAt_eq_getElem?, List.getElem?_eq_getElem h1, List.getElem?_eq_getElem h2,
    Option.getD_some] at this
  exact this

theorem toSizeT_of_lt (x : Int) (h0 : 0 ≤ x) (h1 : x < 2 ^ 64) : toSizeT x = x := by
  unfold toSizeT
  exact Int.emod_eq_of_lt h0 h1

theorem emod_succ (p w : Int) (hw : 0 < w) :
    ((p + 1) % w = 0 ↔ p % w = w - 1) ∧
    ((p + 1) % w ≠ 0 → (p + 1) / w = p / w ∧ (p + 1) % w = p % w + 1) := by
  have h1 : 0 ≤ p % w := Int.emod_nonneg p (by omega)
  have h2 : p % w < w := Int.emod_lt_of_pos p hw
  have h3 : p % w + w * (p / w) = p := Int.emod_add_ediv p w
  by_cases hc : p % w = w - 1
  · have : (p + 1) / w = p / w + 1 ∧ (p + 1) % w = 0 := by
      rw [Int.ediv_emod_unique hw]
      refine ⟨?_, by omega, hw⟩
      rw [Int.mul_add]
      omega
    exact ⟨⟨fun _ => hc, fun _ => this.2⟩, fun h => absurd this.2 h⟩
  · have : (p + 1) / w = p / w ∧ (p + 1) % w = p % w + 1 := by
      rw [Int.ediv_emod_unique hw]
      refine ⟨by omega, by omega, by omega⟩
    refine ⟨⟨fun h => ?_, fun h => absurd h hc⟩, fun _ => this⟩
    rw [this.2] at h
    omega

theorem emod_pred (p w : Int) (hw : 0 < w) (h : p % w ≠ 0) :
    (p - 1) / w = p / w ∧ (p - 1) % w = p % w - 1 := by
  have h1 : 0 ≤ p % w := Int.emod_nonneg p (by omega)
  have h2 : p % w < w := Int.emod_lt_of_pos p hw
  have h3 : p % w + w * (p / w) = p := Int.emod_add_ediv p w
  rw [Int.ediv_emod_unique hw]
  refine ⟨by omega, by omega, by omega⟩

theorem emod_add_width (p w : Int) (hw : 0 < w) :
    (p + w) / w = p / w + 1 ∧ (p + w) % w = p % w := by
  have h1 : 0 ≤ p % w := Int.emod_nonneg p (by omega)
  have h2 : p % w < w := Int.emod_lt_of_pos p hw
  have h3 : p % w + w * (p / w) = p := Int.emod_add_ediv p w
  rw [Int.ediv_emod_unique hw]
  refine ⟨?_, h1, h2⟩
  rw [Int.mul_add]
  omega


theorem width_pos_of_inside (g : Game) (p : Int)
    (hp : 0 ≤ p ∧ p < (g.cells_width_ : Int) * g.cells_height_) :
    0 < g.cells_width_ ∧ 0 < g.cells_height_ := by
  have h : (0 : Int) < (g.cells_width_ : Int) * g.cells_height_ := by omega
  have h' : 0 < g.cells_width_ * g.cells_height_ := by exact_mod_cast h
  exact ⟨Nat.pos_of_mul_pos_right h', Nat.pos_of_mul_pos_left h'⟩

theorem width_le_size (g : Game) (hh : 0 < g.cells_height_) :
    (g.cells_width_ : Int) ≤ (g.cells_width_ : Int) * g.cells_height_ := by
  have : g.cells_width_ * 1 ≤ g.cells_width_ * g.cells_height_ := Nat.mul_le_mul_left _ hh
  rw [Nat.mul_one] at this
  exact_mod_cast this

theorem moveRejects_iff (g : Game) (outside : Int → Bool) (right : Bool) (p : Int)
    (hlen : g.board_.length = g.cells_width_ * g.cells_height_)
    (hsz : g.cells_width_ * g.cells_height_ < 2 ^ 64)
    (hp : 0 ≤ p ∧ p < (g.cells_width_ : Int) * g.cells_height_) :
    (moveRejects g outside right p = true ↔
      (atEdgeColumn g.cells_width_ right p ∨
        (¬ atEdgeColumn g.cells_width_ right p ∧
          (cellAt g.board_ (p + moveDelta right).toNat).occupied_ = true))) ∧
    (¬ atEdgeColumn g.cells_width_ right p →
      0 ≤ p + moveDelta right ∧ p + moveDelta right < (g.cells_width_ : Int) * g.cells_height_ ∧
      (p + moveDelta right) / (g.cells_width_ : Int) = p / (g.cells_width_ : Int) ∧
      (p + moveDelta right) % (g.cells_width_ : Int) =
        p % (g.cells_width_ : Int) + moveDelta right) := by
  obtain ⟨hw, hh⟩ := width_pos_of_inside g p hp
  have hwI : (0 : Int) < (g.cells_width_ : Int) := by exact_mod_cast hw
  have hwle := width_le_size g hh
  have hszI : (g.cells_width_ : Int) * g.cells_height_ < 2 ^ 64 := by exact_mod_cast hsz
  have hlenI : (g.board_.length : Int) = (g.cells_width_ : Int) * g.cells_height_ := by
    rw [hlen]; push_cast; rfl
  have e1 : toSizeT p = p := toSizeT_of_lt p hp.1 (by omega)
  have e2 : toSizeT (g.cells_width_ : Int) = g.cells_width_ :=
    toSizeT_of_lt _ (by omega) (by omega)
  have hzero : ((g.cells_width_ : Int) * g.cells_height_) % (g.cells_width_ : Int) = 0 :=
    Int.mul_emod_right _ _
  cases right with
  | true =>
    have e3 : toSizeT (p + 1) = p + 1 := toSizeT_of_lt _ (by omega) (by omega)
    obtain ⟨hs1, hs2⟩ := emod_succ p g.cells_width_ hwI
    have hedge : atEdgeColumn g.cells_width_ true p ↔ (p + 1) % (g.cells_width_ : Int) = 0 := by
      unfold atEdgeColumn
      simp only [if_true]
      exact hs1.symm
    have hin : ¬ atEdgeColumn g.cells_width_ true p →
        p + 1 < (g.cells_width_ : Int) * g.cells_height_ := by
      intro hne
      by_contra hc
      have : p + 1 = (g.cells_width_ : Int) * g.cells_height_ := by omega
      rw [hedge, this] at hne
      exact hne hzero
    constructor
    · unfold moveRejects
      simp only [if_true, e1, e2, e3, Bool.or_eq_true, decide_eq_true_eq, moveDelta]
      by_cases he : atEdgeColumn g.cells_width_ true p
      · exact ⟨fun _ => Or.inl he, fun _ => Or.inr (hedge.mp he)⟩
      · have hlt := hin he
        rw [occupiedAt_inside _ _ _ (by omega) (by omega)]
        constructor
        · rintro (h | h)
          · exact Or.inr ⟨he, h⟩
          · exact absurd (hedge.mpr h) he
        · rintro (h | ⟨-, h⟩)
          · exact absurd h he
          · exact Or.inl h
    · intro he
      have hlt := hin he
      have hne : (p + 1) % (g.cells_width_ : Int) ≠ 0 := fun h => he (hedge.mpr h)
      obtain ⟨h1, h2⟩ := hs2 hne
      simp only [moveDelta, if_true]
      exact ⟨by omega, hlt, h1, h2⟩
  | false =>
    have hedge : atEdgeColumn g.cells_width_ false p ↔ p % (g.cells_width_ : Int) = 0 := by
      unfold atEdgeColumn
      simp only [Bool.false_eq_true, if_false]
    have hpos : ¬ atEdgeColumn g.cells_width_ false p → 1 ≤ p := by
      intro hne
      by_contra hc
      have : p = 0 := by omega
      rw [hedge, this] at hne
      exact hne (Int.zero_emod _)
    have hsub : p + -1 = p - 1 := by omega
    constructor
    · unfold moveRejects
      simp only [Bool.false_eq_true, if_false, e1, e2, Bool.or_eq_true, decide_eq_true_eq,
        moveDelta, hsub]
      by_cases he : atEdgeColumn g.cells_width_ false p
      · exact ⟨fun _ => Or.inl he, fun _ => Or.inr (hedge.mp he)⟩
      · have hge := hpos he
        rw [occupiedAt_inside _ _ _ (by omega) (by omega)]
        constructor
        · rintro (h | h)
          · exact Or.inr ⟨he, h⟩
          · exact absurd (hedge.mpr h) he
        · rintro (h | ⟨-, h⟩)
          · exact absurd h he
          · exact Or.inl h
    · intro he
      have hge := hpos he
      have hne : p % (g.cells_width_ : Int) ≠ 0 := fun h => he (hedge.mpr h)
      obtain ⟨h1, h2⟩ := emod_pred p g.cells_width_ hwI hne
      simp only [moveDelta, Bool.false_eq_true, if_false, hsub]
      exact ⟨by omega, by omega, h1, by omega⟩

theorem MoveTetromino_rejected (g : Game) (outside : Int → Bool) (t : Tetromino) (right : Bool)
    (h : t.blocks_.any (moveRejects g outside right) = true) :
    MoveTetromino g outside t right = (g, t) := by
  unfold MoveTetromino
  rw [if_pos h]

theorem MoveTetromino_moved (g : Game) (outside : Int → Bool) (t : Tetromino) (right : Bool)
    (h : ¬ t.blocks_.any (moveRejects g outside right) = true) :
    (MoveTetromino g outside t right).1 =
      { g with
        board_ := (t.blocks_.map fun p => if right then p + 1 else p - 1).foldl
          (fun b p => storeAt b p fun c => { c with color_ := t.render_color_ })
          (t.blocks_.foldl (fun b p => storeAt b p fun c => { c with color_ := black })
            g.board_) } ∧
    (MoveTetromino g outside t right).2.blocks_ =
      t.blocks_.map fun p => if right then p + 1 else p - 1 := by
  unfold MoveTetromino
  rw [if_neg h]
  dsimp only
  split
  · exact ⟨rfl, rfl⟩
  · split
    · exact ⟨rfl, rfl⟩
    · exact ⟨rfl, rfl⟩


theorem occupied_paint_color (col : SDL_Color) (ps : List Int) (board : List Cell) :
    (ps.foldl (fun b p => storeAt b p fun c => { c with color_ := col }) board).length =
      board.length ∧
    ∀ m, (cellAt (ps.foldl (fun b p => storeAt b p fun c => { c with color_ := col }) board)
      m).occupied_ = (cellAt board m).occupied_ := by
  obtain ⟨hl, hc⟩ := paint_loop (fun c => { c with color_ := col }) (fun _ => rfl) ps board
  refine ⟨hl, fun m => ?_⟩
  rw [hc m]
  split <;> rfl

theorem any_moveRejects_iff (g : Game) (outside : Int → Bool) (blocks : List Int) (right : Bool)
    (hlen : g.board_.length = g.cells_width_ * g.cells_height_)
    (hsz : g.cells_width_ * g.cells_height_ < 2 ^ 64)
    (hin : ∀ p, p ∈ blocks → 0 ≤ p ∧ p < (g.cells_width_ : Int) * g.cells_height_) :
    blocks.any (moveRejects g outside right) = true ↔ moveBlocked g blocks right := by
  rw [List.any_eq_true]
  unfold moveBlocked
  constructor
  · rintro ⟨p, hp, h⟩
    exact ⟨p, hp, (moveRejects_iff g outside right p hlen hsz (hin p hp)).1.mp h⟩
  · rintro ⟨p, hp, h⟩
    exact ⟨p, hp, (moveRejects_iff g outside right p hlen hsz (hin p hp)).1.mpr h⟩

/-- C5: for a piece whose blocks lie inside the row-major board,
`MoveTetromino` changes nothing at all when some block is in the edge column
of the move direction or the cell horizontally adjacent to some block in that
direction is occupied; otherwise every block offset changes by exactly `+1`
(right) or `-1` (left), stays inside the board in the same row with its column
changed by exactly 1, and lands on an unoccupied cell.  In both cases the
occupied flag of every cell is as before.  This holds whatever the memory
outside the board contains. -/
theorem MoveTetromino_shifts_one_column_or_nothing (g : Game) (outside : Int → Bool)
    (t : Tetromino) (right : Bool)
    (hlen : g.board_.length = g.cells_width_ * g.cells_height_)
    (hsz : g.cells_width_ * g.cells_height_ < 2 ^ 64)
    (hin : ∀ p, p ∈ t.blocks_ → 0 ≤ p ∧ p < (g.cells_width_ : Int) * g.cells_height_) :
    (moveBlocked g t.blocks_ right → MoveTetromino g outside t right = (g, t)) ∧
    (¬ moveBlocked g t.blocks_ right →
      (MoveTetromino g outside t right).2.blocks_ =
        t.blocks_.map (fun p => p + moveDelta right) ∧
      ∀ p, p ∈ t.blocks_ →
        0 ≤ p + moveDelta right ∧
        p + moveDelta right < (g.cells_width_ : Int) * g.cells_height_ ∧
        (p + moveDelta right) / (g.cells_width_ : Int) = p / (g.cells_width_ : Int) ∧
        (p + moveDelta right) % (g.cells_width_ : Int) =
          p % (g.cells_width_ : Int) + moveDelta right ∧
        (cellAt (MoveTetromino g outside t right).1.board_
          (p + moveDelta right).toNat).occupied_ = false) ∧
    (MoveTetromino g outside t right).1.board_.length = g.board_.length ∧
    (∀ m, (cellAt (MoveTetromino g outside t right).1.board_ m).occupied_ =
      (cellAt g.board_ m).occupied_) := by
  have hany := any_moveRejects_iff g outside t.blocks_ right hlen hsz hin
  have hkeep : (MoveTetromino g outside t right).1.board_.length = g.board_.length ∧
      (∀ m, (cellAt (MoveTetromino g outside t right).1.board_ m).occupied_ =
        (cellAt g.board_ m).occupied_) := by
    by_cases hb : t.blocks_.any (moveRejects g outside right) = true
    · rw [MoveTetromino_rejected g outside t right hb]
      exact ⟨rfl, fun _ => rfl⟩
    · rw [(MoveTetromino_moved g outside t right hb).1]
      dsimp only
      obtain ⟨l1, c1⟩ := occupied_paint_color black t.blocks_ g.board_
      obtain ⟨l2, c2⟩ := occupied_paint_color t.render_color_
        (t.blocks_.map fun p => if right then p + 1 else p - 1)
        (t.blocks_.foldl (fun b p => storeAt b p fun c => { c with color_ := black }) g.board_)
      exact ⟨by rw [l2, l1], fun m => by rw [c2 m, c1 m]⟩
  refine ⟨fun hb => MoveTetromino_rejected g outside t right (hany.mpr hb), ?_, hkeep.1, hkeep.2⟩
  intro hnb
  have hna : ¬ t.blocks_.any (moveRejects g outside right) = true := fun h => hnb (hany.mp h)
  refine ⟨?_, ?_⟩
  · rw [(MoveTetromino_moved g outside t right hna).2]
    apply List.map_congr_left
    intro p _
    cases right
    · simp only [moveDelta, Bool.false_eq_true, if_false]
      omega
    · simp only [moveDelta, if_true]
  · intro p hp
    have hnot : ¬ (atEdgeColumn g.cells_width_ right p ∨
        (¬ atEdgeColumn g.cells_width_ right p ∧
          (cellAt g.board_ (p + moveDelta right).toNat).occupied_ = true)) :=
      fun h => hnb ⟨p, hp, h⟩
    have hne : ¬ atEdgeColumn g.cells_width_ right p := fun h => hnot (Or.inl h)
    obtain ⟨h1, h2, h3, h4⟩ := (moveRejects_iff g outside right p hlen hsz (hin p hp)).2 hne
    refine ⟨h1, h2, h3, h4, ?_⟩
    rw [hkeep.2]
    cases hx : (cellAt g.board_ (p + moveDelta right).toNat).occupied_
    · rfl
    · exact absurd (Or.inr ⟨hne, hx⟩) hnot

theorem MoveTetromino_shifts_one_column_or_nothing_witness :
    boardCorner.board_.length = boardCorner.cells_width_ * boardCorner.cells_height_ ∧
    boardCorner.cells_width_ * boardCorner.cells_height_ < 2 ^ 64 ∧
    (∀ p, p ∈ pieceLowerLeft.blocks_ →
      0 ≤ p ∧ p < (boardCorner.cells_width_ : Int) * boardCorner.cells_height_) ∧
    (MoveTetromino boardCorner (fun _ => true) pieceLowerLeft true).2.blocks_ = [4, 5] ∧
    (MoveTetromino boardCorner (fun _ => true) pieceLowerLeft false).2.blocks_ = [3, 4] ∧
    (∀ m, (cellAt (MoveTetromino boardCorner (fun _ => true) pieceLowerLeft true).1.board_
      m).occupied_ = (cellAt boardCorner.board_ m).occupied_) :=
  ⟨by decide, by decide, by decide, by decide, by decide,
    (MoveTetromino_shifts_one_column_or_nothing boardCorner (fun _ => true) pieceLowerLeft true
      (by decide) (by decide) (by decide)).2.2.2⟩


theorem BlocksAtSettlePosition_iff (g : Game) (outside : Int → Bool) (blocks : List Int)
    (hlen : g.board_.length = g.cells_width_ * g.cells_height_)
    (hsz : g.cells_width_ * g.cells_height_ < 2 ^ 64)
    (hin : ∀ p, p ∈ blocks → 0 ≤ p ∧ p < (g.cells_width_ : Int) * g.cells_height_) :
    BlocksAtSettlePosition g outside blocks = true ↔ atSettlePosition g blocks := by
  unfold BlocksAtSettlePosition atSettlePosition
  rw [List.any_eq_true]
  have hszI : (g.cells_width_ : Int) * g.cells_height_ < 2 ^ 64 := by exact_mod_cast hsz
  have hlenI : (g.board_.length : Int) = (g.cells_width_ : Int) * g.cells_height_ := by
    rw [hlen]; push_cast; rfl
  have key : ∀ p, p ∈ blocks →
      ((decide (toSizeT p ≥
          toSizeT ((g.cells_width_ : Int) * g.cells_height_ - g.cells_width_)) ||
        occupiedAt g.board_ outside (p + g.cells_width_)) = true ↔
      ((g.cells_width_ : Int) * g.cells_height_ - g.cells_width_ ≤ p ∨
        (p + g.cells_width_ < (g.cells_width_ : Int) * g.cells_height_ ∧
          (cellAt g.board_ (p + g.cells_width_).toNat).occupied_ = true))) := by
    intro p hp
    obtain ⟨hw, hh⟩ := width_pos_of_inside g p (hin p hp)
    have hwle := width_le_size g hh
    have e1 : toSizeT p = p := toSizeT_of_lt p (hin p hp).1 (by have := (hin p hp).2; omega)
    have e2 : toSizeT ((g.cells_width_ : Int) * g.cells_height_ - g.cells_width_) =
        (g.cells_width_ : Int) * g.cells_height_ - g.cells_width_ :=
      toSizeT_of_lt _ (by omega) (by omega)
    rw [e1, e2, Bool.or_eq_true, decide_eq_true_eq]
    by_cases hb : (g.cells_width_ : Int) * g.cells_height_ - g.cells_width_ ≤ p
    · exact ⟨fun _ => Or.inl hb, fun _ => Or.inl hb⟩
    · have h0 := (hin p hp).1
      rw [occupiedAt_inside _ _ _ (by omega) (by omega)]
      constructor
      · rintro (h | h)
        · exact absurd h hb
        · exact Or.inr ⟨by omega, h⟩
      · rintro (h | ⟨-, h⟩)
        · exact absurd h hb
        · exact Or.inr h
  constructor
  · rintro ⟨p, hp, h⟩
    exact ⟨p, hp, (key p hp).mp h⟩
  · rintro ⟨p, hp, h⟩
    exact ⟨p, hp, (key p hp).mpr h⟩

theorem inside_after_step (g : Game) (blocks : List Int)
    (hin : ∀ p, p ∈ blocks → 0 ≤ p ∧ p < (g.cells_width_ : Int) * g.cells_height_)
    (hns : ¬ atSettlePosition g blocks) :
    ∀ p, p ∈ blocks → 0 ≤ p + g.cells_width_ ∧
      p + g.cells_width_ < (g.cells_width_ : Int) * g.cells_height_ ∧
      (cellAt g.board_ (p + g.cells_width_).toNat).occupied_ = false := by
  intro p hp
  have h0 := hin p hp
  have h1 : ¬ ((g.cells_width_ : Int) * g.cells_height_ - g.cells_width_ ≤ p) :=
    fun h => hns ⟨p, hp, Or.inl h⟩
  refine ⟨by omega, by omega, ?_⟩
  cases hx : (cellAt g.board_ (p + g.cells_width_).toNat).occupied_
  · rfl
  · exact absurd ⟨p, hp, Or.inr ⟨by omega, hx⟩⟩ hns

/-- C7: when the piece, with its blocks inside the row-major board, is not at
settle position, `DescendTetromino` returns `true`, adds exactly the board
width to every block offset (same column, one row down, still inside the
board), adds exactly 1 to the score accumulator when one is supplied, and
returns the session, hence every occupied flag, unchanged. -/
theorem DescendTetromino_moves_one_row (g : Game) (outside : Int → Bool) (fuel : Nat)
    (t : Tetromino) (score_ : Option Int)
    (hlen : g.board_.length = g.cells_width_ * g.cells_height_)
    (hsz : g.cells_width_ * g.cells_height_ < 2 ^ 64)
    (hin : ∀ p, p ∈ t.blocks_ → 0 ≤ p ∧ p < (g.cells_width_ : Int) * g.cells_height_)
    (hns : ¬ atSettlePosition g t.blocks_) :
    ∃ t1, DescendTetromino g outside fuel t score_ =
        some (true, g, t1, score_.map fun s => s + 1) ∧
      t1.blocks_ = t.blocks_.map (fun p => p + (g.cells_width_ : Int)) ∧
      t1.type_ = t.type_ ∧ t1.rotation_degrees_ = t.rotation_degrees_ ∧
      t1.rotation_indices_ = t.rotation_indices_ ∧ t1.render_color_ = t.render_color_ ∧
      ∀ p, p ∈ t.blocks_ →
        (p + g.cells_width_) / (g.cells_width_ : Int) = p / (g.cells_width_ : Int) + 1 ∧
        (p + g.cells_width_) % (g.cells_width_ : Int) = p % (g.cells_width_ : Int) ∧
        0 ≤ p + g.cells_width_ ∧
        p + g.cells_width_ < (g.cells_width_ : Int) * g.cells_height_ := by
  have hb : ¬ BlocksAtSettlePosition g outside t.blocks_ = true :=
    fun h => hns ((BlocksAtSettlePosition_iff g outside t.blocks_ hlen hsz hin).mp h)
  have harith : ∀ p, p ∈ t.blocks_ →
      (p + g.cells_width_) / (g.cells_width_ : Int) = p / (g.cells_width_ : Int) + 1 ∧
      (p + g.cells_width_) % (g.cells_width_ : Int) = p % (g.cells_width_ : Int) ∧
      0 ≤ p + g.cells_width_ ∧
      p + g.cells_width_ < (g.cells_width_ : Int) * g.cells_height_ := by
    intro p hp
    obtain ⟨hw, -⟩ := width_pos_of_inside g p (hin p hp)
    have hwI : (0 : Int) < (g.cells_width_ : Int) := by exact_mod_cast hw
    obtain ⟨a, b⟩ := emod_add_width p g.cells_width_ hwI
    obtain ⟨c, d, -⟩ := inside_after_step g t.blocks_ hin hns p hp
    exact ⟨a, b, c, d⟩
  unfold DescendTetromino
  rw [if_neg hb]
  dsimp only
  split
  · exact ⟨_, rfl, rfl, rfl, rfl, rfl, rfl, harith⟩
  · exact ⟨_, rfl, rfl, rfl, rfl, rfl, rfl, harith⟩


theorem settle_paint (col : SDL_Color) (blocks : List Int) (board : List Cell) :
    (blocks.foldl
      (fun b p => storeAt b p fun c => { c with occupied_ := true, color_ := col })
      board).length = board.length ∧
    ∀ m, cellAt (blocks.foldl
        (fun b p => storeAt b p fun c => { c with occupied_ := true, color_ := col }) board) m =
      if (m : Int) ∈ blocks ∧ m < board.length then settleCell col (cellAt board m)
      else cellAt board m :=
  paint_loop (fun c => { c with occupied_ := true, color_ := col }) (fun _ => rfl) blocks board

theorem settle_paint_idem (col : SDL_Color) (blocks : List Int) (board : List Cell) :
    blocks.foldl (fun b p => storeAt b p fun c => { c with occupied_ := true, color_ := col })
      (blocks.foldl
        (fun b p => storeAt b p fun c => { c with occupied_ := true, color_ := col }) board) =
    blocks.foldl (fun b p => storeAt b p fun c => { c with occupied_ := true, color_ := col })
      board := by
  obtain ⟨l1, c1⟩ := settle_paint col blocks board
  obtain ⟨l2, c2⟩ := settle_paint col blocks
    (blocks.foldl (fun b p => storeAt b p fun c => { c with occupied_ := true, color_ := col })
      board)
  apply list_eq_of_cellAt _ _ l2
  intro m _
  rw [c2 m, c1 m, l1]
  split <;> rfl

theorem dropLoop_at_settle (g : Game) (outside : Int → Bool) (fuel : Nat) (blocks : List Int)
    (score_ : Option Int) (h : BlocksAtSettlePosition g outside blocks = true) :
    dropLoop g outside fuel blocks score_ = some (blocks, score_) := by
  cases fuel with
  | zero => unfold dropLoop; rw [if_pos h]
  | succ n => unfold dropLoop; rw [if_pos h]

theorem SettleTetromino_at_settle (g : Game) (outside : Int → Bool) (fuel : Nat) (t : Tetromino)
    (score_ : Option Int) (h : BlocksAtSettlePosition g outside t.blocks_ = true) :
    Tetromino.SettleTetromino g outside fuel t score_ =
      some ({ g with
              board_ := t.blocks_.foldl
                (fun b p => storeAt b p fun c =>
                  { c with occupied_ := true, color_ := t.render_color_ })
                g.board_ },
            t, score_) := by
  unfold Tetromino.SettleTetromino
  rw [dropLoop_at_settle g outside fuel t.blocks_ score_ h]

/-- C6: when the piece, with its blocks inside the row-major board, is at
settle position (some block in the bottom row or above an occupied cell),
`DescendTetromino` returns `false`, leaves the blocks and the score
accumulator as they were and makes the block cells occupied with the piece
colour, touching no other cell; a second call on the resulting state returns
`false` again and leaves session, blocks and score exactly as the first call
left them. -/
theorem DescendTetromino_settles_once (g : Game) (outside : Int → Bool) (fuel : Nat)
    (t : Tetromino) (score_ : Option Int)
    (hlen : g.board_.length = g.cells_width_ * g.cells_height_)
    (hsz : g.cells_width_ * g.cells_height_ < 2 ^ 64)
    (hin : ∀ p, p ∈ t.blocks_ → 0 ≤ p ∧ p < (g.cells_width_ : Int) * g.cells_height_)
    (hs : atSettlePosition g t.blocks_) :
    ∃ g1, DescendTetromino g outside fuel t score_ = some (false, g1, t, score_) ∧
      g1.board_.length = g.board_.length ∧
      (∀ p, p ∈ t.blocks_ →
        (cellAt g1.board_ p.toNat).occupied_ = true ∧
        (cellAt g1.board_ p.toNat).color_ = t.render_color_) ∧
      (∀ m : Nat, (m : Int) ∉ t.blocks_ → cellAt g1.board_ m = cellAt g.board_ m) ∧
      DescendTetromino g1 outside fuel t score_ = some (false, g1, t, score_) := by
  have hb : BlocksAtSettlePosition g outside t.blocks_ = true :=
    (BlocksAtSettlePosition_iff g outside t.blocks_ hlen hsz hin).mpr hs
  obtain ⟨l1, c1⟩ := settle_paint t.render_color_ t.blocks_ g.board_
  have hlenI : (g.board_.length : Int) = (g.cells_width_ : Int) * g.cells_height_ := by
    rw [hlen]; push_cast; rfl
  have hcell : ∀ p, p ∈ t.blocks_ →
      cellAt (t.blocks_.foldl
        (fun b p => storeAt b p fun c =>
          { c with occupied_ := true, color_ := t.render_color_ }) g.board_) p.toNat =
        settleCell t.render_color_ (cellAt g.board_ p.toNat) := by
    intro p hp
    have h0 := hin p hp
    rw [c1 p.toNat, if_pos]
    refine ⟨?_, by omega⟩
    rw [Int.toNat_of_nonneg h0.1]
    exact hp
  refine ⟨{ g with
      board_ := t.blocks_.foldl
        (fun b p => storeAt b p fun c =>
          { c with occupied_ := true, color_ := t.render_color_ }) g.board_ }, ?_, l1, ?_, ?_, ?_⟩
  · unfold DescendTetromino
    rw [if_pos hb, SettleTetromino_at_settle g outside fuel t none hb]
  · intro p hp
    show (cellAt (t.blocks_.foldl _ g.board_) p.toNat).occupied_ = true ∧
      (cellAt (t.blocks_.foldl _ g.board_) p.toNat).color_ = t.render_color_
    rw [hcell p hp]
    exact ⟨rfl, rfl⟩
  · intro m hm
    show cellAt (t.blocks_.foldl _ g.board_) m = _
    rw [c1 m, if_neg (fun h => hm h.1)]
  · -- the second call
    have hs1 : atSettlePosition
        { g with
          board_ := t.blocks_.foldl
            (fun b p => storeAt b p fun c =>
              { c with occupied_ := true, color_ := t.render_color_ }) g.board_ }
        t.blocks_ := by
      obtain ⟨p, hp, h⟩ := hs
      refine ⟨p, hp, ?_⟩
      rcases h with h | ⟨h1, h2⟩
      · exact Or.inl h
      · refine Or.inr ⟨h1, ?_⟩
        show (cellAt (t.blocks_.foldl _ g.board_) (p + g.cells_width_).toNat).occupied_ = true
        rw [c1]
        split
        · rfl
        · exact h2
    have hb1 := (BlocksAtSettlePosition_iff
      { g with
        board_ := t.blocks_.foldl
          (fun b p => storeAt b p fun c =>
            { c with occupied_ := true, color_ := t.render_color_ }) g.board_ }
      outside t.blocks_ (by rw [← hlen]; exact l1) hsz hin).mpr hs1
    unfold DescendTetromino
    rw [if_pos hb1, SettleTetromino_at_settle _ outside fuel t none hb1]
    dsimp only
    rw [settle_paint_idem]


theorem shiftDown_zero (w : Nat) (blocks : List Int) : shiftDown w blocks 0 = blocks := by
  unfold shiftDown
  simp

theorem shiftDown_step (w : Nat) (blocks : List Int) (k : Nat) :
    shiftDown w (blocks.map fun (p : Int) => p + w) k = shiftDown w blocks (k + 1) := by
  unfold shiftDown
  rw [List.map_map]
  apply List.map_congr_left
  intro p _
  simp only [Function.comp]
  push_cast
  rw [Int.add_mul]
  omega

theorem map_score_zero (score_ : Option Int) : (score_.map fun s => s + ((0 : Nat) : Int)) = score_ := by
  cases score_ <;> simp

theorem map_score_step (score_ : Option Int) (k : Nat) :
    ((score_.map fun s => s + 1).map fun s => s + (k : Int)) =
      score_.map fun s => s + ((k + 1 : Nat) : Int) := by
  cases score_ with
  | none => rfl
  | some s =>
    simp only [Option.map_some']
    congr 1
    push_cast
    omega

theorem dropLoop_eq (g : Game) (outside : Int → Bool)
    (hlen : g.board_.length = g.cells_width_ * g.cells_height_)
    (hsz : g.cells_width_ * g.cells_height_ < 2 ^ 64) (k : Nat) :
    ∀ (blocks : List Int) (score_ : Option Int) (fuel : Nat),
      (∀ p, p ∈ blocks → 0 ≤ p ∧ p < (g.cells_width_ : Int) * g.cells_height_) →
      (∀ k', k' < k → ¬ atSettlePosition g (shiftDown g.cells_width_ blocks k')) →
      atSettlePosition g (shiftDown g.cells_width_ blocks k) →
      k ≤ fuel →
      dropLoop g outside fuel blocks score_ =
        some (shiftDown g.cells_width_ blocks k, score_.map fun s => s + (k : Int)) ∧
      (∀ p, p ∈ shiftDown g.cells_width_ blocks k →
        0 ≤ p ∧ p < (g.cells_width_ : Int) * g.cells_height_) ∧
      (0 < k → ∀ p, p ∈ shiftDown g.cells_width_ blocks k →
        (cellAt g.board_ p.toNat).occupied_ = false) := by
  induction k with
  | zero =>
    intro blocks score_ fuel hin _ hs _
    rw [shiftDown_zero] at hs ⊢
    have hb := (BlocksAtSettlePosition_iff g outside blocks hlen hsz hin).mpr hs
    rw [dropLoop_at_settle g outside fuel blocks score_ hb, map_score_zero]
    exact ⟨rfl, hin, fun h => absurd h (Nat.lt_irrefl 0)⟩
  | succ k ih =>
    intro blocks score_ fuel hin hmin hs hfuel
    have hns : ¬ atSettlePosition g blocks := by
      have := hmin 0 (Nat.succ_pos k)
      rw [shiftDown_zero] at this
      exact this
    have hb : ¬ BlocksAtSettlePosition g outside blocks = true :=
      fun h => hns ((BlocksAtSettlePosition_iff g outside blocks hlen hsz hin).mp h)
    have hstep := inside_after_step g blocks hin hns
    have hin' : ∀ p, p ∈ (blocks.map fun (p : Int) => p + g.cells_width_) →
        0 ≤ p ∧ p < (g.cells_width_ : Int) * g.cells_height_ := by
      intro p hp
      rw [List.mem_map] at hp
      obtain ⟨q, hq, rfl⟩ := hp
      exact ⟨(hstep q hq).1, (hstep q hq).2.1⟩
    obtain ⟨n, rfl⟩ : ∃ n, fuel = n + 1 := ⟨fuel - 1, by omega⟩
    obtain ⟨r1, r2, r3⟩ := ih (blocks.map fun (p : Int) => p + g.cells_width_)
      (score_.map fun s => s + 1) n hin'
      (by
        intro k' hk'
        rw [shiftDown_step]
        exact hmin (k' + 1) (by omega))
      (by rw [shiftDown_step]; exact hs)
      (by omega)
    rw [shiftDown_step] at r1 r2 r3
    refine ⟨?_, r2, fun _ => ?_⟩
    · unfold dropLoop
      rw [if_neg hb, r1, map_score_step]
    · by_cases hk : 0 < k
      · exact r3 hk
      · have hk0 : k = 0 := by omega
        subst hk0
        intro p hp
        unfold shiftDown at hp
        rw [List.mem_map] at hp
        obtain ⟨q, hq, rfl⟩ := hp
        have := (hstep q hq).2.2
        simp only [Nat.zero_add, Nat.cast_one, Int.one_mul]
        exact this


theorem count_range_mem (n : Nat) (L : List Int) (hnd : L.Nodup)
    (hin : ∀ p, p ∈ L → 0 ≤ p ∧ p < (n : Int)) :
    ((List.range n).filter fun m : Nat => decide ((m : Int) ∈ L)).length = L.length := by
  have h1 : (((List.range n).filter fun m : Nat => decide ((m : Int) ∈ L)).map
      (fun m : Nat => (m : Int))).Nodup :=
    List.Nodup.map Nat.cast_injective (List.Nodup.filter _ (List.nodup_range n))
  have h2 : (((List.range n).filter fun m : Nat => decide ((m : Int) ∈ L)).map
      (fun m : Nat => (m : Int))).Perm L := by
    rw [List.perm_ext_iff_of_nodup h1 hnd]
    intro a
    rw [List.mem_map]
    constructor
    · rintro ⟨m, hm, rfl⟩
      rw [List.mem_filter] at hm
      exact of_decide_eq_true hm.2
    · intro ha
      obtain ⟨h0, hlt⟩ := hin a ha
      refine ⟨a.toNat, ?_, Int.toNat_of_nonneg h0⟩
      rw [List.mem_filter, List.mem_range]
      refine ⟨by omega, ?_⟩
      rw [Int.toNat_of_nonneg h0]
      exact decide_eq_true ha
  have := h2.length_eq
  rw [List.length_map] at this
  exact this

theorem exists_first_settle (g : Game) (blocks : List Int) (hne : blocks ≠ [])
    (hin : ∀ p, p ∈ blocks → 0 ≤ p ∧ p < (g.cells_width_ : Int) * g.cells_height_) :
    ∃ k, atSettlePosition g (shiftDown g.cells_width_ blocks k) ∧
      ∀ k', k' < k → ¬ atSettlePosition g (shiftDown g.cells_width_ blocks k') := by
  classical
  have hex : ∃ k, atSettlePosition g (shiftDown g.cells_width_ blocks k) := by
    obtain ⟨p, hp⟩ := List.exists_mem_of_ne_nil blocks hne
    refine ⟨g.cells_height_, p + (g.cells_height_ : Int) * g.cells_width_, ?_, Or.inl ?_⟩
    · unfold shiftDown
      exact List.mem_map.mpr ⟨p, hp, rfl⟩
    · have := (hin p hp).1
      have e : (g.cells_width_ : Int) * g.cells_height_ =
          (g.cells_height_ : Int) * g.cells_width_ := Int.mul_comm _ _
      have hw : (0 : Int) ≤ (g.cells_width_ : Int) := Int.ofNat_nonneg _
      omega
  exact ⟨Nat.find hex, Nat.find_spec hex, fun k' hk' => Nat.find_min hex hk'⟩

theorem shiftDown_nodup (w : Nat) (blocks : List Int) (k : Nat) (h : blocks.Nodup) :
    (shiftDown w blocks k).Nodup := by
  unfold shiftDown
  apply List.Nodup.map _ h
  intro a b hab
  simp only at hab
  omega

/-- C8: for a piece with four distinct blocks on unoccupied cells inside the
row-major board, `Tetromino::SettleTetromino` moves the blocks straight down
by `k` rows, where `k` is the smallest number of rows at which the shifted
blocks are at settle position (`k < cells_height_`, and any bound of at least
`k` loop passes gives the result), adds exactly `k` to the score accumulator
when one is supplied, and then makes exactly the four landing cells occupied
with the piece colour: the cells that become newly occupied are four, and
every other cell and every other field of the session is unchanged. -/
theorem SettleTetromino_drops_and_marks_four_cells (g : Game) (outside : Int → Bool)
    (t : Tetromino) (score_ : Option Int)
    (hlen : g.board_.length = g.cells_width_ * g.cells_height_)
    (hsz : g.cells_width_ * g.cells_height_ < 2 ^ 64)
    (hin : ∀ p, p ∈ t.blocks_ → 0 ≤ p ∧ p < (g.cells_width_ : Int) * g.cells_height_)
    (h4 : t.blocks_.length = 4)
    (hnd : t.blocks_.Nodup)
    (hfree : ∀ p, p ∈ t.blocks_ → (cellAt g.board_ p.toNat).occupied_ = false) :
    ∃ k : Nat, k < g.cells_height_ ∧
      atSettlePosition g (shiftDown g.cells_width_ t.blocks_ k) ∧
      (∀ k', k' < k → ¬ atSettlePosition g (shiftDown g.cells_width_ t.blocks_ k')) ∧
      ∀ fuel, k ≤ fuel →
        ∃ board1 : List Cell,
          Tetromino.SettleTetromino g outside fuel t score_ =
            some ({ g with board_ := board1 },
              { t with blocks_ := shiftDown g.cells_width_ t.blocks_ k },
              score_.map fun s => s + (k : Int)) ∧
          board1.length = g.board_.length ∧
          (∀ m : Nat, (m : Int) ∈ shiftDown g.cells_width_ t.blocks_ k →
            m < g.board_.length ∧ (cellAt g.board_ m).occupied_ = false ∧
            cellAt board1 m = { occupied_ := true, color_ := t.render_color_ }) ∧
          (∀ m : Nat, (m : Int) ∉ shiftDown g.cells_width_ t.blocks_ k →
            cellAt board1 m = cellAt g.board_ m) ∧
          ((List.range g.board_.length).filter fun m =>
            (cellAt board1 m).occupied_ && !(cellAt g.board_ m).occupied_).length = 4 := by
  have hne : t.blocks_ ≠ [] := by
    intro h
    rw [h] at h4
    exact absurd h4 (by decide)
  obtain ⟨k, hk, hmin⟩ := exists_first_settle g t.blocks_ hne hin
  have hlenI : (g.board_.length : Int) = (g.cells_width_ : Int) * g.cells_height_ := by
    rw [hlen]; push_cast; rfl
  have hland := fun fuel (hf : k ≤ fuel) =>
    dropLoop_eq g outside hlen hsz k t.blocks_ score_ fuel hin hmin hk hf
  obtain ⟨-, hinL, hfreeL'⟩ := hland k (Nat.le_refl k)
  have hfreeL : ∀ p, p ∈ shiftDown g.cells_width_ t.blocks_ k →
      (cellAt g.board_ p.toNat).occupied_ = false := by
    by_cases hk0 : 0 < k
    · exact hfreeL' hk0
    · have : k = 0 := by omega
      subst this
      rw [shiftDown_zero]
      exact hfree
  have hklt : k < g.cells_height_ := by
    obtain ⟨p, hp⟩ := List.exists_mem_of_ne_nil t.blocks_ hne
    have hmem : p + (k : Int) * g.cells_width_ ∈ shiftDown g.cells_width_ t.blocks_ k := by
      unfold shiftDown
      exact List.mem_map.mpr ⟨p, hp, rfl⟩
    have h1 := (hinL _ hmem).2
    have h0 := (hin p hp).1
    have hlt : (k : Int) * g.cells_width_ < (g.cells_height_ : Int) * g.cells_width_ := by
      rw [Int.mul_comm (g.cells_height_ : Int)]
      omega
    have hlt' : k * g.cells_width_ < g.cells_height_ * g.cells_width_ := by exact_mod_cast hlt
    exact Nat.lt_of_mul_lt_mul_right hlt'
  refine ⟨k, hklt, hk, hmin, fun fuel hf => ?_⟩
  obtain ⟨hdrop, -, -⟩ := hland fuel hf
  obtain ⟨l1, c1⟩ := settle_paint t.render_color_ (shiftDown g.cells_width_ t.blocks_ k) g.board_
  have hmarked : ∀ m : Nat, (m : Int) ∈ shiftDown g.cells_width_ t.blocks_ k →
      m < g.board_.length ∧ (cellAt g.board_ m).occupied_ = false ∧
      cellAt ((shiftDown g.cells_width_ t.blocks_ k).foldl
        (fun b p => storeAt b p fun c =>
          { c with occupied_ := true, color_ := t.render_color_ }) g.board_) m =
        { occupied_ := true, color_ := t.render_color_ } := by
    intro m hm
    have hb := hinL _ hm
    have hlt : m < g.board_.length := by omega
    have hfr := hfreeL _ hm
    rw [Int.toNat_ofNat] at hfr
    refine ⟨hlt, hfr, ?_⟩
    rw [c1 m, if_pos ⟨hm, hlt⟩]
    rfl
  have hother : ∀ m : Nat, (m : Int) ∉ shiftDown g.cells_width_ t.blocks_ k →
      cellAt ((shiftDown g.cells_width_ t.blocks_ k).foldl
        (fun b p => storeAt b p fun c =>
          { c with occupied_ := true, color_ := t.render_color_ }) g.board_) m =
        cellAt g.board_ m := by
    intro m hm
    rw [c1 m, if_neg (fun h => hm h.1)]
  refine ⟨_, ?_, l1, hmarked, hother, ?_⟩
  · unfold Tetromino.SettleTetromino
    rw [hdrop]
  · have hfilter : ((List.range g.board_.length).filter fun m =>
        (cellAt ((shiftDown g.cells_width_ t.blocks_ k).foldl
          (fun b p => storeAt b p fun c =>
            { c with occupied_ := true, color_ := t.render_color_ }) g.board_) m).occupied_ &&
          !(cellAt g.board_ m).occupied_) =
        (List.range g.board_.length).filter fun m : Nat =>
          decide ((m : Int) ∈ shiftDown g.cells_width_ t.blocks_ k) := by
      apply List.filter_congr
      intro m _
      by_cases hm : (m : Int) ∈ shiftDown g.cells_width_ t.blocks_ k
      · obtain ⟨-, a, b⟩ := hmarked m hm
        rw [b, a]
        simp [hm]
      · rw [hother m hm]
        simp [hm]
    rw [hfilter, count_range_mem _ _ (shiftDown_nodup _ _ _ hnd)
      (fun p hp => by have := hinL p hp; omega)]
    unfold shiftDown
    rw [List.length_map, h4]

theorem SettleTetromino_drops_and_marks_four_cells_witness :
    boardWell.board_.length = boardWell.cells_width_ * boardWell.cells_height_ ∧
    boardWell.cells_width_ * boardWell.cells_height_ < 2 ^ 64 ∧
    pieceTop.blocks_.length = 4 ∧
    pieceTop.blocks_.Nodup ∧
    Tetromino.SettleTetromino boardWell (fun _ => false) 4 pieceTop (some 7) =
      some ({ boardWell with
              board_ :=
                [default, default, default,
                 { occupied_ := true, color_ := pieceTop.render_color_ },
                 { occupied_ := true, color_ := pieceTop.render_color_ },
                 { occupied_ := true, color_ := pieceTop.render_color_ },
                 default, { occupied_ := true, color_ := pieceTop.render_color_ }, default,
                 default, redCell, default] },
            { pieceTop with blocks_ := [3, 4, 5, 7] }, some 8) ∧
    ∃ k : Nat, k < boardWell.cells_height_ ∧
      atSettlePosition boardWell (shiftDown boardWell.cells_width_ pieceTop.blocks_ k) :=
  ⟨by decide, by decide, by decide, by decide, by decide,
    (SettleTetromino_drops_and_marks_four_cells boardWell (fun _ => false) pieceTop (some 7)
      (by decide) (by decide) (by decide) (by decide) (by decide) (by decide)).imp
      fun _ h => ⟨h.1, h.2.1⟩⟩


theorem DescendTetromino_moves_one_row_witness :
    boardWell.board_.length = boardWell.cells_width_ * boardWell.cells_height_ ∧
    boardWell.cells_width_ * boardWell.cells_height_ < 2 ^ 64 ∧
    (∀ p, p ∈ pieceTop.blocks_ →
      0 ≤ p ∧ p < (boardWell.cells_width_ : Int) * boardWell.cells_height_) ∧
    ¬ atSettlePosition boardWell pieceTop.blocks_ ∧
    ∃ t1, DescendTetromino boardWell (fun _ => false) 0 pieceTop (some 7) =
        some (true, boardWell, t1, (some 7).map fun s => s + 1) ∧
      t1.blocks_ = pieceTop.blocks_.map (fun p => p + (boardWell.cells_width_ : Int)) :=
  ⟨by decide, by decide, by decide, by unfold atSettlePosition; decide,
    (DescendTetromino_moves_one_row boardWell (fun _ => false) 0 pieceTop (some 7)
      (by decide) (by decide) (by decide) (by unfold atSettlePosition; decide)).imp
      fun _ h => ⟨h.1, h.2.1⟩⟩

theorem DescendTetromino_settles_once_witness :
    boardWell.board_.length = boardWell.cells_width_ * boardWell.cells_height_ ∧
    boardWell.cells_width_ * boardWell.cells_height_ < 2 ^ 64 ∧
    (∀ p, p ∈ pieceResting.blocks_ →
      0 ≤ p ∧ p < (boardWell.cells_width_ : Int) * boardWell.cells_height_) ∧
    atSettlePosition boardWell pieceResting.blocks_ ∧
    ∃ g1, DescendTetromino boardWell (fun _ => false) 0 pieceResting (some 7) =
        some (false, g1, pieceResting, some 7) ∧
      DescendTetromino g1 (fun _ => false) 0 pieceResting (some 7) =
        some (false, g1, pieceResting, some 7) :=
  ⟨by decide, by decide, by decide, by unfold atSettlePosition; decide,
    (DescendTetromino_settles_once boardWell (fun _ => false) 0 pieceResting (some 7)
      (by decide) (by decide) (by decide) (by unfold atSettlePosition; decide)).imp
      fun _ h => ⟨h.1, h.2.2.2.2⟩⟩


theorem scanSlot_eq (g : Game) (outside : Int → Bool) (t : Tetromino) (s : Nat) (hs : s < 4) :
    scanSlot g outside t (4 * s) = (slotFree g outside t s, (4 * s + 4) % 16) := by
  unfold scanSlot slotFree slotCells
  have e1 : (4 * s + 1) % 16 = 4 * s + 1 := by omega
  have e2 : (4 * s + 1 + 1) % 16 = 4 * s + 2 := by omega
  have e3 : (4 * s + 2 + 1) % 16 = 4 * s + 3 := by omega
  have e4 : (4 * s + 3 + 1) % 16 = (4 * s + 4) % 16 := by omega
  simp only [List.range_succ, List.range_zero, List.nil_append, List.cons_append, List.foldl_cons,
    List.foldl_nil, List.map_cons, List.map_nil, List.all_cons, List.all_nil, e1, e2, e3, e4,
    Nat.add_zero, Bool.and_true]
  cases occupiedAt g.board_ outside (t.bounding_box_.getD (t.rotation_indices_.getD (4 * s) 0) 0) <;>
  cases occupiedAt g.board_ outside
    (t.bounding_box_.getD (t.rotation_indices_.getD (4 * s + 1) 0) 0) <;>
  cases occupiedAt g.board_ outside
    (t.bounding_box_.getD (t.rotation_indices_.getD (4 * s + 2) 0) 0) <;>
  cases occupiedAt g.board_ outside
    (t.bounding_box_.getD (t.rotation_indices_.getD (4 * s + 3) 0) 0) <;>
  rfl


theorem searchLoop_pass (g : Game) (outside : Int → Bool) (t : Tetromino) (fuel s : Nat)
    (a : Int) (hs : s < 4) :
    searchLoop g outside t (fuel + 1) (4 * s) a =
      if slotFree g outside t s = true then some (true, 4 * ((s + 1) % 4))
      else if a + 1 = 4 then some (false, 4 * ((s + 1) % 4))
      else searchLoop g outside t fuel (4 * ((s + 1) % 4)) (a + 1) := by
  have e : (4 * s + 4) % 16 = 4 * ((s + 1) % 4) := by omega
  conv => lhs; unfold searchLoop
  simp only [scanSlot_eq g outside t s hs, e]
  cases hf : slotFree g outside t s
  · by_cases ha : a + 1 = 4
    · simp [ha]
    · simp [ha]
  · simp

theorem searchLoop_four (g : Game) (outside : Int → Bool) (t : Tetromino) (s : Nat)
    (hs : s < 4) :
    searchLoop g outside t 4 (4 * s) 0 =
      if slotFree g outside t s = true then some (true, 4 * ((s + 1) % 4))
      else if slotFree g outside t ((s + 1) % 4) = true then some (true, 4 * ((s + 2) % 4))
      else if slotFree g outside t ((s + 2) % 4) = true then some (true, 4 * ((s + 3) % 4))
      else if slotFree g outside t ((s + 3) % 4) = true then some (true, 4 * (s % 4))
      else some (false, 4 * (s % 4)) := by
  have h1 : (s + 1) % 4 < 4 := Nat.mod_lt _ (by decide)
  have h2 : ((s + 1) % 4 + 1) % 4 < 4 := Nat.mod_lt _ (by decide)
  have h3 : (((s + 1) % 4 + 1) % 4 + 1) % 4 < 4 := Nat.mod_lt _ (by decide)
  have e2 : ((s + 1) % 4 + 1) % 4 = (s + 2) % 4 := by omega
  have e3 : ((s + 2) % 4 + 1) % 4 = (s + 3) % 4 := by omega
  have e4 : ((s + 3) % 4 + 1) % 4 = s % 4 := by omega
  rw [searchLoop_pass g outside t 3 s 0 hs]
  by_cases f0 : slotFree g outside t s = true
  · rw [if_pos f0, if_pos f0]
  · rw [if_neg f0, if_neg f0, if_neg (by decide), searchLoop_pass g outside t 2 _ _ h1]
    by_cases f1 : slotFree g outside t ((s + 1) % 4) = true
    · rw [if_pos f1, if_pos f1, e2]
    · rw [if_neg f1, if_neg f1, if_neg (by decide), e2,
        searchLoop_pass g outside t 1 _ _ (Nat.mod_lt _ (by decide))]
      by_cases f2 : slotFree g outside t ((s + 2) % 4) = true
      · rw [if_pos f2, if_pos f2, e3]
      · rw [if_neg f2, if_neg f2, if_neg (by decide), e3,
          searchLoop_pass g outside t 0 _ _ (Nat.mod_lt _ (by decide))]
        by_cases f3 : slotFree g outside t ((s + 3) % 4) = true
        · rw [if_pos f3, if_pos f3, e4]
        · rw [if_neg f3, if_neg f3, if_pos (by decide), e4]

theorem assign_blocks (t : Tetromino) (s : Nat) (blocks : List Int) (h4 : blocks.length = 4) :
    (List.range 4).foldl
      (fun b i => b.set i (t.bounding_box_.getD (t.rotation_indices_.getD (4 * s + i) 0) 0))
      blocks = slotCells t s := by
  match blocks, h4 with
  | [a, b, c, d], _ =>
    simp [slotCells, List.range_succ, List.set]


theorem slotFree_rotation (g : Game) (outside : Int → Bool) (t : Tetromino) (r : Int) (s : Nat) :
    slotFree g outside { t with rotation_degrees_ := r } s = slotFree g outside t s := rfl

theorem slotCells_rotation (t : Tetromino) (r : Int) (s : Nat) :
    slotCells { t with rotation_degrees_ := r } s = slotCells t s := rfl

theorem rotate_core (g : Game) (outside : Int → Bool) (t : Tetromino) (q : Nat) (hq : q < 4)
    (hr : t.rotation_degrees_ = 90 * (q : Int)) (hO : t.type_ ≠ TetrominoType.O_BLOCK)
    (h4 : t.blocks_.length = 4) :
    RotateTetromino g outside t 90 =
      some (g,
        { t with
          rotation_degrees_ := 90 * (((q + 1) % 4 : Nat) : Int)
          blocks_ :=
            if slotFree g outside t ((q + 1) % 4) = true then slotCells t ((q + 1) % 4)
            else if slotFree g outside t ((q + 2) % 4) = true then slotCells t ((q + 2) % 4)
            else if slotFree g outside t ((q + 3) % 4) = true then slotCells t ((q + 3) % 4)
            else if slotFree g outside t (q % 4) = true then slotCells t (q % 4)
            else t.blocks_ }) := by
  have hs0 : (q + 1) % 4 < 4 := Nat.mod_lt _ (by decide)
  have hstart : (toSizeT (((t.rotation_degrees_.tdiv 90) * 4 + ((90 : Int).tdiv 90) * 4).tmod
      16)).toNat = 4 * ((q + 1) % 4) := by
    rw [hr]
    interval_cases q <;> decide
  have hrot : (t.rotation_degrees_ + 90).tmod 360 = 90 * (((q + 1) % 4 : Nat) : Int) := by
    rw [hr]
    interval_cases q <;> decide
  have e1 : ((q + 1) % 4 + 1) % 4 = (q + 2) % 4 := by omega
  have e2 : ((q + 1) % 4 + 2) % 4 = (q + 3) % 4 := by omega
  have e3 : ((q + 1) % 4 + 3) % 4 = q % 4 := by omega
  have e4 : (q + 1) % 4 % 4 = (q + 1) % 4 := by omega
  have k1 : (4 * ((q + 2) % 4) + 12) % 16 = 4 * ((q + 1) % 4) := by omega
  have k2 : (4 * ((q + 3) % 4) + 12) % 16 = 4 * ((q + 2) % 4) := by omega
  have k3 : (4 * (q % 4) + 12) % 16 = 4 * ((q + 3) % 4) := by omega
  have k4 : (4 * ((q + 1) % 4) + 12) % 16 = 4 * (q % 4) := by omega
  have hsl := searchLoop_four g outside
    { t with rotation_degrees_ := 90 * (((q + 1) % 4 : Nat) : Int) } ((q + 1) % 4) hs0
  simp only [slotFree_rotation, e1, e2, e3, e4] at hsl
  unfold RotateTetromino
  rw [if_neg hO]
  simp only [hstart, hrot]
  rw [hsl]
  by_cases f0 : slotFree g outside t ((q + 1) % 4) = true
  · simp only [if_pos f0, Bool.not_true, not_true_eq_false, if_false, k1]
    rw [assign_blocks _ _ _ h4]
  · simp only [if_neg f0]
    by_cases f1 : slotFree g outside t ((q + 2) % 4) = true
    · simp only [if_pos f1, Bool.not_true, not_true_eq_false, if_false, k2]
      rw [assign_blocks _ _ _ h4]
    · simp only [if_neg f1]
      by_cases f2 : slotFree g outside t ((q + 3) % 4) = true
      · simp only [if_pos f2, Bool.not_true, not_true_eq_false, if_false, k3]
        rw [assign_blocks _ _ _ h4]
      · simp only [if_neg f2]
        by_cases f3 : slotFree g outside t (q % 4) = true
        · simp only [if_pos f3, Bool.not_true, not_true_eq_false, if_false, k4]
          rw [assign_blocks _ _ _ h4]
        · simp only [if_neg f3, Bool.false_eq_true, not_false_eq_true, if_true]


theorem slotCells_length (t : Tetromino) (s : Nat) : (slotCells t s).length = 4 := by
  simp [slotCells]

theorem slotCells_mem_box (t : Tetromino) (s : Nat) (hs : s < 4)
    (htab : t.rotation_indices_.length = 16)
    (hidx : ∀ x, x ∈ t.rotation_indices_ → x < t.bounding_box_.length) :
    ∀ p, p ∈ slotCells t s → p ∈ t.bounding_box_ := by
  intro p hp
  unfold slotCells at hp
  rw [List.mem_map] at hp
  obtain ⟨i, hi, rfl⟩ := hp
  rw [List.mem_range] at hi
  have h1 : 4 * s + i < t.rotation_indices_.length := by omega
  have h2 : t.rotation_indices_.getD (4 * s + i) 0 = t.rotation_indices_[4 * s + i] := by
    rw [List.getD_eq_getElem?_getD, List.getElem?_eq_getElem h1]
    rfl
  have h3 : t.rotation_indices_[4 * s + i] < t.bounding_box_.length :=
    hidx _ (List.getElem_mem _)
  rw [h2, List.getD_eq_getElem?_getD, List.getElem?_eq_getElem h3]
  exact List.getElem_mem _

theorem slotFree_cells (g : Game) (outside : Int → Bool) (t : Tetromino) (s : Nat)
    (h : slotFree g outside t s = true) :
    ∀ p, p ∈ slotCells t s → occupiedAt g.board_ outside p = false := by
  intro p hp
  unfold slotFree at h
  rw [List.all_eq_true] at h
  have := h p hp
  cases hx : occupiedAt g.board_ outside p
  · rfl
  · rw [hx] at this
    exact absurd this (by decide)

/-- C10: for a piece that is not the O piece, has four blocks and rotation
state `r = 90 q` with `q < 4`, `RotateTetromino(90)` examines the table
orientations `q + 1, q + 2, q + 3, q + 4` (modulo 4) in this order, takes the
first one whose four bounding-box target cells are all unoccupied and sets the
blocks to exactly those four cells; if none is free the blocks stay as they
were.  The rotation state becomes `(r + 90) mod 360` (in particular when the
first examined orientation is free), the other members of the piece and the
whole session, hence every occupied flag, are unchanged, and the blocks after
the call are either the old blocks or four unoccupied cells of the bounding
box. -/
theorem RotateTetromino_takes_first_free_orientation (g : Game) (outside : Int → Bool)
    (t : Tetromino) (q : Nat) (hq : q < 4)
    (hr : t.rotation_degrees_ = 90 * (q : Int))
    (hO : t.type_ ≠ TetrominoType.O_BLOCK)
    (h4 : t.blocks_.length = 4)
    (htab : t.rotation_indices_.length = 16)
    (hidx : ∀ x, x ∈ t.rotation_indices_ → x < t.bounding_box_.length) :
    ∃ t1, RotateTetromino g outside t 90 = some (g, t1) ∧
      t1.rotation_degrees_ = (t.rotation_degrees_ + 90) % 360 ∧
      t1.type_ = t.type_ ∧ t1.rotation_indices_ = t.rotation_indices_ ∧
      t1.bounding_box_ = t.bounding_box_ ∧ t1.render_color_ = t.render_color_ ∧
      (∀ n, n < 4 →
        (∀ m, m < n → slotFree g outside t ((q + 1 + m) % 4) = false) →
        slotFree g outside t ((q + 1 + n) % 4) = true →
        t1.blocks_ = slotCells t ((q + 1 + n) % 4)) ∧
      ((∀ n, n < 4 → slotFree g outside t ((q + 1 + n) % 4) = false) →
        t1.blocks_ = t.blocks_) ∧
      (t1.blocks_ = t.blocks_ ∨
        (t1.blocks_.length = 4 ∧
          ∀ p, p ∈ t1.blocks_ → p ∈ t.bounding_box_ ∧ occupiedAt g.board_ outside p = false)) := by
  have a0 : (q + 1 + 0) % 4 = (q + 1) % 4 := by omega
  have a1 : (q + 1 + 1) % 4 = (q + 2) % 4 := by omega
  have a2 : (q + 1 + 2) % 4 = (q + 3) % 4 := by omega
  have a3 : (q + 1 + 3) % 4 = q % 4 := by omega
  have hrot : (90 * (((q + 1) % 4 : Nat) : Int)) = (t.rotation_degrees_ + 90) % 360 := by
    rw [hr]
    interval_cases q <;> decide
  have hgood : ∀ s, s < 4 → slotFree g outside t s = true →
      (slotCells t s).length = 4 ∧
      ∀ p, p ∈ slotCells t s → p ∈ t.bounding_box_ ∧ occupiedAt g.board_ outside p = false :=
    fun s hs hf => ⟨slotCells_length t s, fun p hp =>
      ⟨slotCells_mem_box t s hs htab hidx p hp, slotFree_cells g outside t s hf p hp⟩⟩
  refine ⟨_, rotate_core g outside t q hq hr hO h4, hrot, rfl, rfl, rfl, rfl, ?_, ?_, ?_⟩
  · intro n hn hbefore hfree
    have b0 := hbefore 0
    have b1 := hbefore 1
    have b2 := hbefore 2
    simp only [a0, a1, a2] at b0 b1 b2
    show (if slotFree g outside t ((q + 1) % 4) = true then slotCells t ((q + 1) % 4)
      else if slotFree g outside t ((q + 2) % 4) = true then slotCells t ((q + 2) % 4)
      else if slotFree g outside t ((q + 3) % 4) = true then slotCells t ((q + 3) % 4)
      else if slotFree g outside t (q % 4) = true then slotCells t (q % 4)
      else t.blocks_) = _
    interval_cases n
    · rw [a0] at hfree ⊢
      rw [if_pos hfree]
    · rw [a1] at hfree ⊢
      rw [if_neg (by rw [b0 (by decide)]; decide), if_pos hfree]
    · rw [a2] at hfree ⊢
      rw [if_neg (by rw [b0 (by decide)]; decide), if_neg (by rw [b1 (by decide)]; decide),
        if_pos hfree]
    · rw [a3] at hfree ⊢
      rw [if_neg (by rw [b0 (by decide)]; decide), if_neg (by rw [b1 (by decide)]; decide),
        if_neg (by rw [b2 (by decide)]; decide), if_pos hfree]
  · intro hnone
    have b0 := hnone 0 (by decide)
    have b1 := hnone 1 (by decide)
    have b2 := hnone 2 (by decide)
    have b3 := hnone 3 (by decide)
    simp only [a0, a1, a2, a3] at b0 b1 b2 b3
    show (if slotFree g outside t ((q + 1) % 4) = true then slotCells t ((q + 1) % 4)
      else if slotFree g outside t ((q + 2) % 4) = true then slotCells t ((q + 2) % 4)
      else if slotFree g outside t ((q + 3) % 4) = true then slotCells t ((q + 3) % 4)
      else if slotFree g outside t (q % 4) = true then slotCells t (q % 4)
      else t.blocks_) = _
    rw [if_neg (by rw [b0]; decide), if_neg (by rw [b1]; decide), if_neg (by rw [b2]; decide),
      if_neg (by rw [b3]; decide)]
  · show (if slotFree g outside t ((q + 1) % 4) = true then slotCells t ((q + 1) % 4)
      else if slotFree g outside t ((q + 2) % 4) = true then slotCells t ((q + 2) % 4)
      else if slotFree g outside t ((q + 3) % 4) = true then slotCells t ((q + 3) % 4)
      else if slotFree g outside t (q % 4) = true then slotCells t (q % 4)
      else t.blocks_) = t.blocks_ ∨ _
    have m1 : (q + 1) % 4 < 4 := Nat.mod_lt _ (by decide)
    have m2 : (q + 2) % 4 < 4 := Nat.mod_lt _ (by decide)
    have m3 : (q + 3) % 4 < 4 := Nat.mod_lt _ (by decide)
    have m4 : q % 4 < 4 := Nat.mod_lt _ (by decide)
    by_cases f0 : slotFree g outside t ((q + 1) % 4) = true
    · rw [if_pos f0]; exact Or.inr (hgood _ m1 f0)
    · rw [if_neg f0]
      by_cases f1 : slotFree g outside t ((q + 2) % 4) = true
      · rw [if_pos f1]; exact Or.inr (hgood _ m2 f1)
      · rw [if_neg f1]
        by_cases f2 : slotFree g outside t ((q + 3) % 4) = true
        · rw [if_pos f2]; exact Or.inr (hgood _ m3 f2)
        · rw [if_neg f2]
          by_cases f3 : slotFree g outside t (q % 4) = true
          · rw [if_pos f3]; exact Or.inr (hgood _ m4 f3)
          · rw [if_neg f3]; exact Or.inl rfl


theorem succ_div_mod (n side : Nat) (hs : 0 < side) :
    ((n + 1) % side = 0 → n % side = side - 1 ∧ (n + 1) / side = n / side + 1) ∧
    ((n + 1) % side ≠ 0 → (n + 1) % side = n % side + 1 ∧ (n + 1) / side = n / side) := by
  have h1 : n % side < side := Nat.mod_lt _ hs
  have h2 : side * (n / side) + n % side = n := Nat.div_add_mod n side
  by_cases hc : n % side = side - 1
  · have h3 : (n + 1) / side = n / side + 1 ∧ (n + 1) % side = 0 := by
      rw [Nat.div_mod_unique hs]
      refine ⟨?_, hs⟩
      rw [Nat.mul_add]
      omega
    exact ⟨fun _ => ⟨hc, h3.1⟩, fun h => absurd h3.2 h⟩
  · have h3 : (n + 1) / side = n / side ∧ (n + 1) % side = n % side + 1 := by
      rw [Nat.div_mod_unique hs]
      refine ⟨by omega, by omega⟩
    refine ⟨fun h => ?_, fun _ => ⟨h3.2, h3.1⟩⟩
    rw [h3.2] at h
    omega

theorem spawnBox_loop (w side : Nat) (hs : 0 < side) (hw : side / 2 + 1 ≤ w / 2)
    (hb : w / 2 + (side + 1) * w + side < 2 ^ 64) (n : Nat) (hn : n ≤ side * side) :
    (List.range n).foldl
      (fun (s : List Int × Nat) i =>
        (s.1 ++ [(s.2 : Int)],
          if (i + 1) % side = 0 then (s.2 + (w + 2 ^ 64 - (side - 1))) % 2 ^ 64
          else (s.2 + 1) % 2 ^ 64))
      ([], (w / 2 + 2 * 2 ^ 64 - side / 2 - 1) % 2 ^ 64) =
    ((List.range n).map fun k =>
        (((w / 2 - side / 2 - 1) + (k / side) * w + k % side : Nat) : Int),
      (w / 2 - side / 2 - 1) + (n / side) * w + n % side) := by
  have h64 : (2 : Nat) ^ 64 = 18446744073709551616 := by norm_num
  rw [h64] at hb ⊢
  induction n with
  | zero =>
    simp only [List.range_zero, List.foldl_nil, List.map_nil, Nat.zero_div, Nat.zero_mul,
      Nat.zero_mod, Nat.add_zero]
    congr 1
    omega
  | succ n ih =>
    rw [List.range_succ, List.foldl_append, ih (by omega)]
    simp only [List.foldl_cons, List.foldl_nil, List.map_append, List.map_cons, List.map_nil]
    congr 1
    have hdiv : n / side < side := by
      apply Nat.div_lt_of_lt_mul
      omega
    have hmul : (n / side) * w ≤ side * w := Nat.mul_le_mul_right w (Nat.le_of_lt hdiv)
    have hadd : (side + 1) * w = side * w + w := by rw [Nat.add_mul, Nat.one_mul]
    have hmod : n % side < side := Nat.mod_lt _ hs
    obtain ⟨c1, c2⟩ := succ_div_mod n side hs
    by_cases hc : (n + 1) % side = 0
    · obtain ⟨d1, d2⟩ := c1 hc
      rw [if_pos hc, hc, d2, Nat.add_mul, Nat.one_mul, d1]
      omega
    · obtain ⟨d1, d2⟩ := c2 hc
      rw [if_neg hc, d1, d2]
      omega

theorem spawnBox_eq (w side : Nat) (hs : 0 < side) (hw : side / 2 + 1 ≤ w / 2)
    (hb : w / 2 + (side + 1) * w + side < 2 ^ 64) :
    spawnBox w side = (List.range (side * side)).map fun k =>
      (((w / 2 - side / 2 - 1) + (k / side) * w + k % side : Nat) : Int) := by
  unfold spawnBox
  rw [spawnBox_loop w side hs hw hb (side * side) (Nat.le_refl _)]


theorem rotated_groups (type : TetrominoType) :
    GetRotatedIndices (spawnIndices type) 90 (sqrtFloor (assertedBoxSize type)) =
      some (((rotationTable type).drop 4).take 4) ∧
    GetRotatedIndices (spawnIndices type) 180 (sqrtFloor (assertedBoxSize type)) =
      some (((rotationTable type).drop 8).take 4) ∧
    GetRotatedIndices (spawnIndices type) 270 (sqrtFloor (assertedBoxSize type)) =
      some ((rotationTable type).drop 12) ∧
    spawnIndices type ++ ((rotationTable type).drop 4).take 4 ++
      ((rotationTable type).drop 8).take 4 ++ (rotationTable type).drop 12 =
      rotationTable type := by
  cases type <;> decide

theorem spawn_block_list (board_cells : List Int) (type : TetrominoType) :
    ((List.range 4).map fun i =>
      if type = TetrominoType.I_BLOCK then
        board_cells.getD (((spawnIndices type).getD i 0 + 2 ^ 64 -
          sqrtFloor (assertedBoxSize type)) % 2 ^ 64) 0
      else board_cells.getD ((spawnIndices type).getD i 0) 0) =
    (spawnBlockIndices type).map fun x => board_cells.getD x 0 := by
  have h4 : sqrtFloor 16 = 4 := by decide
  have e0 : (4 + 2 ^ 64 - 4) % 2 ^ 64 = 0 := by norm_num
  have e1 : (5 + 2 ^ 64 - 4) % 2 ^ 64 = 1 := by norm_num
  have e2 : (6 + 2 ^ 64 - 4) % 2 ^ 64 = 2 := by norm_num
  have e3 : (7 + 2 ^ 64 - 4) % 2 ^ 64 = 3 := by norm_num
  cases type <;>
    simp [spawnBlockIndices, spawnIndices, assertedBoxSize, List.range_succ, h4, e0, e1, e2, e3]

theorem Initialize_eq (cells : List Cell) (board_cells : List Int) (type : TetrominoType)
    (hlen : board_cells.length = assertedBoxSize type) :
    Initialize cells board_cells type =
      some (((spawnBlockIndices type).map fun x => board_cells.getD x 0).foldl
          (fun b p => storeAt b p fun c => { c with color_ := spawnColor type }) cells,
        { type_ := type
          rotation_degrees_ := 0
          rotation_indices_ := rotationTable type
          blocks_ := (spawnBlockIndices type).map fun x => board_cells.getD x 0
          bounding_box_ := board_cells
          render_color_ := spawnColor type }) := by
  obtain ⟨r1, r2, r3, r4⟩ := rotated_groups type
  unfold Initialize
  rw [if_neg (fun h => h hlen)]
  simp only [hlen, r1, r2, r3, spawn_block_list, r4]


theorem getD_map_range (n k : Nat) (f : Nat → Int) (d : Int) (hk : k < n) :
    ((List.range n).map f).getD k d = f k := by
  rw [List.getD_eq_getElem?_getD, List.getElem?_map, List.getElem?_range hk]
  rfl

theorem slotFree_of_empty (g : Game) (outside : Int → Bool) (t : Tetromino) (s : Nat)
    (hs : s < 4) (htab : t.rotation_indices_.length = 16)
    (hidx : ∀ x, x ∈ t.rotation_indices_ → x < t.bounding_box_.length)
    (hin : ∀ p, p ∈ t.bounding_box_ → 0 ≤ p ∧ p < (g.board_.length : Int))
    (hempty : ∀ m, (cellAt g.board_ m).occupied_ = false) :
    slotFree g outside t s = true := by
  unfold slotFree
  rw [List.all_eq_true]
  intro p hp
  have hb := hin p (slotCells_mem_box t s hs htab hidx p hp)
  rw [occupiedAt_inside _ _ _ hb.1 hb.2, hempty]
  rfl

theorem rotate_free (g : Game) (outside : Int → Bool) (t : Tetromino) (q : Nat) (hq : q < 4)
    (hr : t.rotation_degrees_ = 90 * (q : Int)) (hO : t.type_ ≠ TetrominoType.O_BLOCK)
    (h4 : t.blocks_.length = 4) (hfree : slotFree g outside t ((q + 1) % 4) = true) :
    RotateTetromino g outside t 90 =
      some (g,
        { t with
          rotation_degrees_ := 90 * (((q + 1) % 4 : Nat) : Int)
          blocks_ := slotCells t ((q + 1) % 4) }) := by
  rw [rotate_core g outside t q hq hr hO h4, if_pos hfree]

theorem four_rotations (g : Game) (outside : Int → Bool) (t : Tetromino)
    (hr : t.rotation_degrees_ = 0) (hO : t.type_ ≠ TetrominoType.O_BLOCK)
    (h4 : t.blocks_.length = 4) (htab : t.rotation_indices_.length = 16)
    (hidx : ∀ x, x ∈ t.rotation_indices_ → x < t.bounding_box_.length)
    (hin : ∀ p, p ∈ t.bounding_box_ → 0 ≤ p ∧ p < (g.board_.length : Int))
    (hempty : ∀ m, (cellAt g.board_ m).occupied_ = false) :
    rotateFourTimes g outside t = some { t with blocks_ := slotCells t 0 } := by
  have hf : ∀ (r : Int) (b : List Int) (s : Nat), s < 4 →
      slotFree g outside { t with rotation_degrees_ := r, blocks_ := b } s = true :=
    fun r b s hs => slotFree_of_empty g outside _ s hs htab hidx hin hempty
  have r1 : RotateTetromino g outside t 90 =
      some (g, { t with rotation_degrees_ := 90, blocks_ := slotCells t 1 }) :=
    rotate_free g outside t 0 (by decide) (by rw [hr]; rfl) hO h4
      (slotFree_of_empty g outside t _ (by decide) htab hidx hin hempty)
  have r2 : RotateTetromino g outside
      { t with rotation_degrees_ := 90, blocks_ := slotCells t 1 } 90 =
      some (g, { t with rotation_degrees_ := 180, blocks_ := slotCells t 2 }) :=
    rotate_free g outside { t with rotation_degrees_ := 90, blocks_ := slotCells t 1 } 1
      (by decide) rfl hO (slotCells_length _ _) (hf _ _ _ (by decide))
  have r3 : RotateTetromino g outside
      { t with rotation_degrees_ := 180, blocks_ := slotCells t 2 } 90 =
      some (g, { t with rotation_degrees_ := 270, blocks_ := slotCells t 3 }) :=
    rotate_free g outside { t with rotation_degrees_ := 180, blocks_ := slotCells t 2 } 2
      (by decide) rfl hO (slotCells_length _ _) (hf _ _ _ (by decide))
  have r4 : RotateTetromino g outside
      { t with rotation_degrees_ := 270, blocks_ := slotCells t 3 } 90 =
      some (g, { t with rotation_degrees_ := 0, blocks_ := slotCells t 0 }) :=
    rotate_free g outside { t with rotation_degrees_ := 270, blocks_ := slotCells t 3 } 3
      (by decide) rfl hO (slotCells_length _ _) (hf _ _ _ (by decide))
  unfold rotateFourTimes
  rw [r1]
  simp only
  rw [r2]
  simp only
  rw [r3]
  simp only
  rw [r4]
  simp only [Option.some.injEq]
  cases t
  simp only at hr
  subst hr
  rfl


theorem spawnBox_length (w : Nat) (type : TetrominoType) (hw : 6 ≤ w) (hw2 : w < 2 ^ 31) :
    (spawnBox w (if type = TetrominoType.I_BLOCK ∨ type = TetrominoType.O_BLOCK then 4 else 3)).length
      = assertedBoxSize type := by
  have h3 := spawnBox_eq w 3 (by decide) (by omega) (by omega)
  have h4 := spawnBox_eq w 4 (by decide) (by omega) (by omega)
  cases type <;> simp [assertedBoxSize, h3, h4]

theorem SpawnTetromino_eq (outside : Int → Bool) (shuffled : Nat → List Nat) (g : Game)
    (type : TetrominoType) (unstashing : Bool) (hw : 6 ≤ g.cells_width_)
    (hw2 : g.cells_width_ < 2 ^ 31) :
    ∃ g1, SpawnTetromino outside shuffled g type unstashing = some g1 ∧
      g1.cells_width_ = g.cells_width_ ∧ g1.cells_height_ = g.cells_height_ ∧
      g1.board_.length = g.board_.length ∧
      (∀ m, (cellAt g1.board_ m).occupied_ = (cellAt g.board_ m).occupied_) ∧
      g1.falling_tetromino_ =
        { type_ := type
          rotation_degrees_ := 0
          rotation_indices_ := rotationTable type
          blocks_ := (spawnBlockIndices type).map fun x =>
            (spawnBox g.cells_width_
              (if type = TetrominoType.I_BLOCK ∨ type = TetrominoType.O_BLOCK then 4 else 3)).getD
              x 0
          bounding_box_ := spawnBox g.cells_width_
            (if type = TetrominoType.I_BLOCK ∨ type = TetrominoType.O_BLOCK then 4 else 3)
          render_color_ := spawnColor type } := by
  unfold SpawnTetromino
  simp only [Initialize_eq g.board_ _ type (spawnBox_length g.cells_width_ type hw hw2)]
  obtain ⟨hl, hc⟩ := occupied_paint_color (spawnColor type)
    ((spawnBlockIndices type).map fun x =>
      (spawnBox g.cells_width_
        (if type = TetrominoType.I_BLOCK ∨ type = TetrominoType.O_BLOCK then 4 else 3)).getD x 0)
    g.board_
  exact ⟨_, rfl, rfl, rfl, hl, hc, rfl⟩


theorem spawnBox_inside (w h : Nat) (type : TetrominoType) (hw : 6 ≤ w) (hw2 : w < 2 ^ 31)
    (hh : 4 ≤ h) :
    ∀ p, p ∈ spawnBox w
        (if type = TetrominoType.I_BLOCK ∨ type = TetrominoType.O_BLOCK then 4 else 3) →
      0 ≤ p ∧ p < ((w * h : Nat) : Int) := by
  have h3 := spawnBox_eq w 3 (by decide) (by omega) (by omega)
  have h4 := spawnBox_eq w 4 (by decide) (by omega) (by omega)
  have hwh : 4 * w ≤ w * h := by
    rw [Nat.mul_comm 4 w]; exact Nat.mul_le_mul_left w hh
  have key : ∀ side, (side = 3 ∨ side = 4) → ∀ p,
      p ∈ ((List.range (side * side)).map fun k =>
        (((w / 2 - side / 2 - 1) + (k / side) * w + k % side : Nat) : Int)) →
      0 ≤ p ∧ p < ((w * h : Nat) : Int) := by
    intro side hside p hp
    rw [List.mem_map] at hp
    obtain ⟨k, hk, rfl⟩ := hp
    rw [List.mem_range] at hk
    have hs : 0 < side := by omega
    have hdiv : k / side < side := Nat.div_lt_of_lt_mul hk
    have hmod : k % side < side := Nat.mod_lt _ hs
    have hmul : (k / side) * w ≤ 3 * w := Nat.mul_le_mul_right w (by omega)
    refine ⟨Int.ofNat_nonneg _, ?_⟩
    have : (w / 2 - side / 2 - 1) + (k / side) * w + k % side < w * h := by
      rcases hside with rfl | rfl <;> omega
    exact_mod_cast this
  intro p hp
  cases type
  case I_BLOCK => simp only [true_or, if_true, h4] at hp; exact key 4 (Or.inr rfl) p hp
  case O_BLOCK => simp only [or_true, if_true, h4] at hp; exact key 4 (Or.inr rfl) p hp
  all_goals
    simp only [reduceCtorEq, or_self, if_false, h3] at hp
    exact key 3 (Or.inl rfl) p hp


theorem rotationTable_facts (type : TetrominoType) :
    (rotationTable type).length = 16 ∧
    (∀ x, x ∈ rotationTable type → x < assertedBoxSize type) ∧
    (spawnBlockIndices type).length = 4 := by
  cases type <;> decide

theorem slot_zero_eq_spawn (type : TetrominoType) (box : List Int)
    (h1 : type ≠ TetrominoType.O_BLOCK) (h2 : type ≠ TetrominoType.I_BLOCK) :
    ((List.range 4).map fun i => box.getD ((rotationTable type).getD (4 * 0 + i) 0) 0) =
      (spawnBlockIndices type).map fun x => box.getD x 0 := by
  cases type
  case I_BLOCK => exact absurd rfl h2
  case O_BLOCK => exact absurd rfl h1
  all_goals
    simp [rotationTable, spawnBlockIndices, spawnIndices, List.range_succ]

/-- C4, refuted as stated: on the empty board of ten columns the freshly
spawned I piece occupies cells 2, 3, 4, 5 of the top row, and after four calls
`RotateTetromino(90)` it occupies cells 12, 13, 14, 15 of the row below, so
the two cell sets differ. -/
theorem I_piece_four_turns_change_cells :
    ∃ g1 t4, SpawnTetromino (fun _ => false) identityShuffle emptyTenWide
        TetrominoType.I_BLOCK false = some g1 ∧
      g1.falling_tetromino_.blocks_ = [2, 3, 4, 5] ∧
      rotateFourTimes g1 (fun _ => false) g1.falling_tetromino_ = some t4 ∧
      t4.blocks_ = [12, 13, 14, 15] ∧
      ¬ (∀ p, p ∈ t4.blocks_ ↔ p ∈ g1.falling_tetromino_.blocks_) := by
  have h : (SpawnTetromino (fun _ => false) identityShuffle emptyTenWide
      TetrominoType.I_BLOCK false).isSome = true := by decide
  obtain ⟨g1, hg1⟩ := Option.isSome_iff_exists.mp h
  have hb : g1.falling_tetromino_.blocks_ = [2, 3, 4, 5] := by
    have : (SpawnTetromino (fun _ => false) identityShuffle emptyTenWide
        TetrominoType.I_BLOCK false).map (fun g => g.falling_tetromino_.blocks_) =
        some [2, 3, 4, 5] := by decide
    rw [hg1] at this
    exact Option.some.inj this
  have hr : (rotateFourTimes g1 (fun _ => false) g1.falling_tetromino_).map
      (fun t => t.blocks_) = some [12, 13, 14, 15] := by
    have : ((SpawnTetromino (fun _ => false) identityShuffle emptyTenWide
        TetrominoType.I_BLOCK false).bind fun g =>
          rotateFourTimes g (fun _ => false) g.falling_tetromino_).map (fun t => t.blocks_) =
        some [12, 13, 14, 15] := by decide
    rw [hg1] at this
    exact this
  obtain ⟨t4, ht4, hb4⟩ := Option.map_eq_some'.mp hr
  refine ⟨g1, t4, hg1, hb, ht4, hb4, ?_⟩
  rw [hb, hb4]
  intro hset
  have h12 := (hset 12).mp (by decide)
  revert h12
  decide


/-- C4, amended: `RotateTetromino` leaves every O piece, and the session,
exactly as they were.  A piece of any other kind freshly spawned on an empty
board (at least six columns and four rows) is rotated by four calls
`RotateTetromino(90)` back to rotation state 0; for the kinds J, L, S, T and Z
its blocks are then exactly the cells it occupied before the first call, and
for the I piece they are those cells moved down by one board row, because
`Initialize` spawns the I piece one box row above the first group of its
rotation table. -/
theorem four_quarter_turns_after_spawn (outside : Int → Bool) (shuffled : Nat → List Nat)
    (g : Game) (type : TetrominoType) (unstashing : Bool)
    (hw : 6 ≤ g.cells_width_) (hw2 : g.cells_width_ < 2 ^ 31) (hh : 4 ≤ g.cells_height_)
    (hlen : g.board_.length = g.cells_width_ * g.cells_height_)
    (hempty : ∀ m, (cellAt g.board_ m).occupied_ = false) :
    (∀ (g' : Game) (t : Tetromino) (degrees : Int), t.type_ = TetrominoType.O_BLOCK →
      RotateTetromino g' outside t degrees = some (g', t)) ∧
    ∃ g1, SpawnTetromino outside shuffled g type unstashing = some g1 ∧
      g1.falling_tetromino_.type_ = type ∧
      (type ≠ TetrominoType.O_BLOCK →
        ∃ t4, rotateFourTimes g1 outside g1.falling_tetromino_ = some t4 ∧
          t4.rotation_degrees_ = g1.falling_tetromino_.rotation_degrees_ ∧
          (type ≠ TetrominoType.I_BLOCK → t4.blocks_ = g1.falling_tetromino_.blocks_) ∧
          (type = TetrominoType.I_BLOCK →
            t4.blocks_ =
              g1.falling_tetromino_.blocks_.map (fun p => p + (g.cells_width_ : Int)) ∧
            ∀ p, p ∈ t4.blocks_ → p ∉ g1.falling_tetromino_.blocks_)) := by
  refine ⟨fun g' t degrees ht => ?_, ?_⟩
  · unfold RotateTetromino
    rw [if_pos ht]
  obtain ⟨g1, hg1, hW, hH, hL, hocc, hpiece⟩ :=
    SpawnTetromino_eq outside shuffled g type unstashing hw hw2
  obtain ⟨f1, f2, f3⟩ := rotationTable_facts type
  have hbox := spawnBox_length g.cells_width_ type hw hw2
  refine ⟨g1, hg1, by rw [hpiece], fun hO => ?_⟩
  have hrot := four_rotations g1 outside g1.falling_tetromino_
    (by rw [hpiece]) (by rw [hpiece]; exact hO)
    (by rw [hpiece]; simp only [List.length_map]; exact f3)
    (by rw [hpiece]; exact f1)
    (by rw [hpiece]; intro x hx; rw [hbox]; exact f2 x hx)
    (by
      rw [hpiece, hL, hlen]
      exact spawnBox_inside g.cells_width_ g.cells_height_ type hw hw2 hh)
    (by intro m; rw [hocc m]; exact hempty m)
  refine ⟨_, hrot, rfl, ?_, ?_⟩
  · intro hI
    show slotCells g1.falling_tetromino_ 0 = _
    rw [hpiece]
    exact slot_zero_eq_spawn type _ hO hI
  · intro hI
    subst hI
    have h4 := spawnBox_eq g.cells_width_ 4 (by decide) (by omega) (by omega)
    have hlist : slotCells g1.falling_tetromino_ 0 =
        g1.falling_tetromino_.blocks_.map (fun p => p + (g.cells_width_ : Int)) := by
      rw [hpiece]
      simp only [slotCells, rotationTable, spawnBlockIndices, true_or, if_true, h4,
        List.range_succ, List.range_zero, List.nil_append, List.cons_append, List.map_cons,
        List.map_nil, List.map_map, Nat.mul_zero, Nat.zero_add, List.getD_cons_zero,
        List.getD_cons_succ, Nat.reduceMul]
      simp only [getD_map_range 16 _ _ 0 (by decide : 4 < 16),
        getD_map_range 16 _ _ 0 (by decide : 5 < 16),
        getD_map_range 16 _ _ 0 (by decide : 6 < 16),
        getD_map_range 16 _ _ 0 (by decide : 7 < 16),
        getD_map_range 16 _ _ 0 (by decide : 0 < 16),
        getD_map_range 16 _ _ 0 (by decide : 1 < 16),
        getD_map_range 16 _ _ 0 (by decide : 2 < 16),
        getD_map_range 16 _ _ 0 (by decide : 3 < 16), Nat.reduceDiv, Nat.reduceMod,
        Nat.one_mul, Nat.zero_mul, Nat.add_zero, List.cons.injEq, and_true]
      refine ⟨?_, ?_, ?_, ?_⟩ <;> omega
    refine ⟨hlist, ?_⟩
    show ∀ p, p ∈ slotCells g1.falling_tetromino_ 0 → p ∉ g1.falling_tetromino_.blocks_
    rw [hlist]
    intro p hp hq
    rw [List.mem_map] at hp
    obtain ⟨p0, hp0, rfl⟩ := hp
    have hmem : ∀ x, x ∈ g1.falling_tetromino_.blocks_ →
        ((g.cells_width_ / 2 - 3 : Nat) : Int) ≤ x ∧
        x ≤ ((g.cells_width_ / 2 - 3 : Nat) : Int) + 3 := by
      intro x hx
      rw [hpiece] at hx
      simp only [spawnBlockIndices, true_or, if_true, h4, List.map_cons, List.map_nil,
        getD_map_range 16 _ _ 0 (by decide : 0 < 16),
        getD_map_range 16 _ _ 0 (by decide : 1 < 16),
        getD_map_range 16 _ _ 0 (by decide : 2 < 16),
        getD_map_range 16 _ _ 0 (by decide : 3 < 16), Nat.reduceDiv, Nat.reduceMod,
        Nat.zero_mul, Nat.add_zero, List.mem_cons, List.mem_singleton, List.not_mem_nil,
        or_false] at hx
      rcases hx with rfl | rfl | rfl | rfl <;> omega
    have a := hmem _ hp0
    have b := hmem _ hq
    omega


theorem cellAt_replicate_default (n m : Nat) :
    cellAt (List.replicate n (default : Cell)) m = default := by
  rw [cellAt_eq_getElem?]
  by_cases h : m < n
  · rw [List.getElem?_eq_getElem (by rw [List.length_replicate]; exact h),
      List.getElem_replicate]
    rfl
  · rw [List.getElem?_eq_none (by rw [List.length_replicate]; omega)]
    rfl

theorem four_quarter_turns_after_spawn_witness :
    6 ≤ emptyTenWide.cells_width_ ∧ emptyTenWide.cells_width_ < 2 ^ 31 ∧
    4 ≤ emptyTenWide.cells_height_ ∧
    emptyTenWide.board_.length = emptyTenWide.cells_width_ * emptyTenWide.cells_height_ ∧
    (∀ m, (cellAt emptyTenWide.board_ m).occupied_ = false) ∧
    ∃ g1, SpawnTetromino (fun _ => false) identityShuffle emptyTenWide
        TetrominoType.T_BLOCK false = some g1 ∧
      g1.falling_tetromino_.type_ = TetrominoType.T_BLOCK ∧
      (TetrominoType.T_BLOCK ≠ TetrominoType.O_BLOCK →
        ∃ t4, rotateFourTimes g1 (fun _ => false) g1.falling_tetromino_ = some t4 ∧
          t4.rotation_degrees_ = g1.falling_tetromino_.rotation_degrees_ ∧
          (TetrominoType.T_BLOCK ≠ TetrominoType.I_BLOCK →
            t4.blocks_ = g1.falling_tetromino_.blocks_)) :=
  ⟨by decide, by decide, by decide, by decide,
    fun m => by
      show (cellAt (List.replicate 200 default) m).occupied_ = false
      rw [cellAt_replicate_default]
      rfl,
    (four_quarter_turns_after_spawn (fun _ => false) identityShuffle emptyTenWide
      TetrominoType.T_BLOCK false (by decide) (by decide) (by decide) (by decide)
      (fun m => by
        show (cellAt (List.replicate 200 default) m).occupied_ = false
        rw [cellAt_replicate_default]
        rfl)).2.imp
      fun _ h => ⟨h.1, h.2.1, fun hO => (h.2.2 hO).imp fun _ h4 => ⟨h4.1, h4.2.1, h4.2.2.1⟩⟩⟩

/-- C9, failing input: on the board with columns 3 and 4 stacked up to row 1
the freshly spawned I piece (not game over, rotation state 0) finds an
occupied target cell in each of the four table orientations;
`RotateTetromino(90)` leaves its blocks where they were but returns the piece
with rotation state 90. -/
theorem rejected_rotation_advances_rotation_state :
    ∃ g1, SpawnTetromino (fun _ => false) identityShuffle stackedTenWide
        TetrominoType.I_BLOCK false = some g1 ∧
      g1.game_over_ = false ∧
      g1.falling_tetromino_ = spawnedI ∧
      (∀ s, s < 4 → slotFree g1 (fun _ => false) spawnedI s = false) ∧
      spawnedI.rotation_degrees_ = 0 ∧
      RotateTetromino g1 (fun _ => false) spawnedI 90 =
        some (g1, { spawnedI with rotation_degrees_ := 90 }) := by
  have h : (SpawnTetromino (fun _ => false) identityShuffle stackedTenWide
      TetrominoType.I_BLOCK false).isSome = true := by decide
  obtain ⟨g1, hg1⟩ := Option.isSome_iff_exists.mp h
  have hall : (SpawnTetromino (fun _ => false) identityShuffle stackedTenWide
      TetrominoType.I_BLOCK false).map
      (fun g => (g.game_over_, g.falling_tetromino_,
        (List.range 4).map (slotFree g (fun _ => false) spawnedI),
        (RotateTetromino g (fun _ => false) spawnedI 90).map
          fun r => (decide (r.1 = g), r.2))) =
      some (false, spawnedI, [false, false, false, false],
        some (true, { spawnedI with rotation_degrees_ := 90 })) := by decide
  rw [hg1] at hall
  simp only [Option.map_some', Option.some.injEq, Prod.mk.injEq] at hall
  obtain ⟨h1, h2, h3, h4⟩ := hall
  refine ⟨g1, hg1, h1, h2, ?_, rfl, ?_⟩
  · intro s hs
    have : ((List.range 4).map (slotFree g1 (fun _ => false) spawnedI))[s]? = some false := by
      rw [h3]
      interval_cases s <;> rfl
    rw [List.getElem?_map, List.getElem?_range hs] at this
    exact Option.some.inj this
  · obtain ⟨r, hr, hr2⟩ := Option.map_eq_some'.mp h4
    rw [hr]
    simp only [Prod.mk.injEq, decide_eq_true_eq] at hr2
    obtain ⟨e1, e2⟩ := hr2
    rw [← e1, ← e2]

theorem RotateTetromino_takes_first_free_orientation_witness :
    (0 : Nat) < 4 ∧ spawnedI.rotation_degrees_ = 90 * ((0 : Nat) : Int) ∧
    spawnedI.type_ ≠ TetrominoType.O_BLOCK ∧ spawnedI.blocks_.length = 4 ∧
    spawnedI.rotation_indices_.length = 16 ∧
    (∀ x, x ∈ spawnedI.rotation_indices_ → x < spawnedI.bounding_box_.length) ∧
    slotFree pillarTenWide (fun _ => false) spawnedI 1 = false ∧
    slotFree pillarTenWide (fun _ => false) spawnedI 2 = true ∧
    RotateTetromino pillarTenWide (fun _ => false) spawnedI 90 =
      some (pillarTenWide,
        { spawnedI with rotation_degrees_ := 90, blocks_ := [22, 23, 24, 25] }) ∧
    ∃ t1, RotateTetromino pillarTenWide (fun _ => false) spawnedI 90 =
        some (pillarTenWide, t1) ∧
      t1.rotation_degrees_ = (spawnedI.rotation_degrees_ + 90) % 360 :=
  ⟨by decide, by decide, by decide, by decide, by decide, by decide, by decide, by decide,
    by decide,
    (RotateTetromino_takes_first_free_orientation pillarTenWide (fun _ => false) spawnedI 0
      (by decide) (by decide) (by decide) (by decide) (by decide) (by decide)).imp
      fun _ h => ⟨h.1, h.2.1⟩⟩

theorem collect_length {α : Type} (f : Nat → Nat → Nat) (n : Nat) :
    ∀ (acc : List α) (c : Nat) (val : Nat → α),
      ((List.range n).foldl
        (fun (s : List α × Nat) i => (s.1 ++ [val s.2], f s.2 i)) (acc, c)).1.length =
        acc.length + n := by
  induction n with
  | zero => intro acc c val; simp
  | succ n ih =>
    intro acc c val
    rw [List.range_succ, List.foldl_append]
    simp only [List.foldl_cons, List.foldl_nil, List.length_append, List.length_singleton]
    rw [ih]
    omega

theorem spawnBox_length_sq (w side : Nat) : (spawnBox w side).length = side * side := by
  unfold spawnBox
  have h := collect_length (α := Int)
    (fun c i => if (i + 1) % side = 0 then (c + (w + 2 ^ 64 - (side - 1))) % 2 ^ 64
      else (c + 1) % 2 ^ 64) (side * side) []
    ((w / 2 + 2 * 2 ^ 64 - side / 2 - 1) % 2 ^ 64) (fun c => (c : Int))
  simpa using h

theorem spawnBox_asserted (w : Nat) (type : TetrominoType) :
    (spawnBox w (if type = TetrominoType.I_BLOCK ∨ type = TetrominoType.O_BLOCK then 4 else 3)).length
      = assertedBoxSize type := by
  rw [spawnBox_length_sq]
  unfold assertedBoxSize
  split <;> rfl

theorem gameOver_loop (board : List Cell) (outside : Int → Bool) (bbox : List Int) (n : Nat)
    (over : Bool) :
    (List.range n).foldl
      (fun over i => if occupiedAt board outside (bbox.getD i 0) then true else over) over
      = true ↔
    over = true ∨ ∃ i, i < n ∧ occupiedAt board outside (bbox.getD i 0) = true := by
  induction n with
  | zero => simp
  | succ n ih =>
    rw [List.range_succ, List.foldl_append]
    simp only [List.foldl_cons, List.foldl_nil]
    by_cases h : occupiedAt board outside (bbox.getD n 0) = true
    · simp only [h, if_true, true_iff]
      exact Or.inr ⟨n, Nat.lt_succ_self n, h⟩
    · simp only [h, if_false, Bool.false_eq_true]
      rw [ih]
      constructor
      · rintro (h1 | ⟨i, hi, h2⟩)
        · exact Or.inl h1
        · exact Or.inr ⟨i, Nat.lt_succ_of_lt hi, h2⟩
      · rintro (h1 | ⟨i, hi, h2⟩)
        · exact Or.inl h1
        · rcases Nat.lt_succ_iff_lt_or_eq.mp hi with h3 | h3
          · exact Or.inr ⟨i, h3, h2⟩
          · subst h3; exact absurd h2 h

theorem occupiedAt_paint (col : SDL_Color) (ps : List Int) (board : List Cell)
    (outside : Int → Bool) (p : Int) :
    occupiedAt (ps.foldl (fun b p => storeAt b p fun c => { c with color_ := col }) board)
      outside p = occupiedAt board outside p := by
  unfold occupiedAt
  rw [(occupied_paint_color col ps board).1, (occupied_paint_color col ps board).2]

theorem SpawnTetromino_total (outside : Int → Bool) (shuffled : Nat → List Nat) (g : Game)
    (type : TetrominoType) (unstashing : Bool) :
    SpawnTetromino outside shuffled g type unstashing =
      some { g with
        board_ := ((spawnBlockIndices type).map fun x =>
            (spawnBox g.cells_width_ (GetBBoxDimension type)).getD x 0).foldl
          (fun b p => storeAt b p fun c => { c with color_ := spawnColor type }) g.board_
        falling_tetromino_ :=
          { type_ := type
            rotation_degrees_ := 0
            rotation_indices_ := rotationTable type
            blocks_ := (spawnBlockIndices type).map fun x =>
              (spawnBox g.cells_width_ (GetBBoxDimension type)).getD x 0
            bounding_box_ := spawnBox g.cells_width_ (GetBBoxDimension type)
            render_color_ := spawnColor type }
        tetromino_queue_ :=
          if unstashing = true then g.tetromino_queue_
          else if g.tetromino_queue_.tail.length < 10 then
            GenerateTetrominoes shuffled g.tetromino_queue_.tail
          else g.tetromino_queue_.tail
        game_over_ := decide (g.game_over_ = true ∨
          ∃ i, i < GetBBoxDimension type ∧
            occupiedAt g.board_ outside
              ((spawnBox g.cells_width_ (GetBBoxDimension type)).getD i 0) = true) } := by
  unfold SpawnTetromino
  have hlen := spawnBox_asserted g.cells_width_ type
  simp only [Initialize_eq _ _ _ hlen]
  congr 1
  have hq : (if ¬ unstashing = true then
        if g.tetromino_queue_.tail.length < 10 then
          GenerateTetrominoes shuffled g.tetromino_queue_.tail
        else g.tetromino_queue_.tail
      else g.tetromino_queue_) =
      (if unstashing = true then g.tetromino_queue_
          else if g.tetromino_queue_.tail.length < 10 then
            GenerateTetrominoes shuffled g.tetromino_queue_.tail
          else g.tetromino_queue_.tail) := by
    cases unstashing <;> simp
  have hover : ∀ bx : List Int, ∀ n : Nat, (List.range n).foldl
      (fun over i => if occupiedAt (((spawnBlockIndices type).map fun x =>
            bx.getD x 0).foldl
          (fun b p => storeAt b p fun c => { c with color_ := spawnColor type }) g.board_)
          outside (bx.getD i 0) then true else over) g.game_over_ =
      decide (g.game_over_ = true ∨
          ∃ i, i < n ∧ occupiedAt g.board_ outside (bx.getD i 0) = true) := by
    intro bx n
    rw [Bool.eq_iff_iff, gameOver_loop]
    simp only [occupiedAt_paint, decide_eq_true_eq]
  unfold GetBBoxDimension
  rw [hq, hover]
/-- C11: for every board, kind and `unstashing` argument `SpawnTetromino`
returns, and afterwards the game-over flag is set exactly when it was set
before or one of the first `side` cells of the new bounding box (its top row)
is occupied; in particular a set flag stays set.  The spawn changes no
occupancy, so it does not matter whether the cells are read before or after
it. -/
theorem SpawnTetromino_sets_game_over_iff_top_row_occupied (outside : Int → Bool)
    (shuffled : Nat → List Nat) (g : Game) (type : TetrominoType) (unstashing : Bool) :
    ∃ g1, SpawnTetromino outside shuffled g type unstashing = some g1 ∧
      g1.falling_tetromino_.bounding_box_.length =
        GetBBoxDimension type * GetBBoxDimension type ∧
      (∀ p, occupiedAt g1.board_ outside p = occupiedAt g.board_ outside p) ∧
      (g1.game_over_ = true ↔
        g.game_over_ = true ∨
          ∃ i, i < GetBBoxDimension type ∧
            occupiedAt g.board_ outside
              (g1.falling_tetromino_.bounding_box_.getD i 0) = true) ∧
      (g.game_over_ = true → g1.game_over_ = true) := by
  refine ⟨_, SpawnTetromino_total outside shuffled g type unstashing, ?_, ?_, ?_, ?_⟩
  · exact spawnBox_length_sq _ _
  · intro p
    exact occupiedAt_paint _ _ _ _ _
  · simp only [decide_eq_true_eq]
  · intro h
    simp only [decide_eq_true_eq]
    exact Or.inl h
theorem generate_loop (shuffled : Nat → List Nat) (queue : List TetrominoType) (n : Nat)
    (hlen : ∀ i, i < n → (shuffled i).length = 7) :
    ∃ appended : List TetrominoType,
      (List.range n).foldl (fun q i => q ++ (shuffled i).map typeOfIndex) queue =
        queue ++ appended ∧
      appended.length = 7 * n ∧
      ∀ k, k < n → (appended.drop (7 * k)).take 7 = (shuffled k).map typeOfIndex := by
  induction n with
  | zero => exact ⟨[], by simp, rfl, fun k hk => absurd hk (Nat.not_lt_zero k)⟩
  | succ n ih =>
    obtain ⟨app, h1, h2, h3⟩ := ih fun i hi => hlen i (Nat.lt_succ_of_lt hi)
    refine ⟨app ++ (shuffled n).map typeOfIndex, ?_, ?_, ?_⟩
    · rw [List.range_succ, List.foldl_append, h1]
      simp
    · rw [List.length_append, List.length_map, h2, hlen n (Nat.lt_succ_self n)]
      omega
    · intro k hk
      rcases Nat.lt_succ_iff_lt_or_eq.mp hk with hk' | hk'
      · have hle : 7 * k ≤ app.length := by omega
        rw [List.drop_append_of_le_length hle, List.take_append_of_le_length]
        · exact h3 k hk'
        · rw [List.length_drop]; omega
      · subst hk'
        have hd : List.drop (7 * k) (app ++ (shuffled k).map typeOfIndex) =
            (shuffled k).map typeOfIndex := by
          rw [← h2]
          exact List.drop_left _ _
        rw [hd]
        apply List.take_of_length_le
        rw [List.length_map, hlen k hk]

theorem count_bag (l : List Nat) (h : l.Perm [0, 1, 2, 3, 4, 5, 6]) (type : TetrominoType) :
    (l.map typeOfIndex).count type = 1 := by
  rw [(h.map typeOfIndex).count_eq]
  cases type <;> decide

/-- C14: whatever the hundred shuffles produce, as long as each produces a
permutation of the seven indices, `GenerateTetrominoes` returns the old queue
followed by exactly 700 new entries, and each of the hundred consecutive
groups of seven new entries holds every kind exactly once. -/
theorem GenerateTetrominoes_appends_hundred_bags (shuffled : Nat → List Nat)
    (queue : List TetrominoType)
    (hperm : ∀ i, i < 100 → (shuffled i).Perm [0, 1, 2, 3, 4, 5, 6]) :
    ∃ appended : List TetrominoType,
      GenerateTetrominoes shuffled queue = queue ++ appended ∧
      appended.length = 700 ∧
      ∀ k, k < 100 → ∀ type : TetrominoType,
        ((appended.drop (7 * k)).take 7).count type = 1 := by
  obtain ⟨app, h1, h2, h3⟩ := generate_loop shuffled queue 100
    fun i hi => (hperm i hi).length_eq
  refine ⟨app, h1, h2, ?_⟩
  intro k hk type
  rw [h3 k hk]
  exact count_bag _ (hperm k hk) type

/-- C14, witness: the shuffles that leave the indices in order. -/
theorem GenerateTetrominoes_appends_hundred_bags_witness :
    (∀ i, i < 100 → (identityShuffle i).Perm [0, 1, 2, 3, 4, 5, 6]) ∧
    ∃ appended : List TetrominoType,
      GenerateTetrominoes identityShuffle [TetrominoType.T_BLOCK] =
        [TetrominoType.T_BLOCK] ++ appended ∧
      appended.length = 700 ∧
      ∀ k, k < 100 → ∀ type : TetrominoType,
        ((appended.drop (7 * k)).take 7).count type = 1 :=
  ⟨fun _ _ => List.Perm.refl _,
    GenerateTetrominoes_appends_hundred_bags identityShuffle [TetrominoType.T_BLOCK]
      (fun _ _ => List.Perm.refl _)⟩
theorem clearStep_gravity (g : Game) (i : Nat)
    (h : 0 ≤ g.lines_ ∧ g.descend_speed_ = gravityInterval g.lines_) :
    0 ≤ (clearStep g i).lines_ ∧
      (clearStep g i).descend_speed_ = gravityInterval (clearStep g i).lines_ := by
  obtain ⟨h0, h1⟩ := h
  unfold gravityInterval at h1 ⊢
  unfold clearStep
  split
  · simp only
    have hm : (g.lines_ + 1).tmod 10 = (g.lines_ + 1) % 10 :=
      Int.tmod_eq_emod (by omega) (by omega)
    rw [hm]
    split
    · simp only
      omega
    · simp only
      omega
  · exact ⟨h0, h1⟩

theorem ClearFilledLines_gravity (g : Game)
    (h : 0 ≤ g.lines_ ∧ g.descend_speed_ = gravityInterval g.lines_) :
    0 ≤ (ClearFilledLines g).lines_ ∧
      (ClearFilledLines g).descend_speed_ = gravityInterval (ClearFilledLines g).lines_ := by
  unfold ClearFilledLines
  generalize List.range g.cells_height_ = rows
  induction rows generalizing g with
  | nil => exact h
  | cons r rs ih =>
    rw [List.foldl_cons]
    exact ih _ (clearStep_gravity g r h)

/-- C15: from a session with no lines cleared and gravity interval 60, after
any run of `ClearFilledLines` calls, on whatever boards, the gravity interval
is `max 10 (60 - 10 * (lines / 10))` for the line count reached; so it is at
least 10 and the modulo in `Tick` does not divide by zero. -/
theorem ClearFilledLines_keeps_gravity_interval_law (g : Game) (boards : List (List Cell))
    (hlines : g.lines_ = 0) (hspeed : g.descend_speed_ = 60) :
    0 ≤ (clearCalls g boards).lines_ ∧
    (clearCalls g boards).descend_speed_ = gravityInterval (clearCalls g boards).lines_ ∧
    10 ≤ (clearCalls g boards).descend_speed_ ∧
    (clearCalls g boards).descend_speed_ ≠ 0 := by
  have key : ∀ (bs : List (List Cell)) (s : Game),
      (0 ≤ s.lines_ ∧ s.descend_speed_ = gravityInterval s.lines_) →
      0 ≤ (clearCalls s bs).lines_ ∧
        (clearCalls s bs).descend_speed_ = gravityInterval (clearCalls s bs).lines_ := by
    intro bs
    induction bs with
    | nil => intro s hs; exact hs
    | cons b bs ih =>
      intro s hs
      unfold clearCalls
      rw [List.foldl_cons]
      exact ih _ (ClearFilledLines_gravity { s with board_ := b } hs)
  have h0 : 0 ≤ g.lines_ ∧ g.descend_speed_ = gravityInterval g.lines_ := by
    rw [hlines, hspeed]
    exact ⟨le_refl 0, by decide⟩
  obtain ⟨h1, h2⟩ := key boards g h0
  refine ⟨h1, h2, ?_, ?_⟩
  · rw [h2]; unfold gravityInterval; omega
  · rw [h2]; unfold gravityInterval; omega

/-- C15, witness: ten full rows of one cell are cleared by one call and the
interval drops to 50. -/
theorem ClearFilledLines_keeps_gravity_interval_law_witness :
    (fresh 1 10 [] noPiece).lines_ = 0 ∧
    (fresh 1 10 [] noPiece).descend_speed_ = 60 ∧
    (clearCalls (fresh 1 10 [] noPiece) [List.replicate 10 redCell]).lines_ = 10 ∧
    (clearCalls (fresh 1 10 [] noPiece) [List.replicate 10 redCell]).descend_speed_ = 50 ∧
    (clearCalls (fresh 1 10 [] noPiece) [List.replicate 10 redCell]).descend_speed_ =
      gravityInterval
        (clearCalls (fresh 1 10 [] noPiece) [List.replicate 10 redCell]).lines_ :=
  ⟨rfl, rfl, by decide, by decide,
    (ClearFilledLines_keeps_gravity_interval_law (fresh 1 10 [] noPiece)
      [List.replicate 10 redCell] rfl rfl).2.1⟩
theorem previewBox_length (ti dimension : Nat) :
    (previewBox ti dimension).length = dimension * dimension := by
  unfold previewBox
  have h := collect_length (α := Int)
    (fun c _ => if dimension = 3 ∧
        (c + 1 - ti * 16 = 3 ∨ c + 1 - ti * 16 = 7 ∨ c + 1 - ti * 16 = 11) then c + 1 + 1
      else c + 1) (dimension * dimension) [] (ti * 16) (fun c => (c : Int))
  simpa using h

theorem updateQueueStep_some (g : Game) (ti : Nat) (type : TetrominoType)
    (hq : g.tetromino_queue_[ti]? = some type) (hp : ti < g.queued_tetrominoes_.length) :
    ∃ cells pieces, updateQueueStep g ti =
        some { g with queue_board_ := cells, queued_tetrominoes_ := pieces } ∧
      pieces.length = g.queued_tetrominoes_.length := by
  unfold updateQueueStep
  have hsome : g.queued_tetrominoes_[ti]? = some (g.queued_tetrominoes_[ti]) :=
    List.getElem?_eq_getElem hp
  rw [hq, hsome]
  simp only
  have hlen : (previewBox ti
        (if type = TetrominoType.I_BLOCK ∨ type = TetrominoType.O_BLOCK then 4 else 3)).length =
      assertedBoxSize type := by
    rw [previewBox_length]
    unfold assertedBoxSize
    split <;> rfl
  rw [Initialize_eq _ _ _ hlen]
  exact ⟨_, _, rfl, List.length_set _ _ _⟩

theorem UpdateQueue_some (g : Game) (hq : 3 ≤ g.tetromino_queue_.length)
    (hp : 3 ≤ g.queued_tetrominoes_.length) :
    ∃ cells pieces, UpdateQueue g =
        some { g with queue_board_ := cells, queued_tetrominoes_ := pieces } ∧
      pieces.length = g.queued_tetrominoes_.length := by
  unfold UpdateQueue
  have hne : g.tetromino_queue_ ≠ [] := by
    intro h
    rw [h] at hq
    simp at hq
  rw [if_neg hne]
  have hr : List.range 3 = [0, 1, 2] := rfl
  rw [hr]
  have h0 : g.tetromino_queue_[0]? = some (g.tetromino_queue_[0]) :=
    List.getElem?_eq_getElem (by omega)
  have h1 : g.tetromino_queue_[1]? = some (g.tetromino_queue_[1]) :=
    List.getElem?_eq_getElem (by omega)
  have h2 : g.tetromino_queue_[2]? = some (g.tetromino_queue_[2]) :=
    List.getElem?_eq_getElem (by omega)
  obtain ⟨c0, p0, e0, l0⟩ := updateQueueStep_some g 0 _ h0 (by omega)
  obtain ⟨c1, p1, e1, l1⟩ := updateQueueStep_some
    { g with queue_board_ := c0, queued_tetrominoes_ := p0 } 1 _ h1 (by simp only; omega)
  obtain ⟨c2, p2, e2, l2⟩ := updateQueueStep_some
    { g with queue_board_ := c1, queued_tetrominoes_ := p1 } 2 _ h2 (by simp only at l1 ⊢; omega)
  refine ⟨c2, p2, ?_, ?_⟩
  · simp only [List.foldlM, e0, e1, e2, Option.bind_eq_bind, Option.some_bind,
      Option.pure_def]
  · simp only at l1 l2
    omega
theorem stashBox_length (n : Nat) :
    ((List.range (InitBoard n).length).map fun (i : Nat) => (i : Int)).length = n := by
  simp [InitBoard]

/-- C13: with kind A in the stash, the hold allowed and a falling piece of
kind B, `TriggerStashTetromino` returns; afterwards the stash holds kind B,
the falling piece, the board and the game-over flag are those of
`SpawnTetromino` for kind A with `unstashing` set, the hold is no longer
allowed and the queue is as before. -/
theorem TriggerStashTetromino_swaps_with_stash (outside : Int → Bool)
    (shuffled : Nat → List Nat) (g : Game) (stashed : Tetromino)
    (hstash : g.stashed_tetromino_ = some stashed)
    (helig : g.unstash_possible_ = true)
    (hbox : g.falling_tetromino_.bounding_box_.length =
      assertedBoxSize g.falling_tetromino_.type_) :
    ∃ g1 spawned,
      TriggerStashTetromino outside shuffled g = some g1 ∧
      SpawnTetromino outside shuffled g stashed.type_ true = some spawned ∧
      g1.stashed_tetromino_.map (fun t => t.type_) = some g.falling_tetromino_.type_ ∧
      g1.falling_tetromino_ = spawned.falling_tetromino_ ∧
      g1.falling_tetromino_.type_ = stashed.type_ ∧
      g1.board_ = spawned.board_ ∧
      g1.game_over_ = spawned.game_over_ ∧
      g1.unstash_possible_ = false ∧
      g1.tetromino_queue_ = g.tetromino_queue_ := by
  have hlen : ((List.range (InitBoard g.falling_tetromino_.bounding_box_.length).length).map
      fun (i : Nat) => (i : Int)).length = assertedBoxSize g.falling_tetromino_.type_ := by
    rw [stashBox_length, hbox]
  unfold TriggerStashTetromino
  simp only [hstash, helig, or_true, if_true, Initialize_eq _ _ _ hlen,
    SpawnTetromino_total]
  simp only [reduceCtorEq, if_false]
  refine ⟨_, _, rfl, rfl, ?_⟩
  simp

/-- C13, witness: the T piece falling and the Z piece in the stash. -/
theorem TriggerStashTetromino_swaps_with_stash_witness :
    sessionSixStashed.unstash_possible_ = true ∧
    sessionSixStashed.falling_tetromino_.bounding_box_.length =
      assertedBoxSize sessionSixStashed.falling_tetromino_.type_ ∧
    (TriggerStashTetromino (fun _ => false) identityShuffle sessionSixStashed).map
        (fun s => (s.falling_tetromino_.type_, s.falling_tetromino_.blocks_,
          s.stashed_tetromino_.map (fun t => t.type_), s.unstash_possible_,
          s.tetromino_queue_.length)) =
      some (TetrominoType.Z_BLOCK, [1, 2, 8, 9], some TetrominoType.T_BLOCK, false, 12) ∧
    ∃ g1 spawned,
      TriggerStashTetromino (fun _ => false) identityShuffle sessionSixStashed = some g1 ∧
      SpawnTetromino (fun _ => false) identityShuffle sessionSixStashed
        TetrominoType.Z_BLOCK true = some spawned ∧
      g1.stashed_tetromino_.map (fun t => t.type_) =
        some sessionSixStashed.falling_tetromino_.type_ ∧
      g1.falling_tetromino_ = spawned.falling_tetromino_ ∧
      g1.falling_tetromino_.type_ = TetrominoType.Z_BLOCK ∧
      g1.board_ = spawned.board_ ∧
      g1.game_over_ = spawned.game_over_ ∧
      g1.unstash_possible_ = false ∧
      g1.tetromino_queue_ = sessionSixStashed.tetromino_queue_ :=
  ⟨rfl, by decide, by decide,
    TriggerStashTetromino_swaps_with_stash (fun _ => false) identityShuffle sessionSixStashed
      _ rfl rfl (by decide)⟩
theorem clearStep_frame (g : Game) (i : Nat) :
    ∃ b s l d, clearStep g i =
      { g with board_ := b, score_ := s, lines_ := l, descend_speed_ := d } := by
  unfold clearStep
  split
  · simp only
    split
    · exact ⟨_, _, _, _, rfl⟩
    · exact ⟨_, _, _, _, rfl⟩
  · exact ⟨_, _, _, _, rfl⟩

theorem ClearFilledLines_frame (g : Game) :
    ∃ b s l d, ClearFilledLines g =
      { g with board_ := b, score_ := s, lines_ := l, descend_speed_ := d } := by
  unfold ClearFilledLines
  have key : ∀ (rows : List Nat) (s0 : Game),
      (∃ b s l d, s0 = { g with board_ := b, score_ := s, lines_ := l, descend_speed_ := d }) →
      ∃ b s l d, rows.foldl clearStep s0 =
        { g with board_ := b, score_ := s, lines_ := l, descend_speed_ := d } := by
    intro rows
    induction rows with
    | nil => intro s0 h; exact h
    | cons r rs ih =>
      intro s0 h
      rw [List.foldl_cons]
      apply ih
      obtain ⟨b, s, l, d, e⟩ := h
      obtain ⟨b1, s1, l1, d1, e1⟩ := clearStep_frame s0 r
      rw [e1, e]
      exact ⟨_, _, _, _, rfl⟩
  exact key _ g ⟨_, _, _, _, rfl⟩

theorem queue_after_pop_length (shuffled : Nat → List Nat) (q : List TetrominoType)
    (hlen : ∀ i, i < 100 → (shuffled i).length = 7) :
    3 ≤ (if q.length < 10 then GenerateTetrominoes shuffled q else q).length := by
  split
  · obtain ⟨app, h1, h2, _⟩ := generate_loop shuffled q 100 hlen
    unfold GenerateTetrominoes
    rw [h1, List.length_append, h2]
    omega
  · omega

theorem settle_sequence_returns (outside : Int → Bool) (shuffled : Nat → List Nat)
    (fuel : Nat) (g : Game) (with_score : Bool) (blocks : List Int) (score1 : Option Int)
    (hdrop : dropLoop g outside fuel g.falling_tetromino_.blocks_
      (if with_score then some g.score_ else none) = some (blocks, score1))
    (hq : g.tetromino_queue_ ≠ [])
    (hp : 3 ≤ g.queued_tetrominoes_.length)
    (hlen : ∀ i, i < 100 → (shuffled i).length = 7) :
    ∃ g2, Game.SettleTetromino outside shuffled fuel g with_score = some g2 ∧
      g2.unstash_possible_ = g.stashed_tetromino_.isSome ∧
      g2.stashed_tetromino_ = g.stashed_tetromino_ ∧
      g2.moving_down_ = g.moving_down_ ∧
      g2.cells_width_ = g.cells_width_ := by
  obtain ⟨front, rest, hfront⟩ := List.exists_cons_of_ne_nil hq
  unfold Game.SettleTetromino Tetromino.SettleTetromino
  rw [hdrop]
  simp only
  obtain ⟨b, s, l, d, e⟩ := ClearFilledLines_frame
    { g with
      board_ := blocks.foldl
        (fun b p => storeAt b p fun c =>
          { c with occupied_ := true, color_ := g.falling_tetromino_.render_color_ })
        g.board_
      falling_tetromino_ := { g.falling_tetromino_ with blocks_ := blocks }
      score_ := score1.getD g.score_ }
  rw [e]
  unfold DescendUnfilledLines
  simp only [hfront, List.head?_cons, SpawnTetromino_total, List.tail_cons]
  have hq3 := queue_after_pop_length shuffled rest hlen
  obtain ⟨cells, pieces, e2, _⟩ := UpdateQueue_some
    { g with
      board_ := ((spawnBlockIndices front).map fun x =>
            (spawnBox g.cells_width_ (GetBBoxDimension front)).getD x 0).foldl
          (fun b p => storeAt b p fun c => { c with color_ := spawnColor front })
          ((List.range (g.cells_height_ - 1)).reverse.foldl
            (descendStep g.cells_width_ g.cells_height_) b)
      falling_tetromino_ :=
        { type_ := front
          rotation_degrees_ := 0
          rotation_indices_ := rotationTable front
          blocks_ := (spawnBlockIndices front).map fun x =>
            (spawnBox g.cells_width_ (GetBBoxDimension front)).getD x 0
          bounding_box_ := spawnBox g.cells_width_ (GetBBoxDimension front)
          render_color_ := spawnColor front }
      tetromino_queue_ :=
        if rest.length < 10 then GenerateTetrominoes shuffled rest else rest
      game_over_ := decide (g.game_over_ = true ∨
        ∃ i, i < GetBBoxDimension front ∧
          occupiedAt ((List.range (g.cells_height_ - 1)).reverse.foldl
            (descendStep g.cells_width_ g.cells_height_) b) outside
            ((spawnBox g.cells_width_ (GetBBoxDimension front)).getD i 0) = true)
      score_ := s
      lines_ := l
      descend_speed_ := d
      unstash_possible_ := g.stashed_tetromino_.isSome } hq3 hp
  simp only [Bool.false_eq_true, if_false] at e2 ⊢
  rw [e2]
  exact ⟨_, rfl, rfl, rfl, rfl, rfl⟩
theorem dropLoop_returns (g : Game) (outside : Int → Bool) (score_ : Option Int)
    (hlen : g.board_.length = g.cells_width_ * g.cells_height_)
    (hsz : g.cells_width_ * g.cells_height_ < 2 ^ 64)
    (blocks : List Int) (hne : blocks ≠ [])
    (hin : ∀ p, p ∈ blocks → 0 ≤ p ∧ p < (g.cells_width_ : Int) * g.cells_height_) :
    ∃ k, ∀ fuel, k ≤ fuel →
      dropLoop g outside fuel blocks score_ =
        some (shiftDown g.cells_width_ blocks k, score_.map fun s => s + (k : Int)) := by
  obtain ⟨k, hat, hfirst⟩ := exists_first_settle g blocks hne hin
  exact ⟨k, fun fuel hk =>
    (dropLoop_eq g outside hlen hsz k blocks score_ fuel hin hfirst hat hk).1⟩

theorem hold_with_empty_stash (outside : Int → Bool)
    (shuffled : Nat → List Nat) (g : Game) (front : TetrominoType)
    (rest : List TetrominoType)
    (hstash : g.stashed_tetromino_ = none)
    (helig : g.unstash_possible_ = false)
    (hbox : g.falling_tetromino_.bounding_box_.length =
      assertedBoxSize g.falling_tetromino_.type_)
    (hq : g.tetromino_queue_ = front :: rest)
    (hp : 3 ≤ g.queued_tetrominoes_.length)
    (hlen7 : ∀ i, i < 100 → (shuffled i).length = 7) :
    ∃ g1 stashed,
      TriggerStashTetromino outside shuffled g = some g1 ∧
      g1.stashed_tetromino_ = some stashed ∧
      stashed.type_ = g.falling_tetromino_.type_ ∧
      g1.unstash_possible_ = false ∧
      g1.falling_tetromino_ =
        { type_ := front
          rotation_degrees_ := 0
          rotation_indices_ := rotationTable front
          blocks_ := (spawnBlockIndices front).map fun x =>
            (spawnBox g.cells_width_ (GetBBoxDimension front)).getD x 0
          bounding_box_ := spawnBox g.cells_width_ (GetBBoxDimension front)
          render_color_ := spawnColor front } ∧
      g1.board_ = ((spawnBlockIndices front).map fun x =>
            (spawnBox g.cells_width_ (GetBBoxDimension front)).getD x 0).foldl
          (fun b p => storeAt b p fun c => { c with color_ := spawnColor front }) g.board_ ∧
      g1.tetromino_queue_ =
        (if rest.length < 10 then GenerateTetrominoes shuffled rest else rest) ∧
      g1.game_over_ = decide (g.game_over_ = true ∨
        ∃ i, i < GetBBoxDimension front ∧
          occupiedAt g.board_ outside
            ((spawnBox g.cells_width_ (GetBBoxDimension front)).getD i 0) = true) := by
  have hlen : ((List.range (InitBoard g.falling_tetromino_.bounding_box_.length).length).map
      fun (i : Nat) => (i : Int)).length = assertedBoxSize g.falling_tetromino_.type_ := by
    rw [stashBox_length, hbox]
  have hq3 := queue_after_pop_length shuffled rest hlen7
  obtain ⟨cells, pieces, e2, _⟩ := UpdateQueue_some
    { g with
      stash_board_ := ((spawnBlockIndices g.falling_tetromino_.type_).map fun x =>
          ((List.range (InitBoard g.falling_tetromino_.bounding_box_.length).length).map
            fun (i : Nat) => (i : Int)).getD x 0).foldl
        (fun b p => storeAt b p fun c =>
          { c with color_ := spawnColor g.falling_tetromino_.type_ })
        (InitBoard g.falling_tetromino_.bounding_box_.length)
      stashed_tetromino_ := some
        { type_ := g.falling_tetromino_.type_
          rotation_degrees_ := 0
          rotation_indices_ := rotationTable g.falling_tetromino_.type_
          blocks_ := (spawnBlockIndices g.falling_tetromino_.type_).map fun x =>
            ((List.range (InitBoard g.falling_tetromino_.bounding_box_.length).length).map
              fun (i : Nat) => (i : Int)).getD x 0
          bounding_box_ :=
            (List.range (InitBoard g.falling_tetromino_.bounding_box_.length).length).map
              fun (i : Nat) => (i : Int)
          render_color_ := spawnColor g.falling_tetromino_.type_ }
      unstash_possible_ := false
      board_ := ((spawnBlockIndices front).map fun x =>
            (spawnBox g.cells_width_ (GetBBoxDimension front)).getD x 0).foldl
          (fun b p => storeAt b p fun c => { c with color_ := spawnColor front }) g.board_
      falling_tetromino_ :=
        { type_ := front
          rotation_degrees_ := 0
          rotation_indices_ := rotationTable front
          blocks_ := (spawnBlockIndices front).map fun x =>
            (spawnBox g.cells_width_ (GetBBoxDimension front)).getD x 0
          bounding_box_ := spawnBox g.cells_width_ (GetBBoxDimension front)
          render_color_ := spawnColor front }
      tetromino_queue_ :=
        if rest.length < 10 then GenerateTetrominoes shuffled rest else rest
      game_over_ := decide (g.game_over_ = true ∨
        ∃ i, i < GetBBoxDimension front ∧
          occupiedAt g.board_ outside
            ((spawnBox g.cells_width_ (GetBBoxDimension front)).getD i 0) = true) } hq3 hp
  unfold TriggerStashTetromino
  simp only [hstash, helig, true_or, if_true, Bool.false_eq_true, if_false,
    Initialize_eq _ _ _ hlen, hq, List.head?_cons, SpawnTetromino_total, List.tail_cons]
  simp only [Bool.false_eq_true, if_false] at e2
  rw [e2]
  exact ⟨_, _, rfl, rfl, rfl, rfl, rfl, rfl, rfl, rfl⟩

/-- C12: in a session with nothing stashed and the hold not marked as allowed,
`TriggerStashTetromino` returns; afterwards the stash holds the kind of the
piece that was falling, the falling piece, board, queue and game-over flag are
those of `SpawnTetromino` for the kind at the queue front (which is removed
from the queue), and the hold is not allowed.  A second `TriggerStashTetromino`
returns the session as it is.  In any later session in play with that stash,
the settle-sequence returns once the bound on the drop passes is large enough,
and it leaves the hold allowed. -/
theorem TriggerStashTetromino_holds_once_per_piece (outside : Int → Bool)
    (shuffled : Nat → List Nat) (g : Game) (front : TetrominoType)
    (rest : List TetrominoType)
    (hstash : g.stashed_tetromino_ = none)
    (helig : g.unstash_possible_ = false)
    (hbox : g.falling_tetromino_.bounding_box_.length =
      assertedBoxSize g.falling_tetromino_.type_)
    (hq : g.tetromino_queue_ = front :: rest)
    (hp : 3 ≤ g.queued_tetrominoes_.length)
    (hperm : ∀ i, i < 100 → (shuffled i).Perm [0, 1, 2, 3, 4, 5, 6]) :
    ∃ g1 spawned,
      TriggerStashTetromino outside shuffled g = some g1 ∧
      SpawnTetromino outside shuffled g front false = some spawned ∧
      g1.stashed_tetromino_.map (fun t => t.type_) = some g.falling_tetromino_.type_ ∧
      g1.falling_tetromino_ = spawned.falling_tetromino_ ∧
      g1.falling_tetromino_.type_ = front ∧
      g1.board_ = spawned.board_ ∧
      g1.game_over_ = spawned.game_over_ ∧
      g1.tetromino_queue_ = spawned.tetromino_queue_ ∧
      (∃ more, g1.tetromino_queue_ = rest ++ more) ∧
      g1.unstash_possible_ = false ∧
      TriggerStashTetromino outside shuffled g1 = some g1 ∧
      ∀ s : Game, s.stashed_tetromino_ = g1.stashed_tetromino_ → inPlay s →
        ∀ with_score : Bool, ∃ k, ∀ fuel, k ≤ fuel →
          ∃ g2, Game.SettleTetromino outside shuffled fuel s with_score = some g2 ∧
            g2.unstash_possible_ = true := by
  have hlen7 : ∀ i, i < 100 → (shuffled i).length = 7 := fun i hi => (hperm i hi).length_eq
  obtain ⟨g1, stashed, hT, hs1, hs2, hu, hf, hb, hqu, hgo⟩ :=
    hold_with_empty_stash outside shuffled g front rest hstash helig hbox hq hp hlen7
  refine ⟨g1, _, hT, SpawnTetromino_total outside shuffled g front false, ?_, ?_, ?_, ?_, ?_,
    ?_, ?_, hu, ?_, ?_⟩
  · rw [hs1, Option.map_some', hs2]
  · rw [hf]
  · rw [hf]
  · rw [hb]
  · rw [hgo]
  · rw [hqu]
    simp only [hq, List.tail_cons, Bool.false_eq_true, if_false]
  · rw [hqu]
    split
    · obtain ⟨app, h1, _, _⟩ := generate_loop shuffled rest 100 hlen7
      exact ⟨app, h1⟩
    · exact ⟨[], (List.append_nil rest).symm⟩
  · unfold TriggerStashTetromino
    simp [hs1, hu]
  · intro s hs hplay with_score
    obtain ⟨h1, h2, h3, h4, h5, h6⟩ := hplay
    obtain ⟨k, hk⟩ := dropLoop_returns s outside (if with_score then some s.score_ else none)
      h1 h2 s.falling_tetromino_.blocks_ h3 h4
    refine ⟨k, fun fuel hfuel => ?_⟩
    obtain ⟨g2, e, hu2, _⟩ := settle_sequence_returns outside shuffled fuel s with_score _ _
      (hk fuel hfuel) h5 h6 hlen7
    refine ⟨g2, e, ?_⟩
    rw [hu2, hs, hs1]
    rfl

/-- C12, witness: the T piece falling on an empty board of six columns, the I
piece at the queue front. -/
theorem TriggerStashTetromino_holds_once_per_piece_witness :
    sessionSix.stashed_tetromino_ = none ∧
    sessionSix.unstash_possible_ = false ∧
    3 ≤ sessionSix.queued_tetrominoes_.length ∧
    (TriggerStashTetromino (fun _ => false) identityShuffle sessionSix).map
        (fun s => (s.falling_tetromino_.type_, s.falling_tetromino_.blocks_,
          s.stashed_tetromino_.map (fun t => t.type_), s.unstash_possible_,
          s.tetromino_queue_.length, decide (inPlay s))) =
      some (TetrominoType.I_BLOCK, [0, 1, 2, 3], some TetrominoType.T_BLOCK, false, 11, true) ∧
    ((TriggerStashTetromino (fun _ => false) identityShuffle sessionSix).bind
        fun s => Game.SettleTetromino (fun _ => false) identityShuffle 5 s true).map
        (fun s => (s.unstash_possible_, s.falling_tetromino_.type_, s.score_)) =
      some (true, TetrominoType.J_BLOCK, 4) ∧
    ∃ g1 spawned,
      TriggerStashTetromino (fun _ => false) identityShuffle sessionSix = some g1 ∧
      SpawnTetromino (fun _ => false) identityShuffle sessionSix TetrominoType.I_BLOCK false =
        some spawned ∧
      g1.stashed_tetromino_.map (fun t => t.type_) =
        some sessionSix.falling_tetromino_.type_ ∧
      g1.falling_tetromino_ = spawned.falling_tetromino_ ∧
      g1.falling_tetromino_.type_ = TetrominoType.I_BLOCK ∧
      g1.board_ = spawned.board_ ∧
      g1.game_over_ = spawned.game_over_ ∧
      g1.tetromino_queue_ = spawned.tetromino_queue_ ∧
      (∃ more, g1.tetromino_queue_ = sessionSix.tetromino_queue_.tail ++ more) ∧
      g1.unstash_possible_ = false ∧
      TriggerStashTetromino (fun _ => false) identityShuffle g1 = some g1 ∧
      ∀ s : Game, s.stashed_tetromino_ = g1.stashed_tetromino_ → inPlay s →
        ∀ with_score : Bool, ∃ k, ∀ fuel, k ≤ fuel →
          ∃ g2, Game.SettleTetromino (fun _ => false) identityShuffle fuel s with_score =
              some g2 ∧
            g2.unstash_possible_ = true :=
  ⟨rfl, rfl, by decide, by decide, by decide,
    TriggerStashTetromino_holds_once_per_piece (fun _ => false) identityShuffle sessionSix
      TetrominoType.I_BLOCK sessionSix.tetromino_queue_.tail rfl rfl (by decide) rfl
      (by decide) (fun _ _ => List.Perm.refl _)⟩
theorem Reset_eq (shuffled : Nat → List Nat) (g : Game)
    (hp : 3 ≤ g.queued_tetrominoes_.length)
    (hlen7 : ∀ i, i < 100 → (shuffled i).length = 7) :
    ∃ cells pieces, Reset shuffled g =
      some { g with
        stash_board_ := []
        stashed_tetromino_ := none
        board_ := g.board_.map fun c => { c with color_ := black, occupied_ := false }
        queue_board_ := cells
        queued_tetrominoes_ := pieces
        tetromino_queue_ := GenerateTetrominoes shuffled []
        score_ := 0
        lines_ := 0
        descend_speed_ := 60
        moving_left_ := false
        moving_right_ := false
        moving_down_ := false
        game_over_ := false } ∧
      pieces.length = g.queued_tetrominoes_.length := by
  have hq3 : 3 ≤ (GenerateTetrominoes shuffled []).length := by
    obtain ⟨app, h1, h2, _⟩ := generate_loop shuffled [] 100 hlen7
    unfold GenerateTetrominoes
    rw [h1, List.length_append, h2]
    omega
  obtain ⟨cells, pieces, e, hl⟩ := UpdateQueue_some
    { g with
      stash_board_ := []
      stashed_tetromino_ := none
      board_ := g.board_.map fun c => { c with color_ := black, occupied_ := false }
      queue_board_ := g.queue_board_.map fun c => { c with color_ := black, occupied_ := false }
      tetromino_queue_ := GenerateTetrominoes shuffled [] } hq3 hp
  refine ⟨cells, pieces, ?_, hl⟩
  unfold Reset
  simp only [e]

/-- C16, divergence: `Reset` returns and gives the board, the score, the line
count, the gravity interval, the game-over flag, the three held flags and the
stash their fresh-session values, but it returns `moving_ticks_` and
`unstash_possible_` as it found them.  When `unstash_possible_` was set, the
session after `Reset` has the hold marked as allowed with nothing stashed, and
`TriggerStashTetromino` then reads the kind of a stashed piece that does not
exist. -/
theorem Reset_keeps_hold_flag_and_repeat_counter (outside : Int → Bool)
    (shuffled : Nat → List Nat) (g : Game)
    (hp : 3 ≤ g.queued_tetrominoes_.length)
    (hperm : ∀ i, i < 100 → (shuffled i).Perm [0, 1, 2, 3, 4, 5, 6]) :
    ∃ g1, Reset shuffled g = some g1 ∧
      g1.board_.length = g.board_.length ∧
      (∀ m, m < g1.board_.length → cellAt g1.board_ m = default) ∧
      g1.score_ = 0 ∧ g1.lines_ = 0 ∧ g1.descend_speed_ = 60 ∧ g1.game_over_ = false ∧
      g1.moving_left_ = false ∧ g1.moving_right_ = false ∧ g1.moving_down_ = false ∧
      g1.stashed_tetromino_ = none ∧ g1.stash_board_ = [] ∧
      g1.moving_ticks_ = g.moving_ticks_ ∧
      g1.unstash_possible_ = g.unstash_possible_ ∧
      (g.unstash_possible_ = true → TriggerStashTetromino outside shuffled g1 = none) := by
  obtain ⟨cells, pieces, e, _⟩ := Reset_eq shuffled g hp fun i hi => (hperm i hi).length_eq
  refine ⟨_, e, ?_, ?_, rfl, rfl, rfl, rfl, rfl, rfl, rfl, rfl, rfl, rfl, rfl, ?_⟩
  · simp only [List.length_map]
  · intro m hm
    simp only [List.length_map] at hm
    unfold cellAt
    rw [List.getD_eq_getElem?_getD, List.getElem?_map, List.getElem?_eq_getElem hm]
    rfl
  · intro h
    unfold TriggerStashTetromino
    simp [h]

/-- C16, failing input: a game-over session with the Z piece stashed, the
hold allowed and the movement-repeat counter at 3. -/
theorem Reset_keeps_hold_flag_and_repeat_counter_witness :
    3 ≤ sessionSixOver.queued_tetrominoes_.length ∧
    sessionSixOver.game_over_ = true ∧
    sessionSixOver.unstash_possible_ = true ∧
    sessionSixOver.moving_ticks_ = 3 ∧
    ∃ g1, Reset identityShuffle sessionSixOver = some g1 ∧
      g1.stashed_tetromino_ = none ∧
      g1.moving_ticks_ = 3 ∧
      g1.unstash_possible_ = true ∧
      TriggerStashTetromino (fun _ => false) identityShuffle g1 = none :=
  ⟨by decide, rfl, rfl, rfl,
    (Reset_keeps_hold_flag_and_repeat_counter (fun _ => false) identityShuffle sessionSixOver
      (by decide) (fun _ _ => List.Perm.refl _)).imp
      fun _ h => ⟨h.1, h.2.2.2.2.2.2.2.2.2.2.1, h.2.2.2.2.2.2.2.2.2.2.2.2.1,
        h.2.2.2.2.2.2.2.2.2.2.2.2.2.1, h.2.2.2.2.2.2.2.2.2.2.2.2.2.2 rfl⟩⟩
theorem rotationTable_groups (type : TetrominoType) :
    ∀ k, k < 4 →
      ((rotationTable type).drop (4 * k)).take 4 =
        turnedIndices (GetBBoxDimension type) (spawnIndices type) k ∧
      (((rotationTable type).drop (4 * k)).take 4).length = 4 ∧
      (((rotationTable type).drop (4 * k)).take 4).Pairwise (fun a b => a < b) := by
  cases type <;> decide

/-- C18: for each kind, on a box of the size the kind asserts, `Initialize`
returns a piece whose rotation table has 16 entries; for `k` from 0 to 3 its
entries `4k` to `4k+3` are the ascending list of the four positions to which
`k` quarter-turns clockwise take the kind's canonical indices in its box, so
they are distinct; and every entry is smaller than `dim * dim`, the length of
the bounding box. -/
theorem Initialize_builds_rotation_table (cells : List Cell) (board_cells : List Int)
    (type : TetrominoType) (hlen : board_cells.length = assertedBoxSize type) :
    ∃ cells1 piece, Initialize cells board_cells type = some (cells1, piece) ∧
      piece.rotation_indices_.length = 16 ∧
      (∀ k, k < 4 →
        (piece.rotation_indices_.drop (4 * k)).take 4 =
          turnedIndices (GetBBoxDimension type) (spawnIndices type) k ∧
        ((piece.rotation_indices_.drop (4 * k)).take 4).length = 4 ∧
        ((piece.rotation_indices_.drop (4 * k)).take 4).Pairwise (fun a b => a < b) ∧
        ((piece.rotation_indices_.drop (4 * k)).take 4).Nodup) ∧
      (∀ x, x ∈ piece.rotation_indices_ →
        x < GetBBoxDimension type * GetBBoxDimension type ∧
        x < piece.bounding_box_.length) := by
  refine ⟨_, _, Initialize_eq cells board_cells type hlen, ?_, ?_, ?_⟩
  · exact (rotationTable_facts type).1
  · intro k hk
    obtain ⟨h1, h2, h3⟩ := rotationTable_groups type k hk
    exact ⟨h1, h2, h3, h3.imp fun h => Nat.ne_of_lt h⟩
  · intro x hx
    have h := (rotationTable_facts type).2.1 x hx
    refine ⟨?_, ?_⟩
    · have hd : GetBBoxDimension type * GetBBoxDimension type = assertedBoxSize type := by
        cases type <;> rfl
      rw [hd]
      exact h
    · show x < board_cells.length
      rw [hlen]
      exact h

/-- C18, witness: the T piece on the box of nine cells in the corner of a
board of three columns. -/
theorem Initialize_builds_rotation_table_witness :
    ([0, 1, 2, 3, 4, 5, 6, 7, 8] : List Int).length =
      assertedBoxSize TetrominoType.T_BLOCK ∧
    (Initialize (List.replicate 9 default) [0, 1, 2, 3, 4, 5, 6, 7, 8]
        TetrominoType.T_BLOCK).map (fun r => r.2.rotation_indices_) =
      some [1, 3, 4, 5, 1, 4, 5, 7, 3, 4, 5, 7, 1, 3, 4, 7] ∧
    ∃ cells1 piece, Initialize (List.replicate 9 default) [0, 1, 2, 3, 4, 5, 6, 7, 8]
        TetrominoType.T_BLOCK = some (cells1, piece) ∧
      piece.rotation_indices_.length = 16 ∧
      (∀ k, k < 4 →
        (piece.rotation_indices_.drop (4 * k)).take 4 =
          turnedIndices (GetBBoxDimension TetrominoType.T_BLOCK)
            (spawnIndices TetrominoType.T_BLOCK) k ∧
        ((piece.rotation_indices_.drop (4 * k)).take 4).length = 4 ∧
        ((piece.rotation_indices_.drop (4 * k)).take 4).Pairwise (fun a b => a < b) ∧
        ((piece.rotation_indices_.drop (4 * k)).take 4).Nodup) ∧
      (∀ x, x ∈ piece.rotation_indices_ →
        x < GetBBoxDimension TetrominoType.T_BLOCK * GetBBoxDimension TetrominoType.T_BLOCK ∧
        x < piece.bounding_box_.length) :=
  ⟨by decide, by decide,
    Initialize_builds_rotation_table (List.replicate 9 default) [0, 1, 2, 3, 4, 5, 6, 7, 8]
      TetrominoType.T_BLOCK (by decide)⟩
theorem mem_boxAt (w side R C : Nat) (p : Int) :
    p ∈ boxAt w side R C ↔
      ∃ a b, a < side ∧ b < side ∧ p = (((R + a) * w + C + b : Nat) : Int) := by
  unfold boxAt
  rw [List.mem_map]
  constructor
  · rintro ⟨k, hk, rfl⟩
    rw [List.mem_range] at hk
    have hs : 0 < side := by
      rcases Nat.eq_zero_or_pos side with h | h
      · rw [h] at hk; simp at hk
      · exact h
    exact ⟨k / side, k % side, Nat.div_lt_of_lt_mul hk, Nat.mod_lt _ hs, rfl⟩
  · rintro ⟨a, b, ha, hb, rfl⟩
    refine ⟨a * side + b, ?_, ?_⟩
    · rw [List.mem_range]
      calc a * side + b < a * side + side := by omega
        _ = (a + 1) * side := by ring
        _ ≤ side * side := Nat.mul_le_mul_right side ha
    · have hs : 0 < side := by omega
      have h1 : (a * side + b) / side = a := by
        rw [Nat.add_comm, Nat.add_mul_div_right _ _ hs, Nat.div_eq_of_lt hb, Nat.zero_add]
      have h2 : (a * side + b) % side = b := by
        rw [Nat.add_comm, Nat.add_mul_mod_self_right, Nat.mod_eq_of_lt hb]
      rw [h1, h2]

theorem boxAt_length (w side R C : Nat) : (boxAt w side R C).length = side * side := by
  unfold boxAt
  rw [List.length_map, List.length_range]

theorem boxAt_first (w side R C : Nat) (hs : 0 < side) :
    (boxAt w side R C).getD 0 0 = ((R * w + C : Nat) : Int) := by
  unfold boxAt
  rw [getD_map_range _ _ _ _ (Nat.mul_pos hs hs)]
  simp [Nat.zero_div, Nat.zero_mod]

theorem boxAt_last (w side R C : Nat) (hs : 0 < side) :
    (boxAt w side R C).getLastD 0 = (((R + (side - 1)) * w + C + (side - 1) : Nat) : Int) := by
  unfold boxAt
  obtain ⟨n, hn⟩ : ∃ n, side * side = n + 1 :=
    ⟨side * side - 1, (Nat.sub_add_cancel (Nat.mul_pos hs hs)).symm⟩
  rw [hn, List.range_succ, List.map_append, List.map_singleton, List.getLastD_concat]
  have hn' : n = (side - 1) * side + (side - 1) := by
    have : side * side = (side - 1) * side + (side - 1) + 1 := by
      cases side with
      | zero => omega
      | succ s => simp only [Nat.add_sub_cancel]; ring
    omega
  have h1 : n / side = side - 1 := by
    rw [hn', Nat.add_comm, Nat.add_mul_div_right _ _ hs, Nat.div_eq_of_lt (by omega),
      Nat.zero_add]
  have h2 : n % side = side - 1 := by
    rw [hn', Nat.add_comm, Nat.add_mul_mod_self_right, Nat.mod_eq_of_lt (by omega)]
  rw [h1, h2]

theorem boxAt_shift_right (w side R C : Nat) :
    (boxAt w side R C).map (fun p => p + 1) = boxAt w side R (C + 1) := by
  unfold boxAt
  rw [List.map_map]
  apply List.map_congr_left
  intro k _
  simp only [Function.comp]
  push_cast
  ring

theorem boxAt_shift_left (w side R C : Nat) (hC : 0 < C) :
    (boxAt w side R C).map (fun p => p - 1) = boxAt w side R (C - 1) := by
  unfold boxAt
  rw [List.map_map]
  apply List.map_congr_left
  intro k _
  simp only [Function.comp]
  obtain ⟨c, rfl⟩ : ∃ c, C = c + 1 := ⟨C - 1, by omega⟩
  simp only [Nat.add_sub_cancel]
  push_cast
  ring

theorem boxAt_shift_down (w side R C : Nat) :
    (boxAt w side R C).map (fun p => p + (w : Int)) = boxAt w side (R + 1) C := by
  unfold boxAt
  rw [List.map_map]
  apply List.map_congr_left
  intro k _
  simp only [Function.comp]
  push_cast
  ring

theorem cell_coords (w h r c : Nat) (hc : c < w) (hr : r < h) :
    (0 : Int) ≤ ((r * w + c : Nat) : Int) ∧
    ((r * w + c : Nat) : Int) < (w : Int) * h ∧
    ((r * w + c : Nat) : Int) % (w : Int) = (c : Int) ∧
    ((r * w + c : Nat) : Int) / (w : Int) = (r : Int) := by
  have hw : 0 < w := by omega
  refine ⟨Int.natCast_nonneg _, ?_, ?_, ?_⟩
  · have h1 : r * w + c < w * h := by
      calc r * w + c < r * w + w := by omega
        _ = (r + 1) * w := by ring
        _ ≤ h * w := Nat.mul_le_mul_right w hr
        _ = w * h := Nat.mul_comm _ _
    exact_mod_cast h1
  · have h2 : (r * w + c) % w = c := by
      rw [Nat.add_comm, Nat.add_mul_mod_self_right, Nat.mod_eq_of_lt hc]
    exact_mod_cast h2
  · have h3 : (r * w + c) / w = r := by
      rw [Nat.add_comm, Nat.add_mul_div_right _ _ hw, Nat.div_eq_of_lt hc, Nat.zero_add]
    exact_mod_cast h3
theorem box_right_edge (w side R C : Nat) (hs : 0 < side) (hC : C + side ≤ w) :
    (((boxAt w side R C).getLastD 0 + 1).tmod (w : Int) = 0) ↔ C + side = w := by
  rw [boxAt_last w side R C hs]
  have hnn : (0 : Int) ≤ (((R + (side - 1)) * w + C + (side - 1) : Nat) : Int) + 1 := by
    have := Int.natCast_nonneg ((R + (side - 1)) * w + C + (side - 1))
    omega
  rw [Int.tmod_eq_emod hnn (Int.natCast_nonneg w)]
  have he : (((R + (side - 1)) * w + C + (side - 1) : Nat) : Int) + 1 =
      (((R + (side - 1)) * w + (C + side) : Nat) : Int) := by
    push_cast
    omega
  rw [he]
  have hcast : ((((R + (side - 1)) * w + (C + side) : Nat) : Int) % (w : Int) = 0) ↔
      ((R + (side - 1)) * w + (C + side)) % w = 0 := by
    constructor
    · intro h; exact_mod_cast h
    · intro h; exact_mod_cast h
  rw [hcast, Nat.add_comm, Nat.add_mul_mod_self_right]
  constructor
  · intro h
    rcases Nat.lt_or_ge (C + side) w with hlt | hge
    · rw [Nat.mod_eq_of_lt hlt] at h; omega
    · omega
  · intro h
    rw [h, Nat.mod_self]

theorem box_left_edge (w side R C : Nat) (hs : 0 < side) (hC : C + side ≤ w) :
    (((boxAt w side R C).getD 0 0).tmod (w : Int) = 0) ↔ C = 0 := by
  rw [boxAt_first w side R C hs]
  rw [Int.tmod_eq_emod (Int.natCast_nonneg _) (Int.natCast_nonneg w)]
  have hcast : (((R * w + C : Nat) : Int) % (w : Int) = 0) ↔ (R * w + C) % w = 0 := by
    constructor
    · intro h; exact_mod_cast h
    · intro h; exact_mod_cast h
  rw [hcast, Nat.add_comm, Nat.add_mul_mod_self_right, Nat.mod_eq_of_lt (by omega)]

theorem box_bottom_edge (w h side R C : Nat) (hs : 0 < side) (hC : C + side ≤ w)
    (hR : R + side ≤ h) :
    ((boxAt w side R C).getLastD 0 ≥ (w : Int) * h - w) ↔ R + side = h := by
  rw [boxAt_last w side R C hs]
  obtain ⟨h', rfl⟩ : ∃ h', h = h' + 1 := ⟨h - 1, by omega⟩
  have he : (w : Int) * ((h' + 1 : Nat) : Int) - w = ((h' * w : Nat) : Int) := by
    push_cast
    ring
  rw [he, ge_iff_le, Int.ofNat_le]
  constructor
  · intro hle
    by_contra hne
    have hlt : R + (side - 1) + 1 ≤ h' := by omega
    have h1 : (R + (side - 1)) * w + C + (side - 1) < (R + (side - 1) + 1) * w := by
      have : (R + (side - 1) + 1) * w = (R + (side - 1)) * w + w := by ring
      omega
    have h2 : (R + (side - 1) + 1) * w ≤ h' * w := Nat.mul_le_mul_right w hlt
    omega
  · intro heq
    have : R + (side - 1) = h' := by omega
    rw [this]
    omega
theorem box_blocks_inside (g : Game) (t : Tetromino) (side R C : Nat)
    (hC : C + side ≤ g.cells_width_) (hR : R + side ≤ g.cells_height_)
    (hbb : t.bounding_box_ = boxAt g.cells_width_ side R C)
    (hin : ∀ p, p ∈ t.blocks_ → p ∈ t.bounding_box_) :
    ∀ p, p ∈ t.blocks_ → ∃ a b, a < side ∧ b < side ∧
      p = (((R + a) * g.cells_width_ + (C + b) : Nat) : Int) ∧
      0 ≤ p ∧ p < (g.cells_width_ : Int) * g.cells_height_ ∧
      p % (g.cells_width_ : Int) = ((C + b : Nat) : Int) ∧
      p / (g.cells_width_ : Int) = ((R + a : Nat) : Int) := by
  intro p hp
  have hm := hin p hp
  rw [hbb, mem_boxAt] at hm
  obtain ⟨a, b, ha, hb, rfl⟩ := hm
  have hcc := cell_coords g.cells_width_ g.cells_height_ (R + a) (C + b) (by omega) (by omega)
  rw [Nat.add_assoc]
  exact ⟨a, b, ha, hb, rfl, hcc⟩

theorem move_keeps_box (g : Game) (outside : Int → Bool) (t : Tetromino) (right : Bool)
    (hb : boardSized g) (hbox : boxInBoard g t) (htab : tableInRange t) :
    boardSized (MoveTetromino g outside t right).1 ∧
    boxInBoard (MoveTetromino g outside t right).1 (MoveTetromino g outside t right).2 ∧
    tableInRange (MoveTetromino g outside t right).2 := by
  by_cases hrej : t.blocks_.any (moveRejects g outside right) = true
  · rw [MoveTetromino_rejected g outside t right hrej]
    exact ⟨hb, hbox, htab⟩
  obtain ⟨side, R, C, hs, hC, hR, hbb, h4, hin⟩ := hbox
  obtain ⟨hlen, hsz⟩ := hb
  have hco := box_blocks_inside g t side R C hC hR hbb hin
  have hw : (0 : Int) < (g.cells_width_ : Int) := by
    have : 0 < g.cells_width_ := by omega
    exact_mod_cast this
  have hedge : ∀ p, p ∈ t.blocks_ → ¬ atEdgeColumn g.cells_width_ right p := by
    intro p hp he
    obtain ⟨a, b, _, _, _, h0, h1, _, _⟩ := hco p hp
    have hr : moveRejects g outside right p = true :=
      ((moveRejects_iff g outside right p hlen hsz ⟨h0, h1⟩).1).mpr (Or.inl he)
    exact hrej (List.any_eq_true.mpr ⟨p, hp, hr⟩)
  have hboard : ∀ (c1 c2 : SDL_Color) (ps qs : List Int),
      (qs.foldl (fun b p => storeAt b p fun c => { c with color_ := c2 })
        (ps.foldl (fun b p => storeAt b p fun c => { c with color_ := c1 }) g.board_)).length =
        g.cells_width_ * g.cells_height_ := by
    intro c1 c2 ps qs
    rw [(occupied_paint_color c2 qs _).1, (occupied_paint_color c1 ps _).1, hlen]
  have htab2 : ∀ bb : List Int, bb.length = t.bounding_box_.length →
      ∀ bl : List Int, tableInRange { t with blocks_ := bl, bounding_box_ := bb } := by
    intro bb hbl bl
    obtain ⟨h16, hidx, hq⟩ := htab
    refine ⟨h16, ?_, hq⟩
    intro x hx
    show x < bb.length
    rw [hbl]
    exact hidx x hx
  unfold MoveTetromino
  rw [if_neg hrej]
  cases right with
  | true =>
    simp only [if_true, true_and, Bool.true_eq_false, not_true_eq_false, false_and, if_false]
    rw [hbb]
    split
    · rename_i hcond
      have hCw : C + side = g.cells_width_ := (box_right_edge _ side R C hs hC).mp hcond
      refine ⟨⟨hboard _ _ _ _, hsz⟩, ⟨side, R, C, hs, hC, hR, rfl, ?_, ?_⟩, ?_⟩
      · show (t.blocks_.map fun p => p + 1).length = 4
        rw [List.length_map, h4]
      · intro p hp
        have hp' : p ∈ t.blocks_.map fun p => p + 1 := hp
        rw [List.mem_map] at hp'
        obtain ⟨p0, hp0, rfl⟩ := hp'
        obtain ⟨a, b, ha, hb', he, _, _, hmod, _⟩ := hco p0 hp0
        have hne := hedge p0 hp0
        unfold atEdgeColumn at hne
        simp only [if_true] at hne
        rw [hmod] at hne
        have hb2 : b + 1 < side := by
          by_contra hcon
          apply hne
          have : C + b = g.cells_width_ - 1 := by omega
          rw [this]
          have hw1 : 1 ≤ g.cells_width_ := by omega
          push_cast [hw1]
          rfl
        show p0 + 1 ∈ boxAt g.cells_width_ side R C
        rw [mem_boxAt]
        refine ⟨a, b + 1, ha, hb2, ?_⟩
        rw [he]
        push_cast
        ring
      · apply htab2
        rw [boxAt_length, hbb, boxAt_length]
    · rename_i hcond
      have hCw : C + side ≠ g.cells_width_ := fun h =>
        hcond ((box_right_edge _ side R C hs hC).mpr h)
      rw [boxAt_shift_right]
      refine ⟨⟨hboard _ _ _ _, hsz⟩, ⟨side, R, C + 1, hs,
        (by show C + 1 + side ≤ g.cells_width_; omega), hR, rfl, ?_, ?_⟩, ?_⟩
      · show (t.blocks_.map fun p => p + 1).length = 4
        rw [List.length_map, h4]
      · intro p hp
        have hp' : p ∈ t.blocks_.map fun p => p + 1 := hp
        rw [List.mem_map] at hp'
        obtain ⟨p0, hp0, rfl⟩ := hp'
        show p0 + 1 ∈ boxAt g.cells_width_ side R (C + 1)
        rw [← boxAt_shift_right, List.mem_map]
        exact ⟨p0, hbb ▸ hin p0 hp0, rfl⟩
      · apply htab2
        rw [boxAt_length, hbb, boxAt_length]
  | false =>
    simp only [Bool.false_eq_true, if_false, false_and, not_false_eq_true, true_and]
    rw [hbb]
    split
    · rename_i hcond
      have hC0 : C = 0 := (box_left_edge _ side R C hs hC).mp hcond
      refine ⟨⟨hboard _ _ _ _, hsz⟩, ⟨side, R, C, hs, hC, hR, rfl, ?_, ?_⟩, ?_⟩
      · show (t.blocks_.map fun p => p - 1).length = 4
        rw [List.length_map, h4]
      · intro p hp
        have hp' : p ∈ t.blocks_.map fun p => p - 1 := hp
        rw [List.mem_map] at hp'
        obtain ⟨p0, hp0, rfl⟩ := hp'
        obtain ⟨a, b, ha, hb', he, _, _, hmod, _⟩ := hco p0 hp0
        have hne := hedge p0 hp0
        unfold atEdgeColumn at hne
        simp only [Bool.false_eq_true, if_false] at hne
        rw [hmod] at hne
        have hb2 : 0 < b := by
          by_contra hcon
          apply hne
          have : C + b = 0 := by omega
          rw [this]
          rfl
        show p0 - 1 ∈ boxAt g.cells_width_ side R C
        rw [mem_boxAt]
        refine ⟨a, b - 1, ha, by omega, ?_⟩
        rw [he]
        obtain ⟨b0, rfl⟩ : ∃ b0, b = b0 + 1 := ⟨b - 1, by omega⟩
        simp only [Nat.add_sub_cancel]
        push_cast
        ring
      · apply htab2
        rw [boxAt_length, hbb, boxAt_length]
    · rename_i hcond
      have hC0 : 0 < C := by
        rcases Nat.eq_zero_or_pos C with h | h
        · exact absurd ((box_left_edge _ side R C hs hC).mpr h) hcond
        · exact h
      rw [boxAt_shift_left _ _ _ _ hC0]
      refine ⟨⟨hboard _ _ _ _, hsz⟩, ⟨side, R, C - 1, hs,
        (by show C - 1 + side ≤ g.cells_width_; omega), hR, rfl, ?_, ?_⟩, ?_⟩
      · show (t.blocks_.map fun p => p - 1).length = 4
        rw [List.length_map, h4]
      · intro p hp
        have hp' : p ∈ t.blocks_.map fun p => p - 1 := hp
        rw [List.mem_map] at hp'
        obtain ⟨p0, hp0, rfl⟩ := hp'
        show p0 - 1 ∈ boxAt g.cells_width_ side R (C - 1)
        rw [← boxAt_shift_left _ _ _ _ hC0, List.mem_map]
        exact ⟨p0, hbb ▸ hin p0 hp0, rfl⟩
      · apply htab2
        rw [boxAt_length, hbb, boxAt_length]
theorem descend_keeps_box (g : Game) (outside : Int → Bool) (fuel : Nat) (t : Tetromino)
    (score_ : Option Int)
    (hb : boardSized g) (hbox : boxInBoard g t) (htab : tableInRange t) :
    ∃ moved g1 t1 score1,
      DescendTetromino g outside fuel t score_ = some (moved, g1, t1, score1) ∧
      boardSized g1 ∧ boxInBoard g1 t1 ∧ tableInRange t1 := by
  by_cases hat : BlocksAtSettlePosition g outside t.blocks_ = true
  · unfold DescendTetromino
    rw [if_pos hat, SettleTetromino_at_settle g outside fuel t none hat]
    refine ⟨_, _, _, _, rfl, ⟨?_, hb.2⟩, hbox, htab⟩
    show (t.blocks_.foldl _ g.board_).length = g.cells_width_ * g.cells_height_
    rw [(settle_paint _ _ _).1, hb.1]
  obtain ⟨side, R, C, hs, hC, hR, hbb, h4, hin⟩ := hbox
  obtain ⟨hlen, hsz⟩ := hb
  have hco := box_blocks_inside g t side R C hC hR hbb hin
  have hns : ¬ atSettlePosition g t.blocks_ := by
    intro h
    exact hat ((BlocksAtSettlePosition_iff g outside t.blocks_ hlen hsz
      fun p hp => by
        obtain ⟨_, _, _, _, _, h0, h1, _⟩ := hco p hp
        exact ⟨h0, h1⟩).mpr h)
  have htab2 : ∀ bb : List Int, bb.length = t.bounding_box_.length →
      ∀ bl : List Int, tableInRange { t with blocks_ := bl, bounding_box_ := bb } := by
    intro bb hbl bl
    obtain ⟨h16, hidx, hq⟩ := htab
    refine ⟨h16, ?_, hq⟩
    intro x hx
    show x < bb.length
    rw [hbl]
    exact hidx x hx
  unfold DescendTetromino
  rw [if_neg hat]
  simp only
  rw [hbb]
  split
  · rename_i hcond
    have hRh : R + side = g.cells_height_ :=
      (box_bottom_edge _ _ side R C hs hC hR).mp hcond
    refine ⟨_, _, _, _, rfl, ⟨hlen, hsz⟩, ⟨side, R, C, hs, hC, hR, rfl, ?_, ?_⟩, ?_⟩
    · show (t.blocks_.map fun (p : Int) => p + g.cells_width_).length = 4
      rw [List.length_map, h4]
    · intro p hp
      have hp' : p ∈ t.blocks_.map fun (p : Int) => p + g.cells_width_ := hp
      rw [List.mem_map] at hp'
      obtain ⟨p0, hp0, rfl⟩ := hp'
      obtain ⟨a, b, ha, hb', he, _, _, _, _⟩ := hco p0 hp0
      have ha2 : a + 1 < side := by
        by_contra hcon
        apply hns
        refine ⟨p0, hp0, Or.inl ?_⟩
        have hRa : R + a + 1 = g.cells_height_ := by omega
        rw [he, ← hRa]
        push_cast
        have : (0 : Int) ≤ ((C : Int) + b) := by omega
        nlinarith
      show p0 + (g.cells_width_ : Int) ∈ boxAt g.cells_width_ side R C
      rw [mem_boxAt]
      refine ⟨a + 1, b, ha2, hb', ?_⟩
      rw [he]
      push_cast
      ring
    · apply htab2
      rw [boxAt_length, hbb, boxAt_length]
  · rename_i hcond
    have hRh : R + side ≠ g.cells_height_ := fun h =>
      hcond ((box_bottom_edge _ _ side R C hs hC hR).mpr h)
    rw [boxAt_shift_down]
    refine ⟨_, _, _, _, rfl, ⟨hlen, hsz⟩,
      ⟨side, R + 1, C, hs, hC, (by omega), rfl, ?_, ?_⟩, ?_⟩
    · show (t.blocks_.map fun (p : Int) => p + g.cells_width_).length = 4
      rw [List.length_map, h4]
    · intro p hp
      have hp' : p ∈ t.blocks_.map fun (p : Int) => p + g.cells_width_ := hp
      rw [List.mem_map] at hp'
      obtain ⟨p0, hp0, rfl⟩ := hp'
      show p0 + (g.cells_width_ : Int) ∈ boxAt g.cells_width_ side (R + 1) C
      rw [← boxAt_shift_down, List.mem_map]
      exact ⟨p0, hbb ▸ hin p0 hp0, rfl⟩
    · apply htab2
      rw [boxAt_length, hbb, boxAt_length]

theorem rotate_keeps_box (g : Game) (outside : Int → Bool) (t : Tetromino)
    (hb : boardSized g) (hbox : boxInBoard g t) (htab : tableInRange t) :
    ∃ g1 t1, RotateTetromino g outside t 90 = some (g1, t1) ∧
      boardSized g1 ∧ boxInBoard g1 t1 ∧ tableInRange t1 := by
  by_cases hO : t.type_ = TetrominoType.O_BLOCK
  · refine ⟨g, t, ?_, hb, hbox, htab⟩
    unfold RotateTetromino
    rw [if_pos hO]
  obtain ⟨side, R, C, hs, hC, hR, hbb, h4, hin⟩ := hbox
  obtain ⟨h16, hidx, q, hq, hr⟩ := htab
  rw [rotate_core g outside t q hq hr hO h4]
  refine ⟨_, _, rfl, hb, ⟨side, R, C, hs, hC, hR, hbb, ?_, ?_⟩,
    ⟨h16, hidx, (q + 1) % 4, Nat.mod_lt _ (by decide), rfl⟩⟩
  · simp only
    split
    · exact slotCells_length t _
    · split
      · exact slotCells_length t _
      · split
        · exact slotCells_length t _
        · split
          · exact slotCells_length t _
          · exact h4
  · intro p hp
    simp only at hp
    have hm := fun s (hs4 : s < 4) => slotCells_mem_box t s hs4 h16 hidx p
    show p ∈ t.bounding_box_
    split at hp
    · exact hm _ (Nat.mod_lt _ (by decide)) hp
    · split at hp
      · exact hm _ (Nat.mod_lt _ (by decide)) hp
      · split at hp
        · exact hm _ (Nat.mod_lt _ (by decide)) hp
        · split at hp
          · exact hm _ (Nat.mod_lt _ (by decide)) hp
          · exact hin p hp
theorem spawn_gives_box (outside : Int → Bool) (shuffled : Nat → List Nat) (g : Game)
    (type : TetrominoType) (unstashing : Bool)
    (hw : 6 ≤ g.cells_width_) (hh : 4 ≤ g.cells_height_)
    (hsz : g.cells_width_ * g.cells_height_ < 2 ^ 63) :
    ∃ g1, SpawnTetromino outside shuffled g type unstashing = some g1 ∧
      g1.board_.length = g.board_.length ∧
      boxInBoard g1 g1.falling_tetromino_ ∧ tableInRange g1.falling_tetromino_ := by
  refine ⟨_, SpawnTetromino_total outside shuffled g type unstashing,
    (occupied_paint_color _ _ _).1, ?_, ?_⟩
  · have hside : 0 < GetBBoxDimension type ∧ GetBBoxDimension type ≤ 4 ∧
        GetBBoxDimension type / 2 + 1 ≤ 3 ∧ 1 ≤ GetBBoxDimension type / 2 ∧
        GetBBoxDimension type - GetBBoxDimension type / 2 ≤ 2 := by
      cases type <;> decide
    obtain ⟨hs0, hs4, hs3, hs1, hs2⟩ := hside
    have hwh : g.cells_width_ * 4 ≤ g.cells_width_ * g.cells_height_ :=
      Nat.mul_le_mul_left _ hh
    have hbig : g.cells_width_ / 2 + (GetBBoxDimension type + 1) * g.cells_width_ +
        GetBBoxDimension type < 2 ^ 64 := by
      have h5 : (GetBBoxDimension type + 1) * g.cells_width_ ≤ 5 * g.cells_width_ :=
        Nat.mul_le_mul_right _ (by omega)
      omega
    have he := spawnBox_eq g.cells_width_ (GetBBoxDimension type) hs0 (by omega) hbig
    have hbox : spawnBox g.cells_width_ (GetBBoxDimension type) =
        boxAt g.cells_width_ (GetBBoxDimension type) 0
          (g.cells_width_ / 2 - GetBBoxDimension type / 2 - 1) := by
      rw [he]
      unfold boxAt
      apply List.map_congr_left
      intro k _
      congr 1
      rw [Nat.zero_add]
      omega
    refine ⟨GetBBoxDimension type, 0, g.cells_width_ / 2 - GetBBoxDimension type / 2 - 1,
      hs0, ?_, ?_, hbox, ?_, ?_⟩
    · show g.cells_width_ / 2 - GetBBoxDimension type / 2 - 1 + GetBBoxDimension type ≤
        g.cells_width_
      omega
    · show 0 + GetBBoxDimension type ≤ g.cells_height_
      omega
    · show ((spawnBlockIndices type).map _).length = 4
      rw [List.length_map]
      exact (rotationTable_facts type).2.2
    · intro p hp
      have hp' : p ∈ (spawnBlockIndices type).map fun x =>
          (spawnBox g.cells_width_ (GetBBoxDimension type)).getD x 0 := hp
      rw [List.mem_map] at hp'
      obtain ⟨x, hx, rfl⟩ := hp'
      have hxl : x < (spawnBox g.cells_width_ (GetBBoxDimension type)).length := by
        rw [spawnBox_length_sq]
        have : ∀ y, y ∈ spawnBlockIndices type →
            y < GetBBoxDimension type * GetBBoxDimension type := by
          cases type <;> decide
        exact this x hx
      show (spawnBox g.cells_width_ (GetBBoxDimension type)).getD x 0 ∈
        spawnBox g.cells_width_ (GetBBoxDimension type)
      rw [List.getD_eq_getElem _ _ hxl]
      exact List.getElem_mem hxl
  · refine ⟨(rotationTable_facts type).1, ?_, 0, by decide, rfl⟩
    intro x hx
    show x < (spawnBox g.cells_width_ (GetBBoxDimension type)).length
    rw [spawnBox_length_sq]
    have hd : GetBBoxDimension type * GetBBoxDimension type = assertedBoxSize type := by
      cases type <;> rfl
    rw [hd]
    exact (rotationTable_facts type).2.1 x hx

/-- C19: for a piece whose bounding box is a square block of cells entirely
inside the board, with four blocks that are cells of the box and the rotation
table and state that a spawn leaves, each of `MoveTetromino` (either
direction), `DescendTetromino` and `RotateTetromino(90)` returns, and
afterwards the bounding box is again such a block inside the board, the four
blocks are cells of it, and the table and state are again as required; so
this holds after any number of these calls.  It holds to begin with after
`SpawnTetromino` on a board of at least six columns and four rows. -/
theorem piece_stays_inside_its_box (g : Game) (outside : Int → Bool) (t : Tetromino)
    (hb : boardSized g) (hbox : boxInBoard g t) (htab : tableInRange t) :
    (∀ right : Bool,
      boardSized (MoveTetromino g outside t right).1 ∧
      boxInBoard (MoveTetromino g outside t right).1 (MoveTetromino g outside t right).2 ∧
      tableInRange (MoveTetromino g outside t right).2) ∧
    (∀ (fuel : Nat) (score_ : Option Int), ∃ moved g1 t1 score1,
      DescendTetromino g outside fuel t score_ = some (moved, g1, t1, score1) ∧
      boardSized g1 ∧ boxInBoard g1 t1 ∧ tableInRange t1) ∧
    (∃ g1 t1, RotateTetromino g outside t 90 = some (g1, t1) ∧
      boardSized g1 ∧ boxInBoard g1 t1 ∧ tableInRange t1) ∧
    (∀ (shuffled : Nat → List Nat) (type : TetrominoType) (unstashing : Bool),
      6 ≤ g.cells_width_ → 4 ≤ g.cells_height_ →
      g.cells_width_ * g.cells_height_ < 2 ^ 63 →
      ∃ g1, SpawnTetromino outside shuffled g type unstashing = some g1 ∧
        boardSized g1 ∧ boxInBoard g1 g1.falling_tetromino_ ∧
        tableInRange g1.falling_tetromino_) :=
  ⟨fun right => move_keeps_box g outside t right hb hbox htab,
    fun fuel score_ => descend_keeps_box g outside fuel t score_ hb hbox htab,
    rotate_keeps_box g outside t hb hbox htab,
    fun shuffled type unstashing hw hh hsz =>
      (spawn_gives_box outside shuffled g type unstashing hw hh hsz).imp
        fun g1 h => ⟨h.1, ⟨by
          have hg1 := h.1
          rw [SpawnTetromino_total] at hg1
          have hl := h.2.1
          rw [← Option.some.inj hg1] at hl ⊢
          exact hl.trans hb.1, by
          have hg1 := h.1
          rw [SpawnTetromino_total] at hg1
          rw [← Option.some.inj hg1]
          exact hb.2⟩, h.2.2.1, h.2.2.2⟩⟩

/-- C19, witness: the T piece as spawned on the empty board of six columns
and five rows; its box is the block of side 3 at row 0, column 1. -/
theorem piece_stays_inside_its_box_witness :
    boardSized sessionSix ∧ boxInBoard sessionSix spawnedT ∧ tableInRange spawnedT ∧
    (MoveTetromino sessionSix (fun _ => false) spawnedT false).2.bounding_box_ =
      boxAt 6 3 0 0 ∧
    (MoveTetromino sessionSix (fun _ => false) spawnedT false).2.blocks_ = [1, 6, 7, 8] ∧
    (∀ right : Bool,
      boardSized (MoveTetromino sessionSix (fun _ => false) spawnedT right).1 ∧
      boxInBoard (MoveTetromino sessionSix (fun _ => false) spawnedT right).1
        (MoveTetromino sessionSix (fun _ => false) spawnedT right).2 ∧
      tableInRange (MoveTetromino sessionSix (fun _ => false) spawnedT right).2) :=
  ⟨⟨by decide, by decide⟩,
    ⟨3, 0, 1, by decide, by decide, by decide, by decide, by decide, by decide⟩,
    ⟨by decide, by decide, 0, by decide, rfl⟩,
    by decide, by decide,
    (piece_stays_inside_its_box sessionSix (fun _ => false) spawnedT
      ⟨by decide, by decide⟩
      ⟨3, 0, 1, by decide, by decide, by decide, by decide, by decide, by decide⟩
      ⟨by decide, by decide, 0, by decide, rfl⟩).1⟩
theorem occupiedAt_mark (col : SDL_Color) (blocks : List Int) (board : List Cell)
    (outside : Int → Bool) (q : Int) (h : occupiedAt board outside q = true) :
    occupiedAt (blocks.foldl
      (fun b p => storeAt b p fun c => { c with occupied_ := true, color_ := col }) board)
      outside q = true := by
  unfold occupiedAt at h ⊢
  rw [(settle_paint col blocks board).1]
  split
  · rename_i hq
    rw [if_pos hq] at h
    rw [(settle_paint col blocks board).2]
    split
    · rfl
    · exact h
  · rename_i hq
    rw [if_neg hq] at h
    exact h

theorem settle_mark_keeps_settle (g : Game) (outside : Int → Bool) (col : SDL_Color)
    (marks blocks : List Int) (h : BlocksAtSettlePosition g outside blocks = true) :
    BlocksAtSettlePosition
      { g with
        board_ := marks.foldl
          (fun b p => storeAt b p fun c => { c with occupied_ := true, color_ := col })
          g.board_ } outside blocks = true := by
  unfold BlocksAtSettlePosition at h ⊢
  rw [List.any_eq_true] at h ⊢
  obtain ⟨p, hp, hc⟩ := h
  refine ⟨p, hp, ?_⟩
  simp only [Bool.or_eq_true, decide_eq_true_eq] at hc ⊢
  rcases hc with hc | hc
  · exact Or.inl hc
  · exact Or.inr (occupiedAt_mark col marks g.board_ outside _ hc)

theorem descend_cases (g : Game) (outside : Int → Bool) (fuel : Nat) (t : Tetromino)
    (score_ : Option Int) :
    (BlocksAtSettlePosition g outside t.blocks_ = true ∧
      DescendTetromino g outside fuel t score_ =
        some (false,
          { g with
            board_ := t.blocks_.foldl
              (fun b p => storeAt b p fun c =>
                { c with occupied_ := true, color_ := t.render_color_ })
              g.board_ },
          t, score_)) ∨
    (BlocksAtSettlePosition g outside t.blocks_ = false ∧
      ∃ t1, DescendTetromino g outside fuel t score_ =
          some (true, g, t1, score_.map fun s => s + 1) ∧
        t1.blocks_ = t.blocks_.map fun (p : Int) => p + g.cells_width_) := by
  by_cases hat : BlocksAtSettlePosition g outside t.blocks_ = true
  · left
    refine ⟨hat, ?_⟩
    unfold DescendTetromino
    rw [if_pos hat, SettleTetromino_at_settle g outside fuel t none hat]
  · right
    refine ⟨by simpa using hat, ?_⟩
    unfold DescendTetromino
    rw [if_neg hat]
    simp only
    split
    · exact ⟨_, rfl, rfl⟩
    · exact ⟨_, rfl, rfl⟩

theorem move_cases (g : Game) (outside : Int → Bool) (t : Tetromino) (right : Bool) :
    ∃ board1 t1 dx, MoveTetromino g outside t right = ({ g with board_ := board1 }, t1) ∧
      (dx = -1 ∨ dx = 0 ∨ dx = 1) ∧
      t1.blocks_ = t.blocks_.map fun (p : Int) => p + dx := by
  by_cases hrej : t.blocks_.any (moveRejects g outside right) = true
  · rw [MoveTetromino_rejected g outside t right hrej]
    exact ⟨g.board_, t, 0, rfl, Or.inr (Or.inl rfl), by simp⟩
  · unfold MoveTetromino
    rw [if_neg hrej]
    cases right with
    | true =>
      simp only [if_true, true_and, Bool.true_eq_false, not_true_eq_false, false_and, if_false]
      split
      · exact ⟨_, _, 1, rfl, Or.inr (Or.inr rfl), rfl⟩
      · exact ⟨_, _, 1, rfl, Or.inr (Or.inr rfl), rfl⟩
    | false =>
      simp only [Bool.false_eq_true, if_false, false_and, not_false_eq_true, true_and]
      split
      · exact ⟨_, _, -1, rfl, Or.inl rfl, rfl⟩
      · exact ⟨_, _, -1, rfl, Or.inl rfl, rfl⟩
theorem settle_sequence_at_settle (outside : Int → Bool) (shuffled : Nat → List Nat)
    (fuel : Nat) (g : Game) (with_score : Bool)
    (hat : BlocksAtSettlePosition g outside g.falling_tetromino_.blocks_ = true)
    (hq : g.tetromino_queue_ ≠ [])
    (hp : 3 ≤ g.queued_tetrominoes_.length)
    (hlen : ∀ i, i < 100 → (shuffled i).length = 7) :
    ∃ g2, Game.SettleTetromino outside shuffled fuel g with_score = some g2 ∧
      g2.moving_down_ = g.moving_down_ :=
  (settle_sequence_returns outside shuffled fuel g with_score _ _
    (dropLoop_at_settle g outside fuel _ _ hat) hq hp hlen).imp
    fun _ h => ⟨h.1, h.2.2.2.1⟩

theorem move_branch (g : Game) (outside : Int → Bool) :
    ∃ board1 t1 dx,
      (if g.moving_left_ = true then
          { (MoveTetromino g outside g.falling_tetromino_ false).1 with
            falling_tetromino_ := (MoveTetromino g outside g.falling_tetromino_ false).2 }
        else if g.moving_right_ = true then
          { (MoveTetromino g outside g.falling_tetromino_ true).1 with
            falling_tetromino_ := (MoveTetromino g outside g.falling_tetromino_ true).2 }
        else g) = { g with board_ := board1, falling_tetromino_ := t1 } ∧
      (dx = -1 ∨ dx = 0 ∨ dx = 1) ∧
      t1.blocks_ = g.falling_tetromino_.blocks_.map fun (p : Int) => p + dx := by
  split
  · obtain ⟨b1, t1, dx, e, hdx, hb⟩ := move_cases g outside g.falling_tetromino_ false
    rw [e]
    exact ⟨b1, t1, dx, rfl, hdx, hb⟩
  · split
    · obtain ⟨b1, t1, dx, e, hdx, hb⟩ := move_cases g outside g.falling_tetromino_ true
      rw [e]
      exact ⟨b1, t1, dx, rfl, hdx, hb⟩
    · exact ⟨g.board_, g.falling_tetromino_, 0, rfl, Or.inr (Or.inl rfl), by simp⟩

theorem tickMovement_idle (outside : Int → Bool) (shuffled : Nat → List Nat) (fuel : Nat)
    (g : Game) (hd : g.moving_down_ = false) :
    ∃ g1 dx, tickMovement outside shuffled fuel g = some (g1, []) ∧
      (dx = -1 ∨ dx = 0 ∨ dx = 1) ∧
      g1.falling_tetromino_.blocks_ =
        g.falling_tetromino_.blocks_.map fun (p : Int) => p + dx := by
  obtain ⟨b1, t1, dx, e, hdx, hb⟩ := move_branch g outside
  dsimp only at e
  unfold tickMovement
  dsimp only
  rw [e]
  dsimp only
  rw [if_neg (by rw [hd]; decide)]
  exact ⟨_, dx, rfl, hdx, hb⟩

theorem tickMovement_soft (outside : Int → Bool) (shuffled : Nat → List Nat) (fuel : Nat)
    (g : Game) (hd : g.moving_down_ = true)
    (hq : g.tetromino_queue_ ≠ [])
    (hp : 3 ≤ g.queued_tetrominoes_.length)
    (hlen : ∀ i, i < 100 → (shuffled i).length = 7) :
    ∃ g1 calls, tickMovement outside shuffled fuel g = some (g1, calls) ∧
      ((calls = [TickCall.softDropDescend true] ∧
          ∃ dx : Int, (dx = -1 ∨ dx = 0 ∨ dx = 1) ∧
            g1.falling_tetromino_.blocks_ =
              g.falling_tetromino_.blocks_.map fun (p : Int) => p + dx + g.cells_width_) ∨
        calls = [TickCall.softDropDescend false, TickCall.settleSequence]) := by
  obtain ⟨b1, t1, dx, e, hdx, hb⟩ := move_branch g outside
  dsimp only at e
  unfold tickMovement
  dsimp only
  rw [e]
  dsimp only
  rw [if_pos hd]
  rcases descend_cases { g with board_ := b1, falling_tetromino_ := t1 } outside fuel t1
      (some g.score_) with ⟨hat, ed⟩ | ⟨_, t2, ed, hb2⟩
  · rw [ed]
    simp only [Bool.false_eq_true, if_false]
    obtain ⟨g4, e4, _⟩ := settle_sequence_at_settle outside shuffled fuel
      { g with
        board_ := t1.blocks_.foldl
          (fun b p => storeAt b p fun c =>
            { c with occupied_ := true, color_ := t1.render_color_ })
          b1
        falling_tetromino_ := t1
        score_ := (some g.score_).getD g.score_ } false
      (settle_mark_keeps_settle { g with board_ := b1, falling_tetromino_ := t1 } outside
        t1.render_color_ t1.blocks_ t1.blocks_ hat) hq hp hlen
    simp only [Option.getD_some] at e4 ⊢
    rw [e4]
    exact ⟨_, _, rfl, Or.inr rfl⟩
  · rw [ed]
    simp only [if_true]
    refine ⟨_, _, rfl, Or.inl ⟨rfl, dx, hdx, ?_⟩⟩
    show t2.blocks_ = _
    rw [hb2, hb, List.map_map]
    rfl

theorem tickGravity_spec (outside : Int → Bool) (shuffled : Nat → List Nat) (fuel : Nat)
    (g : Game) (hd : g.moving_down_ = false)
    (hq : g.tetromino_queue_ ≠ [])
    (hp : 3 ≤ g.queued_tetrominoes_.length)
    (hlen : ∀ i, i < 100 → (shuffled i).length = 7) :
    ∃ g1 calls, tickGravity outside shuffled fuel g = some (g1, calls) ∧
      g1.moving_down_ = false ∧
      ((calls = [TickCall.gravityDescend true] ∧
          g1.falling_tetromino_.blocks_ =
            g.falling_tetromino_.blocks_.map fun (p : Int) => p + g.cells_width_) ∨
        calls = [TickCall.gravityDescend false, TickCall.settleSequence]) := by
  unfold tickGravity
  rw [if_neg (by rw [hd]; decide)]
  rcases descend_cases g outside fuel g.falling_tetromino_ none with
    ⟨hat, ed⟩ | ⟨_, t2, ed, hb2⟩
  · rw [ed]
    simp only [Bool.false_eq_true, if_false]
    obtain ⟨g4, e4, h4⟩ := settle_sequence_at_settle outside shuffled fuel
      { g with
        board_ := g.falling_tetromino_.blocks_.foldl
          (fun b p => storeAt b p fun c =>
            { c with occupied_ := true, color_ := g.falling_tetromino_.render_color_ })
          g.board_
        falling_tetromino_ := g.falling_tetromino_ } false
      (settle_mark_keeps_settle g outside
        g.falling_tetromino_.render_color_ g.falling_tetromino_.blocks_
        g.falling_tetromino_.blocks_ hat) hq hp hlen
    rw [e4]
    exact ⟨_, _, rfl, h4.trans hd, Or.inr rfl⟩
  · rw [ed]
    simp only [if_true]
    exact ⟨_, _, rfl, hd, Or.inl ⟨rfl, hb2⟩⟩
theorem gravity_step (outside : Int → Bool) (shuffled : Nat → List Nat) (fuel : Nat)
    (g : Game) (c : Prop) [Decidable c]
    (hq : g.tetromino_queue_ ≠ [])
    (hp : 3 ≤ g.queued_tetrominoes_.length)
    (hlen : ∀ i, i < 100 → (shuffled i).length = 7) :
    ∃ g1 calls, (if c then tickGravity outside shuffled fuel g else some (g, [])) =
        some (g1, calls) ∧
      g1.moving_down_ = g.moving_down_ ∧
      ((calls = [] ∧ g1 = g) ∨
        (g.moving_down_ = false ∧ calls = [TickCall.gravityDescend true] ∧
          g1.falling_tetromino_.blocks_ =
            g.falling_tetromino_.blocks_.map fun (p : Int) => p + g.cells_width_) ∨
        (g.moving_down_ = false ∧
          calls = [TickCall.gravityDescend false, TickCall.settleSequence])) := by
  split
  · cases hd : g.moving_down_ with
    | true =>
      refine ⟨g, [], ?_, hd, Or.inl ⟨rfl, rfl⟩⟩
      unfold tickGravity
      rw [if_pos hd]
    | false =>
      obtain ⟨g1, calls, e, h1, h2⟩ := tickGravity_spec outside shuffled fuel g hd hq hp hlen
      refine ⟨g1, calls, e, h1, ?_⟩
      rcases h2 with ⟨h3, h4⟩ | h3
      · exact Or.inr (Or.inl ⟨rfl, h3, h4⟩)
      · exact Or.inr (Or.inr ⟨rfl, h3⟩)
  · exact ⟨g, [], rfl, rfl, Or.inl ⟨rfl, rfl⟩⟩

theorem movement_step (outside : Int → Bool) (shuffled : Nat → List Nat) (fuel : Nat)
    (g : Game) (c : Prop) [Decidable c]
    (hq : g.moving_down_ = true → g.tetromino_queue_ ≠ [] ∧ 3 ≤ g.queued_tetrominoes_.length)
    (hlen : ∀ i, i < 100 → (shuffled i).length = 7) :
    ∃ g1 calls, (if c then tickMovement outside shuffled fuel g else some (g, [])) =
        some (g1, calls) ∧
      ((calls = [] ∧
          ∃ dx : Int, (dx = -1 ∨ dx = 0 ∨ dx = 1) ∧
            g1.falling_tetromino_.blocks_ =
              g.falling_tetromino_.blocks_.map fun (p : Int) => p + dx) ∨
        (g.moving_down_ = true ∧ calls = [TickCall.softDropDescend true] ∧
          ∃ dx : Int, (dx = -1 ∨ dx = 0 ∨ dx = 1) ∧
            g1.falling_tetromino_.blocks_ =
              g.falling_tetromino_.blocks_.map fun (p : Int) => p + dx + g.cells_width_) ∨
        (g.moving_down_ = true ∧
          calls = [TickCall.softDropDescend false, TickCall.settleSequence])) := by
  split
  · cases hd : g.moving_down_ with
    | true =>
      obtain ⟨g1, calls, e, h2⟩ := tickMovement_soft outside shuffled fuel g hd
        (hq hd).1 (hq hd).2 hlen
      refine ⟨g1, calls, e, ?_⟩
      rcases h2 with ⟨h3, h4⟩ | h3
      · exact Or.inr (Or.inl ⟨rfl, h3, h4⟩)
      · exact Or.inr (Or.inr ⟨rfl, h3⟩)
    | false =>
      obtain ⟨g1, dx, e, h1, h2⟩ := tickMovement_idle outside shuffled fuel g hd
      exact ⟨g1, [], e, Or.inl ⟨rfl, dx, h1, h2⟩⟩
  · exact ⟨g, [], rfl, Or.inl ⟨rfl, 0, Or.inr (Or.inl rfl), by simp⟩⟩
theorem tick_cases (outside : Int → Bool) (shuffled : Nat → List Nat) (fuel : Nat)
    (g : Game)
    (hspeed : g.descend_speed_ ≠ 0)
    (hq : g.tetromino_queue_ ≠ [])
    (hp : 3 ≤ g.queued_tetrominoes_.length)
    (hlen : ∀ i, i < 100 → (shuffled i).length = 7) :
    ∃ g1 calls, tickWithCalls outside shuffled fuel g = some (g1, calls) ∧
      ((calls = [] ∧
          ∃ dx : Int, (dx = -1 ∨ dx = 0 ∨ dx = 1) ∧
            g1.falling_tetromino_.blocks_ =
              g.falling_tetromino_.blocks_.map fun (p : Int) => p + dx) ∨
        (g.moving_down_ = false ∧ calls = [TickCall.gravityDescend true] ∧
          ∃ dx : Int, (dx = -1 ∨ dx = 0 ∨ dx = 1) ∧
            g1.falling_tetromino_.blocks_ =
              g.falling_tetromino_.blocks_.map fun (p : Int) => p + dx + g.cells_width_) ∨
        (g.moving_down_ = false ∧
          calls = [TickCall.gravityDescend false, TickCall.settleSequence]) ∨
        (g.moving_down_ = true ∧ calls = [TickCall.softDropDescend true] ∧
          ∃ dx : Int, (dx = -1 ∨ dx = 0 ∨ dx = 1) ∧
            g1.falling_tetromino_.blocks_ =
              g.falling_tetromino_.blocks_.map fun (p : Int) => p + dx + g.cells_width_) ∨
        (g.moving_down_ = true ∧
          calls = [TickCall.softDropDescend false, TickCall.settleSequence])) := by
  have hid : g.falling_tetromino_.blocks_ =
      g.falling_tetromino_.blocks_.map fun (p : Int) => p + 0 := by simp
  unfold tickWithCalls
  by_cases hover : g.game_over_ = true
  · rw [if_pos hover]
    exact ⟨g, [], rfl, Or.inl ⟨rfl, 0, Or.inr (Or.inl rfl), hid⟩⟩
  rw [if_neg hover]
  dsimp only
  rw [if_neg hspeed]
  obtain ⟨g1, calls1, e1, hd1, hc1⟩ := gravity_step outside shuffled fuel
    { g with ticks_ := g.ticks_ + 1 } ((g.ticks_ + 1).tmod g.descend_speed_ = 0) hq hp hlen
  dsimp only at e1 hd1 hc1
  rw [e1]
  dsimp only
  have hq1 : g1.moving_down_ = true →
      g1.tetromino_queue_ ≠ [] ∧ 3 ≤ g1.queued_tetrominoes_.length := by
    intro h1
    rcases hc1 with ⟨_, hg⟩ | ⟨hf, _⟩ | ⟨hf, _⟩
    · rw [hg]
      exact ⟨hq, hp⟩
    · rw [hd1, hf] at h1
      exact absurd h1 (by decide)
    · rw [hd1, hf] at h1
      exact absurd h1 (by decide)
  obtain ⟨g2, calls2, e2, hc2⟩ := movement_step outside shuffled fuel g1
    (g1.moving_ticks_.tmod 5 = 0) hq1 hlen
  split
  · rw [e2]
    dsimp only
    refine ⟨_, _, rfl, ?_⟩
    rcases hc1 with ⟨hcalls, hg⟩ | ⟨hf, hcalls, hb⟩ | ⟨hf, hcalls⟩
    · subst hg
      rw [hcalls, List.nil_append]
      rcases hc2 with ⟨h2, dx, hdx, hb2⟩ | ⟨ht, h2, dx, hdx, hb2⟩ | ⟨ht, h2⟩
      · exact Or.inl ⟨h2, dx, hdx, hb2⟩
      · exact Or.inr (Or.inr (Or.inr (Or.inl ⟨ht, h2, dx, hdx, hb2⟩)))
      · exact Or.inr (Or.inr (Or.inr (Or.inr ⟨ht, h2⟩)))
    · have hf1 : g1.moving_down_ = false := hd1.trans hf
      rcases hc2 with ⟨h2, dx, hdx, hb2⟩ | ⟨ht, _⟩ | ⟨ht, _⟩
      · rw [hcalls, h2]
        refine Or.inr (Or.inl ⟨hf, rfl, dx, hdx, ?_⟩)
        show g2.falling_tetromino_.blocks_ = _
        rw [hb2, hb, List.map_map]
        apply List.map_congr_left
        intro p _
        simp only [Function.comp]
        ring
      · rw [hf1] at ht
        exact absurd ht (by decide)
      · rw [hf1] at ht
        exact absurd ht (by decide)
    · have hf1 : g1.moving_down_ = false := hd1.trans hf
      rcases hc2 with ⟨h2, _⟩ | ⟨ht, _⟩ | ⟨ht, _⟩
      · rw [hcalls, h2]
        exact Or.inr (Or.inr (Or.inl ⟨hf, rfl⟩))
      · rw [hf1] at ht
        exact absurd ht (by decide)
      · rw [hf1] at ht
        exact absurd ht (by decide)
  · refine ⟨_, _, rfl, ?_⟩
    rcases hc1 with ⟨hcalls, hg⟩ | ⟨hf, hcalls, hb⟩ | ⟨hf, hcalls⟩
    · subst hg
      exact Or.inl ⟨hcalls, 0, Or.inr (Or.inl rfl), hid⟩
    · refine Or.inr (Or.inl ⟨hf, hcalls, 0, Or.inr (Or.inl rfl), ?_⟩)
      rw [hb]
      apply List.map_congr_left
      intro p _
      ring
    · exact Or.inr (Or.inr (Or.inl ⟨hf, hcalls⟩))
/-- C20: in a session whose gravity interval is not zero, with a queued kind
and three preview pieces, `Tick` returns, and among the calls it made there is
at most one call of `DescendTetromino`: none from the gravity branch when the
soft-drop flag is set, none from the soft-drop branch when it is not.  When
the settle-sequence was not called, the blocks of the falling piece are those
before the tick moved by at most one column and by one row down or none, one
row exactly when a descend was called.  When it was called, it directly
followed a descend that returned false; such a descend leaves the blocks
where they are, and the drop loop of a settle right after it makes no pass. -/
theorem Tick_calls_descend_at_most_once (outside : Int → Bool) (shuffled : Nat → List Nat)
    (fuel : Nat) (g : Game)
    (hspeed : g.descend_speed_ ≠ 0)
    (hq : g.tetromino_queue_ ≠ [])
    (hp : 3 ≤ g.queued_tetrominoes_.length)
    (hperm : ∀ i, i < 100 → (shuffled i).Perm [0, 1, 2, 3, 4, 5, 6]) :
    ∃ g1 calls, tickWithCalls outside shuffled fuel g = some (g1, calls) ∧
      Tick outside shuffled fuel g = some g1 ∧
      descendCalls calls ≤ 1 ∧
      (g.moving_down_ = true → ∀ moved, TickCall.gravityDescend moved ∉ calls) ∧
      (g.moving_down_ = false → ∀ moved, TickCall.softDropDescend moved ∉ calls) ∧
      (TickCall.settleSequence ∉ calls →
        ∃ dx dy : Int, (dx = -1 ∨ dx = 0 ∨ dx = 1) ∧ (dy = 0 ∨ dy = 1) ∧
          (dy = 1 ↔ descendCalls calls = 1) ∧
          g1.falling_tetromino_.blocks_ =
            g.falling_tetromino_.blocks_.map fun (p : Int) =>
              p + dx + dy * g.cells_width_) ∧
      (TickCall.settleSequence ∈ calls →
        calls = [TickCall.gravityDescend false, TickCall.settleSequence] ∨
        calls = [TickCall.softDropDescend false, TickCall.settleSequence]) ∧
      (∀ (ga : Game) (ta : Tetromino) (sa : Option Int) (fa : Nat) (gb : Game)
          (tb : Tetromino) (sb : Option Int),
        DescendTetromino ga outside fa ta sa = some (false, gb, tb, sb) →
        tb.blocks_ = ta.blocks_ ∧
        ∀ (f : Nat) (s : Option Int),
          dropLoop gb outside f tb.blocks_ s = some (tb.blocks_, s)) := by
  obtain ⟨g1, calls, e, hc⟩ := tick_cases outside shuffled fuel g hspeed hq hp
    fun i hi => (hperm i hi).length_eq
  have hlast : ∀ (ga : Game) (ta : Tetromino) (sa : Option Int) (fa : Nat) (gb : Game)
      (tb : Tetromino) (sb : Option Int),
      DescendTetromino ga outside fa ta sa = some (false, gb, tb, sb) →
      tb.blocks_ = ta.blocks_ ∧
      ∀ (f : Nat) (s : Option Int),
        dropLoop gb outside f tb.blocks_ s = some (tb.blocks_, s) := by
    intro ga ta sa fa gb tb sb hd
    rcases descend_cases ga outside fa ta sa with ⟨hat, ed⟩ | ⟨_, t1, ed, _⟩
    · rw [ed] at hd
      simp only [Option.some.injEq, Prod.mk.injEq, true_and] at hd
      obtain ⟨hg, ht, _⟩ := hd
      subst hg ht
      exact ⟨rfl, fun f s => dropLoop_at_settle _ outside f _ s
        (settle_mark_keeps_settle ga outside ta.render_color_ ta.blocks_ ta.blocks_ hat)⟩
    · rw [ed] at hd
      simp at hd
  refine ⟨g1, calls, e, ?_, ?_, ?_, ?_, ?_, ?_, hlast⟩
  · unfold Tick
    rw [e]
    rfl
  · rcases hc with ⟨h, _⟩ | ⟨_, h, _⟩ | ⟨_, h⟩ | ⟨_, h, _⟩ | ⟨_, h⟩ <;> rw [h] <;> decide
  · intro hd moved
    rcases hc with ⟨h, _⟩ | ⟨hf, _⟩ | ⟨hf, _⟩ | ⟨_, h, _⟩ | ⟨_, h⟩
    · rw [h]; simp
    · rw [hd] at hf; exact absurd hf (by decide)
    · rw [hd] at hf; exact absurd hf (by decide)
    · rw [h]; simp
    · rw [h]; simp
  · intro hd moved
    rcases hc with ⟨h, _⟩ | ⟨_, h, _⟩ | ⟨_, h⟩ | ⟨ht, _⟩ | ⟨ht, _⟩
    · rw [h]; simp
    · rw [h]; simp
    · rw [h]; simp
    · rw [hd] at ht; exact absurd ht (by decide)
    · rw [hd] at ht; exact absurd ht (by decide)
  · intro hns
    rcases hc with ⟨h, dx, hdx, hb⟩ | ⟨_, h, dx, hdx, hb⟩ | ⟨_, h⟩ | ⟨_, h, dx, hdx, hb⟩ |
      ⟨_, h⟩
    · refine ⟨dx, 0, hdx, Or.inl rfl, ?_, ?_⟩
      · rw [h]; decide
      · rw [hb]
        apply List.map_congr_left
        intro p _
        ring
    · refine ⟨dx, 1, hdx, Or.inr rfl, ?_, ?_⟩
      · rw [h]; decide
      · rw [hb]
        apply List.map_congr_left
        intro p _
        ring
    · rw [h] at hns; simp at hns
    · refine ⟨dx, 1, hdx, Or.inr rfl, ?_, ?_⟩
      · rw [h]; decide
      · rw [hb]
        apply List.map_congr_left
        intro p _
        ring
    · rw [h] at hns; simp at hns
  · intro hs
    rcases hc with ⟨h, _⟩ | ⟨_, h, _⟩ | ⟨_, h⟩ | ⟨_, h, _⟩ | ⟨_, h⟩
    · rw [h] at hs; simp at hs
    · rw [h] at hs; simp at hs
    · exact Or.inl h
    · rw [h] at hs; simp at hs
    · exact Or.inr h

/-- C20, witness: a tick that is both a gravity tick and a movement tick,
with the soft-drop key held: the one descend is the soft-drop one. -/
theorem Tick_calls_descend_at_most_once_witness :
    sessionSixSoftDrop.descend_speed_ ≠ 0 ∧
    sessionSixSoftDrop.tetromino_queue_ ≠ [] ∧
    3 ≤ sessionSixSoftDrop.queued_tetrominoes_.length ∧
    (tickWithCalls (fun _ => false) identityShuffle 0 sessionSixSoftDrop).map
        (fun r => (r.2, r.1.falling_tetromino_.blocks_, r.1.ticks_, r.1.score_)) =
      some ([TickCall.softDropDescend true], [8, 13, 14, 15], 60, 1) ∧
    ∃ g1 calls,
      tickWithCalls (fun _ => false) identityShuffle 0 sessionSixSoftDrop = some (g1, calls) ∧
      Tick (fun _ => false) identityShuffle 0 sessionSixSoftDrop = some g1 ∧
      descendCalls calls ≤ 1 :=
  ⟨by decide, by decide, by decide, by decide,
    (Tick_calls_descend_at_most_once (fun _ => false) identityShuffle 0 sessionSixSoftDrop
      (by decide) (by decide) (by decide) (fun _ _ => List.Perm.refl _)).imp
      fun _ h => h.imp fun _ h2 => ⟨h2.1, h2.2.1, h2.2.2.1⟩⟩
theorem index_lt (n r c : Nat) (hr : r < n) (hc : c < n) : r * n + c < n * n := by
  calc r * n + c < r * n + n := by omega
    _ = (r + 1) * n := by ring
    _ ≤ n * n := Nat.mul_le_mul_right n hr

theorem index_inj (n r c r1 c1 : Nat) (hc : c < n) (hc1 : c1 < n) :
    r * n + c = r1 * n + c1 ↔ r = r1 ∧ c = c1 := by
  constructor
  · intro h
    have hn : 0 < n := by omega
    have hd : (r * n + c) / n = (r1 * n + c1) / n := by rw [h]
    have hm : (r * n + c) % n = (r1 * n + c1) % n := by rw [h]
    rw [Nat.add_comm, Nat.add_mul_div_right _ _ hn, Nat.div_eq_of_lt hc, Nat.zero_add,
      Nat.add_comm, Nat.add_mul_div_right _ _ hn, Nat.div_eq_of_lt hc1, Nat.zero_add] at hd
    rw [Nat.add_comm, Nat.add_mul_mod_self_right, Nat.mod_eq_of_lt hc,
      Nat.add_comm, Nat.add_mul_mod_self_right, Nat.mod_eq_of_lt hc1] at hm
    exact ⟨hd, hm⟩
  · rintro ⟨rfl, rfl⟩
    rfl

theorem swapAt_length (m : List Nat) (a b : Nat) : (swapAt m a b).length = m.length := by
  unfold swapAt
  rw [List.length_set, List.length_set]

theorem swapAt_getD (m : List Nat) (a b p : Nat) (ha : a < m.length) (hb : b < m.length) :
    (swapAt m a b).getD p 0 =
      if p = b then m.getD a 0 else if p = a then m.getD b 0 else m.getD p 0 := by
  unfold swapAt
  simp only [List.getD_eq_getElem?_getD, List.getElem?_set, List.length_set]
  by_cases h1 : p = b
  · subst h1
    simp [hb]
  · by_cases h2 : p = a
    · subst h2
      have : ¬ b = p := fun h => h1 h.symm
      simp [this, ha, h1]
    · have h3 : ¬ b = p := fun h => h1 h.symm
      have h4 : ¬ a = p := fun h => h2 h.symm
      simp [h1, h2, h3, h4]

theorem count_getElem_le (m : List Nat) (a : Nat) (ha : a < m.length) (x : Nat) :
    (if m[a] == x then 1 else 0) ≤ m.count x := by
  by_cases h : m[a] == x
  · rw [if_pos h]
    have hx : m[a] = x := by simpa using h
    exact List.count_pos_iff.mpr (hx ▸ List.getElem_mem ha)
  · rw [if_neg h]
    exact Nat.zero_le _

theorem swapAt_perm (m : List Nat) (a b : Nat) (ha : a < m.length) (hb : b < m.length) :
    (swapAt m a b).Perm m := by
  rw [List.perm_iff_count]
  intro x
  unfold swapAt
  have hb2 : b < (m.set a (m.getD b 0)).length := by rw [List.length_set]; exact hb
  rw [List.count_set _ _ _ _ hb2, List.count_set _ _ _ _ ha]
  have h1 : m.getD a 0 = m[a] := List.getD_eq_getElem _ _ ha
  have h2 : m.getD b 0 = m[b] := List.getD_eq_getElem _ _ hb
  simp only [List.getElem_set, h1, h2, ite_self]
  have hca := count_getElem_le m a ha x
  have hcb := count_getElem_le m b hb x
  generalize (if (m[a] == x) = true then 1 else 0) = ca at hca ⊢
  generalize (if (m[b] == x) = true then 1 else 0) = cb at hcb ⊢
  omega
theorem three_swaps (m : List Nat) (s a1 a2 a3 p : Nat)
    (hs : s < m.length) (h1 : a1 < m.length) (h2 : a2 < m.length) (h3 : a3 < m.length)
    (d1 : s ≠ a1) (d2 : s ≠ a2) (d3 : s ≠ a3) (d12 : a1 ≠ a2) (d13 : a1 ≠ a3)
    (d23 : a2 ≠ a3) :
    (swapAt (swapAt (swapAt m s a1) s a2) s a3).length = m.length ∧
    (swapAt (swapAt (swapAt m s a1) s a2) s a3).Perm m ∧
    (swapAt (swapAt (swapAt m s a1) s a2) s a3).getD p 0 =
      if p = a3 then m.getD a2 0
      else if p = a2 then m.getD a1 0
      else if p = a1 then m.getD s 0
      else if p = s then m.getD a3 0
      else m.getD p 0 := by
  have l1 : (swapAt m s a1).length = m.length := swapAt_length _ _ _
  have l2 : (swapAt (swapAt m s a1) s a2).length = m.length := by
    rw [swapAt_length, l1]
  refine ⟨by rw [swapAt_length, l2], ?_, ?_⟩
  · exact ((swapAt_perm _ s a3 (by rw [l2]; exact hs) (by rw [l2]; exact h3)).trans
      (swapAt_perm _ s a2 (by rw [l1]; exact hs) (by rw [l1]; exact h2))).trans
      (swapAt_perm m s a1 hs h1)
  · rw [swapAt_getD _ s a3 p (by rw [l2]; exact hs) (by rw [l2]; exact h3)]
    rw [swapAt_getD _ s a2 s (by rw [l1]; exact hs) (by rw [l1]; exact h2)]
    rw [swapAt_getD _ s a2 a3 (by rw [l1]; exact hs) (by rw [l1]; exact h2)]
    rw [swapAt_getD _ s a2 p (by rw [l1]; exact hs) (by rw [l1]; exact h2)]
    rw [swapAt_getD m s a1 s hs h1, swapAt_getD m s a1 a2 hs h1,
      swapAt_getD m s a1 a3 hs h1, swapAt_getD m s a1 p hs h1]
    rw [if_neg d2, if_pos rfl, if_neg d1, if_neg (Ne.symm d12), if_neg (Ne.symm d2),
      if_neg (Ne.symm d23), if_neg (Ne.symm d3), if_neg (Ne.symm d13), if_neg (Ne.symm d3)]
    split_ifs <;> first | rfl | omega
theorem processed_sources (n i j I J : Nat) (hI : I + i + 1 = n) (hJ : J + j + 1 = n)
    (hij : i ≤ j) (hj : j + i + 2 ≤ n) :
    ¬ processedCell n i j I j ∧ ¬ processedCell n i j J I ∧
    ¬ processedCell n i j i J ∧ ¬ processedCell n i j j i := by
  unfold processedCell
  refine ⟨?_, ?_, ?_, ?_⟩ <;> omega

theorem processed_targets (n i j I J : Nat) (hI : I + i + 1 = n) (hJ : J + j + 1 = n)
    (hij : i ≤ j) :
    processedCell n i (j + 1) I j ∧ processedCell n i (j + 1) J I ∧
    processedCell n i (j + 1) i J ∧ processedCell n i (j + 1) j i := by
  unfold processedCell
  refine ⟨?_, ?_, ?_, ?_⟩
  · right; right; right; right; right; right; right; omega
  · right; right; right; right; right; right; left; omega
  · right; right; right; right; right; left; omega
  · right; right; right; right; left; omega

theorem processed_others (n i j I J r c : Nat) (hI : I + i + 1 = n) (hJ : J + j + 1 = n)
    (hij : i ≤ j) (hj : j + i + 2 ≤ n) (hr : r < n) (hc : c < n)
    (c3 : ¬ (r = I ∧ c = j)) (c2 : ¬ (r = J ∧ c = I)) (c1 : ¬ (r = i ∧ c = J))
    (cs : ¬ (r = j ∧ c = i)) :
    processedCell n i (j + 1) r c ↔ processedCell n i j r c := by
  unfold processedCell
  omega

theorem rotateCell_step (n : Nat) (m m1 : List Nat) (i j : Nat)
    (hinv : rotatedSoFar n m m1 i j) (hij : i ≤ j) (hj : j + i + 2 ≤ n) :
    rotatedSoFar n m (rotateCell n m1 i j) i (j + 1) := by
  obtain ⟨hl, hperm, hval⟩ := hinv
  obtain ⟨I, hI⟩ : ∃ I, I = n - 1 - i := ⟨_, rfl⟩
  obtain ⟨J, hJ⟩ : ∃ J, J = n - 1 - j := ⟨_, rfl⟩
  have hI1 : I + i + 1 = n := by omega
  have hJ1 : J + j + 1 = n := by omega
  have hi : i < n := by omega
  have hjn : j < n := by omega
  have hnj : J < n := by omega
  have hni : I < n := by omega
  have e2 : (n - 1 - j) * n + (n - 1) - i = J * n + I := by
    rw [← hJ]
    omega
  have hs : j * n + i < m1.length := by rw [hl]; exact index_lt n j i hjn hi
  have h1 : i * n + J < m1.length := by rw [hl]; exact index_lt n _ _ hi hnj
  have h2 : J * n + I < m1.length := by rw [hl]; exact index_lt n _ _ hnj hni
  have h3 : I * n + j < m1.length := by rw [hl]; exact index_lt n _ _ hni hjn
  have d1 : j * n + i ≠ i * n + J := by
    intro h
    have := (index_inj n _ _ _ _ hi hnj).mp h
    omega
  have d2 : j * n + i ≠ J * n + I := by
    intro h
    have := (index_inj n _ _ _ _ hi hni).mp h
    omega
  have d3 : j * n + i ≠ I * n + j := by
    intro h
    have := (index_inj n _ _ _ _ hi hjn).mp h
    omega
  have d12 : i * n + J ≠ J * n + I := by
    intro h
    have := (index_inj n _ _ _ _ hnj hni).mp h
    omega
  have d13 : i * n + J ≠ I * n + j := by
    intro h
    have := (index_inj n _ _ _ _ hnj hjn).mp h
    omega
  have d23 : J * n + I ≠ I * n + j := by
    intro h
    have := (index_inj n _ _ _ _ hni hjn).mp h
    omega
  have hrc : rotateCell n m1 i j =
      swapAt (swapAt (swapAt m1 (j * n + i) (i * n + J)) (j * n + i) (J * n + I))
        (j * n + i) (I * n + j) := by
    unfold rotateCell
    simp only
    rw [e2, ← hI, ← hJ]
  rw [hrc]
  have key := fun p => three_swaps m1 _ _ _ _ p hs h1 h2 h3 d1 d2 d3 d12 d13 d23
  obtain ⟨n3, n2, n1, ns⟩ := processed_sources n i j I J hI1 hJ1 hij hj
  obtain ⟨p3, p2, p1, ps⟩ := processed_targets n i j I J hI1 hJ1 hij
  have hIc : n - 1 - I = i := by omega
  have hJc : n - 1 - J = j := by omega
  refine ⟨(key 0).1.trans hl, (key 0).2.1.trans hperm, ?_⟩
  intro r c hr hc
  rw [(key (r * n + c)).2.2]
  simp only [index_inj n r c I j hc hjn, index_inj n r c J I hc hni,
    index_inj n r c i J hc hnj, index_inj n r c j i hc hi]
  by_cases c3 : r = I ∧ c = j
  · rw [if_pos c3, c3.1, c3.2, hval _ _ hnj hni, if_neg n2, if_pos p3, ← hJ]
  · rw [if_neg c3]
    by_cases c2 : r = J ∧ c = I
    · rw [if_pos c2, c2.1, c2.2, hval _ _ hi hnj, if_neg n1, if_pos p2, hIc]
    · rw [if_neg c2]
      by_cases c1 : r = i ∧ c = J
      · rw [if_pos c1, c1.1, c1.2, hval _ _ hjn hi, if_neg ns, if_pos p1, hJc]
      · rw [if_neg c1]
        by_cases cs : r = j ∧ c = i
        · rw [if_pos cs, cs.1, cs.2, hval _ _ hni hjn, if_neg n3, if_pos ps, ← hI]
        · rw [if_neg cs, hval r c hr hc]
          have hiff := processed_others n i j I J r c hI1 hJ1 hij hj hr hc c3 c2 c1 cs
          by_cases hp : processedCell n i j r c
          · rw [if_pos hp, if_pos (hiff.mpr hp)]
          · rw [if_neg hp, if_neg (fun h => hp (hiff.mp h))]
theorem rotate_ring (n : Nat) (m : List Nat) (i : Nat) (k : Nat) :
    ∀ m1, rotatedSoFar n m m1 i i → i + k + i + 1 ≤ n →
      rotatedSoFar n m ((List.range' i k).foldl (fun m j => rotateCell n m i j) m1) i
        (i + k) := by
  induction k with
  | zero =>
    intro m1 h _
    exact h
  | succ k ih =>
    intro m1 h hk
    rw [List.range'_concat, List.foldl_append]
    simp only [List.foldl_cons, List.foldl_nil, Nat.one_mul]
    exact rotateCell_step n m _ i (i + k) (ih m1 h (by omega)) (by omega) (by omega)

theorem next_ring (n : Nat) (m m1 : List Nat) (i : Nat) (hi : i < n - 1 - i)
    (h : rotatedSoFar n m m1 i (i + (n - 1 - i - i))) :
    rotatedSoFar n m m1 (i + 1) (i + 1) := by
  obtain ⟨hl, hp, hv⟩ := h
  refine ⟨hl, hp, ?_⟩
  intro r c hr hc
  rw [hv r c hr hc]
  have hiff : processedCell n i (i + (n - 1 - i - i)) r c ↔
      processedCell n (i + 1) (i + 1) r c := by
    unfold processedCell
    omega
  by_cases hpc : processedCell n i (i + (n - 1 - i - i)) r c
  · rw [if_pos hpc, if_pos (hiff.mp hpc)]
  · rw [if_neg hpc, if_neg (fun h => hpc (hiff.mpr h))]

theorem last_ring (n : Nat) (m m1 : List Nat) (i : Nat) (hi : ¬ i < n - 1 - i)
    (h : rotatedSoFar n m m1 i i) :
    ∀ r c, r < n → c < n → m1.getD (r * n + c) 0 = m.getD ((n - 1 - c) * n + r) 0 := by
  intro r c hr hc
  rw [h.2.2 r c hr hc]
  split
  · rfl
  · rename_i hnp
    unfold processedCell at hnp
    have h1 : n - 1 - c = r := by omega
    have h2 : r = c := by omega
    rw [h1, ← h2]

theorem rotateLayers_spec (n : Nat) (m : List Nat) (fuel : Nat) :
    ∀ i m1, rotatedSoFar n m m1 i i → n ≤ i + fuel →
      ∃ m2, rotateLayers n fuel i i m1 = some m2 ∧ m2.length = n * n ∧ m2.Perm m ∧
        ∀ r c, r < n → c < n → m2.getD (r * n + c) 0 = m.getD ((n - 1 - c) * n + r) 0 := by
  induction fuel with
  | zero =>
    intro i m1 h hf
    have hi : ¬ i < n - 1 - i := by omega
    refine ⟨m1, ?_, h.1, h.2.1, last_ring n m m1 i hi h⟩
    unfold rotateLayers
    rw [if_neg hi]
  | succ fuel ih =>
    intro i m1 h hf
    by_cases hi : i < n - 1 - i
    · unfold rotateLayers
      rw [if_pos hi]
      exact ih (i + 1) _
        (next_ring n m _ i hi (rotate_ring n m i (n - 1 - i - i) m1 h (by omega))) (by omega)
    · refine ⟨m1, ?_, h.1, h.2.1, last_ring n m m1 i hi h⟩
      unfold rotateLayers
      rw [if_neg hi]

theorem RotateMatrix_spec (n : Nat) (m : List Nat) (hm : m.length = n * n) :
    ∃ m1, RotateMatrix m n = some m1 ∧ m1.length = n * n ∧ m1.Perm m ∧
      ∀ r c, r < n → c < n → m1.getD (r * n + c) 0 = m.getD ((n - 1 - c) * n + r) 0 := by
  unfold RotateMatrix
  apply rotateLayers_spec n m n 0 m _ (by omega)
  refine ⟨hm, List.Perm.refl m, ?_⟩
  intro r c _ _
  rw [if_neg]
  unfold processedCell
  omega

theorem matrix_ext (n : Nat) (a b : List Nat) (ha : a.length = n * n) (hb : b.length = n * n)
    (h : ∀ r c, r < n → c < n → a.getD (r * n + c) 0 = b.getD (r * n + c) 0) : a = b := by
  apply List.ext_getElem (ha.trans hb.symm)
  intro p h1 h2
  have hn : 0 < n := by
    rcases Nat.eq_zero_or_pos n with h0 | h0
    · rw [ha, h0] at h1
      exact absurd h1 (Nat.not_lt_zero _)
    · exact h0
  have hp : p < n * n := ha ▸ h1
  have hdiv : p / n < n := Nat.div_lt_of_lt_mul hp
  have hmod : p % n < n := Nat.mod_lt _ hn
  have hrc := h (p / n) (p % n) hdiv hmod
  have hpe : p / n * n + p % n = p := Nat.div_add_mod' p n
  rw [hpe, List.getD_eq_getElem _ _ h1, List.getD_eq_getElem _ _ h2] at hrc
  exact hrc
/-- C17: for every `n ≥ 1` and every row-major matrix `m` of `n * n` entries,
`RotateMatrix` returns a matrix of `n * n` entries whose entry in row `r` and
column `c` is the entry of `m` at index `(n - 1 - c) * n + r`, that is, `m`
turned a quarter-turn clockwise.  The result is a rearrangement of the
entries of `m`, so it has as many entries equal to 1, and four applications
return `m` itself. -/
theorem RotateMatrix_turns_clockwise (n : Nat) (m : List Nat) (hn : 1 ≤ n)
    (hm : m.length = n * n) :
    ∃ m1, RotateMatrix m n = some m1 ∧ m1.length = n * n ∧
      (∀ r c, r < n → c < n → m1.getD (r * n + c) 0 = m.getD ((n - 1 - c) * n + r) 0) ∧
      m1.Perm m ∧ m1.count 1 = m.count 1 ∧
      rotateMatrixFourTimes m n = some m := by
  have hne : m ≠ [] := by
    intro h
    rw [h] at hm
    have : 0 < n * n := Nat.mul_pos hn hn
    simp at hm
    omega
  obtain ⟨m1, e1, l1, p1, v1⟩ := RotateMatrix_spec n m hm
  obtain ⟨m2, e2, l2, _, v2⟩ := RotateMatrix_spec n m1 l1
  obtain ⟨m3, e3, l3, _, v3⟩ := RotateMatrix_spec n m2 l2
  obtain ⟨m4, e4, l4, _, v4⟩ := RotateMatrix_spec n m3 l3
  refine ⟨m1, e1, l1, v1, p1, p1.count_eq 1, ?_⟩
  unfold rotateMatrixFourTimes
  rw [e1, Option.some_bind, e2, Option.some_bind, e3, Option.some_bind, e4]
  congr 1
  apply matrix_ext n m4 m l4 hm
  intro r c hr hc
  have hr1 : n - 1 - r < n := by omega
  have hc1 : n - 1 - c < n := by omega
  rw [v4 r c hr hc, v3 (n - 1 - c) r hc1 hr, v2 (n - 1 - r) (n - 1 - c) hr1 hc1,
    v1 (n - 1 - (n - 1 - c)) (n - 1 - r) (by omega) hr1]
  have h1 : n - 1 - (n - 1 - r) = r := by omega
  have h2 : n - 1 - (n - 1 - c) = c := by omega
  rw [h1, h2]

/-- C17, witness: the matrix of side 3 with the entries 1 to 9. -/
theorem RotateMatrix_turns_clockwise_witness :
    1 ≤ 3 ∧ ([1, 2, 3, 4, 5, 6, 7, 8, 9] : List Nat).length = 3 * 3 ∧
    RotateMatrix [1, 2, 3, 4, 5, 6, 7, 8, 9] 3 = some [7, 4, 1, 8, 5, 2, 9, 6, 3] ∧
    ∃ m1, RotateMatrix [1, 2, 3, 4, 5, 6, 7, 8, 9] 3 = some m1 ∧ m1.length = 3 * 3 ∧
      (∀ r c, r < 3 → c < 3 →
        m1.getD (r * 3 + c) 0 =
          ([1, 2, 3, 4, 5, 6, 7, 8, 9] : List Nat).getD ((3 - 1 - c) * 3 + r) 0) ∧
      m1.Perm [1, 2, 3, 4, 5, 6, 7, 8, 9] ∧
      m1.count 1 = ([1, 2, 3, 4, 5, 6, 7, 8, 9] : List Nat).count 1 ∧
      rotateMatrixFourTimes [1, 2, 3, 4, 5, 6, 7, 8, 9] 3 = some [1, 2, 3, 4, 5, 6, 7, 8, 9] :=
  ⟨by decide, by decide, by decide,
    RotateMatrix_turns_clockwise 3 [1, 2, 3, 4, 5, 6, 7, 8, 9] (by decide) (by decide)⟩
theorem settleReads_inside (g : Game) (outside : Int → Bool)
    (hsz : g.cells_width_ * g.cells_height_ < 2 ^ 64) :
    ∀ blocks : List Int,
      (∀ p, p ∈ blocks → 0 ≤ p ∧ p < (g.cells_width_ : Int) * g.cells_height_) →
      ∀ q, q ∈ settleReads g outside blocks →
        0 ≤ q ∧ q < (g.cells_width_ : Int) * g.cells_height_ := by
  have hszI : (g.cells_width_ : Int) * g.cells_height_ < 2 ^ 64 := by exact_mod_cast hsz
  intro blocks
  induction blocks with
  | nil =>
    intro _ q hq
    simp [settleReads] at hq
  | cons p ps ih =>
    intro hin q hq
    have hp := hin p (List.mem_cons_self _ _)
    have hw : (0 : Int) ≤ (g.cells_width_ : Int) := Int.ofNat_nonneg _
    have hh : 1 ≤ g.cells_height_ := by
      rcases Nat.eq_zero_or_pos g.cells_height_ with h0 | h0
      · rw [h0] at hp
        simp at hp
        omega
      · exact h0
    have hbot : (0 : Int) ≤ (g.cells_width_ : Int) * g.cells_height_ - g.cells_width_ := by
      have : (g.cells_width_ : Int) * 1 ≤ (g.cells_width_ : Int) * g.cells_height_ :=
        Int.mul_le_mul_of_nonneg_left (by exact_mod_cast hh) hw
      omega
    unfold settleReads at hq
    rw [toSizeT_of_lt p hp.1 (by omega),
      toSizeT_of_lt _ hbot (by omega)] at hq
    split at hq
    · simp at hq
    · rename_i hnb
      rw [List.mem_cons] at hq
      rcases hq with rfl | hq
      · omega
      · split at hq
        · simp at hq
        · exact ih (fun p' hp' => hin p' (List.mem_cons_of_mem _ hp')) q hq
theorem dropReads_inside (g : Game) (outside : Int → Bool)
    (hlen : g.board_.length = g.cells_width_ * g.cells_height_)
    (hsz : g.cells_width_ * g.cells_height_ < 2 ^ 64) (fuel : Nat) :
    ∀ blocks : List Int,
      (∀ p, p ∈ blocks → 0 ≤ p ∧ p < (g.cells_width_ : Int) * g.cells_height_) →
      ∀ q, q ∈ dropReads g outside fuel blocks →
        0 ≤ q ∧ q < (g.cells_width_ : Int) * g.cells_height_ := by
  induction fuel with
  | zero =>
    intro blocks hin q hq
    exact settleReads_inside g outside hsz blocks hin q hq
  | succ fuel ih =>
    intro blocks hin q hq
    unfold dropReads at hq
    rw [List.mem_append] at hq
    rcases hq with hq | hq
    · exact settleReads_inside g outside hsz blocks hin q hq
    · split at hq
      · simp at hq
      · rename_i hns
        have hns' : ¬ atSettlePosition g blocks := fun h =>
          hns ((BlocksAtSettlePosition_iff g outside blocks hlen hsz hin).mpr h)
        have hstep := inside_after_step g blocks hin hns'
        refine ih _ ?_ q hq
        intro p hp
        rw [List.mem_map] at hp
        obtain ⟨p0, hp0, rfl⟩ := hp
        exact ⟨(hstep p0 hp0).1, (hstep p0 hp0).2.1⟩

theorem drop_bound (g : Game) (outside : Int → Bool) (score_ : Option Int)
    (hlen : g.board_.length = g.cells_width_ * g.cells_height_)
    (hsz : g.cells_width_ * g.cells_height_ < 2 ^ 64)
    (blocks : List Int) (hne : blocks ≠ [])
    (hin : ∀ p, p ∈ blocks → 0 ≤ p ∧ p < (g.cells_width_ : Int) * g.cells_height_) :
    ∃ k, k < g.cells_height_ ∧
      (∀ fuel, k ≤ fuel →
        dropLoop g outside fuel blocks score_ =
          some (shiftDown g.cells_width_ blocks k, score_.map fun s => s + (k : Int))) ∧
      ∀ p, p ∈ shiftDown g.cells_width_ blocks k →
        0 ≤ p ∧ p < (g.cells_width_ : Int) * g.cells_height_ := by
  obtain ⟨k, hat, hfirst⟩ := exists_first_settle g blocks hne hin
  have hland := fun fuel (hf : k ≤ fuel) =>
    dropLoop_eq g outside hlen hsz k blocks score_ fuel hin hfirst hat hf
  obtain ⟨-, hinL, -⟩ := hland k (Nat.le_refl k)
  refine ⟨k, ?_, fun fuel hf => (hland fuel hf).1, hinL⟩
  obtain ⟨p, hp⟩ := List.exists_mem_of_ne_nil blocks hne
  have hmem : p + (k : Int) * g.cells_width_ ∈ shiftDown g.cells_width_ blocks k := by
    unfold shiftDown
    exact List.mem_map.mpr ⟨p, hp, rfl⟩
  have h1 := (hinL _ hmem).2
  have h0 := (hin p hp).1
  have hlt : (k : Int) * g.cells_width_ < (g.cells_height_ : Int) * g.cells_width_ := by
    rw [Int.mul_comm (g.cells_height_ : Int)]
    omega
  have hlt' : k * g.cells_width_ < g.cells_height_ * g.cells_width_ := by exact_mod_cast hlt
  exact Nat.lt_of_mul_lt_mul_right hlt'

/-- C27: on a board of `cells_width_ * cells_height_` cells and for a piece
whose four blocks are cells of the board, the drop loop of
`Tetromino::SettleTetromino` returns after a number of passes that is at most
`cells_height_ - 1` (any larger bound on the passes gives the same result),
the blocks it returns are the blocks moved down by that many rows and are
cells of the board, and every cell whose `occupied_` its calls of
`BlocksAtSettlePosition` read is a cell of the board. -/
theorem drop_loop_ends_inside_board (g : Game) (outside : Int → Bool) (blocks : List Int)
    (score_ : Option Int)
    (hlen : g.board_.length = g.cells_width_ * g.cells_height_)
    (hsz : g.cells_width_ * g.cells_height_ < 2 ^ 64)
    (h4 : blocks.length = 4)
    (hin : ∀ p, p ∈ blocks → 0 ≤ p ∧ p < (g.cells_width_ : Int) * g.cells_height_) :
    ∃ k, k ≤ g.cells_height_ - 1 ∧
      (∀ fuel, k ≤ fuel →
        dropLoop g outside fuel blocks score_ =
          some (shiftDown g.cells_width_ blocks k, score_.map fun s => s + (k : Int))) ∧
      (∀ p, p ∈ shiftDown g.cells_width_ blocks k →
        0 ≤ p ∧ p < (g.cells_width_ : Int) * g.cells_height_) ∧
      ∀ fuel q, q ∈ dropReads g outside fuel blocks →
        0 ≤ q ∧ q < (g.cells_width_ : Int) * g.cells_height_ := by
  have hne : blocks ≠ [] := by
    intro h
    rw [h] at h4
    exact absurd h4 (by decide)
  obtain ⟨k, hk, hdrop, hinL⟩ := drop_bound g outside score_ hlen hsz blocks hne hin
  exact ⟨k, by omega, hdrop, hinL,
    fun fuel q hq => dropReads_inside g outside hlen hsz fuel blocks hin q hq⟩

/-- C27, witness: the piece `pieceTop` on the board `boardWell` of three
columns and four rows drops one row; the loop reads the cells 3, 4 and 5 and
then 6, 7 and 8 and 10. -/
theorem drop_loop_ends_inside_board_witness :
    boardWell.board_.length = boardWell.cells_width_ * boardWell.cells_height_ ∧
    pieceTop.blocks_.length = 4 ∧
    dropLoop boardWell (fun _ => false) 3 pieceTop.blocks_ (some 0) =
      some ([3, 4, 5, 7], some 1) ∧
    dropReads boardWell (fun _ => false) 3 pieceTop.blocks_ = [3, 4, 5, 7, 6, 7, 8, 10] ∧
    ∃ k, k ≤ boardWell.cells_height_ - 1 ∧
      (∀ fuel, k ≤ fuel →
        dropLoop boardWell (fun _ => false) fuel pieceTop.blocks_ (some 0) =
          some (shiftDown boardWell.cells_width_ pieceTop.blocks_ k,
            (some (0 : Int)).map fun s => s + (k : Int))) ∧
      (∀ p, p ∈ shiftDown boardWell.cells_width_ pieceTop.blocks_ k →
        0 ≤ p ∧ p < (boardWell.cells_width_ : Int) * boardWell.cells_height_) ∧
      ∀ fuel q, q ∈ dropReads boardWell (fun _ => false) fuel pieceTop.blocks_ →
        0 ≤ q ∧ q < (boardWell.cells_width_ : Int) * boardWell.cells_height_ :=
  ⟨by decide, by decide, by decide, by decide,
    drop_loop_ends_inside_board boardWell (fun _ => false) pieceTop.blocks_ (some 0)
      (by decide) (by decide) (by decide) (by decide)⟩
/-- C26, failing input: in the fresh session on a board of ten columns and
twenty rows the I piece has its blocks in cells 2 to 5; two moves to the left
bring them to cells 0 to 3, all inside the board.  The next move to the left
is rejected, but before the loop tests the edge it reads `occupied_` of the
cell at offset -1, which is not a cell of the board.  The same happens past
the end of the board: for blocks in the last four cells a move to the right
reads the cell at offset 200.  For any board and any memory content, a move to
the left of a piece whose first block is cell 0 reads offset -1. -/
theorem MoveTetromino_reads_outside_the_board :
    (∃ g0, newGame (fun _ => false) identityShuffle 10 20 = some g0 ∧
      g0.falling_tetromino_.blocks_ = [2, 3, 4, 5] ∧
      (MoveTetromino
        (MoveTetromino g0 (fun _ => false) g0.falling_tetromino_ false).1 (fun _ => false)
        (MoveTetromino g0 (fun _ => false) g0.falling_tetromino_ false).2 false).2.blocks_ =
        [0, 1, 2, 3] ∧
      moveReads
        (MoveTetromino
          (MoveTetromino g0 (fun _ => false) g0.falling_tetromino_ false).1 (fun _ => false)
          (MoveTetromino g0 (fun _ => false) g0.falling_tetromino_ false).2 false).1
        (fun _ => false) false [0, 1, 2, 3] = [-1]) ∧
    moveReads emptyTenWide (fun _ => false) true [196, 197, 198, 199] =
      [197, 198, 199, 200] ∧
    emptyTenWide.board_.length = 200 ∧
    (∀ (g : Game) (outside : Int → Bool) (blocks : List Int),
      (-1 : Int) ∈ moveReads g outside false (0 :: blocks)) := by
  refine ⟨?_, by decide, by decide, ?_⟩
  · have h : (newGame (fun _ => false) identityShuffle 10 20).isSome = true := by decide
    obtain ⟨g0, hg0⟩ := Option.isSome_iff_exists.mp h
    have hall : (newGame (fun _ => false) identityShuffle 10 20).map
        (fun g0 => (g0.falling_tetromino_.blocks_,
          (MoveTetromino
            (MoveTetromino g0 (fun _ => false) g0.falling_tetromino_ false).1 (fun _ => false)
            (MoveTetromino g0 (fun _ => false) g0.falling_tetromino_ false).2
            false).2.blocks_,
          moveReads
            (MoveTetromino
              (MoveTetromino g0 (fun _ => false) g0.falling_tetromino_ false).1
              (fun _ => false)
              (MoveTetromino g0 (fun _ => false) g0.falling_tetromino_ false).2 false).1
            (fun _ => false) false [0, 1, 2, 3])) =
        some ([2, 3, 4, 5], [0, 1, 2, 3], [-1]) := by decide
    rw [hg0] at hall
    simp only [Option.map_some', Option.some.injEq, Prod.mk.injEq] at hall
    exact ⟨g0, hg0, hall.1, hall.2.1, hall.2.2⟩
  · intro g outside blocks
    unfold moveReads
    simp
/-- C24, counterexample: on the board of ten columns with columns 3 and 4
occupied from row 1 down and the top row free, `SpawnTetromino` for the T
piece leaves the game-over flag unset, and two of the four cells of the new
blocks, cells 13 and 14 in row 1, are occupied. -/
theorem spawn_overlaps_below_top_row :
    ∃ g1, SpawnTetromino (fun _ => false) identityShuffle stackedTenWide
        TetrominoType.T_BLOCK false = some g1 ∧
      stackedTenWide.game_over_ = false ∧
      g1.game_over_ = false ∧
      g1.falling_tetromino_.blocks_ = [4, 13, 14, 15] ∧
      occupiedAt stackedTenWide.board_ (fun _ => false) 13 = true ∧
      occupiedAt stackedTenWide.board_ (fun _ => false) 14 = true := by
  have h : (SpawnTetromino (fun _ => false) identityShuffle stackedTenWide
      TetrominoType.T_BLOCK false).isSome = true := by decide
  obtain ⟨g1, hg1⟩ := Option.isSome_iff_exists.mp h
  have hall : (SpawnTetromino (fun _ => false) identityShuffle stackedTenWide
      TetrominoType.T_BLOCK false).map
      (fun g => (g.game_over_, g.falling_tetromino_.blocks_)) =
      some (false, [4, 13, 14, 15]) := by decide
  rw [hg1] at hall
  simp only [Option.map_some', Option.some.injEq, Prod.mk.injEq] at hall
  exact ⟨g1, hg1, by decide, hall.1, hall.2, by decide, by decide⟩

/-- C24, amended: for every board and kind `SpawnTetromino` returns, and when
it leaves the game-over flag unset, no cell of the top row of the new bounding
box is occupied; so every block of the new piece that lies in that row, which
is every block of the I piece, is on an unoccupied cell.  The blocks in the
second row of the box are not tested. -/
theorem spawn_without_game_over_has_free_top_row (outside : Int → Bool)
    (shuffled : Nat → List Nat) (g : Game) (type : TetrominoType) (unstashing : Bool) :
    ∃ g1, SpawnTetromino outside shuffled g type unstashing = some g1 ∧
      (g1.game_over_ = false →
        (∀ i, i < GetBBoxDimension type →
          occupiedAt g.board_ outside (g1.falling_tetromino_.bounding_box_.getD i 0) = false) ∧
        (∀ x, x ∈ spawnBlockIndices type → x < GetBBoxDimension type →
          g1.falling_tetromino_.bounding_box_.getD x 0 ∈ g1.falling_tetromino_.blocks_ ∧
          occupiedAt g.board_ outside
            (g1.falling_tetromino_.bounding_box_.getD x 0) = false) ∧
        (type = TetrominoType.I_BLOCK →
          ∀ p, p ∈ g1.falling_tetromino_.blocks_ → occupiedAt g.board_ outside p = false)) := by
  refine ⟨_, SpawnTetromino_total outside shuffled g type unstashing, ?_⟩
  intro hover
  simp only [decide_eq_false_iff_not, not_or, not_exists, not_and] at hover
  have htop : ∀ i, i < GetBBoxDimension type →
      occupiedAt g.board_ outside
        ((spawnBox g.cells_width_ (GetBBoxDimension type)).getD i 0) = false := by
    intro i hi
    have := hover.2 i hi
    simpa using this
  refine ⟨htop, ?_, ?_⟩
  · intro x hx hlt
    exact ⟨List.mem_map.mpr ⟨x, hx, rfl⟩, htop x hlt⟩
  · intro hI p hp
    subst hI
    have hp' : p ∈ (spawnBlockIndices TetrominoType.I_BLOCK).map fun x =>
        (spawnBox g.cells_width_ (GetBBoxDimension TetrominoType.I_BLOCK)).getD x 0 := hp
    rw [List.mem_map] at hp'
    obtain ⟨x, hx, rfl⟩ := hp'
    have hall : ∀ y, y ∈ spawnBlockIndices TetrominoType.I_BLOCK →
        y < GetBBoxDimension TetrominoType.I_BLOCK := by decide
    have hlt := hall x hx
    exact htop x hlt
theorem foldl_min_le (l : List Int) :
    ∀ init : Int, l.foldl min init ≤ init ∧ ∀ x, x ∈ l → l.foldl min init ≤ x := by
  induction l with
  | nil => intro init; exact ⟨le_refl _, fun x hx => absurd hx (List.not_mem_nil x)⟩
  | cons a l ih =>
    intro init
    rw [List.foldl_cons]
    obtain ⟨h1, h2⟩ := ih (min init a)
    refine ⟨le_trans h1 (min_le_left _ _), ?_⟩
    intro x hx
    rcases List.mem_cons.mp hx with rfl | hx
    · exact le_trans h1 (min_le_right _ _)
    · exact h2 x hx

theorem le_foldl_min (l : List Int) (m : Int) (hle : ∀ x, x ∈ l → m ≤ x) :
    ∀ init : Int, m ≤ init → m ≤ l.foldl min init := by
  induction l with
  | nil => intro init h; exact h
  | cons a l ih =>
    intro init h
    rw [List.foldl_cons]
    exact ih (fun x hx => hle x (List.mem_cons_of_mem _ hx)) _
      (le_min h (hle a (List.mem_cons_self _ _)))

theorem le_foldl_max (l : List Int) :
    ∀ init : Int, init ≤ l.foldl max init ∧ ∀ x, x ∈ l → x ≤ l.foldl max init := by
  induction l with
  | nil => intro init; exact ⟨le_refl _, fun x hx => absurd hx (List.not_mem_nil x)⟩
  | cons a l ih =>
    intro init
    rw [List.foldl_cons]
    obtain ⟨h1, h2⟩ := ih (max init a)
    refine ⟨le_trans (le_max_left _ _) h1, ?_⟩
    intro x hx
    rcases List.mem_cons.mp hx with rfl | hx
    · exact le_trans (le_max_right _ _) h1
    · exact h2 x hx

theorem foldl_max_le (l : List Int) (m : Int) (hle : ∀ x, x ∈ l → x ≤ m) :
    ∀ init : Int, init ≤ m → l.foldl max init ≤ m := by
  induction l with
  | nil => intro init h; exact h
  | cons a l ih =>
    intro init h
    rw [List.foldl_cons]
    exact ih (fun x hx => hle x (List.mem_cons_of_mem _ hx)) _
      (max_le h (hle a (List.mem_cons_self _ _)))

theorem boxAt_margins (w side R C : Nat) (hs : 0 < side) (hC : C + side ≤ w) :
    leftMargin w (boxAt w side R C) = (C : Int) ∧
    rightMargin w (boxAt w side R C) = (w : Int) - (C + side : Nat) := by
  have hcol : ∀ x, x ∈ (boxAt w side R C).map (fun p => p % (w : Int)) →
      (C : Int) ≤ x ∧ x ≤ ((C + (side - 1) : Nat) : Int) := by
    intro x hx
    rw [List.mem_map] at hx
    obtain ⟨p, hp, rfl⟩ := hx
    rw [mem_boxAt] at hp
    obtain ⟨a, b, _, hb, rfl⟩ := hp
    have hcc := cell_coords w (R + a + 1) (R + a) (C + b) (by omega) (by omega)
    rw [Nat.add_assoc, hcc.2.2.1]
    constructor
    · exact_mod_cast Nat.le_add_right C b
    · exact_mod_cast (by omega : C + b ≤ C + (side - 1))
  have hfirst : (C : Int) ∈ (boxAt w side R C).map (fun p => p % (w : Int)) := by
    rw [List.mem_map]
    refine ⟨(((R + 0) * w + C + 0 : Nat) : Int), (mem_boxAt _ _ _ _ _).mpr ⟨0, 0, hs, hs, rfl⟩, ?_⟩
    have hcc := cell_coords w (R + 0 + 1) (R + 0) C (by omega) (by omega)
    rw [Nat.add_zero ((R + 0) * w + C)]
    exact hcc.2.2.1
  have hlast : ((C + (side - 1) : Nat) : Int) ∈
      (boxAt w side R C).map (fun p => p % (w : Int)) := by
    rw [List.mem_map]
    refine ⟨(((R + 0) * w + C + (side - 1) : Nat) : Int),
      (mem_boxAt _ _ _ _ _).mpr ⟨0, side - 1, hs, by omega, rfl⟩, ?_⟩
    have hcc := cell_coords w (R + 0 + 1) (R + 0) (C + (side - 1)) (by omega) (by omega)
    rw [Nat.add_assoc]
    exact hcc.2.2.1
  constructor
  · unfold leftMargin
    apply le_antisymm
    · exact (foldl_min_le _ _).2 _ hfirst
    · exact le_foldl_min _ _ (fun x hx => (hcol x hx).1) _ (by exact_mod_cast (by omega : C ≤ w))
  · unfold rightMargin
    have hmax : ((boxAt w side R C).map fun p => p % (w : Int)).foldl max (-1) =
        ((C + (side - 1) : Nat) : Int) := by
      apply le_antisymm
      · exact foldl_max_le _ _ (fun x hx => (hcol x hx).2) _ (by omega)
      · exact (le_foldl_max _ _).2 _ hlast
    rw [hmax]
    push_cast
    omega
theorem spawnBox_boxAt (w : Nat) (type : TetrominoType) (hw : 6 ≤ w) (hw2 : w < 2 ^ 31) :
    spawnBox w (GetBBoxDimension type) =
      boxAt w (GetBBoxDimension type) 0 (w / 2 - GetBBoxDimension type / 2 - 1) := by
  have hside : 0 < GetBBoxDimension type ∧ GetBBoxDimension type ≤ 4 ∧
      GetBBoxDimension type / 2 + 1 ≤ 3 := by
    cases type <;> decide
  obtain ⟨hs0, hs4, hs3⟩ := hside
  have hbig : w / 2 + (GetBBoxDimension type + 1) * w + GetBBoxDimension type < 2 ^ 64 := by
    have h5 : (GetBBoxDimension type + 1) * w ≤ 5 * w := Nat.mul_le_mul_right _ (by omega)
    omega
  rw [spawnBox_eq w (GetBBoxDimension type) hs0 (by omega) hbig]
  unfold boxAt
  apply List.map_congr_left
  intro k _
  congr 1
  rw [Nat.zero_add]
  omega

/-- C23, counterexample: on the empty board of ten columns `SpawnTetromino`
for the I piece binds the box of side 4 to columns 2 to 5 of rows 0 to 3: two
columns are to its left and four to its right. -/
theorem spawn_box_is_not_centred :
    ∃ g1, SpawnTetromino (fun _ => false) identityShuffle emptyTenWide
        TetrominoType.I_BLOCK false = some g1 ∧
      g1.falling_tetromino_.bounding_box_ = boxAt 10 4 0 2 ∧
      leftMargin 10 g1.falling_tetromino_.bounding_box_ = 2 ∧
      rightMargin 10 g1.falling_tetromino_.bounding_box_ = 4 ∧
      ¬ (rightMargin 10 g1.falling_tetromino_.bounding_box_ -
          leftMargin 10 g1.falling_tetromino_.bounding_box_ ≤ 1) := by
  have h : (SpawnTetromino (fun _ => false) identityShuffle emptyTenWide
      TetrominoType.I_BLOCK false).isSome = true := by decide
  obtain ⟨g1, hg1⟩ := Option.isSome_iff_exists.mp h
  have hall : (SpawnTetromino (fun _ => false) identityShuffle emptyTenWide
      TetrominoType.I_BLOCK false).map (fun g => g.falling_tetromino_.bounding_box_) =
      some (boxAt 10 4 0 2) := by decide
  rw [hg1] at hall
  simp only [Option.map_some', Option.some.injEq] at hall
  refine ⟨g1, hg1, hall, ?_, ?_, ?_⟩
  · rw [hall]; decide
  · rw [hall]; decide
  · rw [hall]; decide

/-- C23, amended: on a board of `W ≥ 6` columns `SpawnTetromino` binds the
bounding box to rows 0 to `side - 1` and to the `side` consecutive columns
that start at column `W / 2 - side / 2 - 1`, with `side` 4 for the I and O
pieces and 3 for the others.  The number of columns to the right of the box
is the number to its left plus `side - 2 + W % 2`: the box lies one column to
the left of the centred position, and the two numbers differ by 1 or 2 for
side 3 and by 2 or 3 for side 4. -/
theorem SpawnTetromino_box_columns (outside : Int → Bool) (shuffled : Nat → List Nat)
    (g : Game) (type : TetrominoType) (unstashing : Bool)
    (hw : 6 ≤ g.cells_width_) (hw2 : g.cells_width_ < 2 ^ 31) :
    ∃ g1, SpawnTetromino outside shuffled g type unstashing = some g1 ∧
      g1.falling_tetromino_.bounding_box_ =
        boxAt g.cells_width_ (GetBBoxDimension type) 0
          (g.cells_width_ / 2 - GetBBoxDimension type / 2 - 1) ∧
      g.cells_width_ / 2 - GetBBoxDimension type / 2 - 1 + GetBBoxDimension type ≤
        g.cells_width_ ∧
      leftMargin g.cells_width_ g1.falling_tetromino_.bounding_box_ =
        ((g.cells_width_ / 2 - GetBBoxDimension type / 2 - 1 : Nat) : Int) ∧
      rightMargin g.cells_width_ g1.falling_tetromino_.bounding_box_ =
        leftMargin g.cells_width_ g1.falling_tetromino_.bounding_box_ +
          ((GetBBoxDimension type - 2 + g.cells_width_ % 2 : Nat) : Int) := by
  have hside : GetBBoxDimension type = 3 ∨ GetBBoxDimension type = 4 := by
    cases type <;> decide
  have hC : g.cells_width_ / 2 - GetBBoxDimension type / 2 - 1 + GetBBoxDimension type ≤
      g.cells_width_ := by
    rcases hside with h | h <;> rw [h] <;> omega
  have hm := boxAt_margins g.cells_width_ (GetBBoxDimension type) 0
    (g.cells_width_ / 2 - GetBBoxDimension type / 2 - 1)
    (by rcases hside with h | h <;> rw [h] <;> decide) hC
  refine ⟨_, SpawnTetromino_total outside shuffled g type unstashing, ?_, hC, ?_, ?_⟩
  · exact spawnBox_boxAt g.cells_width_ type hw hw2
  · show leftMargin g.cells_width_ (spawnBox g.cells_width_ (GetBBoxDimension type)) = _
    rw [spawnBox_boxAt g.cells_width_ type hw hw2]
    exact hm.1
  · show rightMargin g.cells_width_ (spawnBox g.cells_width_ (GetBBoxDimension type)) =
      leftMargin g.cells_width_ (spawnBox g.cells_width_ (GetBBoxDimension type)) + _
    rw [spawnBox_boxAt g.cells_width_ type hw hw2, hm.1, hm.2]
    rcases hside with h | h <;> rw [h] <;> push_cast <;> omega

/-- C23, witness: the T piece on the empty board of ten columns: box columns
3 to 5, three columns to the left and four to the right. -/
theorem SpawnTetromino_box_columns_witness :
    6 ≤ emptyTenWide.cells_width_ ∧ emptyTenWide.cells_width_ < 2 ^ 31 ∧
    ∃ g1, SpawnTetromino (fun _ => false) identityShuffle emptyTenWide
        TetrominoType.T_BLOCK false = some g1 ∧
      g1.falling_tetromino_.bounding_box_ = boxAt 10 3 0 3 ∧
      leftMargin 10 g1.falling_tetromino_.bounding_box_ = 3 ∧
      rightMargin 10 g1.falling_tetromino_.bounding_box_ = 3 + 1 :=
  ⟨by decide, by decide,
    (SpawnTetromino_box_columns (fun _ => false) identityShuffle emptyTenWide
      TetrominoType.T_BLOCK false (by decide) (by decide)).imp
      fun _ h => ⟨h.1, h.2.1, h.2.2.2.1, h.2.2.2.2.trans (by rw [h.2.2.2.1]; rfl)⟩⟩
theorem advances_refl (n : Nat) (g : Game) : advances n g g :=
  ⟨Or.inl rfl, rfl, id⟩

theorem advances_trans (n : Nat) (a b c : Game) (h1 : advances n a b) (h2 : advances n b c) :
    advances n a c := by
  obtain ⟨q1, p1, o1⟩ := h1
  obtain ⟨q2, p2, o2⟩ := h2
  refine ⟨?_, p2.trans p1, fun h => o2 (o1 h)⟩
  rcases q2 with q2 | q2
  · rcases q1 with q1 | q1
    · exact Or.inl (q2.trans q1)
    · exact Or.inr (q2 ▸ q1)
  · exact Or.inr q2

theorem advances_same (n : Nat) (g g1 : Game) (hq : g1.tetromino_queue_ = g.tetromino_queue_)
    (hp : g1.queued_tetrominoes_ = g.queued_tetrominoes_)
    (ho : g1.game_over_ = g.game_over_) : advances n g g1 :=
  ⟨Or.inl hq, by rw [hp], fun h => ho.trans h⟩

theorem queueReady_of_advances (g g1 : Game) (h : advances 10 g g1) (hr : queueReady g) :
    queueReady g1 := by
  obtain ⟨q, p, _⟩ := h
  refine ⟨?_, by rw [p]; exact hr.2⟩
  rcases q with q | q
  · rw [q]; exact hr.1
  · exact q

theorem spawn_advances (n : Nat) (outside : Int → Bool) (shuffled : Nat → List Nat)
    (g : Game) (type : TetrominoType) (unstashing : Bool)
    (hq : ∀ q : List TetrominoType,
      n ≤ (if q.length < 10 then GenerateTetrominoes shuffled q else q).length) :
    ∃ g1, SpawnTetromino outside shuffled g type unstashing = some g1 ∧ advances n g g1 ∧
      (unstashing = false → n ≤ g1.tetromino_queue_.length) ∧
      g1.stashed_tetromino_ = g.stashed_tetromino_ ∧
      g1.unstash_possible_ = g.unstash_possible_ := by
  refine ⟨_, SpawnTetromino_total outside shuffled g type unstashing, ⟨?_, rfl, ?_⟩, ?_, rfl, rfl⟩
  · cases unstashing with
    | true => exact Or.inl rfl
    | false =>
      right
      simp only [Bool.false_eq_true, if_false]
      exact hq _
  · intro h
    simp only [decide_eq_true_eq]
    exact Or.inl h
  · intro hu
    subst hu
    simp only [Bool.false_eq_true, if_false]
    exact hq _

theorem refill_ten (shuffled : Nat → List Nat)
    (hlen : ∀ i, i < 100 → (shuffled i).length = 7) (q : List TetrominoType) :
    10 ≤ (if q.length < 10 then GenerateTetrominoes shuffled q else q).length := by
  split
  · obtain ⟨app, h1, h2, _⟩ := generate_loop shuffled q 100 hlen
    unfold GenerateTetrominoes
    rw [h1, List.length_append, h2]
    omega
  · omega

theorem updateQueueStep_frame (g g1 : Game) (ti : Nat) (h : updateQueueStep g ti = some g1) :
    ∃ cells pieces, g1 = { g with queue_board_ := cells, queued_tetrominoes_ := pieces } ∧
      pieces.length = g.queued_tetrominoes_.length := by
  unfold updateQueueStep at h
  split at h
  · simp only at h
    split at h
    · exact absurd h (by simp)
    · simp only [Option.some.injEq] at h
      exact ⟨_, _, h.symm, List.length_set _ _ _⟩
  · exact absurd h (by simp)

theorem UpdateQueue_frame (g g1 : Game) (h : UpdateQueue g = some g1) :
    ∃ cells pieces, g1 = { g with queue_board_ := cells, queued_tetrominoes_ := pieces } ∧
      pieces.length = g.queued_tetrominoes_.length := by
  unfold UpdateQueue at h
  split at h
  · exact absurd h (by simp)
  · have hr : List.range 3 = [0, 1, 2] := rfl
    rw [hr] at h
    simp only [List.foldlM, Option.bind_eq_bind, Option.pure_def] at h
    cases h0 : updateQueueStep g 0 with
    | none => rw [h0] at h; exact absurd h (by simp)
    | some a =>
      rw [h0, Option.some_bind] at h
      cases h1 : updateQueueStep a 1 with
      | none => rw [h1] at h; exact absurd h (by simp)
      | some b =>
        rw [h1, Option.some_bind] at h
        cases h2 : updateQueueStep b 2 with
        | none => rw [h2] at h; exact absurd h (by simp)
        | some c =>
          rw [h2, Option.some_bind] at h
          simp only [Option.some.injEq] at h
          subst h
          obtain ⟨c0, p0, e0, l0⟩ := updateQueueStep_frame g a 0 h0
          obtain ⟨c1, p1, e1, l1⟩ := updateQueueStep_frame a b 1 h1
          obtain ⟨c2, p2, e2, l2⟩ := updateQueueStep_frame b c 2 h2
          subst e0 e1
          refine ⟨c2, p2, e2, ?_⟩
          simp only at l1 l2
          omega

theorem UpdateQueue_advances (n : Nat) (g g1 : Game) (h : UpdateQueue g = some g1) :
    advances n g g1 ∧ g1.stashed_tetromino_ = g.stashed_tetromino_ ∧
      g1.unstash_possible_ = g.unstash_possible_ := by
  obtain ⟨cells, pieces, e, hl⟩ := UpdateQueue_frame g g1 h
  subst e
  exact ⟨⟨Or.inl rfl, hl, id⟩, rfl, rfl⟩
theorem piece_settle_frame (g : Game) (outside : Int → Bool) (fuel : Nat) (t : Tetromino)
    (score_ : Option Int) (g1 : Game) (t1 : Tetromino) (s1 : Option Int)
    (h : Tetromino.SettleTetromino g outside fuel t score_ = some (g1, t1, s1)) :
    ∃ board, g1 = { g with board_ := board } := by
  unfold Tetromino.SettleTetromino at h
  split at h
  · exact absurd h (by simp)
  · simp only [Option.some.injEq, Prod.mk.injEq] at h
    exact ⟨_, h.1.symm⟩

theorem clear_descend_frame (g : Game) :
    ∃ b s l d, DescendUnfilledLines (ClearFilledLines g) =
      { g with board_ := b, score_ := s, lines_ := l, descend_speed_ := d } := by
  obtain ⟨b, s, l, d, e⟩ := ClearFilledLines_frame g
  rw [e]
  unfold DescendUnfilledLines
  exact ⟨_, _, _, _, rfl⟩

theorem settle_sequence_advances (n : Nat) (outside : Int → Bool) (shuffled : Nat → List Nat)
    (fuel : Nat) (g : Game) (with_score : Bool) (g1 : Game)
    (hq : ∀ q : List TetrominoType,
      n ≤ (if q.length < 10 then GenerateTetrominoes shuffled q else q).length)
    (h : Game.SettleTetromino outside shuffled fuel g with_score = some g1) :
    advances n g g1 ∧ n ≤ g1.tetromino_queue_.length ∧
      g1.stashed_tetromino_ = g.stashed_tetromino_ ∧
      g1.unstash_possible_ = g.stashed_tetromino_.isSome := by
  unfold Game.SettleTetromino at h
  split at h
  · exact absurd h (by simp)
  · rename_i ga ta sa hsettle
    obtain ⟨board, hga⟩ := piece_settle_frame g outside fuel _ _ ga ta sa hsettle
    subst hga
    simp only at h
    obtain ⟨b, s, l, d, e⟩ := clear_descend_frame
      { g with board_ := board, falling_tetromino_ := ta, score_ := sa.getD g.score_ }
    rw [e] at h
    simp only at h
    split at h
    · exact absurd h (by simp)
    · rename_i front _
      obtain ⟨g4, e4, a4, q4, st4, _⟩ := spawn_advances n outside shuffled
        { g with
          board_ := b, falling_tetromino_ := ta, score_ := s, lines_ := l,
          descend_speed_ := d } front false hq
      rw [e4] at h
      simp only at h
      obtain ⟨a5, st5, u5⟩ := UpdateQueue_advances n _ g1 h
      obtain ⟨q5, p5, o5⟩ := a5
      obtain ⟨_, p4, o4⟩ := a4
      have hq10 : n ≤ g1.tetromino_queue_.length := by
        rcases q5 with q5 | q5
        · rw [q5]; exact q4 rfl
        · exact q5
      refine ⟨⟨Or.inr hq10, p5.trans p4, fun ho => o5 (o4 ho)⟩, hq10, st5.trans st4, ?_⟩
      rw [u5]
      show g4.stashed_tetromino_.isSome = _
      rw [st4]
theorem hold_advances (n : Nat) (outside : Int → Bool) (shuffled : Nat → List Nat) (g g1 : Game)
    (hq : ∀ q : List TetrominoType,
      n ≤ (if q.length < 10 then GenerateTetrominoes shuffled q else q).length)
    (h : TriggerStashTetromino outside shuffled g = some g1) : advances n g g1 := by
  unfold TriggerStashTetromino at h
  split at h
  · simp only at h
    split at h
    · exact absurd h (by simp)
    · rename_i g2 hunstash
      have h2 : advances n g g2 ∧ True := by
        split at hunstash
        · split at hunstash
          · exact absurd hunstash (by simp)
          · split at hunstash
            · exact absurd hunstash (by simp)
            · rename_i st _ _ cells piece _
              obtain ⟨g4, e4, a4, _⟩ := spawn_advances n outside shuffled
                { g with
                  stash_board_ := cells
                  stashed_tetromino_ := some piece
                  unstash_possible_ := false } st.type_ true hq
              rw [e4] at hunstash
              simp only [Option.some.injEq] at hunstash
              subst hunstash
              exact ⟨advances_trans n _ _ _ (advances_same n _ _ rfl rfl rfl) a4, trivial⟩
        · simp only [Option.some.injEq] at hunstash
          subst hunstash
          exact ⟨advances_same n _ _ rfl rfl rfl, trivial⟩
      split at h
      · split at h
        · exact absurd h (by simp)
        · rename_i cells piece _
          split at h
          · exact absurd h (by simp)
          · rename_i front _
            obtain ⟨g4, e4, a4, _⟩ := spawn_advances n outside shuffled
              { g2 with
                stash_board_ := cells
                stashed_tetromino_ := some piece
                unstash_possible_ := false } front false hq
            rw [e4] at h
            simp only at h
            exact advances_trans n _ _ _ h2.1
              (advances_trans n _ _ _ (advances_trans n _ _ _ (advances_same n _ _ rfl rfl rfl) a4)
                (UpdateQueue_advances n _ _ h).1)
      · simp only [Option.some.injEq] at h
        subst h
        exact h2.1
  · simp only [Option.some.injEq] at h
    subst h
    exact advances_refl n g
theorem tickGravity_advances (n : Nat) (outside : Int → Bool) (shuffled : Nat → List Nat) (fuel : Nat)
    (g g1 : Game) (calls : List TickCall)
    (hq : ∀ q : List TetrominoType,
      n ≤ (if q.length < 10 then GenerateTetrominoes shuffled q else q).length)
    (h : tickGravity outside shuffled fuel g = some (g1, calls)) : advances n g g1 := by
  unfold tickGravity at h
  split at h
  · simp only [Option.some.injEq, Prod.mk.injEq] at h
    rw [← h.1]
    exact advances_refl n g
  · rcases descend_cases g outside fuel g.falling_tetromino_ none with
      ⟨_, ed⟩ | ⟨_, t2, ed, _⟩
    · rw [ed] at h
      simp only [Bool.false_eq_true, if_false] at h
      split at h
      · exact absurd h (by simp)
      · rename_i g3 hs
        simp only [Option.some.injEq, Prod.mk.injEq] at h
        rw [← h.1]
        exact advances_trans n _ _ _ (advances_same n _ _ rfl rfl rfl)
          (settle_sequence_advances n outside shuffled fuel _ false g3 hq hs).1
    · rw [ed] at h
      simp only [if_true, Option.some.injEq, Prod.mk.injEq] at h
      rw [← h.1]
      exact advances_same n _ _ rfl rfl rfl

theorem tickMovement_advances (n : Nat) (outside : Int → Bool) (shuffled : Nat → List Nat) (fuel : Nat)
    (g g1 : Game) (calls : List TickCall)
    (hq : ∀ q : List TetrominoType,
      n ≤ (if q.length < 10 then GenerateTetrominoes shuffled q else q).length)
    (h : tickMovement outside shuffled fuel g = some (g1, calls)) : advances n g g1 := by
  obtain ⟨b1, t1, dx, e, _, _⟩ := move_branch g outside
  dsimp only at e
  unfold tickMovement at h
  dsimp only at h
  rw [e] at h
  dsimp only at h
  split at h
  · rcases descend_cases { g with board_ := b1, falling_tetromino_ := t1 } outside fuel t1
        (some g.score_) with ⟨_, ed⟩ | ⟨_, t2, ed, _⟩
    · rw [ed] at h
      simp only [Bool.false_eq_true, if_false] at h
      split at h
      · exact absurd h (by simp)
      · rename_i g4 hs
        simp only [Option.some.injEq, Prod.mk.injEq] at h
        rw [← h.1]
        exact advances_trans n _ _ _ (advances_same n _ _ rfl rfl rfl)
          (settle_sequence_advances n outside shuffled fuel _ false g4 hq hs).1
    · rw [ed] at h
      simp only [if_true, Option.some.injEq, Prod.mk.injEq] at h
      rw [← h.1]
      exact advances_same n _ _ rfl rfl rfl
  · simp only [Option.some.injEq, Prod.mk.injEq] at h
    rw [← h.1]
    exact advances_same n _ _ rfl rfl rfl

theorem tick_advances (n : Nat) (outside : Int → Bool) (shuffled : Nat → List Nat) (fuel : Nat)
    (g g1 : Game) (calls : List TickCall)
    (hq : ∀ q : List TetrominoType,
      n ≤ (if q.length < 10 then GenerateTetrominoes shuffled q else q).length)
    (h : tickWithCalls outside shuffled fuel g = some (g1, calls)) : advances n g g1 := by
  unfold tickWithCalls at h
  split at h
  · simp only [Option.some.injEq, Prod.mk.injEq] at h
    rw [← h.1]
    exact advances_refl n g
  · dsimp only at h
    split at h
    · exact absurd h (by simp)
    · split at h
      · exact absurd h (by simp)
      · rename_i ga callsa hgrav
        have ha : advances n g ga := by
          split at hgrav
          · exact advances_trans n g { g with ticks_ := g.ticks_ + 1 } ga
              (advances_same n _ _ rfl rfl rfl)
              (tickGravity_advances n outside shuffled fuel _ ga callsa hq hgrav)
          · simp only [Option.some.injEq, Prod.mk.injEq] at hgrav
            rw [← hgrav.1]
            exact advances_same n _ _ rfl rfl rfl
        split at h
        · split at h
          · exact absurd h (by simp)
          · rename_i gb callsb hmove
            simp only [Option.some.injEq, Prod.mk.injEq] at h
            rw [← h.1]
            have hb : advances n ga gb := by
              split at hmove
              · exact tickMovement_advances n outside shuffled fuel _ gb callsb hq hmove
              · simp only [Option.some.injEq, Prod.mk.injEq] at hmove
                rw [← hmove.1]
                exact advances_refl n ga
            exact advances_trans n _ _ _ ha
              (advances_trans n _ _ _ hb (advances_same n _ _ rfl rfl rfl))
        · simp only [Option.some.injEq, Prod.mk.injEq] at h
          rw [← h.1]
          exact ha

theorem Tick_advances (n : Nat) (outside : Int → Bool) (shuffled : Nat → List Nat) (fuel : Nat)
    (g g1 : Game) (hq : ∀ q : List TetrominoType,
      n ≤ (if q.length < 10 then GenerateTetrominoes shuffled q else q).length)
    (h : Tick outside shuffled fuel g = some g1) : advances n g g1 := by
  unfold Tick at h
  cases hr : tickWithCalls outside shuffled fuel g with
  | none => rw [hr] at h; exact absurd h (by simp)
  | some r =>
    rw [hr] at h
    simp only [Option.map_some', Option.some.injEq] at h
    rw [← h]
    exact tick_advances n outside shuffled fuel g r.1 r.2 hq hr
theorem rotate_frame (g : Game) (outside : Int → Bool) (t : Tetromino) (degrees : Int)
    (g1 : Game) (t1 : Tetromino)
    (h : RotateTetromino g outside t degrees = some (g1, t1)) : g1 = g := by
  unfold RotateTetromino at h
  split at h
  · simp only [Option.some.injEq, Prod.mk.injEq] at h
    exact h.1.symm
  · simp only at h
    split at h
    · exact absurd h (by simp)
    · split at h
      · simp only [Option.some.injEq, Prod.mk.injEq] at h
        exact h.1.symm
      · simp only [Option.some.injEq, Prod.mk.injEq] at h
        exact h.1.symm

theorem handleKeyUp_advances (n : Nat) (g : Game) (key : Key) :
    advances n g (handleKeyUp g key) := by
  unfold handleKeyUp
  dsimp only
  split <;> split <;> first
    | exact advances_same n _ _ rfl rfl rfl
    | (split <;> exact advances_same n _ _ rfl rfl rfl)

theorem handleKeyDown_advances (n : Nat) (outside : Int → Bool) (shuffled : Nat → List Nat)
    (fuel : Nat) (g g1 : Game) (key : Key)
    (hq : ∀ q : List TetrominoType,
      n ≤ (if q.length < 10 then GenerateTetrominoes shuffled q else q).length)
    (h : handleKeyDown outside shuffled fuel g key = some g1) : advances n g g1 := by
  unfold handleKeyDown at h
  dsimp only at h
  split at h
  · exact absurd h (by simp)
  · rename_i ga hrot
    have ha : advances n g ga := by
      split at hrot
      · cases hr : RotateTetromino g outside g.falling_tetromino_ 90 with
        | none => rw [hr] at hrot; exact absurd hrot (by simp)
        | some r =>
          rw [hr] at hrot
          simp only [Option.map_some', Option.some.injEq] at hrot
          have hg := rotate_frame g outside _ 90 r.1 r.2 hr
          rw [← hrot, hg]
          exact advances_same n _ _ rfl rfl rfl
      · simp only [Option.some.injEq] at hrot
        rw [← hrot]
        exact advances_refl n g
    have hb : ∀ x : Game, advances n ga x → advances n g x :=
      fun x hx => advances_trans n _ _ _ ha hx
    have h2 : advances n ga
        (if key = Key.left then { ga with moving_left_ := true }
          else if key = Key.right then { ga with moving_right_ := true } else ga) := by
      split
      · exact advances_same n _ _ rfl rfl rfl
      · split
        · exact advances_same n _ _ rfl rfl rfl
        · exact advances_refl n ga
    have h3 : advances n ga
        (if key = Key.down then
          { (if key = Key.left then { ga with moving_left_ := true }
              else if key = Key.right then { ga with moving_right_ := true } else ga) with
            moving_down_ := true }
          else (if key = Key.left then { ga with moving_left_ := true }
            else if key = Key.right then { ga with moving_right_ := true } else ga)) := by
      split
      · exact advances_trans n _ _ _ h2 (advances_same n _ _ rfl rfl rfl)
      · exact h2
    split at h
    · exact hb _ (advances_trans n _ _ _ h3
        (settle_sequence_advances n outside shuffled fuel _ true g1 hq h).1)
    · split at h
      · exact hb _ (advances_trans n _ _ _ h3 (hold_advances n outside shuffled _ g1 hq h))
      · simp only [Option.some.injEq] at h
        rw [← h]
        exact hb _ h3
theorem Reset_frame (shuffled : Nat → List Nat) (g g1 : Game) (h : Reset shuffled g = some g1) :
    g1.tetromino_queue_ = GenerateTetrominoes shuffled [] ∧
    g1.queued_tetrominoes_.length = g.queued_tetrominoes_.length ∧
    g1.game_over_ = false ∧ g1.stashed_tetromino_ = none ∧
    g1.unstash_possible_ = g.unstash_possible_ ∧ g1.moving_ticks_ = g.moving_ticks_ := by
  unfold Reset at h
  dsimp only at h
  split at h
  · exact absurd h (by simp)
  · rename_i g2 hu
    obtain ⟨cells, pieces, e, hl⟩ := UpdateQueue_frame _ g2 hu
    simp only [Option.some.injEq] at h
    subst h e
    exact ⟨rfl, hl, rfl, rfl, rfl, rfl⟩

theorem generate_length (shuffled : Nat → List Nat)
    (hlen : ∀ i, i < 100 → (shuffled i).length = 7) (q : List TetrominoType) :
    (GenerateTetrominoes shuffled q).length = q.length + 700 := by
  obtain ⟨app, h1, h2, _⟩ := generate_loop shuffled q 100 hlen
  unfold GenerateTetrominoes
  rw [h1, List.length_append, h2]

theorem HandleEvent_cases (n : Nat) (outside : Int → Bool) (shuffled : Nat → List Nat)
    (fuel : Nat) (g g1 : Game) (e : Event)
    (hq : ∀ q : List TetrominoType,
      n ≤ (if q.length < 10 then GenerateTetrominoes shuffled q else q).length)
    (h : HandleEvent outside shuffled fuel g e = some g1) :
    (g.game_over_ = true ∧ e = Event.keyDown Key.r ∧ Reset shuffled g = some g1) ∨
    advances n g g1 := by
  unfold HandleEvent at h
  dsimp only at h
  split at h
  · exact absurd h (by simp)
  · rename_i ga hreset
    split at hreset
    · rename_i hcond
      left
      obtain ⟨hover, he⟩ := hcond
      subst he
      have hf := (Reset_frame shuffled g ga hreset).2.2.1
      simp only [hf, Bool.false_eq_true, if_false] at h
      unfold handleKeyDown at h
      simp at h
      exact ⟨hover, rfl, by rw [hreset, h]⟩
    · right
      simp only [Option.some.injEq] at hreset
      subst hreset
      split at h
      · split at h
        · simp only [Option.some.injEq] at h
          rw [← h]
          exact advances_refl n g
        · exact handleKeyDown_advances n outside shuffled fuel g g1 _ hq h
      · split at h
        · simp only [Option.some.injEq] at h
          rw [← h]
          exact advances_refl n g
        · simp only [Option.some.injEq] at h
          rw [← h]
          exact handleKeyUp_advances n g _
      · simp only [Option.some.injEq] at h
        rw [← h]
        exact advances_refl n g

theorem HandleEvent_game_over (outside : Int → Bool) (shuffled : Nat → List Nat)
    (fuel : Nat) (g : Game) (e : Event) (hover : g.game_over_ = true)
    (he : e ≠ Event.keyDown Key.r) :
    HandleEvent outside shuffled fuel g e = some g := by
  unfold HandleEvent
  dsimp only
  rw [if_neg (fun h => he h.2)]
  dsimp only
  cases e with
  | keyDown key => simp only [hover, if_true]
  | keyUp key => simp only [hover, if_true]
  | other => rfl

theorem Tick_game_over (outside : Int → Bool) (shuffled : Nat → List Nat)
    (fuel : Nat) (g : Game) (hover : g.game_over_ = true) :
    tickWithCalls outside shuffled fuel g = some (g, []) ∧
    Tick outside shuffled fuel g = some g := by
  have h : tickWithCalls outside shuffled fuel g = some (g, []) := by
    unfold tickWithCalls
    rw [if_pos hover]
  refine ⟨h, ?_⟩
  unfold Tick
  rw [h]
  rfl
theorem refill_zero (shuffled : Nat → List Nat) (q : List TetrominoType) :
    0 ≤ (if q.length < 10 then GenerateTetrominoes shuffled q else q).length :=
  Nat.zero_le _

theorem run_cons (outside : Int → Bool) (shuffled : Nat → List Nat) (fuel : Nat)
    (s : Step) (steps : List Step) (g : Game) :
    run outside shuffled fuel (s :: steps) g =
      (step outside shuffled fuel g s).bind (run outside shuffled fuel steps) := by
  unfold run
  rw [List.foldlM_cons]
  rfl

theorem run_game_over (outside : Int → Bool) (shuffled : Nat → List Nat) (fuel : Nat)
    (g : Game) (hover : g.game_over_ = true) (steps : List Step)
    (hr : Step.event (Event.keyDown Key.r) ∉ steps) :
    run outside shuffled fuel steps g = some g := by
  induction steps with
  | nil => rfl
  | cons s steps ih =>
    rw [run_cons]
    have hs : step outside shuffled fuel g s = some g := by
      cases s with
      | event e =>
        exact HandleEvent_game_over outside shuffled fuel g e hover
          (fun he => hr (he ▸ List.mem_cons_self _ _))
      | tick => exact (Tick_game_over outside shuffled fuel g hover).2
    rw [hs, Option.some_bind]
    exact ih (fun h => hr (List.mem_cons_of_mem _ h))

/-- C21: a `Tick` started with the game-over flag set returns the session as
it is, every field of it, and makes no call; so does the handling of every
event other than the key `r`, and so does every run of the main loop in which
that key is not pressed.  No operation other than `Reset` clears a set flag,
wherever it is called: not the spawn, the preview update, the settle-sequence,
the hold, a tick or its two branches, the handling of any other event, the
line clearing, the row collapse, or a move, descend, rotation or settle of the
piece. -/
theorem game_over_is_absorbing_until_reset (outside : Int → Bool)
    (shuffled : Nat → List Nat) (fuel : Nat) (g : Game) (hover : g.game_over_ = true) :
    tickWithCalls outside shuffled fuel g = some (g, []) ∧
    Tick outside shuffled fuel g = some g ∧
    (∀ e, e ≠ Event.keyDown Key.r → HandleEvent outside shuffled fuel g e = some g) ∧
    (∀ steps, Step.event (Event.keyDown Key.r) ∉ steps →
      run outside shuffled fuel steps g = some g) ∧
    (∀ (x : Game) type unstashing, ∃ x1,
      SpawnTetromino outside shuffled x type unstashing = some x1 ∧ keepsGameOver x x1) ∧
    (∀ x x1 : Game, UpdateQueue x = some x1 → keepsGameOver x x1) ∧
    (∀ (x x1 : Game) (f : Nat) (with_score : Bool),
      Game.SettleTetromino outside shuffled f x with_score = some x1 → keepsGameOver x x1) ∧
    (∀ x x1 : Game, TriggerStashTetromino outside shuffled x = some x1 →
      keepsGameOver x x1) ∧
    (∀ (x x1 : Game) (f : Nat) calls,
      tickGravity outside shuffled f x = some (x1, calls) → keepsGameOver x x1) ∧
    (∀ (x x1 : Game) (f : Nat) calls,
      tickMovement outside shuffled f x = some (x1, calls) → keepsGameOver x x1) ∧
    (∀ (x x1 : Game) (f : Nat), Tick outside shuffled f x = some x1 → keepsGameOver x x1) ∧
    (∀ (x x1 : Game) (f : Nat) (e : Event), e ≠ Event.keyDown Key.r →
      HandleEvent outside shuffled f x e = some x1 → keepsGameOver x x1) ∧
    (∀ x : Game, keepsGameOver x (ClearFilledLines x) ∧
      keepsGameOver x (DescendUnfilledLines x)) ∧
    (∀ (x : Game) (t : Tetromino) (right : Bool),
      keepsGameOver x (MoveTetromino x outside t right).1) ∧
    (∀ (x x1 : Game) (f : Nat) (t t1 : Tetromino) (s s1 : Option Int) (moved : Bool),
      DescendTetromino x outside f t s = some (moved, x1, t1, s1) → keepsGameOver x x1) ∧
    (∀ (x x1 : Game) (t t1 : Tetromino) (degrees : Int),
      RotateTetromino x outside t degrees = some (x1, t1) → keepsGameOver x x1) ∧
    (∀ (x x1 : Game) (f : Nat) (t t1 : Tetromino) (s s1 : Option Int),
      Tetromino.SettleTetromino x outside f t s = some (x1, t1, s1) →
      keepsGameOver x x1) := by
  have hz := refill_zero shuffled
  refine ⟨(Tick_game_over outside shuffled fuel g hover).1,
    (Tick_game_over outside shuffled fuel g hover).2,
    fun e he => HandleEvent_game_over outside shuffled fuel g e hover he,
    fun steps hr => run_game_over outside shuffled fuel g hover steps hr,
    ?_, ?_, ?_, ?_, ?_, ?_, ?_, ?_, ?_, ?_, ?_, ?_, ?_⟩
  · intro x type unstashing
    obtain ⟨x1, e, a, _⟩ := spawn_advances 0 outside shuffled x type unstashing hz
    exact ⟨x1, e, a.2.2⟩
  · intro x x1 h
    exact (UpdateQueue_advances 0 x x1 h).1.2.2
  · intro x x1 f ws h
    exact (settle_sequence_advances 0 outside shuffled f x ws x1 hz h).1.2.2
  · intro x x1 h
    exact (hold_advances 0 outside shuffled x x1 hz h).2.2
  · intro x x1 f calls h
    exact (tickGravity_advances 0 outside shuffled f x x1 calls hz h).2.2
  · intro x x1 f calls h
    exact (tickMovement_advances 0 outside shuffled f x x1 calls hz h).2.2
  · intro x x1 f h
    exact (Tick_advances 0 outside shuffled f x x1 hz h).2.2
  · intro x x1 f e he h
    rcases HandleEvent_cases 0 outside shuffled f x x1 e hz h with ⟨_, h2, _⟩ | h2
    · exact absurd h2 he
    · exact h2.2.2
  · intro x
    obtain ⟨b, s, l, d, e⟩ := ClearFilledLines_frame x
    constructor
    · rw [e]
      exact id
    · exact id
  · intro x t right
    obtain ⟨b, t1, dx, e, _⟩ := move_cases x outside t right
    rw [e]
    exact id
  · intro x x1 f t t1 s s1 moved h
    rcases descend_cases x outside f t s with ⟨_, ed⟩ | ⟨_, t2, ed, _⟩
    · rw [ed] at h
      simp only [Option.some.injEq, Prod.mk.injEq] at h
      rw [← h.2.1]
      exact id
    · rw [ed] at h
      simp only [Option.some.injEq, Prod.mk.injEq] at h
      rw [← h.2.1]
      exact id
  · intro x x1 t t1 degrees h
    rw [rotate_frame x outside t degrees x1 t1 h]
    exact id
  · intro x x1 f t t1 s s1 h
    obtain ⟨b, e⟩ := piece_settle_frame x outside f t s x1 t1 s1 h
    rw [e]
    exact id

/-- C21, witness: the game-over session `sessionSixOver`; a tick, a press of
the hold key and a run of both leave it as it is. -/
theorem game_over_is_absorbing_until_reset_witness :
    sessionSixOver.game_over_ = true ∧
    Tick (fun _ => false) identityShuffle 5 sessionSixOver = some sessionSixOver ∧
    HandleEvent (fun _ => false) identityShuffle 5 sessionSixOver (Event.keyDown Key.c) =
      some sessionSixOver ∧
    run (fun _ => false) identityShuffle 5
      [Step.tick, Step.event (Event.keyDown Key.space), Step.tick] sessionSixOver =
      some sessionSixOver :=
  ⟨rfl,
    (game_over_is_absorbing_until_reset (fun _ => false) identityShuffle 5 sessionSixOver
      rfl).2.1,
    (game_over_is_absorbing_until_reset (fun _ => false) identityShuffle 5 sessionSixOver
      rfl).2.2.1 _ (by decide),
    (game_over_is_absorbing_until_reset (fun _ => false) identityShuffle 5 sessionSixOver
      rfl).2.2.2.1 _ (by decide)⟩
theorem newGame_ready (outside : Int → Bool) (shuffled : Nat → List Nat) (w h : Nat)
    (hlen : ∀ i, i < 100 → (shuffled i).length = 7) :
    ∃ g0, newGame outside shuffled w h = some g0 ∧ queueReady g0 ∧
      g0.tetromino_queue_.length = 699 := by
  have h700 := generate_length shuffled hlen []
  unfold newGame
  dsimp only
  cases hq : GenerateTetrominoes shuffled [] with
  | nil =>
    rw [hq] at h700
    simp at h700
  | cons front rest =>
    have hrest : rest.length = 699 := by
      rw [hq] at h700
      simp only [List.length_cons, List.length_nil] at h700
      omega
    have hq' : (fresh w h (InitBoard (w * h)) noPiece).tetromino_queue_ = [] := rfl
    simp only [List.head?_cons]
    obtain ⟨g2, e2, _, _, _, _⟩ := spawn_advances 10 outside shuffled
      { fresh w h (InitBoard (w * h)) noPiece with tetromino_queue_ := front :: rest }
      front false (refill_ten shuffled hlen)
    have e2' := e2
    rw [SpawnTetromino_total] at e2'
    rw [e2]
    dsimp only
    have hg2q : g2.tetromino_queue_ = rest := by
      rw [← Option.some.inj e2']
      simp only [Bool.false_eq_true, if_false, List.tail_cons]
      rw [if_neg (by omega)]
    have hg2p : g2.queued_tetrominoes_ = [] := by
      rw [← Option.some.inj e2']
      rfl
    obtain ⟨cells, pieces, e3, l3⟩ := UpdateQueue_some
      (InitQueue { g2 with stash_board_ := InitBoard g2.falling_tetromino_.bounding_box_.length })
      (by show 3 ≤ g2.tetromino_queue_.length; rw [hg2q]; omega)
      (Nat.le_refl 3)
    rw [e3]
    refine ⟨_, rfl, ⟨?_, ?_⟩, ?_⟩
    · show 10 ≤ g2.tetromino_queue_.length
      rw [hg2q]; omega
    · show 3 ≤ pieces.length
      rw [l3]
      exact Nat.le_refl 3
    · show g2.tetromino_queue_.length = 699
      rw [hg2q, hrest]

theorem step_ready (outside : Int → Bool) (shuffled : Nat → List Nat) (fuel : Nat)
    (hlen : ∀ i, i < 100 → (shuffled i).length = 7) (g g1 : Game) (s : Step)
    (hr : queueReady g) (h : step outside shuffled fuel g s = some g1) : queueReady g1 := by
  cases s with
  | event e =>
    rcases HandleEvent_cases 10 outside shuffled fuel g g1 e (refill_ten shuffled hlen) h with
      ⟨_, _, hreset⟩ | ha
    · obtain ⟨hq, hp, _⟩ := Reset_frame shuffled g g1 hreset
      refine ⟨?_, by rw [hp]; exact hr.2⟩
      rw [hq, generate_length shuffled hlen]
      simp
    · exact queueReady_of_advances g g1 ha hr
  | tick =>
    exact queueReady_of_advances g g1
      (Tick_advances 10 outside shuffled fuel g g1 (refill_ten shuffled hlen) h) hr

theorem run_ready (outside : Int → Bool) (shuffled : Nat → List Nat) (fuel : Nat)
    (hlen : ∀ i, i < 100 → (shuffled i).length = 7) (steps : List Step) :
    ∀ g g1 : Game, queueReady g → run outside shuffled fuel steps g = some g1 →
      queueReady g1 := by
  induction steps with
  | nil =>
    intro g g1 hr h
    have : g = g1 := Option.some.inj h
    rw [← this]
    exact hr
  | cons s steps ih =>
    intro g g1 hr h
    rw [run_cons] at h
    cases hs : step outside shuffled fuel g s with
    | none => rw [hs] at h; exact absurd h (by simp)
    | some g2 =>
      rw [hs, Option.some_bind] at h
      exact ih g2 g1 (step_ready outside shuffled fuel hlen g g2 s hr hs) h
/-- C22: whatever the shuffles produce, as long as each produces a permutation
of the seven indices: every `SpawnTetromino` that is not an unstash returns
with at least 10 queued entries; `Reset`, when it returns, leaves exactly 700,
and it returns when there are three preview pieces; the constructor returns
with 699.  Hence in every session that a run of the main loop reaches from a
fresh session, the queue has at least 10 entries: it is not empty, its front
exists, and so do the three entries that `UpdateQueue` reads, as do the three
preview pieces it writes. -/
theorem queue_is_refilled_before_it_runs_out (outside : Int → Bool)
    (shuffled : Nat → List Nat)
    (hperm : ∀ i, i < 100 → (shuffled i).Perm [0, 1, 2, 3, 4, 5, 6]) :
    (∀ (g : Game) (type : TetrominoType), ∃ g1,
      SpawnTetromino outside shuffled g type false = some g1 ∧
      10 ≤ g1.tetromino_queue_.length) ∧
    (∀ g g1 : Game, Reset shuffled g = some g1 → g1.tetromino_queue_.length = 700) ∧
    (∀ g : Game, 3 ≤ g.queued_tetrominoes_.length →
      ∃ g1, Reset shuffled g = some g1 ∧ g1.tetromino_queue_.length = 700) ∧
    (∀ w h : Nat, ∃ g0, newGame outside shuffled w h = some g0 ∧
      g0.tetromino_queue_.length = 699) ∧
    (∀ (w h : Nat) (g : Game), Reachable outside shuffled w h g →
      10 ≤ g.tetromino_queue_.length ∧ g.tetromino_queue_ ≠ [] ∧
      g.tetromino_queue_.head?.isSome = true ∧
      (∀ ti, ti < 3 → (g.tetromino_queue_[ti]?).isSome = true) ∧
      3 ≤ g.queued_tetrominoes_.length) := by
  have hlen : ∀ i, i < 100 → (shuffled i).length = 7 := fun i hi => (hperm i hi).length_eq
  have hreset : ∀ g g1 : Game, Reset shuffled g = some g1 →
      g1.tetromino_queue_.length = 700 := by
    intro g g1 h
    rw [(Reset_frame shuffled g g1 h).1, generate_length shuffled hlen]
    rfl
  refine ⟨?_, hreset, ?_, ?_, ?_⟩
  · intro g type
    obtain ⟨g1, e, _, hq, _⟩ := spawn_advances 10 outside shuffled g type false
      (refill_ten shuffled hlen)
    exact ⟨g1, e, hq rfl⟩
  · intro g hp
    obtain ⟨cells, pieces, e, _⟩ := Reset_eq shuffled g hp hlen
    exact ⟨_, e, hreset g _ e⟩
  · intro w h
    obtain ⟨g0, e, _, hq⟩ := newGame_ready outside shuffled w h hlen
    exact ⟨g0, e, hq⟩
  · intro w h g hreach
    obtain ⟨fuel, steps, g0, hstart, hrun⟩ := hreach
    obtain ⟨g0', e, hr0, _⟩ := newGame_ready outside shuffled w h hlen
    rw [hstart] at e
    have e' : g0 = g0' := Option.some.inj e
    subst e'
    obtain ⟨hq, hp⟩ := run_ready outside shuffled fuel hlen steps g0 g hr0 hrun
    have hne : g.tetromino_queue_ ≠ [] := by
      intro h0
      rw [h0] at hq
      simp at hq
    refine ⟨hq, hne, ?_, ?_, hp⟩
    · cases hc : g.tetromino_queue_ with
      | nil => exact absurd hc hne
      | cons a l => rfl
    · intro ti hti
      rw [List.getElem?_eq_getElem (by omega)]
      rfl

/-- C22, witness: the shuffles that leave the indices in order, and the fresh
session on a board of ten columns and twenty rows. -/
theorem queue_is_refilled_before_it_runs_out_witness :
    (∀ i, i < 100 → (identityShuffle i).Perm [0, 1, 2, 3, 4, 5, 6]) ∧
    (∃ g0, newGame (fun _ => false) identityShuffle 10 20 = some g0 ∧
      g0.tetromino_queue_.length = 699) ∧
    ∃ g1, SpawnTetromino (fun _ => false) identityShuffle sessionSix
        TetrominoType.I_BLOCK false = some g1 ∧
      10 ≤ g1.tetromino_queue_.length :=
  ⟨fun _ _ => List.Perm.refl _,
    (queue_is_refilled_before_it_runs_out (fun _ => false) identityShuffle
      (fun _ _ => List.Perm.refl _)).2.2.2.1 10 20,
    (queue_is_refilled_before_it_runs_out (fun _ => false) identityShuffle
      (fun _ _ => List.Perm.refl _)).1 sessionSix TetrominoType.I_BLOCK⟩
/-- C25, failing input: the fresh session on the board of ten columns and
twenty rows, with the shuffles that leave the indices in order; the player
holds once (key c), hard-drops twelve pieces (key space), which stacks the
board to the top and sets the game-over flag, and resets (key r).  The session
this reaches is running again, the hold is marked as allowed and nothing is
stashed: `Reset` emptied the stash and left `unstash_possible_` as the settles
had set it.  The next hold, called directly or through the key c, reads the
kind of the absent stashed piece and returns nothing. -/
theorem hold_allowed_with_empty_stash_is_reachable :
    ∃ g, Reachable (fun _ => false) identityShuffle 10 20 g ∧
      g.game_over_ = false ∧ g.unstash_possible_ = true ∧
      g.stashed_tetromino_ = none ∧
      TriggerStashTetromino (fun _ => false) identityShuffle g = none ∧
      HandleEvent (fun _ => false) identityShuffle 20 g (Event.keyDown Key.c) = none := by
  have h : ((newGame (fun _ => false) identityShuffle 10 20).bind
      (run (fun _ => false) identityShuffle 20
        ([Step.event (Event.keyDown Key.c)] ++
          List.replicate 12 (Step.event (Event.keyDown Key.space)) ++
          [Step.event (Event.keyDown Key.r)]))).map
      (fun s => (s.game_over_, s.unstash_possible_, s.stashed_tetromino_.isSome)) =
      some (false, true, false) := by decide
  cases hn : newGame (fun _ => false) identityShuffle 10 20 with
  | none =>
    rw [hn] at h
    exact absurd h (by simp)
  | some g0 =>
    rw [hn, Option.some_bind] at h
    cases hr : run (fun _ => false) identityShuffle 20
        ([Step.event (Event.keyDown Key.c)] ++
          List.replicate 12 (Step.event (Event.keyDown Key.space)) ++
          [Step.event (Event.keyDown Key.r)]) g0 with
    | none =>
      rw [hr] at h
      exact absurd h (by simp)
    | some g =>
      rw [hr, Option.map_some'] at h
      have h1 := Option.some.inj h
      have hover : g.game_over_ = false := congrArg Prod.fst h1
      have hu : g.unstash_possible_ = true := congrArg (fun p => p.2.1) h1
      have hs' : g.stashed_tetromino_.isSome = false := congrArg (fun p => p.2.2) h1
      have hs : g.stashed_tetromino_ = none := by
        cases hc : g.stashed_tetromino_ with
        | none => rfl
        | some p => rw [hc] at hs'; exact absurd hs' (by simp)
      have ht : TriggerStashTetromino (fun _ => false) identityShuffle g = none := by
        unfold TriggerStashTetromino
        simp [hu, hs]
      refine ⟨g, ⟨20, _, g0, hn, hr⟩, hover, hu, hs, ht, ?_⟩
      unfold HandleEvent
      simp [hover, handleKeyDown, ht]

end Tetris
